import Mathlib

/-!
# Marshalling between the graph description and the flat arena

Shallow embedding of `EngineGpu/DataConverter.cpp` and of the description
constructors of `EngineInterface/Descriptions.cpp`.

Conventions of the embedding

* Every fixed-capacity array of the arena (`clusters`, `cells`, `particles`,
  `tokens`, `stringBytes`) is a total map `Nat → T` together with its live
  count; a write is a `Function.update`.  The counts are independent fields,
  exactly as the `int*` cursors of `DataAccessTO`.
* `float`/`double` payloads are exact rationals: the converter only copies
  them (and averages positions once).  The narrowing of a `double` to a
  `float` field of the arena and the rounding of `float` arithmetic are
  outside the model, which keeps the number it is given; it agrees with the
  code on a stored number exactly when that number is a single-precision
  value.  A statement that compares a number read back with the number that
  was written is stated for single-precision values (`isFloat32`) and stated
  cluster positions only.
* `uint64_t` ids are natural numbers, no arithmetic is done on them.
* An exception leaves the arena as it was at the `throw`; every fallible
  operation therefore returns the state reached together with an optional
  failure (`Step`).
* `std::unordered_set` is a list used through membership only,
  `std::unordered_map` an association list whose newest binding is first.
-/

namespace Alien

/-! ## Basic payload types -/

/-- Vector of the description layer. -/
structure QVector2D where
  x : ℚ
  y : ℚ
deriving DecidableEq

/-- Vector of the arena layer. -/
structure float2 where
  x : ℚ
  y : ℚ
deriving DecidableEq

/-- Text of the description layer, a sequence of UTF-16 code units. -/
abbrev QString := List Nat

/-- Byte buffer of the description layer. -/
abbrev QByteArray := List Nat

/-! ## Description layer (GraphModel) -/

structure TokenDescription where
  energy : Option ℚ
  data : Option QByteArray
deriving DecidableEq

structure CellFeatureDescription where
  type : Nat
  volatileData : QByteArray
  constData : QByteArray
deriving DecidableEq

structure CellMetadata where
  computerSourcecode : QString
  name : QString
  description : QString
  color : Nat
deriving DecidableEq

structure ClusterMetadata where
  name : QString
deriving DecidableEq

structure ParticleMetadata where
  color : Nat
deriving DecidableEq

structure CellDescription where
  id : Nat
  pos : Option QVector2D
  energy : Option ℚ
  maxConnections : Option Int
  connectingCells : Option (List Nat)
  tokenBlocked : Option Bool
  tokenBranchNumber : Option Int
  metadata : Option CellMetadata
  cellFeature : Option CellFeatureDescription
  tokens : Option (List TokenDescription)
  tokenUsages : Option Int
deriving DecidableEq

structure ClusterDescription where
  id : Nat
  pos : Option QVector2D
  vel : Option QVector2D
  angle : Option ℚ
  angularVel : Option ℚ
  metadata : Option ClusterMetadata
  cells : Option (List CellDescription)
deriving DecidableEq

structure ParticleDescription where
  id : Nat
  pos : Option QVector2D
  vel : Option QVector2D
  energy : Option ℚ
  metadata : Option ParticleMetadata
deriving DecidableEq

structure DataDescription where
  clusters : Option (List ClusterDescription)
  particles : Option (List ParticleDescription)
deriving DecidableEq

/-! ## Change descriptions (ChangeSet) -/

/-- State carried by a `ChangeTracker`. -/
inductive TrackerState where
  | Added
  | Modified
  | Deleted
  | Unchanged
deriving DecidableEq

structure ChangeTracker (α : Type) where
  state : TrackerState
  value : α

def ChangeTracker.isAdded {α : Type} (t : ChangeTracker α) : Bool :=
  t.state = TrackerState.Added

def ChangeTracker.isModified {α : Type} (t : ChangeTracker α) : Bool :=
  t.state = TrackerState.Modified

def ChangeTracker.isDeleted {α : Type} (t : ChangeTracker α) : Bool :=
  t.state = TrackerState.Deleted

def ChangeTracker.getValue {α : Type} (t : ChangeTracker α) : α :=
  t.value

/-- Per-field deltas of a cell; a `ValueTracker` is an optional value. -/
structure CellChangeDescription where
  id : Nat
  pos : Option QVector2D
  energy : Option ℚ
  maxConnections : Option Int
  connectingCells : Option (List Nat)
  tokenBlocked : Option Bool
  tokenBranchNumber : Option Int
  metadata : Option CellMetadata
  cellFeatures : Option CellFeatureDescription
  tokens : Option (List TokenDescription)
  tokenUsages : Option Int

structure ClusterChangeDescription where
  id : Nat
  pos : Option QVector2D
  vel : Option QVector2D
  angle : Option ℚ
  angularVel : Option ℚ
  metadata : Option ClusterMetadata
  cells : List (ChangeTracker CellChangeDescription)

structure ParticleChangeDescription where
  id : Nat
  pos : Option QVector2D
  vel : Option QVector2D
  energy : Option ℚ
  metadata : Option ParticleMetadata

structure DataChangeDescription where
  clusters : List (ChangeTracker ClusterChangeDescription)
  particles : List (ChangeTracker ParticleChangeDescription)

/-! ## Arena layer (DataAccessTO) -/

structure ClusterMetadataAccessTO where
  nameLen : Nat
  nameStringIndex : Nat
deriving DecidableEq

structure CellMetadataAccessTO where
  color : Nat
  nameLen : Nat
  nameStringIndex : Nat
  descriptionLen : Nat
  descriptionStringIndex : Nat
  sourceCodeLen : Nat
  sourceCodeStringIndex : Nat
deriving DecidableEq

structure ParticleMetadataAccessTO where
  color : Nat
deriving DecidableEq

structure ClusterAccessTO where
  id : Nat
  pos : float2
  vel : float2
  angle : ℚ
  angularVel : ℚ
  numCells : Nat
  cellStartIndex : Nat
  numTokens : Nat
  tokenStartIndex : Int
  metadata : ClusterMetadataAccessTO
deriving DecidableEq

structure CellAccessTO where
  id : Nat
  pos : float2
  energy : ℚ
  maxConnections : Int
  numConnections : Nat
  connectionIndices : List Nat
  branchNumber : Int
  tokenBlocked : Bool
  tokenUsages : Int
  cellFunctionType : Nat
  numStaticBytes : Nat
  staticData : List Nat
  numMutableBytes : Nat
  mutableData : List Nat
  metadata : CellMetadataAccessTO
deriving DecidableEq

structure TokenAccessTO where
  energy : ℚ
  memory : List Nat
  cellIndex : Nat
deriving DecidableEq

structure ParticleAccessTO where
  id : Nat
  pos : float2
  vel : float2
  energy : ℚ
  metadata : ParticleMetadataAccessTO
deriving DecidableEq

structure DataAccessTO where
  numClusters : Nat
  clusters : Nat → ClusterAccessTO
  numCells : Nat
  cells : Nat → CellAccessTO
  numParticles : Nat
  particles : Nat → ParticleAccessTO
  numTokens : Nat
  tokens : Nat → TokenAccessTO
  numStringBytes : Nat
  stringBytes : Nat → Nat

/-! ## Configuration -/

/-- Capacities of the four element arrays, which the converter reads, and the
size of the metadata byte pool (`metadataDynamicMemorySize` of
`EngineGpuData.cpp`), which it never reads. -/
structure CudaConstants where
  MAX_CLUSTERS : Nat
  MAX_CELLS : Nat
  MAX_PARTICLES : Nat
  MAX_TOKENS : Nat
  METADATA_DYNAMIC_MEMORY_SIZE : Nat
deriving DecidableEq

/-- The one simulation parameter the converter reads. -/
structure SimulationParameters where
  tokenMemorySize : Nat
deriving DecidableEq

/-- Compile-time constants whose header is not part of the sources: the two
per-cell buffer lengths and the type tag of a default-constructed feature. -/
structure ArrayLimits where
  MAX_CELL_STATIC_BYTES : Nat
  MAX_CELL_MUTABLE_BYTES : Nat
  defaultCellFunction : Nat
deriving DecidableEq

/-- The id source: `getId` hands out `ids cursor` and advances the cursor. -/
structure NumberGenerator where
  ids : Nat → Nat
  cursor : Nat

def NumberGenerator.getId (g : NumberGenerator) : Nat × NumberGenerator :=
  (g.ids g.cursor, { g with cursor := g.cursor + 1 })

/-! ## Failures -/

/-- What a conversion call can raise. -/
inductive Failure where
  | clusterArrayTooSmall
  | cellArrayTooSmall
  | particleArrayTooSmall
  | tokenArrayTooSmall
  | outOfRange
  | emptyOptional
deriving DecidableEq

/-- State reached by a call and the exception that ended it, if any. -/
structure Step (σ : Type) where
  state : σ
  failure : Option Failure

/-- Sequencing: nothing runs after a throw. -/
def Step.andThen {σ : Type} (r : Step σ) (f : σ → Step σ) : Step σ :=
  match r.failure with
  | none => f r.state
  | some _ => r

/-- A range-based `for` whose body may throw. -/
def forEach {σ α : Type} (xs : List α) (body : α → σ → Step σ) (s : σ) : Step σ :=
  xs.foldl (fun r x => r.andThen (body x)) ⟨s, none⟩

/-! ## The converter object -/

structure DataConverter where
  dataTO : DataAccessTO
  numberGen : NumberGenerator
  parameters : SimulationParameters
  cudaConstants : CudaConstants
  limits : ArrayLimits
  clusterIdsToDelete : List Nat
  particleIdsToDelete : List Nat
  clusterToModifyById : List (Nat × ClusterChangeDescription)
  cellToModifyById : List (Nat × CellChangeDescription)
  particleToModifyById : List (Nat × ParticleChangeDescription)

/-- The constructor: borrows the arena, all marks empty. -/
def DataConverter.create (dataTO : DataAccessTO) (numberGen : NumberGenerator)
    (parameters : SimulationParameters) (cudaConstants : CudaConstants)
    (limits : ArrayLimits) : DataConverter :=
  { dataTO := dataTO, numberGen := numberGen, parameters := parameters,
    cudaConstants := cudaConstants, limits := limits,
    clusterIdsToDelete := [], particleIdsToDelete := [],
    clusterToModifyById := [], cellToModifyById := [], particleToModifyById := [] }

/-! ## Small helpers of the translation unit -/

/-- Reading `data[i]`; a position the model holds no byte for reads as 0. -/
def byteAt (data : List Nat) (i : Nat) : Nat :=
  data.getD i 0

/-- Writing `target[i] = v` into a fixed array held as a list. -/
def arrayWrite (target : List Nat) (i v : Nat) : List Nat :=
  if i < target.length then target.set i v
  else target ++ List.replicate (i - target.length) 0 ++ [v]

def convertToQByteArray (data : List Nat) (size : Nat) : QByteArray :=
  (List.range size).map (fun i => byteAt data i)

def convertToArray (source : QByteArray) (target : List Nat) (size : Nat) : List Nat :=
  (List.range size).map (fun i => if i < source.length then byteAt source i else 0)
    ++ target.drop size

def convert (input : QVector2D) : float2 :=
  { x := input.x, y := input.y }

/-- The Latin-1 byte of a code unit: units above 0xFF have none and give 0. -/
def toLatin1 (c : Nat) : Nat :=
  if c ≤ 255 then c else 0

/-- Decoding `len` pool bytes from `offset` (`QString::fromLatin1`). -/
def fromLatin1 (stringBytes : Nat → Nat) (offset len : Nat) : QString :=
  (List.range len).map (fun i => stringBytes (offset + i))

def DataConverter.withDataTO (s : DataConverter) (d : DataAccessTO) : DataConverter :=
  { s with dataTO := d }

def convertStringAndReturnStringIndex (str : QString) (s : DataConverter) :
    Nat × DataConverter :=
  let result := s.dataTO.numStringBytes
  let len := str.length
  let bytes := (List.range len).foldl
    (fun sb i => Function.update sb (result + i) (toLatin1 (byteAt str i))) s.dataTO.stringBytes
  (result, s.withDataTO { s.dataTO with stringBytes := bytes, numStringBytes := result + len })

/-! ## applyChangeDescription -/

def applyChangeDescription_particle (particleChanges : ParticleChangeDescription)
    (particle : ParticleAccessTO) : ParticleAccessTO :=
  let particle := match particleChanges.pos with
    | some newPos => { particle with pos := convert newPos }
    | none => particle
  let particle := match particleChanges.vel with
    | some newVel => { particle with vel := convert newVel }
    | none => particle
  let particle := match particleChanges.energy with
    | some e => { particle with energy := e }
    | none => particle
  match particleChanges.metadata with
  | some m => { particle with metadata := { color := m.color } }
  | none => particle

def applyChangeDescription_cluster (clusterChanges : ClusterChangeDescription)
    (clusterTO : ClusterAccessTO) (s : DataConverter) : ClusterAccessTO × DataConverter :=
  let clusterTO := match clusterChanges.pos with
    | some newPos => { clusterTO with pos := convert newPos }
    | none => clusterTO
  let clusterTO := match clusterChanges.vel with
    | some newVel => { clusterTO with vel := convert newVel }
    | none => clusterTO
  let clusterTO := match clusterChanges.angle with
    | some a => { clusterTO with angle := a }
    | none => clusterTO
  let clusterTO := match clusterChanges.angularVel with
    | some a => { clusterTO with angularVel := a }
    | none => clusterTO
  match clusterChanges.metadata with
  | some m =>
    let metadataTO := { clusterTO.metadata with nameLen := m.name.length }
    if metadataTO.nameLen > 0 then
      let r := convertStringAndReturnStringIndex m.name s
      ({ clusterTO with metadata := { metadataTO with nameStringIndex := r.1 } }, r.2)
    else ({ clusterTO with metadata := metadataTO }, s)
  | none => (clusterTO, s)

/-- The metadata block shared by `addCell` and the cell overload of
`applyChangeDescription`: colour, then the three texts interned in turn. -/
def writeCellMetadata (m : CellMetadata) (metadataTO : CellMetadataAccessTO)
    (s : DataConverter) : CellMetadataAccessTO × DataConverter :=
  let metadataTO := { metadataTO with color := m.color, nameLen := m.name.length }
  let (metadataTO, s) :=
    if metadataTO.nameLen > 0 then
      let r := convertStringAndReturnStringIndex m.name s
      ({ metadataTO with nameStringIndex := r.1 }, r.2)
    else (metadataTO, s)
  let metadataTO := { metadataTO with descriptionLen := m.description.length }
  let (metadataTO, s) :=
    if metadataTO.descriptionLen > 0 then
      let r := convertStringAndReturnStringIndex m.description s
      ({ metadataTO with descriptionStringIndex := r.1 }, r.2)
    else (metadataTO, s)
  let metadataTO := { metadataTO with sourceCodeLen := m.computerSourcecode.length }
  if metadataTO.sourceCodeLen > 0 then
    let r := convertStringAndReturnStringIndex m.computerSourcecode s
    ({ metadataTO with sourceCodeStringIndex := r.1 }, r.2)
  else (metadataTO, s)

/-- The feature block shared by `addCell` and the cell overload of
`applyChangeDescription`. -/
def writeCellFeature (limits : ArrayLimits) (cellFunction : CellFeatureDescription)
    (cellTO : CellAccessTO) : CellAccessTO :=
  { cellTO with
    cellFunctionType := cellFunction.type
    numStaticBytes := min cellFunction.constData.length limits.MAX_CELL_STATIC_BYTES
    numMutableBytes := min cellFunction.volatileData.length limits.MAX_CELL_MUTABLE_BYTES
    staticData := convertToArray cellFunction.constData cellTO.staticData
      limits.MAX_CELL_STATIC_BYTES
    mutableData := convertToArray cellFunction.volatileData cellTO.mutableData
      limits.MAX_CELL_MUTABLE_BYTES }

def applyChangeDescription_cell (cellChanges : CellChangeDescription)
    (cellTO : CellAccessTO) (s : DataConverter) : CellAccessTO × DataConverter :=
  let cellTO := match cellChanges.pos with
    | some newAbsPos => { cellTO with pos := convert newAbsPos }
    | none => cellTO
  let cellTO := match cellChanges.maxConnections with
    | some v => { cellTO with maxConnections := v }
    | none => cellTO
  let cellTO := match cellChanges.energy with
    | some v => { cellTO with energy := v }
    | none => cellTO
  let cellTO := match cellChanges.tokenBranchNumber with
    | some v => { cellTO with branchNumber := v }
    | none => cellTO
  let cellTO := match cellChanges.cellFeatures with
    | some cellFunction => writeCellFeature s.limits cellFunction cellTO
    | none => cellTO
  let (cellTO, s) := match cellChanges.metadata with
    | some m =>
      let r := writeCellMetadata m cellTO.metadata s
      ({ cellTO with metadata := r.1 }, r.2)
    | none => (cellTO, s)
  match cellChanges.tokenUsages with
  | some v => ({ cellTO with tokenUsages := v }, s)
  | none => (cellTO, s)

/-! ## Element access -/

def DataConverter.setCluster (s : DataConverter) (i : Nat) (v : ClusterAccessTO) :
    DataConverter :=
  s.withDataTO { s.dataTO with clusters := Function.update s.dataTO.clusters i v }

def DataConverter.setCell (s : DataConverter) (i : Nat) (v : CellAccessTO) : DataConverter :=
  s.withDataTO { s.dataTO with cells := Function.update s.dataTO.cells i v }

def DataConverter.setParticle (s : DataConverter) (i : Nat) (v : ParticleAccessTO) :
    DataConverter :=
  s.withDataTO { s.dataTO with particles := Function.update s.dataTO.particles i v }

def DataConverter.setToken (s : DataConverter) (i : Nat) (v : TokenAccessTO) :
    DataConverter :=
  s.withDataTO { s.dataTO with tokens := Function.update s.dataTO.tokens i v }

/-- The id stored for a new entity: the description's, or a fresh one when it is 0. -/
def DataConverter.assignId (s : DataConverter) (id : Nat) : Nat × DataConverter :=
  if id = 0 then ((s.numberGen.getId).1, { s with numberGen := (s.numberGen.getId).2 })
  else (id, s)

/-! ## Add path -/

def addParticle (particleDesc : ParticleDescription) (s : DataConverter) :
    Step DataConverter :=
  let particleIndex := s.dataTO.numParticles
  let s := s.withDataTO { s.dataTO with numParticles := particleIndex + 1 }
  if particleIndex ≥ s.cudaConstants.MAX_PARTICLES then
    ⟨s, some Failure.particleArrayTooSmall⟩
  else
    let r := s.assignId particleDesc.id
    let s := r.2
    let particleTO := { s.dataTO.particles particleIndex with id := r.1 }
    match particleDesc.pos with
    | none => ⟨s.setParticle particleIndex particleTO, some Failure.emptyOptional⟩
    | some pos =>
    let particleTO := { particleTO with pos := convert pos }
    match particleDesc.vel with
    | none => ⟨s.setParticle particleIndex particleTO, some Failure.emptyOptional⟩
    | some vel =>
    let particleTO := { particleTO with vel := convert vel }
    match particleDesc.energy with
    | none => ⟨s.setParticle particleIndex particleTO, some Failure.emptyOptional⟩
    | some energy =>
    let particleTO := { particleTO with energy := energy }
    match particleDesc.metadata with
    | some metadata =>
      ⟨s.setParticle particleIndex { particleTO with metadata := { color := metadata.color } },
        none⟩
    | none =>
      ⟨s.setParticle particleIndex { particleTO with metadata := { color := 0 } }, none⟩

/-- Body of the token loop of `addCell`: the token cursor is advanced and the
token written, with no comparison against `MAX_TOKENS`. -/
def addCell_token (cellIndex : Nat) (tokenDesc : TokenDescription) (s : DataConverter) :
    Step DataConverter :=
  let tokenIndex := s.dataTO.numTokens
  let s := s.withDataTO { s.dataTO with numTokens := tokenIndex + 1 }
  let tokenTO := s.dataTO.tokens tokenIndex
  match tokenDesc.energy with
  | none => ⟨s, some Failure.emptyOptional⟩
  | some energy =>
  let tokenTO := { tokenTO with energy := energy, cellIndex := cellIndex }
  match tokenDesc.data with
  | none => ⟨s.setToken tokenIndex tokenTO, some Failure.emptyOptional⟩
  | some data =>
    ⟨s.setToken tokenIndex
      { tokenTO with memory := convertToArray data tokenTO.memory s.parameters.tokenMemorySize },
      none⟩

/-- Metadata part of `addCell`. -/
def addCell_metadata (metadata : Option CellMetadata) (cellTO : CellAccessTO)
    (s : DataConverter) : CellAccessTO × DataConverter :=
  match metadata with
  | some m =>
    let r := writeCellMetadata m cellTO.metadata s
    ({ cellTO with metadata := r.1 }, r.2)
  | none =>
    ({ cellTO with metadata :=
        { cellTO.metadata with color := 0, nameLen := 0, descriptionLen := 0,
                               sourceCodeLen := 0 } }, s)

/-- The local map `cellIndexTOByIds` travels with the converter. -/
abbrev AddState := DataConverter × List (Nat × Nat)

def addCell (cellDesc : CellDescription) (clusterIndex : Nat) (st : AddState) :
    Step AddState :=
  let s := st.1
  let cellIndex := s.dataTO.numCells
  let s := s.withDataTO { s.dataTO with numCells := cellIndex + 1 }
  if cellIndex ≥ s.cudaConstants.MAX_CELLS then
    ⟨(s, st.2), some Failure.cellArrayTooSmall⟩
  else
    let r := s.assignId cellDesc.id
    let s := r.2
    let cellTO := { s.dataTO.cells cellIndex with id := r.1 }
    match cellDesc.pos with
    | none => ⟨(s.setCell cellIndex cellTO, st.2), some Failure.emptyOptional⟩
    | some pos =>
    let cellTO := { cellTO with pos := convert pos }
    match cellDesc.energy with
    | none => ⟨(s.setCell cellIndex cellTO, st.2), some Failure.emptyOptional⟩
    | some energy =>
    let cellTO := { cellTO with energy := energy }
    match cellDesc.maxConnections with
    | none => ⟨(s.setCell cellIndex cellTO, st.2), some Failure.emptyOptional⟩
    | some maxConnections =>
    let cellTO := { cellTO with
      maxConnections := maxConnections
      branchNumber := cellDesc.tokenBranchNumber.getD 0
      tokenBlocked := cellDesc.tokenBlocked.getD false
      tokenUsages := cellDesc.tokenUsages.getD 0 }
    let cellFunction := cellDesc.cellFeature.getD
      { type := s.limits.defaultCellFunction, volatileData := [], constData := [] }
    let cellTO := writeCellFeature s.limits cellFunction cellTO
    let cellTO := { cellTO with
      numConnections := match cellDesc.connectingCells with
        | some l => l.length
        | none => 0 }
    let m := addCell_metadata cellDesc.metadata cellTO s
    let cellTO := m.1
    let s := (m.2).setCell cellIndex cellTO
    let r := match cellDesc.tokens with
      | some tokens =>
        let clusterTO := s.dataTO.clusters clusterIndex
        let s := s.setCluster clusterIndex
          { clusterTO with numTokens := clusterTO.numTokens + tokens.length }
        forEach tokens (addCell_token cellIndex) s
      | none => ⟨s, none⟩
    match r.failure with
    | some f => ⟨(r.state, st.2), some f⟩
    | none => ⟨(r.state, (cellTO.id, cellIndex) :: st.2), none⟩

/-- Body of the loop of `setConnections`; the state is the cell and `index`. -/
def setConnections_step (cellIndexByIds : List (Nat × Nat)) (connectingCellId : Nat)
    (st : CellAccessTO × Nat) : Step (CellAccessTO × Nat) :=
  match cellIndexByIds.lookup connectingCellId with
  | none => ⟨st, some Failure.outOfRange⟩
  | some target =>
    ⟨({ st.1 with connectionIndices := arrayWrite st.1.connectionIndices st.2 target },
      st.2 + 1), none⟩

def setConnections (cellToAdd : CellDescription) (cellIndex : Nat)
    (cellIndexByIds : List (Nat × Nat)) (s : DataConverter) : Step DataConverter :=
  match cellToAdd.connectingCells with
  | some ids =>
    let r := forEach ids (setConnections_step cellIndexByIds) (s.dataTO.cells cellIndex, 0)
    ⟨s.setCell cellIndex r.state.1, r.failure⟩
  | none => ⟨s, none⟩

/-- Mean of the cell positions, taken exactly; `none` when a cell has no
position to read.  The code takes the mean in `float` arithmetic, and for an
empty cell list it divides by zero where the model has `⟨0, 0⟩`. -/
def getClusterPosFromCells (clusterDesc : ClusterDescription) : Option QVector2D :=
  match clusterDesc.cells with
  | none => some ⟨0, 0⟩
  | some cells =>
    (cells.foldl
      (fun acc cell =>
        match acc, cell.pos with
        | some r, some p => some (⟨r.x + p.x, r.y + p.y⟩ : QVector2D)
        | _, _ => none)
      (some ⟨0, 0⟩)).map
      (fun r => (⟨r.x / cells.length, r.y / cells.length⟩ : QVector2D))

/-- The position `addCluster` stores: the description's when present, else the
mean of the cell positions. -/
def clusterPosOf (clusterDesc : ClusterDescription) : Option QVector2D :=
  match clusterDesc.pos with
  | some p => some p
  | none => getClusterPosFromCells clusterDesc

/-- First loop of `addCluster`: append the cell, and after the first one
record where the cluster's cells start. -/
def addCluster_cell (clusterIndex : Nat) (cellDesc : CellDescription)
    (st : AddState × Bool) : Step (AddState × Bool) :=
  let r := addCell cellDesc clusterIndex st.1
  match r.failure with
  | some f => ⟨(r.state, st.2), some f⟩
  | none =>
    if st.2 then
      let s := r.state.1
      let start := match r.state.2.head? with
        | some e => e.2
        | none => 0
      ⟨((s.setCluster clusterIndex
          { s.dataTO.clusters clusterIndex with cellStartIndex := start }, r.state.2), false),
        none⟩
    else ⟨(r.state, false), none⟩

/-- Second loop of `addCluster`: resolve the declared connections. -/
def addCluster_connect (cellIndexByIds : List (Nat × Nat)) (cellDesc : CellDescription)
    (s : DataConverter) : Step DataConverter :=
  if cellDesc.id ≠ 0 then
    match cellIndexByIds.lookup cellDesc.id with
    | none => ⟨s, some Failure.outOfRange⟩
    | some cellIndex => setConnections cellDesc cellIndex cellIndexByIds s
  else ⟨s, none⟩

def addCluster (clusterDesc : ClusterDescription) (s : DataConverter) : Step DataConverter :=
  match clusterDesc.cells with
  | none => ⟨s, none⟩
  | some cells =>
  let clusterIndex := s.dataTO.numClusters
  let s := s.withDataTO { s.dataTO with numClusters := clusterIndex + 1 }
  if clusterIndex ≥ s.cudaConstants.MAX_CLUSTERS then
    ⟨s, some Failure.clusterArrayTooSmall⟩
  else
    let r := s.assignId clusterDesc.id
    let s := r.2
    let clusterTO := { s.dataTO.clusters clusterIndex with id := r.1 }
    match clusterPosOf clusterDesc with
    | none => ⟨s.setCluster clusterIndex clusterTO, some Failure.emptyOptional⟩
    | some clusterPos =>
    let clusterTO := { clusterTO with pos := convert clusterPos }
    match clusterDesc.vel with
    | none => ⟨s.setCluster clusterIndex clusterTO, some Failure.emptyOptional⟩
    | some vel =>
    let clusterTO := { clusterTO with vel := convert vel }
    match clusterDesc.angle with
    | none => ⟨s.setCluster clusterIndex clusterTO, some Failure.emptyOptional⟩
    | some angle =>
    let clusterTO := { clusterTO with angle := angle }
    match clusterDesc.angularVel with
    | none => ⟨s.setCluster clusterIndex clusterTO, some Failure.emptyOptional⟩
    | some angularVel =>
    let clusterTO := { clusterTO with
      angularVel := angularVel
      numCells := cells.length
      numTokens := 0
      tokenStartIndex := (s.dataTO.numTokens : Int) }
    let m : ClusterAccessTO × DataConverter := match clusterDesc.metadata with
      | some metadata =>
        let metadataTO : ClusterMetadataAccessTO :=
          { clusterTO.metadata with nameLen := metadata.name.length }
        if metadataTO.nameLen > 0 then
          let i := convertStringAndReturnStringIndex metadata.name s
          ({ clusterTO with metadata := { metadataTO with nameStringIndex := i.1 } }, i.2)
        else ({ clusterTO with metadata := metadataTO }, s)
      | none => ({ clusterTO with metadata := { clusterTO.metadata with nameLen := 0 } }, s)
    let s := (m.2).setCluster clusterIndex m.1
    let r1 := forEach cells (addCluster_cell clusterIndex) ((s, []), true)
    match r1.failure with
    | some f => ⟨r1.state.1.1, some f⟩
    | none => forEach cells (addCluster_connect r1.state.1.2) r1.state.1.1

/-! ## Marking -/

def markDelCluster (clusterId : Nat) (s : DataConverter) : DataConverter :=
  { s with clusterIdsToDelete := clusterId :: s.clusterIdsToDelete }

def markDelParticle (particleId : Nat) (s : DataConverter) : DataConverter :=
  { s with particleIdsToDelete := particleId :: s.particleIdsToDelete }

def markModifyCluster (clusterDesc : ClusterChangeDescription) (s : DataConverter) :
    DataConverter :=
  let s := { s with clusterToModifyById := (clusterDesc.id, clusterDesc) :: s.clusterToModifyById }
  clusterDesc.cells.foldl
    (fun s cellTracker =>
      if cellTracker.isModified then
        { s with cellToModifyById :=
            (cellTracker.value.id, cellTracker.getValue) :: s.cellToModifyById }
      else s)
    s

def markModifyParticle (particleDesc : ParticleChangeDescription) (s : DataConverter) :
    DataConverter :=
  { s with particleToModifyById := (particleDesc.id, particleDesc) :: s.particleToModifyById }

/-! ## Delete and compact -/

/-- Locals of the cluster scan of `processDeletions`. -/
structure ClusterScan where
  clusters : Nat → ClusterAccessTO
  cellIndicesToDelete : List Nat
  tokenIndicesToDelete : List Int
  clusterIndexCopyOffset : Nat
  tokenIndexCopyOffset : Nat

def processDeletions_cluster (clusterIdsToDelete : List Nat) (st : ClusterScan)
    (clusterIndex : Nat) : ClusterScan :=
  let cluster := st.clusters clusterIndex
  if cluster.id ∈ clusterIdsToDelete then
    { st with
      clusterIndexCopyOffset := st.clusterIndexCopyOffset + 1
      tokenIndexCopyOffset := st.tokenIndexCopyOffset + cluster.numTokens
      cellIndicesToDelete :=
        (List.range cluster.numCells).map (fun cellIndex => cluster.cellStartIndex + cellIndex)
          ++ st.cellIndicesToDelete
      tokenIndicesToDelete :=
        (List.range cluster.numTokens).map
          (fun (tokenIndex : Nat) => cluster.tokenStartIndex + (tokenIndex : Int))
          ++ st.tokenIndicesToDelete }
  else if st.clusterIndexCopyOffset > 0 then
    let clusters :=
      Function.update st.clusters (clusterIndex - st.clusterIndexCopyOffset) cluster
    if st.tokenIndexCopyOffset > 0 then
      { st with clusters := (Function.update clusters clusterIndex
          { cluster with
            tokenStartIndex := cluster.tokenStartIndex - (st.tokenIndexCopyOffset : Int) }) }
    else { st with clusters := clusters }
  else st

/-- Locals of the cell scan of `processDeletions`. -/
structure CellScan where
  cells : Nat → CellAccessTO
  cellIndexCopyOffset : Nat
  newByOldCellIndex : List (Nat × Nat)

def processDeletions_cell (cellIndicesToDelete : List Nat) (st : CellScan) (cellIndex : Nat) :
    CellScan :=
  let cell := st.cells cellIndex
  if cellIndex ∈ cellIndicesToDelete then
    { st with cellIndexCopyOffset := st.cellIndexCopyOffset + 1 }
  else if st.cellIndexCopyOffset > 0 then
    { st with
      newByOldCellIndex :=
        (cellIndex, cellIndex - st.cellIndexCopyOffset) :: st.newByOldCellIndex
      cells := Function.update st.cells (cellIndex - st.cellIndexCopyOffset) cell }
  else st

/-- Rewriting one stored cell index through `newByOldCellIndex`. -/
def remapIndex (newByOldCellIndex : List (Nat × Nat)) (i : Nat) : Nat :=
  match newByOldCellIndex.lookup i with
  | some j => j
  | none => i

/-- Locals of the token scan of `processDeletions`. -/
structure TokenScan where
  tokens : Nat → TokenAccessTO
  tokenIndexCopyOffset : Nat

def processDeletions_token (newByOldCellIndex : List (Nat × Nat))
    (tokenIndicesToDelete : List Int) (st : TokenScan) (tokenIndex : Nat) : TokenScan :=
  let token := { st.tokens tokenIndex with
    cellIndex := remapIndex newByOldCellIndex (st.tokens tokenIndex).cellIndex }
  let tokens := Function.update st.tokens tokenIndex token
  if (tokenIndex : Int) ∈ tokenIndicesToDelete then
    { tokens := tokens, tokenIndexCopyOffset := st.tokenIndexCopyOffset + 1 }
  else if st.tokenIndexCopyOffset > 0 then
    { st with tokens := Function.update tokens (tokenIndex - st.tokenIndexCopyOffset) token }
  else { st with tokens := tokens }

/-- Locals of the particle scan of `processDeletions`. -/
structure ParticleScan where
  particles : Nat → ParticleAccessTO
  particleIndexCopyOffset : Nat

def processDeletions_particle (particleIdsToDelete : List Nat) (st : ParticleScan)
    (index : Nat) : ParticleScan :=
  let particle := st.particles index
  if particle.id ∈ particleIdsToDelete then
    { st with particleIndexCopyOffset := st.particleIndexCopyOffset + 1 }
  else if st.particleIndexCopyOffset > 0 then
    { st with particles :=
        Function.update st.particles (index - st.particleIndexCopyOffset) particle }
  else st

/-- Pointer adjustment of one cluster. -/
def adjustCluster (newByOldCellIndex : List (Nat × Nat)) (cluster : ClusterAccessTO) :
    ClusterAccessTO :=
  { cluster with cellStartIndex := remapIndex newByOldCellIndex cluster.cellStartIndex }

/-- Pointer adjustment of one cell: the first `numConnections` stored
indices are rewritten in turn. -/
def adjustCell (newByOldCellIndex : List (Nat × Nat)) (cell : CellAccessTO) : CellAccessTO :=
  (List.range cell.numConnections).foldl
    (fun c connectionIndex =>
      match newByOldCellIndex.lookup (byteAt c.connectionIndices connectionIndex) with
      | some j => { c with connectionIndices := arrayWrite c.connectionIndices connectionIndex j }
      | none => c)
    cell

def processDeletions (s : DataConverter) : DataConverter :=
  if s.clusterIdsToDelete.isEmpty && s.particleIdsToDelete.isEmpty then s
  else
    let d := s.dataTO
    -- delete clusters
    let cl := (List.range d.numClusters).foldl (processDeletions_cluster s.clusterIdsToDelete)
      { clusters := d.clusters, cellIndicesToDelete := [], tokenIndicesToDelete := [],
        clusterIndexCopyOffset := 0, tokenIndexCopyOffset := 0 }
    let numClusters := d.numClusters - cl.clusterIndexCopyOffset
    -- delete cells
    let ce := (List.range d.numCells).foldl (processDeletions_cell cl.cellIndicesToDelete)
      { cells := d.cells, cellIndexCopyOffset := 0, newByOldCellIndex := [] }
    let numCells := d.numCells - ce.cellIndexCopyOffset
    -- delete tokens
    let tk := (List.range d.numTokens).foldl
      (processDeletions_token ce.newByOldCellIndex cl.tokenIndicesToDelete)
      { tokens := d.tokens, tokenIndexCopyOffset := 0 }
    let numTokens := d.numTokens - tk.tokenIndexCopyOffset
    -- delete particles
    let pa := (List.range d.numParticles).foldl
      (processDeletions_particle s.particleIdsToDelete)
      { particles := d.particles, particleIndexCopyOffset := 0 }
    let numParticles := d.numParticles - pa.particleIndexCopyOffset
    -- adjust cell and cluster pointers
    let clusters := (List.range numClusters).foldl
      (fun cs clusterIndex =>
        Function.update cs clusterIndex (adjustCluster ce.newByOldCellIndex (cs clusterIndex)))
      cl.clusters
    let cells := (List.range numCells).foldl
      (fun cs cellIndex =>
        Function.update cs cellIndex (adjustCell ce.newByOldCellIndex (cs cellIndex)))
      ce.cells
    s.withDataTO
      { d with
        numClusters := numClusters, clusters := clusters
        numCells := numCells, cells := cells
        numTokens := numTokens, tokens := tk.tokens
        numParticles := numParticles, particles := pa.particles }

/-! ## Modify -/

/-- `tokenTOsByCellId[id].emplace_back(t)`. -/
def pushToken (m : List (Nat × List TokenAccessTO)) (id : Nat) (t : TokenAccessTO) :
    List (Nat × List TokenAccessTO) :=
  match m with
  | [] => [(id, [t])]
  | e :: rest => if e.1 = id then (e.1, e.2 ++ [t]) :: rest else e :: pushToken rest id t

/-- The snapshot of the surviving tokens, grouped by the id of the owning cell. -/
def collectTokens (d : DataAccessTO) : List (Nat × List TokenAccessTO) :=
  (List.range d.numTokens).foldl
    (fun m index => pushToken m (d.cells (d.tokens index).cellIndex).id (d.tokens index)) []

def processModifications_cluster (s : DataConverter) (clusterIndex : Nat) : DataConverter :=
  let cluster := s.dataTO.clusters clusterIndex
  match s.clusterToModifyById.lookup cluster.id with
  | some changes =>
    let r := applyChangeDescription_cluster changes cluster s
    (r.2).setCluster clusterIndex r.1
  | none => s

def processModifications_cell (s : DataConverter) (cellIndex : Nat) : DataConverter :=
  let cell := s.dataTO.cells cellIndex
  match s.cellToModifyById.lookup cell.id with
  | some changes =>
    let r := applyChangeDescription_cell changes cell s
    (r.2).setCell cellIndex r.1
  | none => s

def processModifications_particle (s : DataConverter) (index : Nat) : DataConverter :=
  let particle := s.dataTO.particles index
  match s.particleToModifyById.lookup particle.id with
  | some changes => s.setParticle index (applyChangeDescription_particle changes particle)
  | none => s

/-- Rebuild, token of a delta: cursor advanced, capacity compared, token written. -/
def rebuild_deltaToken (cellIndex : Nat) (sourceToken : TokenDescription) (s : DataConverter) :
    Step DataConverter :=
  let targetTokenIndex := s.dataTO.numTokens
  let s := s.withDataTO { s.dataTO with numTokens := targetTokenIndex + 1 }
  if targetTokenIndex ≥ s.cudaConstants.MAX_TOKENS then
    ⟨s, some Failure.tokenArrayTooSmall⟩
  else
    let targetToken := { s.dataTO.tokens targetTokenIndex with cellIndex := cellIndex }
    match sourceToken.energy with
    | none => ⟨s.setToken targetTokenIndex targetToken, some Failure.emptyOptional⟩
    | some energy =>
    let targetToken := { targetToken with energy := energy }
    match sourceToken.data with
    | none => ⟨s.setToken targetTokenIndex targetToken, some Failure.emptyOptional⟩
    | some data =>
      ⟨s.setToken targetTokenIndex
        { targetToken with
          memory := convertToArray data targetToken.memory s.parameters.tokenMemorySize },
        none⟩

/-- Rebuild, token carried over from the snapshot. -/
def rebuild_carriedToken (sourceToken : TokenAccessTO) (s : DataConverter) :
    Step DataConverter :=
  let targetTokenIndex := s.dataTO.numTokens
  let s := s.withDataTO { s.dataTO with numTokens := targetTokenIndex + 1 }
  if targetTokenIndex ≥ s.cudaConstants.MAX_TOKENS then
    ⟨s, some Failure.tokenArrayTooSmall⟩
  else ⟨s.setToken targetTokenIndex sourceToken, none⟩

/-- `clusterTO.numTokens += n` on the cluster being rebuilt. -/
def DataConverter.addClusterTokens (s : DataConverter) (clusterIndex n : Nat) :
    DataConverter :=
  s.setCluster clusterIndex
    { s.dataTO.clusters clusterIndex with
      numTokens := (s.dataTO.clusters clusterIndex).numTokens + n }

/-- Rebuild, one cell of a cluster. -/
def rebuild_cell (tokenTOsByCellId : List (Nat × List TokenAccessTO)) (clusterIndex : Nat)
    (cellIndex : Nat) (s : DataConverter) : Step DataConverter :=
  let cellTO := s.dataTO.cells cellIndex
  match s.cellToModifyById.lookup cellTO.id with
  | some cell =>
    match cell.tokens with
    | some tokens =>
      forEach tokens (rebuild_deltaToken cellIndex) (s.addClusterTokens clusterIndex tokens.length)
    | none => ⟨s, none⟩
  | none =>
    match tokenTOsByCellId.lookup cellTO.id with
    | some tokens =>
      forEach tokens rebuild_carriedToken (s.addClusterTokens clusterIndex tokens.length)
    | none => ⟨s, none⟩

/-- Rebuild, one cluster. -/
def rebuild_cluster (tokenTOsByCellId : List (Nat × List TokenAccessTO)) (clusterIndex : Nat)
    (s : DataConverter) : Step DataConverter :=
  let clusterTO := s.dataTO.clusters clusterIndex
  let s := s.setCluster clusterIndex
    { clusterTO with tokenStartIndex := (s.dataTO.numTokens : Int), numTokens := 0 }
  forEach (List.range' clusterTO.cellStartIndex clusterTO.numCells)
    (rebuild_cell tokenTOsByCellId clusterIndex) s

def processModifications (s : DataConverter) : Step DataConverter :=
  -- modify clusters
  let s := (List.range s.dataTO.numClusters).foldl processModifications_cluster s
  -- modify cells
  let s := (List.range s.dataTO.numCells).foldl processModifications_cell s
  -- modify tokens
  let tokenTOsByCellId := collectTokens s.dataTO
  let s := s.withDataTO { s.dataTO with numTokens := 0 }
  let r := forEach (List.range s.dataTO.numClusters) (rebuild_cluster tokenTOsByCellId) s
  -- modify particles
  r.andThen (fun s =>
    ⟨(List.range s.dataTO.numParticles).foldl processModifications_particle s, none⟩)

/-! ## Change description to description (Descriptions.cpp) -/

def CellDescription.ofChange (change : CellChangeDescription) : CellDescription :=
  { id := change.id
    pos := change.pos
    energy := change.energy
    maxConnections := change.maxConnections
    connectingCells := change.connectingCells
    tokenBlocked := change.tokenBlocked
    tokenBranchNumber := change.tokenBranchNumber
    metadata := change.metadata
    cellFeature := change.cellFeatures
    tokens := change.tokens
    tokenUsages := change.tokenUsages }

def ClusterDescription.ofChange (change : ClusterChangeDescription) : ClusterDescription :=
  { id := change.id
    pos := change.pos
    vel := change.vel
    angle := change.angle
    angularVel := change.angularVel
    metadata := change.metadata
    cells := change.cells.foldl
      (fun cells cellTracker =>
        if !cellTracker.isDeleted then
          some (cells.getD [] ++ [CellDescription.ofChange cellTracker.getValue])
        else cells)
      none }

def ParticleDescription.ofChange (change : ParticleChangeDescription) : ParticleDescription :=
  { id := change.id
    pos := change.pos
    vel := change.vel
    energy := change.energy
    metadata := change.metadata }

/-! ## updateData -/

def updateData_markCluster (s : DataConverter) (cluster : ChangeTracker ClusterChangeDescription) :
    DataConverter :=
  let s := if cluster.isDeleted then markDelCluster cluster.getValue.id s else s
  if cluster.isModified then markModifyCluster cluster.getValue s else s

def updateData_markParticle (s : DataConverter)
    (particle : ChangeTracker ParticleChangeDescription) : DataConverter :=
  let s := if particle.isDeleted then markDelParticle particle.getValue.id s else s
  if particle.isModified then markModifyParticle particle.getValue s else s

def updateData_addCluster (cluster : ChangeTracker ClusterChangeDescription)
    (s : DataConverter) : Step DataConverter :=
  if cluster.isAdded then addCluster (ClusterDescription.ofChange cluster.getValue) s
  else ⟨s, none⟩

def updateData_addParticle (particle : ChangeTracker ParticleChangeDescription)
    (s : DataConverter) : Step DataConverter :=
  if particle.isAdded then addParticle (ParticleDescription.ofChange particle.getValue) s
  else ⟨s, none⟩

def updateData (data : DataChangeDescription) (s : DataConverter) : Step DataConverter :=
  let s := data.clusters.foldl updateData_markCluster s
  let s := data.particles.foldl updateData_markParticle s
  let s := processDeletions s
  ((processModifications s).andThen (forEach data.clusters updateData_addCluster)).andThen
    (forEach data.particles updateData_addParticle)

/-! ## Sample values used to run the definitions -/

def ClusterAccessTO.zero : ClusterAccessTO :=
  { id := 0, pos := ⟨0, 0⟩, vel := ⟨0, 0⟩, angle := 0, angularVel := 0, numCells := 0,
    cellStartIndex := 0, numTokens := 0, tokenStartIndex := 0,
    metadata := { nameLen := 0, nameStringIndex := 0 } }

def CellAccessTO.zero : CellAccessTO :=
  { id := 0, pos := ⟨0, 0⟩, energy := 0, maxConnections := 0, numConnections := 0,
    connectionIndices := [], branchNumber := 0, tokenBlocked := false, tokenUsages := 0,
    cellFunctionType := 0, numStaticBytes := 0, staticData := [], numMutableBytes := 0,
    mutableData := [],
    metadata := { color := 0, nameLen := 0, nameStringIndex := 0, descriptionLen := 0,
                  descriptionStringIndex := 0, sourceCodeLen := 0, sourceCodeStringIndex := 0 } }

def TokenAccessTO.zero : TokenAccessTO :=
  { energy := 0, memory := [], cellIndex := 0 }

def ParticleAccessTO.zero : ParticleAccessTO :=
  { id := 0, pos := ⟨0, 0⟩, vel := ⟨0, 0⟩, energy := 0, metadata := { color := 0 } }

/-- An arena with all five counts at zero. -/
def DataAccessTO.empty : DataAccessTO :=
  { numClusters := 0, clusters := fun _ => ClusterAccessTO.zero
    numCells := 0, cells := fun _ => CellAccessTO.zero
    numParticles := 0, particles := fun _ => ParticleAccessTO.zero
    numTokens := 0, tokens := fun _ => TokenAccessTO.zero
    numStringBytes := 0, stringBytes := fun _ => 0 }

/-- Ids 1000, 1001, ... -/
def sampleGen : NumberGenerator :=
  { ids := fun n => 1000 + n, cursor := 0 }

def sampleLimits : ArrayLimits :=
  { MAX_CELL_STATIC_BYTES := 4, MAX_CELL_MUTABLE_BYTES := 4, defaultCellFunction := 0 }

/-- A converter over `d` with the given four capacities, a 64-byte metadata
pool and 4-byte token memory. -/
def sampleConverter (d : DataAccessTO) (maxClusters maxCells maxParticles maxTokens : Nat) :
    DataConverter :=
  DataConverter.create d sampleGen { tokenMemorySize := 4 }
    { MAX_CLUSTERS := maxClusters, MAX_CELLS := maxCells, MAX_PARTICLES := maxParticles,
      MAX_TOKENS := maxTokens, METADATA_DYNAMIC_MEMORY_SIZE := 64 }
    sampleLimits

/-- A cell delta carrying nothing but the id. -/
def CellChangeDescription.blank (id : Nat) : CellChangeDescription :=
  { id := id, pos := none, energy := none, maxConnections := none, connectingCells := none,
    tokenBlocked := none, tokenBranchNumber := none, metadata := none, cellFeatures := none,
    tokens := none, tokenUsages := none }

/-- A cluster delta carrying nothing but the id and its cell trackers. -/
def ClusterChangeDescription.blank (id : Nat)
    (cells : List (ChangeTracker CellChangeDescription)) : ClusterChangeDescription :=
  { id := id, pos := none, vel := none, angle := none, angularVel := none, metadata := none,
    cells := cells }

/-- A fully specified cell description without connections. -/
def sampleCell (id : Nat) (tokens : Option (List TokenDescription)) : CellDescription :=
  { id := id, pos := some ⟨1, 2⟩, energy := some 100, maxConnections := some 3,
    connectingCells := none, tokenBlocked := none, tokenBranchNumber := none,
    metadata := none, cellFeature := none, tokens := tokens, tokenUsages := none }

/-- A fully specified cluster description. -/
def sampleCluster (id : Nat) (cells : Option (List CellDescription)) : ClusterDescription :=
  { id := id, pos := some ⟨1, 2⟩, vel := some ⟨0, 0⟩, angle := some 23,
    angularVel := some 1, metadata := none, cells := cells }

def sampleParticle (id : Nat) : ParticleDescription :=
  { id := id, pos := some ⟨1, 2⟩, vel := some ⟨0, 0⟩, energy := some 5, metadata := none }

def sampleToken : TokenDescription :=
  { energy := some 89, data := some [116, 0, 0, 115] }

/-- An arena holding one cluster, one cell and one particle, each array at a
capacity of one. -/
def fullConverter : DataConverter :=
  sampleConverter
    { DataAccessTO.empty with numClusters := 1, numCells := 1, numParticles := 1 } 1 1 1 1

/-- A ChangeSet adding one cluster whose single cell carries two tokens. -/
def twoTokenChange : DataChangeDescription :=
  { clusters :=
      [⟨TrackerState.Added,
        { ClusterChangeDescription.blank 5
            [⟨TrackerState.Added,
              { CellChangeDescription.blank 7 with
                pos := some ⟨1, 2⟩, energy := some 100, maxConnections := some 3,
                tokens := some [sampleToken, sampleToken] }⟩] with
          pos := some ⟨1, 2⟩, vel := some ⟨0, 0⟩, angle := some 0, angularVel := some 0 }⟩]
    particles := [] }

/-- One cluster (id 10) owning one cell (id 7) that hosts one token. -/
def oneTokenArena : DataAccessTO :=
  { DataAccessTO.empty with
    numClusters := 1
    clusters := fun _ => { ClusterAccessTO.zero with id := 10, numCells := 1, numTokens := 1 }
    numCells := 1
    cells := fun _ => { CellAccessTO.zero with id := 7, energy := 3 }
    numTokens := 1
    tokens := fun _ => { energy := 89, memory := [116, 0, 0, 115], cellIndex := 0 } }

/-- A ChangeSet that modifies only the energy of cell 7 of cluster 10. -/
def energyOnlyChange : DataChangeDescription :=
  { clusters :=
      [⟨TrackerState.Modified,
        ClusterChangeDescription.blank 10
          [⟨TrackerState.Modified, { CellChangeDescription.blank 7 with energy := some 55 }⟩]⟩]
    particles := [] }


/-! ## Compaction vocabulary -/

/-- Number of surviving indices below `n`: the position to which the scan
moves the survivor at `n`. -/
def rank (del : Nat → Bool) (n : Nat) : Nat :=
  ((List.range n).filter (fun i => !del i)).length

/-- The list of survivors below `n`, in index order. -/
def survivors (del : Nat → Bool) (n : Nat) : List Nat :=
  (List.range n).filter (fun i => !del i)

/-- What a compacting scan over the first `n` slots has established: the copy
offset counts the dropped slots, the slots from `n` on are still the original
ones, and every survivor below `n` sits (transformed by `f`) at its rank. -/
structure ScanInv {S α : Type} (arr : S → Nat → α) (off : S → Nat) (del : Nat → Bool)
    (f : α → α) (a : Nat → α) (st : S) (n : Nat) : Prop where
  off_eq : off st + rank del n = n
  rest : ∀ j, n ≤ j → arr st j = a j
  moved : ∀ j, j < n → del j = false → arr st (rank del j) = f (a j)


/-! ## Vocabulary of the deletion statements -/

/-- Index `i` lies in the cell range `[cellStartIndex, cellStartIndex + numCells)`. -/
def inCellRange (c : ClusterAccessTO) (i : Nat) : Bool :=
  decide (c.cellStartIndex ≤ i ∧ i < c.cellStartIndex + c.numCells)

/-- Index `t` lies in the token range `[tokenStartIndex, tokenStartIndex + numTokens)`. -/
def inTokenRange (c : ClusterAccessTO) (t : Nat) : Bool :=
  decide (c.tokenStartIndex ≤ (t : Int) ∧ (t : Int) < c.tokenStartIndex + (c.numTokens : Int))

/-- The cluster at index `i` is marked deleted. -/
def clusterDeleted (d : DataAccessTO) (ids : List Nat) (i : Nat) : Bool :=
  decide ((d.clusters i).id ∈ ids)

/-- The cell index `c` lies in the cell range of a live cluster marked deleted. -/
def cellDeleted (d : DataAccessTO) (ids : List Nat) (c : Nat) : Bool :=
  (List.range d.numClusters).any (fun i => clusterDeleted d ids i && inCellRange (d.clusters i) c)

/-- The token index `t` lies in the token range of a live cluster marked deleted. -/
def tokenDeleted (d : DataAccessTO) (ids : List Nat) (t : Nat) : Bool :=
  (List.range d.numClusters).any (fun i => clusterDeleted d ids i && inTokenRange (d.clusters i) t)

/-- The particle at index `i` is marked deleted. -/
def particleDeleted (d : DataAccessTO) (ids : List Nat) (i : Nat) : Bool :=
  decide ((d.particles i).id ∈ ids)

/-- The state of the cluster scan after `n` clusters. -/
def clusterScan (d : DataAccessTO) (ids : List Nat) (n : Nat) : ClusterScan :=
  (List.range n).foldl (processDeletions_cluster ids)
    { clusters := d.clusters, cellIndicesToDelete := [], tokenIndicesToDelete := [],
      clusterIndexCopyOffset := 0, tokenIndexCopyOffset := 0 }

/-- The state of the cell scan after `n` cells. -/
def cellScan (d : DataAccessTO) (cellIndicesToDelete : List Nat) (n : Nat) : CellScan :=
  (List.range n).foldl (processDeletions_cell cellIndicesToDelete)
    { cells := d.cells, cellIndexCopyOffset := 0, newByOldCellIndex := [] }

/-- The state of the token scan after `n` tokens. -/
def tokenScan (d : DataAccessTO) (newByOldCellIndex : List (Nat × Nat))
    (tokenIndicesToDelete : List Int) (n : Nat) : TokenScan :=
  (List.range n).foldl (processDeletions_token newByOldCellIndex tokenIndicesToDelete)
    { tokens := d.tokens, tokenIndexCopyOffset := 0 }

/-- The state of the particle scan after `n` particles. -/
def particleScan (d : DataAccessTO) (ids : List Nat) (n : Nat) : ParticleScan :=
  (List.range n).foldl (processDeletions_particle ids)
    { particles := d.particles, particleIndexCopyOffset := 0 }


/-- Where the cell at old index `j` is found after compaction: a surviving
cell at its rank among the survivors, i.e. `j` minus the number of removed
cells below `j`; any other index is left as it is. -/
def newCellIndex (d : DataAccessTO) (ids : List Nat) (j : Nat) : Nat :=
  if j < d.numCells ∧ cellDeleted d ids j = false then rank (cellDeleted d ids) j else j


/-- The arena invariants of the data model that the deletion statements rely
on: every cluster's cell range lies inside the live cells, the cell ranges of
distinct clusters share no index, every live cell lies in some cluster's range,
every token is hosted by a live cell and lies in a cluster's token range exactly
when its cell lies in that cluster's cell range, and the stored connections of a
cell (`numConnections` of them) point into the cell's own cluster. -/
def WellFormed (d : DataAccessTO) : Prop :=
  (∀ i, i < d.numClusters →
      (d.clusters i).cellStartIndex + (d.clusters i).numCells ≤ d.numCells)
  ∧ (∀ i, i < d.numClusters → ∀ j, j < d.numClusters → ∀ c, c < d.numCells →
      inCellRange (d.clusters i) c = true → inCellRange (d.clusters j) c = true → i = j)
  ∧ (∀ c, c < d.numCells → ∃ i, i < d.numClusters ∧ inCellRange (d.clusters i) c = true)
  ∧ (∀ t, t < d.numTokens → (d.tokens t).cellIndex < d.numCells)
  ∧ (∀ i, i < d.numClusters → ∀ t, t < d.numTokens →
      inTokenRange (d.clusters i) t = inCellRange (d.clusters i) (d.tokens t).cellIndex)
  ∧ (∀ c, c < d.numCells →
      (d.cells c).numConnections ≤ (d.cells c).connectionIndices.length)
  ∧ (∀ i, i < d.numClusters → ∀ c, c < d.numCells → inCellRange (d.clusters i) c = true →
      ∀ k, k < (d.cells c).numConnections →
        inCellRange (d.clusters i) (byteAt (d.cells c).connectionIndices k) = true)

set_option synthInstance.maxSize 1024 in
set_option synthInstance.maxHeartbeats 200000 in
instance (d : DataAccessTO) : Decidable (WellFormed d) := by
  unfold WellFormed
  infer_instance

/-- The cell index `c` lies in the cell range of a live cluster not marked deleted. -/
def inSurvivingCluster (d : DataAccessTO) (ids : List Nat) (c : Nat) : Bool :=
  (List.range d.numClusters).any
    (fun i => !clusterDeleted d ids i && inCellRange (d.clusters i) c)

/-- Number of removed cells below index `j`. -/
def removedCellsBefore (d : DataAccessTO) (ids : List Nat) (j : Nat) : Nat :=
  ((List.range j).filter (cellDeleted d ids)).length

/-- The arena of the deletion example: cluster A (id 100, cells 1, 2, 3, two
tokens on cell 2) followed by cluster B (id 200, cells 4, 5 connected to each
other). -/
def twoClusterArena : DataAccessTO :=
  { DataAccessTO.empty with
    numClusters := 2
    clusters := fun i =>
      if i = 0 then
        { ClusterAccessTO.zero with id := 100, cellStartIndex := 0, numCells := 3,
                                    tokenStartIndex := 0, numTokens := 2 }
      else
        { ClusterAccessTO.zero with id := 200, cellStartIndex := 3, numCells := 2,
                                    tokenStartIndex := 2, numTokens := 0 }
    numCells := 5
    cells := fun c =>
      if c = 3 then { CellAccessTO.zero with id := 4, numConnections := 1,
                                             connectionIndices := [4] }
      else if c = 4 then { CellAccessTO.zero with id := 5, numConnections := 1,
                                                  connectionIndices := [3] }
      else { CellAccessTO.zero with id := c + 1 }
    numTokens := 2
    tokens := fun t => { energy := 10 + t, memory := [t], cellIndex := 1 } }

/-- The converter over `twoClusterArena` with cluster A marked deleted. -/
def deleteA : DataConverter :=
  markDelCluster 100 (sampleConverter twoClusterArena 8 8 8 8)

/-- As `twoClusterArena`, with one token on cell 4 of cluster B. -/
def twoClusterArenaB : DataAccessTO :=
  { twoClusterArena with
    clusters := fun i =>
      if i = 0 then
        { ClusterAccessTO.zero with id := 100, cellStartIndex := 0, numCells := 3,
                                    tokenStartIndex := 0, numTokens := 2 }
      else
        { ClusterAccessTO.zero with id := 200, cellStartIndex := 3, numCells := 2,
                                    tokenStartIndex := 2, numTokens := 1 }
    numTokens := 3
    tokens := fun t =>
      if t = 2 then { energy := 77, memory := [7], cellIndex := 3 }
      else { energy := 10 + t, memory := [t], cellIndex := 1 } }

/-- The converter over `twoClusterArenaB` with cluster A marked deleted. -/
def deleteAB : DataConverter :=
  markDelCluster 100 (sampleConverter twoClusterArenaB 8 8 8 8)


/-! ## Vocabulary of the token statements -/

/-- The live tokens whose owning-cell index is `c`, in token-array order, each
as its energy and its first `size` memory bytes. -/
def tokensOn (d : DataAccessTO) (size c : Nat) : List (ℚ × List Nat) :=
  (((List.range d.numTokens).map d.tokens).filter (fun t => decide (t.cellIndex = c))).map
    (fun t => (t.energy, t.memory.take size))


/-- What the modify phase never touches: the configuration and the marks of the
converter, the cluster, cell and particle counts, every stored id, and every
cluster's cell range; and what it does to the string pool: the cursor does not
go back and no byte below the old cursor changes. -/
structure SameShape (s s' : DataConverter) : Prop where
  parameters : s'.parameters = s.parameters
  cudaConstants : s'.cudaConstants = s.cudaConstants
  limits : s'.limits = s.limits
  cellToModifyById : s'.cellToModifyById = s.cellToModifyById
  clusterToModifyById : s'.clusterToModifyById = s.clusterToModifyById
  particleToModifyById : s'.particleToModifyById = s.particleToModifyById
  numClusters : s'.dataTO.numClusters = s.dataTO.numClusters
  numCells : s'.dataTO.numCells = s.dataTO.numCells
  numParticles : s'.dataTO.numParticles = s.dataTO.numParticles
  clusterId : ∀ i, (s'.dataTO.clusters i).id = (s.dataTO.clusters i).id
  cellStartIndex : ∀ i,
    (s'.dataTO.clusters i).cellStartIndex = (s.dataTO.clusters i).cellStartIndex
  clusterNumCells : ∀ i, (s'.dataTO.clusters i).numCells = (s.dataTO.clusters i).numCells
  cellId : ∀ c, (s'.dataTO.cells c).id = (s.dataTO.cells c).id
  particleId : ∀ p, (s'.dataTO.particles p).id = (s.dataTO.particles p).id
  numStringBytes : s.dataTO.numStringBytes ≤ s'.dataTO.numStringBytes
  stringBytes : ∀ b, b < s.dataTO.numStringBytes →
    s'.dataTO.stringBytes b = s.dataTO.stringBytes b

/-- A token of a delta as the claim describes it: its energy and its data
truncated or zero-padded to `size` bytes. -/
def expectedToken (size : Nat) (t : TokenDescription) : Option ℚ × Option (List Nat) :=
  (t.energy, t.data.map (fun data => convertToArray data [] size))

/-- An arena token seen the same way. -/
def observedToken (v : ℚ × List Nat) : Option ℚ × Option (List Nat) :=
  (some v.1, some v.2)


/-- The converter over `oneTokenArena` in which cell 7 is marked modified with
a token list of two tokens: one whose data is shorter and one whose data is
longer than the 4 bytes of token memory. -/
def replaceTokens : DataConverter :=
  markModifyCluster
    (ClusterChangeDescription.blank 10
      [⟨TrackerState.Modified,
        { CellChangeDescription.blank 7 with
          tokens := some [{ energy := some 5, data := some [1, 2] },
                          { energy := some 6, data := some [1, 2, 3, 4, 5, 6] }] }⟩])
    (sampleConverter oneTokenArena 4 4 4 4)


/-- The converter after the first two loops of `processModifications`. -/
def modifiedClustersAndCells (s : DataConverter) : DataConverter :=
  let s := (List.range s.dataTO.numClusters).foldl processModifications_cluster s
  (List.range s.dataTO.numCells).foldl processModifications_cell s


/-- What the add phase keeps: the configuration, every cluster, cell and
particle id stored below the counts it started from, and every pool byte below
the cursor it started from; the counts and the cursor never go down. -/
structure KeepsLive (s s' : DataConverter) : Prop where
  cudaConstants : s'.cudaConstants = s.cudaConstants
  numClusters : s.dataTO.numClusters ≤ s'.dataTO.numClusters
  numCells : s.dataTO.numCells ≤ s'.dataTO.numCells
  numParticles : s.dataTO.numParticles ≤ s'.dataTO.numParticles
  clusterId : ∀ i, i < s.dataTO.numClusters →
    (s'.dataTO.clusters i).id = (s.dataTO.clusters i).id
  cellId : ∀ c, c < s.dataTO.numCells → (s'.dataTO.cells c).id = (s.dataTO.cells c).id
  particleId : ∀ p, p < s.dataTO.numParticles →
    (s'.dataTO.particles p).id = (s.dataTO.particles p).id
  numStringBytes : s.dataTO.numStringBytes ≤ s'.dataTO.numStringBytes
  stringBytes : ∀ b, b < s.dataTO.numStringBytes →
    s'.dataTO.stringBytes b = s.dataTO.stringBytes b

/-- The converter after the two marking loops of `updateData`. -/
def marked (data : DataChangeDescription) (s : DataConverter) : DataConverter :=
  data.particles.foldl updateData_markParticle (data.clusters.foldl updateData_markCluster s)


/-- The cluster ids a ChangeSet marks deleted, as `updateData` collects them. -/
def deletedClusterIds (data : DataChangeDescription) : List Nat :=
  ((data.clusters.filter (fun t => t.isDeleted)).map (fun t => t.value.id)).reverse

/-- The particle ids a ChangeSet marks deleted, as `updateData` collects them. -/
def deletedParticleIds (data : DataChangeDescription) : List Nat :=
  ((data.particles.filter (fun t => t.isDeleted)).map (fun t => t.value.id)).reverse

/-- A ChangeSet over `twoClusterArenaB`: cluster 100 deleted, the position of
cluster 200 modified, a cluster 300 with one cell and a particle 9 added. -/
def mixedChange : DataChangeDescription :=
  { clusters :=
      [⟨TrackerState.Deleted, ClusterChangeDescription.blank 100 []⟩,
       ⟨TrackerState.Modified,
        { ClusterChangeDescription.blank 200 [] with pos := some ⟨4, 4⟩ }⟩,
       ⟨TrackerState.Added,
        { ClusterChangeDescription.blank 300
            [⟨TrackerState.Added,
              { CellChangeDescription.blank 31 with
                pos := some ⟨1, 2⟩, energy := some 100, maxConnections := some 3 }⟩] with
          pos := some ⟨1, 2⟩, vel := some ⟨0, 0⟩, angle := some 0, angularVel := some 0 }⟩]
    particles :=
      [⟨TrackerState.Added,
        { id := 9, pos := some ⟨0, 0⟩, vel := some ⟨0, 0⟩, energy := some 1,
          metadata := none }⟩] }


/-! ## Read path -/

/-- Modelled from the spec: `Descriptions.h` is not among the sources; the
appending setters of the description classes follow the two that are
(`CellDescription::addToken`, `addConnection`): an absent list is created, then
the value is pushed. -/
def ClusterDescription.addCell (c : ClusterDescription) (cell : CellDescription) :
    ClusterDescription :=
  { c with cells := some (c.cells.getD [] ++ [cell]) }

/-- Modelled from the spec: see `ClusterDescription.addCell`. -/
def DataDescription.addCluster (r : DataDescription) (c : ClusterDescription) :
    DataDescription :=
  { r with clusters := some (r.clusters.getD [] ++ [c]) }

/-- Modelled from the spec: see `ClusterDescription.addCell`. -/
def DataDescription.addParticle (r : DataDescription) (p : ParticleDescription) :
    DataDescription :=
  { r with particles := some (r.particles.getD [] ++ [p]) }

def CellDescription.addToken (c : CellDescription) (value : TokenDescription) :
    CellDescription :=
  { c with tokens := some (c.tokens.getD [] ++ [value]) }

/-- The cluster metadata read back: the name is decoded only when its
recorded length is positive. -/
def readClusterMetadata (d : DataAccessTO) (metadataTO : ClusterMetadataAccessTO) :
    ClusterMetadata :=
  { name := if metadataTO.nameLen > 0
      then fromLatin1 d.stringBytes metadataTO.nameStringIndex metadataTO.nameLen else [] }

/-- The cell metadata read back. -/
def readCellMetadata (d : DataAccessTO) (metadataTO : CellMetadataAccessTO) : CellMetadata :=
  { color := metadataTO.color
    name := if metadataTO.nameLen > 0
      then fromLatin1 d.stringBytes metadataTO.nameStringIndex metadataTO.nameLen else []
    description := if metadataTO.descriptionLen > 0
      then fromLatin1 d.stringBytes metadataTO.descriptionStringIndex metadataTO.descriptionLen
      else []
    computerSourcecode := if metadataTO.sourceCodeLen > 0
      then fromLatin1 d.stringBytes metadataTO.sourceCodeStringIndex metadataTO.sourceCodeLen
      else [] }

/-- The description built for one arena cell in the cluster pass of
`getDataDescription`; its token list is still empty. -/
def readCell (d : DataAccessTO) (cellTO : CellAccessTO) : CellDescription :=
  { id := cellTO.id
    pos := some ⟨cellTO.pos.x, cellTO.pos.y⟩
    energy := some cellTO.energy
    maxConnections := some cellTO.maxConnections
    connectingCells := some ((List.range cellTO.numConnections).map
      (fun i => (d.cells (byteAt cellTO.connectionIndices i)).id))
    tokenBlocked := some cellTO.tokenBlocked
    tokenBranchNumber := some cellTO.branchNumber
    metadata := some (readCellMetadata d cellTO.metadata)
    cellFeature := some
      { type := cellTO.cellFunctionType
        constData := convertToQByteArray cellTO.staticData cellTO.numStaticBytes
        volatileData := convertToQByteArray cellTO.mutableData cellTO.numMutableBytes }
    tokens := some []
    tokenUsages := some cellTO.tokenUsages }

/-- Locals of the cluster pass of `getDataDescription`. -/
structure ReadState where
  result : DataDescription
  cellIndexByCellTOIndex : List (Nat × Nat)
  clusterIndexByCellTOIndex : List (Nat × Nat)

/-- Locals of the cell loop inside the cluster pass. -/
structure ReadClusterState where
  clusterDesc : ClusterDescription
  cellIndexByCellTOIndex : List (Nat × Nat)
  clusterIndexByCellTOIndex : List (Nat × Nat)

def getDataDescription_cell (d : DataAccessTO) (clusterTO : ClusterAccessTO) (i : Nat)
    (st : ReadClusterState) (j : Nat) : ReadClusterState :=
  { clusterDesc := st.clusterDesc.addCell (readCell d (d.cells (clusterTO.cellStartIndex + j)))
    cellIndexByCellTOIndex := (clusterTO.cellStartIndex + j, j) :: st.cellIndexByCellTOIndex
    clusterIndexByCellTOIndex :=
      (clusterTO.cellStartIndex + j, i) :: st.clusterIndexByCellTOIndex }

def getDataDescription_cluster (d : DataAccessTO) (st : ReadState) (i : Nat) : ReadState :=
  let clusterTO := d.clusters i
  let clusterDesc : ClusterDescription :=
    { id := clusterTO.id
      pos := some ⟨clusterTO.pos.x, clusterTO.pos.y⟩
      vel := some ⟨clusterTO.vel.x, clusterTO.vel.y⟩
      angle := some clusterTO.angle
      angularVel := some clusterTO.angularVel
      metadata := some (readClusterMetadata d clusterTO.metadata)
      cells := none }
  let r := (List.range clusterTO.numCells).foldl (getDataDescription_cell d clusterTO i)
    { clusterDesc := clusterDesc
      cellIndexByCellTOIndex := st.cellIndexByCellTOIndex
      clusterIndexByCellTOIndex := st.clusterIndexByCellTOIndex }
  { result := st.result.addCluster r.clusterDesc
    cellIndexByCellTOIndex := r.cellIndexByCellTOIndex
    clusterIndexByCellTOIndex := r.clusterIndexByCellTOIndex }

def getDataDescription_particle (d : DataAccessTO) (result : DataDescription) (i : Nat) :
    DataDescription :=
  let particle := d.particles i
  result.addParticle
    { id := particle.id
      pos := some ⟨particle.pos.x, particle.pos.y⟩
      vel := some ⟨particle.vel.x, particle.vel.y⟩
      energy := some particle.energy
      metadata := some { color := particle.metadata.color } }

/-- `v.at(k)` followed by an in-place change of the element: out of range
when `k` is not an index of `v`. -/
def modifyAt {α : Type} (f : α → Except Failure α) (k : Nat) (v : List α) :
    Except Failure (List α) :=
  match v[k]? with
  | none => Except.error Failure.outOfRange
  | some x =>
    match f x with
    | Except.error e => Except.error e
    | Except.ok y => Except.ok (v.set k y)

/-- The token description built from an arena token. -/
def readToken (size : Nat) (token : TokenAccessTO) : TokenDescription :=
  { energy := some token.energy
    data := some ((List.range size).map (fun i => byteAt token.memory i)) }

def getDataDescription_token (d : DataAccessTO) (size : Nat)
    (cellIndexByCellTOIndex clusterIndexByCellTOIndex : List (Nat × Nat))
    (result : DataDescription) (i : Nat) : Except Failure DataDescription :=
  let token := d.tokens i
  match clusterIndexByCellTOIndex.lookup token.cellIndex with
  | none => Except.error Failure.outOfRange
  | some clusterIndex =>
  match result.clusters with
  | none => Except.error Failure.emptyOptional
  | some clusters =>
  match cellIndexByCellTOIndex.lookup token.cellIndex with
  | none => Except.error Failure.outOfRange
  | some cellIndex =>
  match modifyAt
      (fun cluster =>
        match cluster.cells with
        | none => Except.error Failure.emptyOptional
        | some cells =>
          match modifyAt (fun cell => Except.ok (cell.addToken (readToken size token)))
              cellIndex cells with
          | Except.error e => Except.error e
          | Except.ok cells => Except.ok { cluster with cells := some cells })
      clusterIndex clusters with
  | Except.error e => Except.error e
  | Except.ok clusters => Except.ok { result with clusters := some clusters }

def getDataDescription (s : DataConverter) : Except Failure DataDescription :=
  let d := s.dataTO
  let st := (List.range d.numClusters).foldl (getDataDescription_cluster d)
    { result := { clusters := none, particles := none }
      cellIndexByCellTOIndex := [], clusterIndexByCellTOIndex := [] }
  let result := (List.range d.numParticles).foldl (getDataDescription_particle d) st.result
  (List.range d.numTokens).foldl
    (fun r i =>
      match r with
      | Except.error e => Except.error e
      | Except.ok result =>
        getDataDescription_token d s.parameters.tokenMemorySize st.cellIndexByCellTOIndex
          st.clusterIndexByCellTOIndex result i)
    (Except.ok result)

/-- Modelled from the spec: `ChangeDescriptions.cpp` is not among the sources.
A cell of a snapshot as an Added tracker carrying every field of the cell. -/
def CellChangeDescription.ofDescription (c : CellDescription) : CellChangeDescription :=
  { id := c.id, pos := c.pos, energy := c.energy, maxConnections := c.maxConnections,
    connectingCells := c.connectingCells, tokenBlocked := c.tokenBlocked,
    tokenBranchNumber := c.tokenBranchNumber, metadata := c.metadata,
    cellFeatures := c.cellFeature, tokens := c.tokens, tokenUsages := c.tokenUsages }

/-- Modelled from the spec: see `CellChangeDescription.ofDescription`. -/
def ClusterChangeDescription.ofDescription (c : ClusterDescription) :
    ClusterChangeDescription :=
  { id := c.id, pos := c.pos, vel := c.vel, angle := c.angle, angularVel := c.angularVel,
    metadata := c.metadata
    cells := (c.cells.getD []).map
      (fun cell => ⟨TrackerState.Added, CellChangeDescription.ofDescription cell⟩) }

/-- Modelled from the spec: see `CellChangeDescription.ofDescription`. -/
def ParticleChangeDescription.ofDescription (p : ParticleDescription) :
    ParticleChangeDescription :=
  { id := p.id, pos := p.pos, vel := p.vel, energy := p.energy, metadata := p.metadata }

/-- Modelled from the spec: the ChangeSet that loads the snapshot `g`, every
cluster and every particle marked Added. -/
def DataChangeDescription.ofDescription (g : DataDescription) : DataChangeDescription :=
  { clusters := (g.clusters.getD []).map
      (fun c => ⟨TrackerState.Added, ClusterChangeDescription.ofDescription c⟩)
    particles := (g.particles.getD []).map
      (fun p => ⟨TrackerState.Added, ParticleChangeDescription.ofDescription p⟩) }

/-- The fixture `createSingleCellClusterWithCompleteData(1, 2)` for a cell
memory and a token memory of 4 bytes and a minimal cell energy of 100. -/
def completeCluster : ClusterDescription :=
  { id := 1, pos := some ⟨1, 2⟩, vel := some ⟨-1, 1⟩, angle := some 23,
    angularVel := some (6 / 5)
    metadata := some { name := [110, 97, 109, 101, 50] }
    cells := some
      [{ id := 2, pos := some ⟨1, 2⟩, energy := some 200, maxConnections := some 3,
         connectingCells := none, tokenBlocked := some true, tokenBranchNumber := some 2,
         metadata := some
           { color := 2, name := [110, 97, 109, 101, 49],
             computerSourcecode := [99, 111, 100, 101], description := [100, 101, 115, 99] }
         cellFeature := some
           { type := 1, constData := [49, 50, 51, 49, 50, 51, 49, 50, 51],
             volatileData := [0, 97, 98, 0] }
         tokens := some [{ energy := some 89, data := some [116, 0, 0, 115] }]
         tokenUsages := some 3 }] }

/-- The snapshot holding `completeCluster` and nothing else. -/
def completeData : DataDescription :=
  { clusters := some [completeCluster], particles := none }


/-! ## Vocabulary of the read statements -/

/-- A list as the appending setters leave it: absent when nothing was pushed. -/
def optList {α : Type} (l : List α) : Option (List α) :=
  if l.isEmpty then none else some l

/-- The cell at arena index `c` as `getDataDescription` returns it when its
token list is `tokens`. -/
def cellWith (d : DataAccessTO) (c : Nat) (tokens : List TokenDescription) : CellDescription :=
  { readCell d (d.cells c) with tokens := some tokens }

/-- The cluster at index `i` as `getDataDescription` returns it when the token
list of its `j`-th cell is `tokens j`. -/
def clusterWith (d : DataAccessTO) (i : Nat) (tokens : Nat → List TokenDescription) :
    ClusterDescription :=
  { id := (d.clusters i).id
    pos := some ⟨(d.clusters i).pos.x, (d.clusters i).pos.y⟩
    vel := some ⟨(d.clusters i).vel.x, (d.clusters i).vel.y⟩
    angle := some (d.clusters i).angle
    angularVel := some (d.clusters i).angularVel
    metadata := some (readClusterMetadata d (d.clusters i).metadata)
    cells := optList ((List.range (d.clusters i).numCells).map
      (fun j => cellWith d ((d.clusters i).cellStartIndex + j) (tokens j))) }

/-- The arena tokens hosted by the cell at index `c`, in token-array order,
among the first `m` tokens, as token descriptions. -/
def tokensOfFirst (d : DataAccessTO) (size m c : Nat) : List TokenDescription :=
  (((List.range m).map d.tokens).filter (fun t => decide (t.cellIndex = c))).map
    (readToken size)

/-- The arena tokens hosted by the cell at index `c`, as token descriptions. -/
def tokensOf (d : DataAccessTO) (size c : Nat) : List TokenDescription :=
  tokensOfFirst d size d.numTokens c

/-- The cluster at index `i` as `getDataDescription` returns it. -/
def readCluster (d : DataAccessTO) (size i : Nat) : ClusterDescription :=
  clusterWith d i (fun j => tokensOf d size ((d.clusters i).cellStartIndex + j))

/-- The particle at index `i` as `getDataDescription` returns it. -/
def readParticle (d : DataAccessTO) (i : Nat) : ParticleDescription :=
  { id := (d.particles i).id
    pos := some ⟨(d.particles i).pos.x, (d.particles i).pos.y⟩
    vel := some ⟨(d.particles i).vel.x, (d.particles i).vel.y⟩
    energy := some (d.particles i).energy
    metadata := some { color := (d.particles i).metadata.color } }

/-- The state of the cluster pass of `getDataDescription` after `n` clusters. -/
def readPass (d : DataAccessTO) (n : Nat) : ReadState :=
  (List.range n).foldl (getDataDescription_cluster d)
    { result := { clusters := none, particles := none }
      cellIndexByCellTOIndex := [], clusterIndexByCellTOIndex := [] }


/-! ## Vocabulary of the round trip -/

/-- The default-constructed cell metadata. -/
def CellMetadata.default : CellMetadata :=
  { computerSourcecode := [], name := [], description := [], color := 0 }

/-- A cell metadata as the arena keeps it: the texts in Latin-1. -/
def CellMetadata.normalize (m : CellMetadata) : CellMetadata :=
  { color := m.color
    name := m.name.map toLatin1
    description := m.description.map toLatin1
    computerSourcecode := m.computerSourcecode.map toLatin1 }

/-- A feature as the arena keeps it: each buffer cut to its maximum. -/
def CellFeatureDescription.normalize (limits : ArrayLimits) (f : CellFeatureDescription) :
    CellFeatureDescription :=
  { type := f.type
    constData := f.constData.take limits.MAX_CELL_STATIC_BYTES
    volatileData := f.volatileData.take limits.MAX_CELL_MUTABLE_BYTES }

/-- A token as the arena keeps it: the data cut or zero-padded to `size`. -/
def TokenDescription.normalize (size : Nat) (t : TokenDescription) : TokenDescription :=
  { energy := t.energy, data := t.data.map (fun data => convertToArray data [] size) }

/-- A cell with every absent optional field replaced by the default the add
path stores for it. -/
def CellDescription.normalize (limits : ArrayLimits) (size : Nat) (c : CellDescription) :
    CellDescription :=
  { id := c.id
    pos := c.pos
    energy := c.energy
    maxConnections := c.maxConnections
    connectingCells := some (c.connectingCells.getD [])
    tokenBlocked := some (c.tokenBlocked.getD false)
    tokenBranchNumber := some (c.tokenBranchNumber.getD 0)
    metadata := some ((c.metadata.map CellMetadata.normalize).getD CellMetadata.default)
    cellFeature := some (CellFeatureDescription.normalize limits
      (c.cellFeature.getD
        { type := limits.defaultCellFunction, volatileData := [], constData := [] }))
    tokens := some ((c.tokens.getD []).map (TokenDescription.normalize size))
    tokenUsages := some (c.tokenUsages.getD 0) }

/-- A cluster with every absent optional field replaced by the default the
add path stores for it. -/
def ClusterDescription.normalize (limits : ArrayLimits) (size : Nat) (c : ClusterDescription) :
    ClusterDescription :=
  { id := c.id
    pos := clusterPosOf c
    vel := c.vel
    angle := c.angle
    angularVel := c.angularVel
    metadata := some { name := ((c.metadata.map (fun m => m.name)).getD []).map toLatin1 }
    cells := optList ((c.cells.getD []).map (CellDescription.normalize limits size)) }

/-- A particle with absent metadata replaced by the default colour. -/
def ParticleDescription.normalize (p : ParticleDescription) : ParticleDescription :=
  { p with metadata := some { color := ((p.metadata.map (fun m => m.color)).getD 0) } }

/-- A snapshot in the normal form the arena can hold. -/
def DataDescription.normalize (limits : ArrayLimits) (size : Nat) (g : DataDescription) :
    DataDescription :=
  { clusters := optList ((g.clusters.getD []).map (ClusterDescription.normalize limits size))
    particles := optList ((g.particles.getD []).map ParticleDescription.normalize) }

/-- What the add path needs of a cell: an id of its own, the fields it reads
without a default, and complete tokens. -/
def CellDescription.Loadable (c : CellDescription) : Prop :=
  c.id ≠ 0 ∧ c.pos.isSome = true ∧ c.energy.isSome = true ∧ c.maxConnections.isSome = true
  ∧ ∀ t, t ∈ c.tokens.getD [] → t.energy.isSome = true ∧ t.data.isSome = true

/-- What the add path needs of a cluster: an id of its own, the fields it
reads without a default, a non-empty cell list of loadable cells with pairwise
different ids, and connections that stay inside the cluster. -/
def ClusterDescription.Loadable (c : ClusterDescription) : Prop :=
  c.id ≠ 0 ∧ c.vel.isSome = true ∧ c.angle.isSome = true ∧ c.angularVel.isSome = true
  ∧ c.cells.isSome = true ∧ c.cells.getD [] ≠ []
  ∧ (∀ cell, cell ∈ c.cells.getD [] → cell.Loadable)
  ∧ ((c.cells.getD []).map (fun cell => cell.id)).Nodup
  ∧ ∀ cell, cell ∈ c.cells.getD [] → ∀ k, k ∈ cell.connectingCells.getD [] →
      k ∈ (c.cells.getD []).map (fun cell => cell.id)

/-- What the add path needs of a particle. -/
def ParticleDescription.Loadable (p : ParticleDescription) : Prop :=
  p.id ≠ 0 ∧ p.pos.isSome = true ∧ p.vel.isSome = true ∧ p.energy.isSome = true

/-- A snapshot the add path can load into an arena of the given capacities. -/
def DataDescription.Loadable (consts : CudaConstants) (g : DataDescription) : Prop :=
  (∀ c, c ∈ g.clusters.getD [] → c.Loadable)
  ∧ (∀ p, p ∈ g.particles.getD [] → p.Loadable)
  ∧ (g.clusters.getD []).length ≤ consts.MAX_CLUSTERS
  ∧ (((g.clusters.getD []).map (fun c => (c.cells.getD []).length)).sum) ≤ consts.MAX_CELLS
  ∧ (g.particles.getD []).length ≤ consts.MAX_PARTICLES

instance (c : CellDescription) : Decidable c.Loadable := by
  unfold CellDescription.Loadable
  infer_instance

instance (c : ClusterDescription) : Decidable c.Loadable := by
  unfold ClusterDescription.Loadable
  infer_instance

instance (p : ParticleDescription) : Decidable p.Loadable := by
  unfold ParticleDescription.Loadable
  infer_instance

instance (consts : CudaConstants) (g : DataDescription) : Decidable (g.Loadable consts) := by
  unfold DataDescription.Loadable
  infer_instance

/-- A snapshot in which nothing is left to a default: every optional field
present, texts in Latin-1, feature buffers within their maxima, token data of
exactly `size` bytes, no empty list. -/
def DataDescription.FullySpecified (limits : ArrayLimits) (size : Nat) (g : DataDescription) :
    Prop :=
  g.normalize limits size = g

/-- Sorting by id at every level, as the comparison of the tests does. -/
def sortById (g : DataDescription) : DataDescription :=
  { clusters := g.clusters.map (fun cs =>
      (cs.insertionSort (fun a b => a.id ≤ b.id)).map (fun c =>
        { c with cells := c.cells.map (fun cells =>
            cells.insertionSort (fun a b => a.id ≤ b.id)) }))
    particles := g.particles.map (fun ps => ps.insertionSort (fun a b => a.id ≤ b.id)) }

/-- The fixture with its one absent field, the connection list, made present:
what the round trip returns for `completeData`. -/
def completeDataNormal : DataDescription :=
  { clusters := some
      [{ completeCluster with
         cells := completeCluster.cells.map
           (fun cs => cs.map (fun c => { c with connectingCells := some [] })) }]
    particles := none }


/-- What an append leaves alone: the configuration and everything that was
live in `s` (every cluster, cell, particle and token below the counts of `s`,
every pool byte below its cursor); no count goes down. -/
structure Extends (s s' : DataConverter) : Prop where
  parameters : s'.parameters = s.parameters
  cudaConstants : s'.cudaConstants = s.cudaConstants
  limits : s'.limits = s.limits
  numClusters : s.dataTO.numClusters ≤ s'.dataTO.numClusters
  numCells : s.dataTO.numCells ≤ s'.dataTO.numCells
  numParticles : s.dataTO.numParticles ≤ s'.dataTO.numParticles
  numTokens : s.dataTO.numTokens ≤ s'.dataTO.numTokens
  numStringBytes : s.dataTO.numStringBytes ≤ s'.dataTO.numStringBytes
  clusters : ∀ i, i < s.dataTO.numClusters → s'.dataTO.clusters i = s.dataTO.clusters i
  cells : ∀ c, c < s.dataTO.numCells → s'.dataTO.cells c = s.dataTO.cells c
  particles : ∀ p, p < s.dataTO.numParticles → s'.dataTO.particles p = s.dataTO.particles p
  tokens : ∀ t, t < s.dataTO.numTokens → s'.dataTO.tokens t = s.dataTO.tokens t
  stringBytes : ∀ b, b < s.dataTO.numStringBytes →
    s'.dataTO.stringBytes b = s.dataTO.stringBytes b


/-! ## Vocabulary of the add path -/

/-- One text of a metadata block as the add path interns it: only a
non-empty text is written, an empty one leaves the recorded index alone. -/
def internText (str : QString) (recorded : Nat) (s : DataConverter) : Nat × DataConverter :=
  if str.length > 0 then convertStringAndReturnStringIndex str s else (recorded, s)

/-- The three texts of a cell metadata lie below the pool cursor. -/
structure TextsInside (d : DataAccessTO) (m : CellMetadataAccessTO) : Prop where
  name : m.nameLen > 0 → m.nameStringIndex + m.nameLen ≤ d.numStringBytes
  description : m.descriptionLen > 0 →
    m.descriptionStringIndex + m.descriptionLen ≤ d.numStringBytes
  sourceCode : m.sourceCodeLen > 0 → m.sourceCodeStringIndex + m.sourceCodeLen ≤ d.numStringBytes

/-- The arena cell `cellTO` holds the description `cd`, its connection
targets and its tokens aside. -/
structure CellStored (limits : ArrayLimits) (d : DataAccessTO) (cellTO : CellAccessTO)
    (cd : CellDescription) : Prop where
  id : cellTO.id = cd.id
  pos : some (⟨cellTO.pos.x, cellTO.pos.y⟩ : QVector2D) = cd.pos
  energy : some cellTO.energy = cd.energy
  maxConnections : some cellTO.maxConnections = cd.maxConnections
  numConnections : cellTO.numConnections = (cd.connectingCells.getD []).length
  tokenBlocked : cellTO.tokenBlocked = cd.tokenBlocked.getD false
  branchNumber : cellTO.branchNumber = cd.tokenBranchNumber.getD 0
  tokenUsages : cellTO.tokenUsages = cd.tokenUsages.getD 0
  feature : ({ type := cellTO.cellFunctionType
               constData := convertToQByteArray cellTO.staticData cellTO.numStaticBytes
               volatileData := convertToQByteArray cellTO.mutableData cellTO.numMutableBytes } :
      CellFeatureDescription)
    = CellFeatureDescription.normalize limits
        (cd.cellFeature.getD
          { type := limits.defaultCellFunction, volatileData := [], constData := [] })
  metadata : readCellMetadata d cellTO.metadata
    = (cd.metadata.map CellMetadata.normalize).getD CellMetadata.default
  texts : TextsInside d cellTO.metadata

/-- The arena cell `b` is the cell `a` with other connection targets. -/
def SameButConnections (a b : CellAccessTO) : Prop :=
  ∃ l, b = { a with connectionIndices := l }

/-- Every live token is hosted by a live cell. -/
def TokensHosted (d : DataAccessTO) : Prop :=
  ∀ t, t < d.numTokens → (d.tokens t).cellIndex < d.numCells

/-- An arena in which what the read path follows stays inside the live data:
the name of every live cluster and the texts of every live cell lie below the
pool cursor, and the connection targets of every live cell are live cells. -/
structure Closed (d : DataAccessTO) : Prop where
  names : ∀ i, i < d.numClusters → (d.clusters i).metadata.nameLen > 0 →
    (d.clusters i).metadata.nameStringIndex + (d.clusters i).metadata.nameLen
      ≤ d.numStringBytes
  texts : ∀ c, c < d.numCells → TextsInside d (d.cells c).metadata
  connections : ∀ c, c < d.numCells → ∀ k, k < (d.cells c).numConnections →
    byteAt (d.cells c).connectionIndices k < d.numCells

/-- The state `s'` extends `s` by appended data only: what was live is kept,
and every token appended is owned by an appended cell. -/
structure Appends (s s' : DataConverter) : Prop where
  keeps : Extends s s'
  fresh : ∀ t, s.dataTO.numTokens ≤ t → t < s'.dataTO.numTokens →
    s.dataTO.numCells ≤ (s'.dataTO.tokens t).cellIndex

/-- The cell `cell` after `setConnections` has resolved the connections the
description `cd` declares through the map `m`. -/
def connected (m : List (Nat × Nat)) (cd : CellDescription) (cell : CellAccessTO) :
    CellAccessTO :=
  match cd.connectingCells with
  | some ids => (forEach ids (setConnections_step m) (cell, 0)).state.1
  | none => cell

/-- The cell array after the second loop of `addCluster` went through the
descriptions `cells`, whose cells start at index `x0`. -/
def connectedAt (m : List (Nat × Nat)) (cells : List CellDescription) (x0 : Nat)
    (old : Nat → CellAccessTO) (c : Nat) : CellAccessTO :=
  if x0 ≤ c then
    match cells[c - x0]? with
    | some cd => connected m cd (old c)
    | none => old c
  else old c

/-- The cell `addCell` has built when it reaches the metadata: the fields read
from the description, written over the previous content `previous` of the
slot. -/
def addCell_fields (limits : ArrayLimits) (cd : CellDescription) (pos : QVector2D) (energy : ℚ)
    (maxConnections : Int) (previous : CellAccessTO) : CellAccessTO :=
  { writeCellFeature limits
      (cd.cellFeature.getD
        { type := limits.defaultCellFunction, volatileData := [], constData := [] })
      { previous with
        id := cd.id
        pos := convert pos
        energy := energy
        maxConnections := maxConnections
        branchNumber := cd.tokenBranchNumber.getD 0
        tokenBlocked := cd.tokenBlocked.getD false
        tokenUsages := cd.tokenUsages.getD 0 } with
    numConnections := match cd.connectingCells with
      | some l => l.length
      | none => 0 }


/-! ## Vocabulary of the pool statements -/

/-- A session of the converter as far as the pool is concerned: the texts are
interned one after the other, each after some other work `step.1` of the
converter; the result is the recorded (offset, length) pairs in call order
and the final converter. -/
def internSession (steps : List ((DataConverter → DataConverter) × QString))
    (s : DataConverter) : List (Nat × Nat) × DataConverter :=
  steps.foldl
    (fun acc step =>
      ((acc.1 ++ [((convertStringAndReturnStringIndex step.2 (step.1 acc.2)).1, step.2.length)]),
        (convertStringAndReturnStringIndex step.2 (step.1 acc.2)).2))
    ([], s)


/-- A converter over the empty arena with a metadata pool of 4 bytes. -/
def tinyPoolConverter : DataConverter :=
  DataConverter.create DataAccessTO.empty sampleGen { tokenMemorySize := 4 }
    { MAX_CLUSTERS := 4, MAX_CELLS := 4, MAX_PARTICLES := 4, MAX_TOKENS := 4,
      METADATA_DYNAMIC_MEMORY_SIZE := 4 }
    sampleLimits

/-- A one-cell cluster whose name takes five bytes. -/
def namedCluster : ClusterDescription :=
  { sampleCluster 5 (some [sampleCell 7 none]) with
    metadata := some { name := [110, 97, 109, 101, 50] } }


/-- The capacity errors among the failures. -/
def Failure.isCapacity : Failure → Bool
  | Failure.clusterArrayTooSmall => true
  | Failure.cellArrayTooSmall => true
  | Failure.particleArrayTooSmall => true
  | Failure.tokenArrayTooSmall => true
  | Failure.outOfRange => false
  | Failure.emptyOptional => false


/-- A ChangeSet over `oneTokenArena` (cluster 10, cell 7, no particle) that
only names ids the arena does not hold: cluster 77 Deleted, cluster 78 and its
cell 79 Modified, particle 80 Deleted, particle 81 Modified. -/
def unknownIdChange : DataChangeDescription :=
  { clusters :=
      [⟨TrackerState.Deleted, ClusterChangeDescription.blank 77 []⟩,
       ⟨TrackerState.Modified,
        { ClusterChangeDescription.blank 78
            [⟨TrackerState.Modified,
              { CellChangeDescription.blank 79 with energy := some 55 }⟩] with
          pos := some ⟨4, 4⟩ }⟩]
    particles :=
      [⟨TrackerState.Deleted,
        { id := 80, pos := none, vel := none, energy := none, metadata := none }⟩,
       ⟨TrackerState.Modified,
        { id := 81, pos := none, vel := none, energy := some 1, metadata := none }⟩] }


/-- A cell whose constant feature data are longer than the 4-byte maximum of
`sampleLimits`. -/
def longFeatureCell : CellDescription :=
  { sampleCell 7 none with
    cellFeature := some { type := 1, constData := [1, 2, 3, 4, 5, 6], volatileData := [9, 8] } }


/-- The first loop of `addCluster` after the cells `done`, for the cluster
slot `n`, seen from the state `s1` in which the loop started: what it has left
alone, where the cells and their tokens went, and what the local map holds. -/
structure AddedCells (s1 : DataConverter) (n : Nat) (done : List CellDescription)
    (st : AddState × Bool) : Prop where
  parameters : st.1.1.parameters = s1.parameters
  cudaConstants : st.1.1.cudaConstants = s1.cudaConstants
  limits : st.1.1.limits = s1.limits
  numClusters : st.1.1.dataTO.numClusters = s1.dataTO.numClusters
  numCells : st.1.1.dataTO.numCells = s1.dataTO.numCells + done.length
  numParticles : st.1.1.dataTO.numParticles = s1.dataTO.numParticles
  particles : st.1.1.dataTO.particles = s1.dataTO.particles
  otherClusters : ∀ i, i ≠ n → st.1.1.dataTO.clusters i = s1.dataTO.clusters i
  cluster : ∃ numTokens cellStartIndex, st.1.1.dataTO.clusters n
    = { s1.dataTO.clusters n with numTokens := numTokens, cellStartIndex := cellStartIndex }
  clusterTokens : (st.1.1.dataTO.clusters n).numTokens + s1.dataTO.numTokens
    = (s1.dataTO.clusters n).numTokens + st.1.1.dataTO.numTokens
  first : st.2 = done.isEmpty
  cellStartIndex : done ≠ [] → (st.1.1.dataTO.clusters n).cellStartIndex = s1.dataTO.numCells
  oldCells : ∀ c, c < s1.dataTO.numCells → st.1.1.dataTO.cells c = s1.dataTO.cells c
  numTokens : s1.dataTO.numTokens ≤ st.1.1.dataTO.numTokens
  oldTokens : ∀ t, t < s1.dataTO.numTokens → st.1.1.dataTO.tokens t = s1.dataTO.tokens t
  newTokens : ∀ t, s1.dataTO.numTokens ≤ t → t < st.1.1.dataTO.numTokens →
    s1.dataTO.numCells ≤ (st.1.1.dataTO.tokens t).cellIndex
    ∧ (st.1.1.dataTO.tokens t).cellIndex < st.1.1.dataTO.numCells
  numStringBytes : s1.dataTO.numStringBytes ≤ st.1.1.dataTO.numStringBytes
  stringBytes : ∀ b, b < s1.dataTO.numStringBytes →
    st.1.1.dataTO.stringBytes b = s1.dataTO.stringBytes b
  map : st.1.2 = ((List.range' s1.dataTO.numCells done.length).map
    (fun c => ((st.1.1.dataTO.cells c).id, c))).reverse
  stored : ∀ k (hk : k < done.length),
    CellStored s1.limits st.1.1.dataTO (st.1.1.dataTO.cells (s1.dataTO.numCells + k))
      { done[k] with id := (st.1.1.dataTO.cells (s1.dataTO.numCells + k)).id }
  ids : ∀ k (hk : k < done.length), done[k].id ≠ 0 →
    (st.1.1.dataTO.cells (s1.dataTO.numCells + k)).id = done[k].id
  tokensOf : TokensHosted s1.dataTO → ∀ k (hk : k < done.length),
    tokensOf st.1.1.dataTO s1.parameters.tokenMemorySize (s1.dataTO.numCells + k)
      = (done[k].tokens.getD []).map
          (TokenDescription.normalize s1.parameters.tokenMemorySize)


/-- The two loops of `addCluster`, from the state in which the cluster slot
has been written: append every cell, then resolve the connections. -/
def addCluster_loops (clusterIndex : Nat) (cells : List CellDescription) (s : DataConverter) :
    Step DataConverter :=
  match (forEach cells (addCluster_cell clusterIndex) ((s, []), true)).failure with
  | some f => ⟨(forEach cells (addCluster_cell clusterIndex) ((s, []), true)).state.1.1, some f⟩
  | none =>
    forEach cells
      (addCluster_connect (forEach cells (addCluster_cell clusterIndex) ((s, []), true)).state.1.2)
      (forEach cells (addCluster_cell clusterIndex) ((s, []), true)).state.1.1


/-- Every connection id the cell declares has an entry in the local map. -/
def connectionsResolve (m : List (Nat × Nat)) (cd : CellDescription) : Bool :=
  (cd.connectingCells.getD []).all (fun id => (m.lookup id).isSome)

/-- A one-cell cluster whose cell declares a connection to the id 99, which
no cell of the cluster has. -/
def danglingCluster : ClusterDescription :=
  sampleCluster 5 (some [{ sampleCell 7 none with connectingCells := some [99] }])


/-! ## Vocabulary of the add phase of `updateData` -/

/-- The descriptions `updateData` hands to `addCluster` that have a cell list,
in the order of the trackers: the Added ones. -/
def addedClustersOf (trackers : List (ChangeTracker ClusterChangeDescription)) :
    List ClusterDescription :=
  ((trackers.filter (fun t => t.isAdded)).map
    (fun t => ClusterDescription.ofChange t.getValue)).filter (fun c => c.cells.isSome)

/-- The descriptions `updateData` hands to `addParticle`, in the order of the
trackers: the Added ones. -/
def addedParticlesOf (trackers : List (ChangeTracker ParticleChangeDescription)) :
    List ParticleDescription :=
  (trackers.filter (fun t => t.isAdded)).map (fun t => ParticleDescription.ofChange t.getValue)

/-- Number of cells of a cluster description. -/
def cellCount (c : ClusterDescription) : Nat :=
  (c.cells.getD []).length

/-- A ChangeSet adding a cluster that has no cell. -/
def cellLessChange : DataChangeDescription :=
  { clusters :=
      [⟨TrackerState.Added,
        { ClusterChangeDescription.blank 5 [] with
          pos := some ⟨1, 2⟩, vel := some ⟨0, 0⟩, angle := some 0, angularVel := some 0 }⟩]
    particles := [] }


/-- The cluster loop of the add phase after the descriptions `added` were
appended to the state `s0`: what was live is kept, and the new clusters sit
behind it in order, each with the cell range that starts at the cell count at
the moment it was appended. -/
structure ClustersAdded (s0 : DataConverter) (added : List ClusterDescription)
    (st : DataConverter) : Prop where
  keeps : Extends s0 st
  numClusters : st.dataTO.numClusters = s0.dataTO.numClusters + added.length
  numCells : st.dataTO.numCells = s0.dataTO.numCells + (added.map cellCount).sum
  numParticles : st.dataTO.numParticles = s0.dataTO.numParticles
  cluster : ∀ k (hk : k < added.length),
    (st.dataTO.clusters (s0.dataTO.numClusters + k)).numCells = cellCount added[k]
    ∧ (st.dataTO.clusters (s0.dataTO.numClusters + k)).cellStartIndex
        = s0.dataTO.numCells + ((added.take k).map cellCount).sum
    ∧ (added[k].id ≠ 0 → (st.dataTO.clusters (s0.dataTO.numClusters + k)).id = added[k].id)

/-- The particle loop of the add phase after the descriptions `added` were
appended to the state `s0`. -/
structure ParticlesAdded (s0 : DataConverter) (added : List ParticleDescription)
    (st : DataConverter) : Prop where
  keeps : Extends s0 st
  numParticles : st.dataTO.numParticles = s0.dataTO.numParticles + added.length
  numClusters : st.dataTO.numClusters = s0.dataTO.numClusters
  clusters : st.dataTO.clusters = s0.dataTO.clusters
  numCells : st.dataTO.numCells = s0.dataTO.numCells
  cells : st.dataTO.cells = s0.dataTO.cells
  numTokens : st.dataTO.numTokens = s0.dataTO.numTokens
  tokens : st.dataTO.tokens = s0.dataTO.tokens
  stringBytes : st.dataTO.stringBytes = s0.dataTO.stringBytes
  parameters : st.parameters = s0.parameters
  particle : ∀ k (hk : k < added.length),
    readParticle st.dataTO (s0.dataTO.numParticles + k)
      = { added[k].normalize with id := (st.dataTO.particles (s0.dataTO.numParticles + k)).id }
    ∧ (added[k].id ≠ 0 → (st.dataTO.particles (s0.dataTO.numParticles + k)).id = added[k].id)


/-! ## Vocabulary of the layout statement -/

/-- The arena layout: every cluster's cell range (when not empty) lies inside
the live cells, the cell ranges of distinct clusters share no cell, every
cluster's token range (when not empty) lies inside the live tokens, and a live
token lies in a cluster's token range exactly when the cell that owns it lies
in that cluster's cell range.  (The token ranges of distinct clusters then
share no token either.) -/
def Layout (d : DataAccessTO) : Prop :=
  (∀ i, i < d.numClusters → (d.clusters i).numCells = 0
      ∨ (d.clusters i).cellStartIndex + (d.clusters i).numCells ≤ d.numCells)
  ∧ (∀ i, i < d.numClusters → ∀ j, j < d.numClusters → ∀ c, c < d.numCells →
      inCellRange (d.clusters i) c = true → inCellRange (d.clusters j) c = true → i = j)
  ∧ (∀ i, i < d.numClusters → (d.clusters i).numTokens = 0
      ∨ (0 ≤ (d.clusters i).tokenStartIndex
        ∧ (d.clusters i).tokenStartIndex + ((d.clusters i).numTokens : Int)
            ≤ (d.numTokens : Int)))
  ∧ (∀ i, i < d.numClusters → ∀ t, t < d.numTokens →
      inTokenRange (d.clusters i) t = inCellRange (d.clusters i) (d.tokens t).cellIndex)

instance (d : DataAccessTO) : Decidable (Layout d) := by
  unfold Layout
  infer_instance

/-- Every live token is owned by a cell of some live cluster. -/
def TokensOwned (d : DataAccessTO) : Prop :=
  ∀ t, t < d.numTokens →
    ∃ i, i < d.numClusters ∧ inCellRange (d.clusters i) (d.tokens t).cellIndex = true

instance (d : DataAccessTO) : Decidable (TokensOwned d) := by
  unfold TokensOwned
  infer_instance

/-- No two live cells have the same id. -/
def DistinctCellIds (d : DataAccessTO) : Prop :=
  ∀ c, c < d.numCells → ∀ c', c' < d.numCells → (d.cells c).id = (d.cells c').id → c = c'

instance (d : DataAccessTO) : Decidable (DistinctCellIds d) := by
  unfold DistinctCellIds
  infer_instance

/-- An arena with the layout of the data model in which two cells of two
clusters have the same id 5: cluster 10 owns cell 0 and the token 0 on it,
cluster 20 owns cell 1 and no token. -/
def sharedIdArena : DataAccessTO :=
  { DataAccessTO.empty with
    numClusters := 2
    clusters := fun i =>
      if i = 0 then
        { ClusterAccessTO.zero with id := 10, cellStartIndex := 0, numCells := 1,
                                    tokenStartIndex := 0, numTokens := 1 }
      else
        { ClusterAccessTO.zero with id := 20, cellStartIndex := 1, numCells := 1,
                                    tokenStartIndex := 1, numTokens := 0 }
    numCells := 2
    cells := fun _ => { CellAccessTO.zero with id := 5 }
    numTokens := 1
    tokens := fun _ => { energy := 10, memory := [1, 2, 3, 4], cellIndex := 0 } }

/-- The ChangeSet that changes nothing. -/
def emptyChange : DataChangeDescription :=
  { clusters := [], particles := [] }

/-- Nothing but the cell array differs between the arenas of `s` and `s'`. -/
def OnlyCells (s s' : DataConverter) : Prop :=
  s'.dataTO = { s.dataTO with cells := s'.dataTO.cells }


/-- The token array and the token count of `s'` are those of `s`. -/
def SameTokens (s s' : DataConverter) : Prop :=
  s'.dataTO.tokens = s.dataTO.tokens ∧ s'.dataTO.numTokens = s.dataTO.numTokens

/-- Between `s` and `s'`, `n` tokens were pushed behind the live tokens, each
owned by a cell index with the property `P`; the cluster array and the tokens
that were live are as they were. -/
structure Pushed (P : Nat → Prop) (n : Nat) (s s' : DataConverter) : Prop where
  clusters : s'.dataTO.clusters = s.dataTO.clusters
  numTokens : s'.dataTO.numTokens = s.dataTO.numTokens + n
  old : ∀ t, t < s.dataTO.numTokens → s'.dataTO.tokens t = s.dataTO.tokens t
  fresh : ∀ t, s.dataTO.numTokens ≤ t → t < s'.dataTO.numTokens →
    P (s'.dataTO.tokens t).cellIndex

/-- The rebuild of the cluster `k`, part way through its cells, seen from the
state `s0` in which its token range was reset to start at the token count `a`:
the other clusters are as they were, the token range of `k` starts at `a` and
reaches the token count, the tokens below `a` are as they were and every token
from `a` on is owned by a cell of the cluster. -/
structure RebuiltCells (k a : Nat) (s0 st : DataConverter) : Prop where
  others : ∀ i, i ≠ k → st.dataTO.clusters i = s0.dataTO.clusters i
  tokenStartIndex : (st.dataTO.clusters k).tokenStartIndex = (a : Int)
  count : (st.dataTO.clusters k).numTokens + a = st.dataTO.numTokens
  old : ∀ t, t < a → st.dataTO.tokens t = s0.dataTO.tokens t
  fresh : ∀ t, a ≤ t → t < st.dataTO.numTokens →
    inCellRange (s0.dataTO.clusters k) (st.dataTO.tokens t).cellIndex = true

/-- The token rebuild after the clusters below `k`: each of them has a token
range inside the live tokens, every token of such a range is owned by a cell of
the cluster, and every live token lies in one of these ranges. -/
structure Rebuilt (k : Nat) (st : DataConverter) : Prop where
  start : ∀ i, i < k → 0 ≤ (st.dataTO.clusters i).tokenStartIndex
    ∧ (st.dataTO.clusters i).tokenStartIndex + ((st.dataTO.clusters i).numTokens : Int)
        ≤ (st.dataTO.numTokens : Int)
  owned : ∀ i, i < k → ∀ t, inTokenRange (st.dataTO.clusters i) t = true →
    inCellRange (st.dataTO.clusters i) (st.dataTO.tokens t).cellIndex = true
  covered : ∀ t, t < st.dataTO.numTokens →
    ∃ i, i < k ∧ inTokenRange (st.dataTO.clusters i) t = true


/-- What a normally returning `addCluster` of the description `c` with the
cell list `cells` has stored in the state `F`, seen from the state `s` it
started in: the cluster in the slot at the old cluster count with its header
fields and its name, each cell at its index behind the old cells with its
fields, texts and tokens, and each declared connection resolved to the index of
the cell of the cluster that has the declared id. -/
structure ClusterLoaded (s : DataConverter) (c : ClusterDescription)
    (cells : List CellDescription) (F : DataConverter) : Prop where
  id : (F.dataTO.clusters s.dataTO.numClusters).id = c.id
  pos : some (⟨(F.dataTO.clusters s.dataTO.numClusters).pos.x,
      (F.dataTO.clusters s.dataTO.numClusters).pos.y⟩ : QVector2D) = clusterPosOf c
  vel : some (⟨(F.dataTO.clusters s.dataTO.numClusters).vel.x,
      (F.dataTO.clusters s.dataTO.numClusters).vel.y⟩ : QVector2D) = c.vel
  angle : some (F.dataTO.clusters s.dataTO.numClusters).angle = c.angle
  angularVel : some (F.dataTO.clusters s.dataTO.numClusters).angularVel = c.angularVel
  numCells : (F.dataTO.clusters s.dataTO.numClusters).numCells = cells.length
  cellStartIndex : (F.dataTO.clusters s.dataTO.numClusters).cellStartIndex = s.dataTO.numCells
  name : readClusterMetadata F.dataTO (F.dataTO.clusters s.dataTO.numClusters).metadata
    = { name := ((c.metadata.map (fun md => md.name)).getD []).map toLatin1 }
  nameInside : (F.dataTO.clusters s.dataTO.numClusters).metadata.nameLen > 0 →
    (F.dataTO.clusters s.dataTO.numClusters).metadata.nameStringIndex
      + (F.dataTO.clusters s.dataTO.numClusters).metadata.nameLen ≤ F.dataTO.numStringBytes
  stored : ∀ j (hj : j < cells.length),
    CellStored s.limits F.dataTO (F.dataTO.cells (s.dataTO.numCells + j)) cells[j]
  targets : ∀ j (hj : j < cells.length) i
    (hi : i < (cells[j].connectingCells.getD []).length),
    ∃ k, ∃ hk : k < cells.length,
      byteAt (F.dataTO.cells (s.dataTO.numCells + j)).connectionIndices i = s.dataTO.numCells + k
      ∧ cells[k].id = (cells[j].connectingCells.getD [])[i]
  tokens : ∀ j (hj : j < cells.length),
    tokensOf F.dataTO s.parameters.tokenMemorySize (s.dataTO.numCells + j)
      = (cells[j].tokens.getD []).map
          (TokenDescription.normalize s.parameters.tokenMemorySize)


/-- Buffer maxima that hold the feature data of the fixture. -/
def fixtureLimits : ArrayLimits :=
  { MAX_CELL_STATIC_BYTES := 16, MAX_CELL_MUTABLE_BYTES := 16, defaultCellFunction := 0 }

/-- Capacities of four of each entity and a 64-byte metadata pool. -/
def fixtureConstants : CudaConstants :=
  { MAX_CLUSTERS := 4, MAX_CELLS := 4, MAX_PARTICLES := 4, MAX_TOKENS := 4,
    METADATA_DYNAMIC_MEMORY_SIZE := 64 }

/-- A fresh converter over the empty arena, with a 4-byte token memory. -/
def fixtureConverter : DataConverter :=
  DataConverter.create DataAccessTO.empty sampleGen { tokenMemorySize := 4 } fixtureConstants
    fixtureLimits

/-- The snapshot `completeDataNormal` with the cluster named by the single
code unit U+03BB, which has no Latin-1 byte. -/
def greekData : DataDescription :=
  { clusters := completeDataNormal.clusters.map
      (fun cs => cs.map (fun c => { c with metadata := some { name := [955] } }))
    particles := none }

/-- The names of the clusters of a snapshot, in order. -/
def clusterNames (g : DataDescription) : List (Option QString) :=
  (g.clusters.getD []).map (fun c => c.metadata.map (fun m => m.name))

/-- The connection lists of the cells of a snapshot, cluster by cluster. -/
def connectionLists (g : DataDescription) : List (List (Option (List Nat))) :=
  (g.clusters.getD []).map (fun c => (c.cells.getD []).map (fun cell => cell.connectingCells))


/-- A ChangeSet over `oneTokenArena` that sets the blocked flag of cell 7 of
cluster 10 and nothing else. -/
def blockChange : DataChangeDescription :=
  { clusters :=
      [⟨TrackerState.Modified,
        ClusterChangeDescription.blank 10
          [⟨TrackerState.Modified,
            { CellChangeDescription.blank 7 with tokenBlocked := some true }⟩]⟩]
    particles := [] }


/-! ## Engine settings (`EngineGpuData.cpp`) -/

/-- Modelled from the spec: the twelve settings of the source's
`CudaConstants`, whose header `CudaConstants.h` is not part of the sources, each
a 32-bit signed integer as the values of the `map<string, int>` that
`EngineGpuData` stores.  `CudaConstants` above keeps the five capacities the
converter works with. -/
structure CudaSettings where
  NUM_THREADS_PER_BLOCK : Int
  NUM_BLOCKS : Int
  MAX_CLUSTERS : Int
  MAX_CELLS : Int
  MAX_PARTICLES : Int
  MAX_TOKENS : Int
  MAX_CELLPOINTERS : Int
  MAX_CLUSTERPOINTERS : Int
  MAX_PARTICLEPOINTERS : Int
  MAX_TOKENPOINTERS : Int
  DYNAMIC_MEMORY_SIZE : Int
  METADATA_DYNAMIC_MEMORY_SIZE : Int
deriving DecidableEq

/-- The values a 32-bit signed integer takes. -/
def isInt32 (x : Int) : Prop := -2147483648 ≤ x ∧ x < 2147483648

instance (x : Int) : Decidable (isInt32 x) := by
  unfold isInt32; infer_instance

/-- Every field of the settings is a 32-bit signed integer. -/
def CudaSettings.Valid (c : CudaSettings) : Prop :=
  isInt32 c.NUM_THREADS_PER_BLOCK ∧ isInt32 c.NUM_BLOCKS ∧ isInt32 c.MAX_CLUSTERS
  ∧ isInt32 c.MAX_CELLS ∧ isInt32 c.MAX_PARTICLES ∧ isInt32 c.MAX_TOKENS
  ∧ isInt32 c.MAX_CELLPOINTERS ∧ isInt32 c.MAX_CLUSTERPOINTERS
  ∧ isInt32 c.MAX_PARTICLEPOINTERS ∧ isInt32 c.MAX_TOKENPOINTERS
  ∧ isInt32 c.DYNAMIC_MEMORY_SIZE ∧ isInt32 c.METADATA_DYNAMIC_MEMORY_SIZE

instance (c : CudaSettings) : Decidable c.Valid := by
  unfold CudaSettings.Valid; infer_instance

/-- The 32-bit signed integer a product of two `int`s is stored as: the value
modulo 2^32 in the range from -2^31. -/
def wrapInt32 (x : Int) : Int := (x + 2147483648) % 4294967296 - 2147483648

def numThreadsPerBlock_key : String := "numThreadsPerBlock"
def numBlocks_key : String := "numBlocks"
def maxClusters_key : String := "maxClusters"
def maxCells_key : String := "maxCells"
def maxParticles_key : String := "maxParticles"
def maxTokens_key : String := "maxTokens"
def dynamicMemorySize_key : String := "dynamicMemorySize"
def metadataDynamicMemorySize_key : String := "metadataDynamicMemorySize"

/-- The settings map `_data` of `EngineGpuData`, a `map<string, int>`, as an
association list. -/
structure EngineGpuData where
  data : List (String × Int)
deriving DecidableEq

/-- The call `map::insert_or_assign`: the value of an existing key is replaced,
a new key is added. -/
def insert_or_assign (m : List (String × Int)) (k : String) (v : Int) : List (String × Int) :=
  if (m.lookup k).isSome then m.map (fun kv => if kv.1 == k then (k, v) else kv)
  else (k, v) :: m

/-- The call `map::at`: it throws when the key is absent. -/
def mapAt (m : List (String × Int)) (k : String) : Except Failure Int :=
  match m.lookup k with
  | some v => Except.ok v
  | none => Except.error Failure.outOfRange

/-- The constructor `EngineGpuData::EngineGpuData(CudaConstants const&)`: eight
of the twelve settings are stored, the pointer maxima are not. -/
def EngineGpuData.ofCudaConstants (value : CudaSettings) : EngineGpuData :=
  let d0 : List (String × Int) := []
  let d1 := insert_or_assign d0 numThreadsPerBlock_key value.NUM_THREADS_PER_BLOCK
  let d2 := insert_or_assign d1 numBlocks_key value.NUM_BLOCKS
  let d3 := insert_or_assign d2 maxClusters_key value.MAX_CLUSTERS
  let d4 := insert_or_assign d3 maxCells_key value.MAX_CELLS
  let d5 := insert_or_assign d4 maxParticles_key value.MAX_PARTICLES
  let d6 := insert_or_assign d5 maxTokens_key value.MAX_TOKENS
  let d7 := insert_or_assign d6 dynamicMemorySize_key value.DYNAMIC_MEMORY_SIZE
  let d8 := insert_or_assign d7 metadataDynamicMemorySize_key value.METADATA_DYNAMIC_MEMORY_SIZE
  { data := d8 }

/-- The method `EngineGpuData::getCudaConstants`: eight settings are read from
the map, each pointer maximum is the element maximum times 10 in `int`
arithmetic. -/
def EngineGpuData.getCudaConstants (e : EngineGpuData) : Except Failure CudaSettings :=
  match mapAt e.data numThreadsPerBlock_key with
  | Except.error f => Except.error f
  | Except.ok numThreads =>
  match mapAt e.data numBlocks_key with
  | Except.error f => Except.error f
  | Except.ok numBlocks =>
  match mapAt e.data maxClusters_key with
  | Except.error f => Except.error f
  | Except.ok maxClusters =>
  match mapAt e.data maxCells_key with
  | Except.error f => Except.error f
  | Except.ok maxCells =>
  match mapAt e.data maxParticles_key with
  | Except.error f => Except.error f
  | Except.ok maxParticles =>
  match mapAt e.data maxTokens_key with
  | Except.error f => Except.error f
  | Except.ok maxTokens =>
  match mapAt e.data dynamicMemorySize_key with
  | Except.error f => Except.error f
  | Except.ok dynamicMemorySize =>
  match mapAt e.data metadataDynamicMemorySize_key with
  | Except.error f => Except.error f
  | Except.ok metadataDynamicMemorySize =>
    Except.ok
      { NUM_THREADS_PER_BLOCK := numThreads
        NUM_BLOCKS := numBlocks
        MAX_CLUSTERS := maxClusters
        MAX_CELLS := maxCells
        MAX_PARTICLES := maxParticles
        MAX_TOKENS := maxTokens
        MAX_CELLPOINTERS := wrapInt32 (maxCells * 10)
        MAX_CLUSTERPOINTERS := wrapInt32 (maxClusters * 10)
        MAX_PARTICLEPOINTERS := wrapInt32 (maxParticles * 10)
        MAX_TOKENPOINTERS := wrapInt32 (maxTokens * 10)
        DYNAMIC_MEMORY_SIZE := dynamicMemorySize
        METADATA_DYNAMIC_MEMORY_SIZE := metadataDynamicMemorySize }

/-- Settings with room for 300 million cells, and pointer maxima that the
round trip is to overwrite. -/
def largeSettings : CudaSettings :=
  { NUM_THREADS_PER_BLOCK := 64, NUM_BLOCKS := 64, MAX_CLUSTERS := 1000,
    MAX_CELLS := 300000000, MAX_PARTICLES := 1000, MAX_TOKENS := 1000,
    MAX_CELLPOINTERS := 5, MAX_CLUSTERPOINTERS := 6, MAX_PARTICLEPOINTERS := 7,
    MAX_TOKENPOINTERS := 8, DYNAMIC_MEMORY_SIZE := 100000,
    METADATA_DYNAMIC_MEMORY_SIZE := 100000 }

/-- Settings of moderate size, with pointer maxima that the round trip is to
overwrite. -/
def smallSettings : CudaSettings :=
  { NUM_THREADS_PER_BLOCK := 64, NUM_BLOCKS := 64, MAX_CLUSTERS := 1000,
    MAX_CELLS := 3000, MAX_PARTICLES := 2000, MAX_TOKENS := 500,
    MAX_CELLPOINTERS := 5, MAX_CLUSTERPOINTERS := 6, MAX_PARTICLEPOINTERS := 7,
    MAX_TOKENPOINTERS := 8, DYNAMIC_MEMORY_SIZE := 100000,
    METADATA_DYNAMIC_MEMORY_SIZE := 100000 }

/-- A cluster of two cells: the first has the id 0, so that it is given a
fresh id, and declares a connection to the second, whose id is 7. -/
def freshIdCluster : ClusterDescription :=
  sampleCluster 5
    (some [{ sampleCell 0 none with connectingCells := some [7] }, sampleCell 7 none])

/-- An arena without live entities whose cell slots still hold the connection
index 3 of an earlier use. -/
def staleArena : DataAccessTO :=
  { DataAccessTO.empty with
    cells := fun _ => { CellAccessTO.zero with numConnections := 1, connectionIndices := [3] } }

/-- A cluster of two cells with ids of their own, 7 and 9, each declaring a
connection to the other. -/
def mutualCluster : ClusterDescription :=
  sampleCluster 5
    (some [{ sampleCell 7 none with connectingCells := some [9] },
           { sampleCell 9 none with connectingCells := some [7] }])

/-- A cluster of two cells that share the id 7; the first declares a
connection to the id 7. -/
def twinCluster : ClusterDescription :=
  sampleCluster 5
    (some [{ sampleCell 7 none with connectingCells := some [7] }, sampleCell 7 none])

/-- A ChangeSet over `twoClusterArena`: cluster 100 is Deleted, and cluster 200
is Modified with the tracker of its cell 4 marked Deleted. -/
def cellDeletionChange : DataChangeDescription :=
  { clusters :=
      [⟨TrackerState.Deleted, ClusterChangeDescription.blank 100 []⟩,
       ⟨TrackerState.Modified,
        ClusterChangeDescription.blank 200
          [⟨TrackerState.Deleted, CellChangeDescription.blank 4⟩]⟩]
    particles := [] }

/-- A ChangeSet over `twoClusterArena`: cluster 200 is Modified with the tracker
of its cell 4 marked Deleted, and a cluster 300 is Added whose two cell trackers
are one Added and one Deleted. -/
def cellDeletionOnlyChange : DataChangeDescription :=
  { clusters :=
      [⟨TrackerState.Modified,
        ClusterChangeDescription.blank 200
          [⟨TrackerState.Deleted, CellChangeDescription.blank 4⟩]⟩,
       ⟨TrackerState.Added,
        { ClusterChangeDescription.blank 300
            [⟨TrackerState.Added,
              { CellChangeDescription.blank 31 with
                pos := some ⟨1, 2⟩, energy := some 100, maxConnections := some 3 }⟩,
             ⟨TrackerState.Deleted, CellChangeDescription.blank 32⟩] with
          pos := some ⟨1, 2⟩, vel := some ⟨0, 0⟩, angle := some 0, angularVel := some 0 }⟩]
    particles := [] }

/-! ## Vocabulary of the read statements without disjoint cell ranges -/

/-- The tokens among the first `m` that the token pass of `getDataDescription`
pushes onto the `j`-th cell of the cluster `i`: those whose owning-cell index
the two index maps of the cluster pass resolve to `i` and `j`. -/
def tokensPushed (d : DataAccessTO) (size : Nat) (m1 m2 : List (Nat × Nat)) (m i j : Nat) :
    List TokenDescription :=
  (((List.range m).map d.tokens).filter
    (fun t => decide (m2.lookup t.cellIndex = some i ∧ m1.lookup t.cellIndex = some j))).map
    (readToken size)

/-- Number of tokens of a snapshot, over all cells of all clusters. -/
def tokenCount (g : DataDescription) : Nat :=
  ((g.clusters.getD []).map
    (fun c => ((c.cells.getD []).map (fun cell => (cell.tokens.getD []).length)).sum)).sum

/-- The ids and connection lists of a snapshot's cells, cluster by cluster,
each cluster with its id. -/
def connectionView (g : DataDescription) : List (Nat × List (Nat × Option (List Nat))) :=
  (g.clusters.getD []).map
    (fun c => (c.id, (c.cells.getD []).map (fun cell => (cell.id, cell.connectingCells))))

/-- The token lists of a snapshot's cells, cluster by cluster. -/
def tokenView (g : DataDescription) : List (List (Option (List TokenDescription))) :=
  (g.clusters.getD []).map (fun c => (c.cells.getD []).map (fun cell => cell.tokens))

/-- An arena in which two clusters claim the same cell 0, which hosts the one
live token. -/
def sharedCellArena : DataAccessTO :=
  { DataAccessTO.empty with
    numClusters := 2
    clusters := fun i =>
      if i = 0 then
        { ClusterAccessTO.zero with id := 10, cellStartIndex := 0, numCells := 1,
                                    tokenStartIndex := 0, numTokens := 1 }
      else
        { ClusterAccessTO.zero with id := 20, cellStartIndex := 0, numCells := 1,
                                    tokenStartIndex := 0, numTokens := 1 }
    numCells := 1
    cells := fun _ => { CellAccessTO.zero with id := 5 }
    numTokens := 1
    tokens := fun _ => { energy := 10, memory := [1, 2, 3, 4], cellIndex := 0 } }

/-- The number of tokens of each cell of a snapshot, cluster by cluster. -/
def tokenNumbers (g : DataDescription) : List (List Nat) :=
  (g.clusters.getD []).map (fun c => (c.cells.getD []).map (fun cell => (cell.tokens.getD []).length))

/-- The cell ranges of distinct live clusters share no index. -/
def DisjointCellRanges (d : DataAccessTO) : Prop :=
  ∀ i, i < d.numClusters → ∀ j, j < d.numClusters → i ≠ j →
    (d.clusters i).numCells = 0 ∨ (d.clusters j).numCells = 0
    ∨ (d.clusters i).cellStartIndex + (d.clusters i).numCells ≤ (d.clusters j).cellStartIndex
    ∨ (d.clusters j).cellStartIndex + (d.clusters j).numCells ≤ (d.clusters i).cellStartIndex

instance (d : DataAccessTO) : Decidable (DisjointCellRanges d) := by
  unfold DisjointCellRanges
  infer_instance

/-! ## Vocabulary of the statement on deletion and reading -/

/-- The live tokens of an arena, in token-array order. -/
def liveTokens (d : DataAccessTO) : List TokenAccessTO :=
  (List.range d.numTokens).map d.tokens

/-- The live tokens whose owning-cell index is `c`, in token-array order. -/
def hostedBy (d : DataAccessTO) (c : Nat) : List TokenAccessTO :=
  (liveTokens d).filter (fun t => decide (t.cellIndex = c))

/-- The cell indices of the first `k` clusters, cluster by cluster, in the
order in which the token rebuild of `processModifications` visits them. -/
def clusterCells (d : DataAccessTO) (k : Nat) : List Nat :=
  (List.range k).flatMap
    (fun i => List.range' (d.clusters i).cellStartIndex (d.clusters i).numCells)

/-- The arena without its tokens and without the token ranges of its clusters. -/
def tokenFree (d : DataAccessTO) : DataAccessTO :=
  { d with
    numTokens := 0
    tokens := fun _ => TokenAccessTO.zero
    clusters := fun i => { d.clusters i with numTokens := 0, tokenStartIndex := 0 } }

/-- Nothing but the tokens and the token ranges of the clusters differs between
`a` and `st`. -/
def Regrouped (a st : DataConverter) : Prop :=
  st.withDataTO a.dataTO = a ∧ tokenFree st.dataTO = tokenFree a.dataTO

/-- A snapshot with the clusters and the particles removed whose ids are in
the given lists; a list from which everything was removed is absent, as in a
snapshot read from an arena without clusters or without particles. -/
def DataDescription.without (g : DataDescription) (clusterIds particleIds : List Nat) :
    DataDescription :=
  { clusters := optList ((g.clusters.getD []).filter (fun c => decide (c.id ∉ clusterIds)))
    particles := optList ((g.particles.getD []).filter (fun p => decide (p.id ∉ particleIds))) }

/-- A ChangeSet over `twoClusterArenaB` that deletes cluster 100. -/
def deletionChange : DataChangeDescription :=
  { clusters := [⟨TrackerState.Deleted, ClusterChangeDescription.blank 100 []⟩]
    particles := [] }

/-! ## Single-precision values

The arena keeps positions, velocities, angles and energies in `float` fields,
and `QVector2D` has `float` components; the descriptions hold angles and
energies as `double`.  The model keeps all of them as rationals and stores the
value it is given unchanged, which is what the code does exactly when the
value is a single-precision number.  `isFloat32` picks those values out. -/

/-- The finite values of the IEEE 754 single-precision format, the values a
`float` holds without rounding: `±m · 2^e` with `m < 2^24` and
`-149 ≤ e ≤ 104`.  With `N = |q| · 2^149` this reads: `N` is a natural number
of the form `m · 2^t` with `t ≤ 253`. -/
def isFloat32 (q : ℚ) : Prop :=
  q.den ∣ 2 ^ 149
  ∧ ∃ t, t < 254 ∧ (q.num.natAbs * (2 ^ 149 / q.den)) % 2 ^ t = 0
      ∧ (q.num.natAbs * (2 ^ 149 / q.den)) / 2 ^ t < 2 ^ 24

instance (q : ℚ) : Decidable (isFloat32 q) := by
  unfold isFloat32
  infer_instance

/-- An optional `double` that, when present, is a single-precision value. -/
def floatOrAbsent (o : Option ℚ) : Prop :=
  ∀ q, q ∈ o → isFloat32 q

/-- An optional vector that, when present, has single-precision components,
as every `QVector2D` has. -/
def floatVectorOrAbsent (o : Option QVector2D) : Prop :=
  ∀ v, v ∈ o → isFloat32 v.x ∧ isFloat32 v.y

instance (o : Option ℚ) : Decidable (floatOrAbsent o) := by
  unfold floatOrAbsent
  infer_instance

instance (o : Option QVector2D) : Decidable (floatVectorOrAbsent o) := by
  unfold floatVectorOrAbsent
  infer_instance

/-- A cell whose position, energy and token energies are single-precision
values. -/
def CellDescription.FloatValued (c : CellDescription) : Prop :=
  floatVectorOrAbsent c.pos ∧ floatOrAbsent c.energy
  ∧ ∀ t, t ∈ c.tokens.getD [] → floatOrAbsent t.energy

/-- A cluster whose position, velocity, angle and angular velocity are
single-precision values, and whose cells are `FloatValued`. -/
def ClusterDescription.FloatValued (c : ClusterDescription) : Prop :=
  floatVectorOrAbsent c.pos ∧ floatVectorOrAbsent c.vel ∧ floatOrAbsent c.angle
  ∧ floatOrAbsent c.angularVel
  ∧ ∀ cell, cell ∈ c.cells.getD [] → cell.FloatValued

/-- A particle whose position, velocity and energy are single-precision
values. -/
def ParticleDescription.FloatValued (p : ParticleDescription) : Prop :=
  floatVectorOrAbsent p.pos ∧ floatVectorOrAbsent p.vel ∧ floatOrAbsent p.energy

/-- A snapshot in which every number that the arena keeps in a `float` field
is a single-precision value, so that storing it does not round it. -/
def DataDescription.FloatValued (g : DataDescription) : Prop :=
  (∀ c, c ∈ g.clusters.getD [] → c.FloatValued)
  ∧ ∀ p, p ∈ g.particles.getD [] → p.FloatValued

/-- A snapshot in which every cluster states its position, so that the add
path does not compute it as the mean of the cell positions. -/
def DataDescription.PositionsStated (g : DataDescription) : Prop :=
  ∀ c, c ∈ g.clusters.getD [] → c.pos.isSome = true

instance (c : CellDescription) : Decidable c.FloatValued := by
  unfold CellDescription.FloatValued
  infer_instance

instance (c : ClusterDescription) : Decidable c.FloatValued := by
  unfold ClusterDescription.FloatValued
  infer_instance

instance (p : ParticleDescription) : Decidable p.FloatValued := by
  unfold ParticleDescription.FloatValued
  infer_instance

instance (g : DataDescription) : Decidable g.FloatValued := by
  unfold DataDescription.FloatValued
  infer_instance

instance (g : DataDescription) : Decidable g.PositionsStated := by
  unfold DataDescription.PositionsStated
  infer_instance

/-- The snapshot `completeDataNormal` with the angular velocity 1.25, which is
a single-precision value, in place of 1.2, which is none. -/
def completeDataFloat : DataDescription :=
  { clusters := completeDataNormal.clusters.map
      (fun cs => cs.map (fun c => { c with angularVel := some (5 / 4) }))
    particles := none }
/-! # Theorems -/

/-! ## Selective modification -/

/-- C5. A cell delta in which only the energy is present sets the energy and
leaves the rest of the cell (id, position, max connections, connection count
and indices, branch number, blocked flag, usage counter, feature type and
bytes, metadata) and the rest of the converter untouched; and for each of the
three overloads of `applyChangeDescription`, a field absent from the delta is
left as it was, the string pool included. -/
theorem C5_selective_modification (cellChanges : CellChangeDescription)
    (clusterChanges : ClusterChangeDescription) (particleChanges : ParticleChangeDescription)
    (cellTO : CellAccessTO) (clusterTO : ClusterAccessTO) (particle : ParticleAccessTO)
    (s : DataConverter) :
    (∀ e, cellChanges.energy = some e → cellChanges.pos = none →
      cellChanges.maxConnections = none → cellChanges.tokenBranchNumber = none →
      cellChanges.cellFeatures = none → cellChanges.metadata = none →
      cellChanges.tokenUsages = none →
      applyChangeDescription_cell cellChanges cellTO s = ({ cellTO with energy := e }, s))
    ∧ ((applyChangeDescription_cell cellChanges cellTO s).1.id = cellTO.id
      ∧ (applyChangeDescription_cell cellChanges cellTO s).1.numConnections
          = cellTO.numConnections
      ∧ (applyChangeDescription_cell cellChanges cellTO s).1.connectionIndices
          = cellTO.connectionIndices
      ∧ (applyChangeDescription_cell cellChanges cellTO s).1.tokenBlocked = cellTO.tokenBlocked
      ∧ (cellChanges.pos = none →
          (applyChangeDescription_cell cellChanges cellTO s).1.pos = cellTO.pos)
      ∧ (cellChanges.maxConnections = none →
          (applyChangeDescription_cell cellChanges cellTO s).1.maxConnections
            = cellTO.maxConnections)
      ∧ (cellChanges.energy = none →
          (applyChangeDescription_cell cellChanges cellTO s).1.energy = cellTO.energy)
      ∧ (cellChanges.tokenBranchNumber = none →
          (applyChangeDescription_cell cellChanges cellTO s).1.branchNumber
            = cellTO.branchNumber)
      ∧ (cellChanges.tokenUsages = none →
          (applyChangeDescription_cell cellChanges cellTO s).1.tokenUsages = cellTO.tokenUsages)
      ∧ (cellChanges.cellFeatures = none →
          (applyChangeDescription_cell cellChanges cellTO s).1.cellFunctionType
            = cellTO.cellFunctionType
          ∧ (applyChangeDescription_cell cellChanges cellTO s).1.numStaticBytes
            = cellTO.numStaticBytes
          ∧ (applyChangeDescription_cell cellChanges cellTO s).1.staticData = cellTO.staticData
          ∧ (applyChangeDescription_cell cellChanges cellTO s).1.numMutableBytes
            = cellTO.numMutableBytes
          ∧ (applyChangeDescription_cell cellChanges cellTO s).1.mutableData
            = cellTO.mutableData)
      ∧ (cellChanges.metadata = none →
          (applyChangeDescription_cell cellChanges cellTO s).1.metadata = cellTO.metadata
          ∧ (applyChangeDescription_cell cellChanges cellTO s).2 = s))
    ∧ ((applyChangeDescription_cluster clusterChanges clusterTO s).1.id = clusterTO.id
      ∧ (applyChangeDescription_cluster clusterChanges clusterTO s).1.numCells
          = clusterTO.numCells
      ∧ (applyChangeDescription_cluster clusterChanges clusterTO s).1.cellStartIndex
          = clusterTO.cellStartIndex
      ∧ (applyChangeDescription_cluster clusterChanges clusterTO s).1.numTokens
          = clusterTO.numTokens
      ∧ (applyChangeDescription_cluster clusterChanges clusterTO s).1.tokenStartIndex
          = clusterTO.tokenStartIndex
      ∧ (clusterChanges.pos = none →
          (applyChangeDescription_cluster clusterChanges clusterTO s).1.pos = clusterTO.pos)
      ∧ (clusterChanges.vel = none →
          (applyChangeDescription_cluster clusterChanges clusterTO s).1.vel = clusterTO.vel)
      ∧ (clusterChanges.angle = none →
          (applyChangeDescription_cluster clusterChanges clusterTO s).1.angle = clusterTO.angle)
      ∧ (clusterChanges.angularVel = none →
          (applyChangeDescription_cluster clusterChanges clusterTO s).1.angularVel
            = clusterTO.angularVel)
      ∧ (clusterChanges.metadata = none →
          (applyChangeDescription_cluster clusterChanges clusterTO s).1.metadata
            = clusterTO.metadata
          ∧ (applyChangeDescription_cluster clusterChanges clusterTO s).2 = s))
    ∧ ((applyChangeDescription_particle particleChanges particle).id = particle.id
      ∧ (particleChanges.pos = none →
          (applyChangeDescription_particle particleChanges particle).pos = particle.pos)
      ∧ (particleChanges.vel = none →
          (applyChangeDescription_particle particleChanges particle).vel = particle.vel)
      ∧ (particleChanges.energy = none →
          (applyChangeDescription_particle particleChanges particle).energy = particle.energy)
      ∧ (particleChanges.metadata = none →
          (applyChangeDescription_particle particleChanges particle).metadata
            = particle.metadata)) := by
  refine ⟨?_, ?_, ?_, ?_⟩
  · intro e h1 h2 h3 h4 h5 h6 h7
    simp [applyChangeDescription_cell, h1, h2, h3, h4, h5, h6, h7]
  · rcases cellChanges with ⟨id, pos, energy, maxC, conn, blocked, branch, md, feat, toks, usages⟩
    cases pos <;> cases energy <;> cases maxC <;> cases branch <;> cases feat <;> cases md <;>
      cases usages <;> simp [applyChangeDescription_cell, writeCellFeature]
  · rcases clusterChanges with ⟨id, pos, vel, angle, angularVel, md, cells⟩
    cases pos <;> cases vel <;> cases angle <;> cases angularVel <;> cases md <;>
      simp [applyChangeDescription_cluster] <;> split <;> simp
  · rcases particleChanges with ⟨id, pos, vel, energy, md⟩
    cases pos <;> cases vel <;> cases energy <;> cases md <;>
      simp [applyChangeDescription_particle]

/-- C5, run on a concrete cell: an energy-only delta applied to a cell with
two connections, feature bytes and metadata. -/
theorem C5_selective_modification_witness :
    applyChangeDescription_cell { CellChangeDescription.blank 7 with energy := some 55 }
        { CellAccessTO.zero with id := 7, numConnections := 2, connectionIndices := [1, 2],
                                 staticData := [9, 9], energy := 3 }
        (sampleConverter DataAccessTO.empty 1 1 1 1)
      = ({ { CellAccessTO.zero with id := 7, numConnections := 2, connectionIndices := [1, 2],
                                    staticData := [9, 9], energy := 3 } with energy := 55 },
         sampleConverter DataAccessTO.empty 1 1 1 1) :=
  (C5_selective_modification { CellChangeDescription.blank 7 with energy := some 55 }
    (ClusterChangeDescription.blank 0 [])
    { id := 0, pos := none, vel := none, energy := none, metadata := none }
    { CellAccessTO.zero with id := 7, numConnections := 2, connectionIndices := [1, 2],
                             staticData := [9, 9], energy := 3 }
    ClusterAccessTO.zero ParticleAccessTO.zero
    (sampleConverter DataAccessTO.empty 1 1 1 1)).1 55 rfl rfl rfl rfl rfl rfl rfl

/-! ## Capacity checks of the add path -/

/-- C8. On an arena whose cluster count equals `MAX_CLUSTERS`, `addCluster` of
any description that has a cell list fails with the cluster capacity error;
`addParticle` fails with the particle capacity error when the particle count
equals `MAX_PARTICLES`; `addCell` fails with the cell capacity error when the
cell count equals `MAX_CELLS`. -/
theorem C8_capacity_failure (clusterDesc : ClusterDescription) (cells : List CellDescription)
    (particleDesc : ParticleDescription) (cellDesc : CellDescription) (clusterIndex : Nat)
    (cellIndexTOByIds : List (Nat × Nat)) (s : DataConverter) :
    (clusterDesc.cells = some cells → s.dataTO.numClusters = s.cudaConstants.MAX_CLUSTERS →
      (addCluster clusterDesc s).failure = some Failure.clusterArrayTooSmall)
    ∧ (s.dataTO.numParticles = s.cudaConstants.MAX_PARTICLES →
      (addParticle particleDesc s).failure = some Failure.particleArrayTooSmall)
    ∧ (s.dataTO.numCells = s.cudaConstants.MAX_CELLS →
      (addCell cellDesc clusterIndex (s, cellIndexTOByIds)).failure
        = some Failure.cellArrayTooSmall) := by
  refine ⟨?_, ?_, ?_⟩
  · intro h1 h2
    simp [addCluster, h1, h2, DataConverter.withDataTO]
  · intro h
    simp [addParticle, h, DataConverter.withDataTO]
  · intro h
    simp [addCell, h, DataConverter.withDataTO]

/-- C8, run on the arena that is full in all three arrays. -/
theorem C8_capacity_failure_witness :
    (addCluster (sampleCluster 5 (some [sampleCell 7 none])) fullConverter).failure
        = some Failure.clusterArrayTooSmall
    ∧ (addParticle (sampleParticle 9) fullConverter).failure
        = some Failure.particleArrayTooSmall
    ∧ (addCell (sampleCell 7 none) 0 (fullConverter, [])).failure
        = some Failure.cellArrayTooSmall :=
  ⟨(C8_capacity_failure (sampleCluster 5 (some [sampleCell 7 none])) [sampleCell 7 none]
      (sampleParticle 9) (sampleCell 7 none) 0 [] fullConverter).1 rfl rfl,
   (C8_capacity_failure (sampleCluster 5 (some [sampleCell 7 none])) [sampleCell 7 none]
      (sampleParticle 9) (sampleCell 7 none) 0 [] fullConverter).2.1 rfl,
   (C8_capacity_failure (sampleCluster 5 (some [sampleCell 7 none])) [sampleCell 7 none]
      (sampleParticle 9) (sampleCell 7 none) 0 [] fullConverter).2.2 rfl⟩

/-- C9, as stated, fails: on the full arena the rejected `addCluster` leaves
the cluster count at 2, not at the 1 it had before the call. -/
theorem C9_count_changed_by_failed_addCluster :
    (addCluster (sampleCluster 5 (some [sampleCell 7 none])) fullConverter).failure
        = some Failure.clusterArrayTooSmall
    ∧ fullConverter.dataTO.numClusters = 1
    ∧ (addCluster (sampleCluster 5 (some [sampleCell 7 none])) fullConverter).state.dataTO.numClusters
        = 2 := by
  decide

/-- C9, amended. When `addCluster` is called with a cell list on an arena whose
cluster count has reached `MAX_CLUSTERS`, it fails with the cluster capacity
error having advanced the cluster count by one (the cursor is post-incremented
before the comparison) and nothing else: every array, the other four counts,
the id source and the marks are as before the call. -/
theorem C9_failed_addCluster_advances_count (clusterDesc : ClusterDescription)
    (cells : List CellDescription) (s : DataConverter)
    (hcells : clusterDesc.cells = some cells)
    (hfull : s.cudaConstants.MAX_CLUSTERS ≤ s.dataTO.numClusters) :
    (addCluster clusterDesc s).failure = some Failure.clusterArrayTooSmall
    ∧ (addCluster clusterDesc s).state.dataTO.numClusters = s.dataTO.numClusters + 1
    ∧ (addCluster clusterDesc s).state
        = s.withDataTO { s.dataTO with numClusters := s.dataTO.numClusters + 1 } := by
  simp [addCluster, hcells, hfull, DataConverter.withDataTO]

/-- C9 amended, run on the full arena. -/
theorem C9_failed_addCluster_advances_count_witness :
    (addCluster (sampleCluster 5 (some [sampleCell 7 none])) fullConverter).failure
        = some Failure.clusterArrayTooSmall
    ∧ (addCluster (sampleCluster 5 (some [sampleCell 7 none])) fullConverter).state.dataTO.numClusters
        = fullConverter.dataTO.numClusters + 1
    ∧ (addCluster (sampleCluster 5 (some [sampleCell 7 none])) fullConverter).state
        = fullConverter.withDataTO
            { fullConverter.dataTO with numClusters := fullConverter.dataTO.numClusters + 1 } :=
  C9_failed_addCluster_advances_count (sampleCluster 5 (some [sampleCell 7 none]))
    [sampleCell 7 none] fullConverter rfl (by decide)

/-- C10 fails on the code: on the empty arena with `MAX_TOKENS = 1`, adding a
cluster whose cell carries two tokens returns normally with a token count of 2;
the token loop of `addCell` advances the cursor without the comparison that the
rebuild loops of `processModifications` make. -/
theorem C10_added_tokens_pass_capacity :
    (sampleConverter DataAccessTO.empty 1 1 1 1).dataTO.numTokens = 0
    ∧ (sampleConverter DataAccessTO.empty 1 1 1 1).cudaConstants.MAX_TOKENS = 1
    ∧ (updateData twoTokenChange (sampleConverter DataAccessTO.empty 1 1 1 1)).failure = none
    ∧ (updateData twoTokenChange
        (sampleConverter DataAccessTO.empty 1 1 1 1)).state.dataTO.numTokens = 2 := by
  decide

/-! ## Token rebuild of the modify phase -/

/-- C4 fails on the code: cell 7 hosts one token, the ChangeSet changes only
the cell's energy, and after `updateData` (which returns normally, the energy
being 55) the arena has no token left.  In the rebuild a cell that has a delta
takes the delta branch, and with no token list there nothing is written; the
carry-over branch is only reached by cells without any delta. -/
theorem C4_tokens_dropped_by_energy_delta :
    oneTokenArena.numTokens = 1
    ∧ (oneTokenArena.tokens 0).cellIndex = 0
    ∧ (updateData energyOnlyChange (sampleConverter oneTokenArena 4 4 4 4)).failure = none
    ∧ ((updateData energyOnlyChange
        (sampleConverter oneTokenArena 4 4 4 4)).state.dataTO.cells 0).energy = 55
    ∧ (updateData energyOnlyChange
        (sampleConverter oneTokenArena 4 4 4 4)).state.dataTO.numTokens = 0 := by
  decide


theorem rank_zero (del : Nat → Bool) : rank del 0 = 0 := rfl

theorem rank_succ (del : Nat → Bool) (n : Nat) :
    rank del (n + 1) = rank del n + (if del n then 0 else 1) := by
  unfold rank
  rw [List.range_succ, List.filter_append, List.length_append]
  cases h : del n <;> simp [h]

theorem rank_le (del : Nat → Bool) (n : Nat) : rank del n ≤ n := by
  induction n with
  | zero => simp [rank_zero]
  | succ n ih => rw [rank_succ]; split <;> omega

theorem rank_mono (del : Nat → Bool) {m n : Nat} (h : m ≤ n) : rank del m ≤ rank del n := by
  induction n with
  | zero =>
    have : m = 0 := by omega
    subst this; exact le_refl _
  | succ n ih =>
    rcases Nat.lt_or_ge m (n + 1) with h1 | h1
    · have := ih (by omega)
      rw [rank_succ]; omega
    · have : m = n + 1 := by omega
      subst this; exact le_refl _

theorem rank_lt (del : Nat → Bool) {j n : Nat} (hj : j < n) (hd : del j = false) :
    rank del j < rank del n := by
  have h1 : rank del (j + 1) = rank del j + 1 := by rw [rank_succ]; simp [hd]
  have h2 := rank_mono del (show j + 1 ≤ n by omega)
  omega

/-- Survivors are moved to pairwise different positions. -/
theorem rank_injective (del : Nat → Bool) {i j : Nat} (hi : del i = false) (hj : del j = false)
    (h : rank del i = rank del j) : i = j := by
  rcases Nat.lt_trichotomy i j with h1 | h1 | h1
  · have := rank_lt del h1 hi; omega
  · exact h1
  · have := rank_lt del h1 hj; omega

theorem survivors_succ (del : Nat → Bool) (n : Nat) :
    survivors del (n + 1) = survivors del n ++ (if del n then [] else [n]) := by
  unfold survivors
  rw [List.range_succ, List.filter_append]
  cases h : del n <;> simp [h]

/-- From the pointwise description of a compacted array to its list form. -/
theorem map_range_rank {β : Type} (del : Nat → Bool) (g h : Nat → β) (n : Nat)
    (hgh : ∀ j, j < n → del j = false → g (rank del j) = h j) :
    (List.range (rank del n)).map g = (survivors del n).map h := by
  induction n with
  | zero => simp [rank_zero, survivors]
  | succ n ih =>
    have ih' := ih (fun j hj hd => hgh j (by omega) hd)
    rw [rank_succ, survivors_succ]
    cases hd : del n
    · simp only [Bool.false_eq_true, if_false, List.range_succ, List.map_append, ih',
        List.map_cons, List.map_nil]
      rw [hgh n (by omega) hd]
    · simp [ih']

theorem scanInv_foldl {S α : Type} (arr : S → Nat → α) (off : S → Nat) (step : S → Nat → S)
    (del : Nat → Bool) (f : α → α) (a : Nat → α) (st0 : S)
    (h0 : off st0 = 0) (ha : arr st0 = a)
    (hdel : ∀ st n, arr st n = a n → del n = true →
      off (step st n) = off st + 1 ∧ ∀ j, j ≠ n → arr (step st n) j = arr st j)
    (hkeep : ∀ st n, arr st n = a n → off st ≤ n → del n = false →
      off (step st n) = off st ∧ arr (step st n) (n - off st) = f (a n)
        ∧ ∀ j, j ≠ n → j ≠ n - off st → arr (step st n) j = arr st j)
    (n : Nat) : ScanInv arr off del f a ((List.range n).foldl step st0) n := by
  induction n with
  | zero =>
    refine ⟨by simp [h0, rank_zero], fun j _ => by simp [ha], fun j hj => by omega⟩
  | succ n ih =>
    rw [List.range_succ, List.foldl_append]
    simp only [List.foldl_cons, List.foldl_nil]
    generalize (List.range n).foldl step st0 = st at ih ⊢
    obtain ⟨hoff, hrest, hmoved⟩ := ih
    have hn : arr st n = a n := hrest n (le_refl _)
    cases hd : del n
    · obtain ⟨ho, hw, hframe⟩ := hkeep st n hn (by omega) hd
      have hr : rank del (n + 1) = rank del n + 1 := by rw [rank_succ]; simp [hd]
      have hpos : n - off st = rank del n := by omega
      refine ⟨by omega, ?_, ?_⟩
      · intro j hj
        have := rank_le del n
        rw [hframe j (by omega) (by omega)]
        exact hrest j (by omega)
      · intro j hj hdj
        rcases Nat.lt_or_ge j n with h1 | h1
        · have h2 := rank_lt del h1 hdj
          have h3 := rank_le del j
          rw [hframe _ (by omega) (by omega)]
          exact hmoved j h1 hdj
        · have : j = n := by omega
          subst this
          rw [← hpos]; exact hw
    · obtain ⟨ho, hframe⟩ := hdel st n hn hd
      have hr : rank del (n + 1) = rank del n := by rw [rank_succ]; simp [hd]
      refine ⟨by omega, ?_, ?_⟩
      · intro j hj
        rw [hframe j (by omega)]
        exact hrest j (by omega)
      · intro j hj hdj
        have hjn : j ≠ n := by
          intro e; subst e; simp [hd] at hdj
        have h3 := rank_le del j
        rw [hframe _ (by omega)]
        exact hmoved j (by omega) hdj


/-! ## The four scans of `processDeletions` -/

theorem clusterScan_inv (d : DataAccessTO) (ids : List Nat) (n : Nat) :
    ScanInv ClusterScan.clusters ClusterScan.clusterIndexCopyOffset (clusterDeleted d ids) id
      d.clusters (clusterScan d ids n) n := by
  unfold clusterScan
  apply scanInv_foldl
  · rfl
  · rfl
  · intro st n hn hd
    simp only [clusterDeleted, decide_eq_true_eq] at hd
    simp [processDeletions_cluster, hn, hd]
  · intro st n hn hle hd
    simp only [clusterDeleted, decide_eq_false_iff_not] at hd
    simp only [processDeletions_cluster, hn, hd, if_false]
    by_cases h0 : st.clusterIndexCopyOffset > 0
    · have hne : n - st.clusterIndexCopyOffset ≠ n := by omega
      by_cases h1 : st.tokenIndexCopyOffset > 0
      · simp only [h0, h1, if_true]
        refine ⟨trivial, ?_, ?_⟩
        · simp [Function.update_noteq hne]
        · intro j hj1 hj2
          simp [Function.update_noteq hj1, Function.update_noteq hj2]
      · simp only [h0, h1, if_true, if_false]
        refine ⟨trivial, by simp, ?_⟩
        intro j hj1 hj2
        simp [Function.update_noteq hj2]
    · have h00 : st.clusterIndexCopyOffset = 0 := by omega
      simp [h0, h00, hn]

theorem cellScan_inv (d : DataAccessTO) (del : List Nat) (n : Nat) :
    ScanInv CellScan.cells CellScan.cellIndexCopyOffset (fun c => decide (c ∈ del)) id
      d.cells (cellScan d del n) n := by
  unfold cellScan
  apply scanInv_foldl
  · rfl
  · rfl
  · intro st n _ hd
    simp only [decide_eq_true_eq] at hd
    simp [processDeletions_cell, hd]
  · intro st n hn hle hd
    simp only [decide_eq_false_iff_not] at hd
    simp only [processDeletions_cell, hd, if_false]
    by_cases h0 : st.cellIndexCopyOffset > 0
    · simp only [h0, if_true]
      refine ⟨trivial, by simp [hn], ?_⟩
      intro j _ hj2
      simp [Function.update_noteq hj2]
    · have h00 : st.cellIndexCopyOffset = 0 := by omega
      simp [h0, h00, hn]

theorem tokenScan_inv (d : DataAccessTO) (m : List (Nat × Nat)) (del : List Int) (n : Nat) :
    ScanInv TokenScan.tokens TokenScan.tokenIndexCopyOffset
      (fun t => decide ((t : Int) ∈ del))
      (fun t => { t with cellIndex := remapIndex m t.cellIndex })
      d.tokens (tokenScan d m del n) n := by
  unfold tokenScan
  apply scanInv_foldl
  · rfl
  · rfl
  · intro st n _ hd
    simp only [decide_eq_true_eq] at hd
    simp only [processDeletions_token, hd, if_true]
    refine ⟨trivial, ?_⟩
    intro j hj
    simp [Function.update_noteq hj]
  · intro st n hn hle hd
    simp only [decide_eq_false_iff_not] at hd
    simp only [processDeletions_token, hd, if_false]
    by_cases h0 : st.tokenIndexCopyOffset > 0
    · simp only [h0, if_true]
      refine ⟨trivial, by simp [hn], ?_⟩
      intro j hj1 hj2
      simp [Function.update_noteq hj1, Function.update_noteq hj2]
    · have h00 : st.tokenIndexCopyOffset = 0 := by omega
      rw [if_neg h0]
      have e : n - st.tokenIndexCopyOffset = n := by omega
      refine ⟨rfl, by rw [e]; simp [hn], ?_⟩
      intro j hj1 _
      simp [Function.update_noteq hj1]

theorem particleScan_inv (d : DataAccessTO) (ids : List Nat) (n : Nat) :
    ScanInv ParticleScan.particles ParticleScan.particleIndexCopyOffset
      (particleDeleted d ids) id d.particles (particleScan d ids n) n := by
  unfold particleScan
  apply scanInv_foldl
  · rfl
  · rfl
  · intro st n hn hd
    simp only [particleDeleted, decide_eq_true_eq] at hd
    simp [processDeletions_particle, hn, hd]
  · intro st n hn hle hd
    simp only [particleDeleted, decide_eq_false_iff_not] at hd
    simp only [processDeletions_particle, hn, hd, if_false]
    by_cases h0 : st.particleIndexCopyOffset > 0
    · simp only [h0, if_true]
      refine ⟨trivial, by simp, ?_⟩
      intro j _ hj2
      simp [Function.update_noteq hj2]
    · have h00 : st.particleIndexCopyOffset = 0 := by omega
      simp [h0, h00, hn]


theorem clusterScan_succ (d : DataAccessTO) (ids : List Nat) (n : Nat) :
    clusterScan d ids (n + 1) = processDeletions_cluster ids (clusterScan d ids n) n := by
  simp [clusterScan, List.range_succ, List.foldl_append]

theorem cellScan_succ (d : DataAccessTO) (del : List Nat) (n : Nat) :
    cellScan d del (n + 1) = processDeletions_cell del (cellScan d del n) n := by
  simp [cellScan, List.range_succ, List.foldl_append]

/-- The cell indices recorded by the cluster scan are those of the cell
ranges of the deleted clusters seen so far. -/
theorem mem_cellIndicesToDelete (d : DataAccessTO) (ids : List Nat) (n c : Nat) :
    c ∈ (clusterScan d ids n).cellIndicesToDelete
      ↔ ∃ i, i < n ∧ clusterDeleted d ids i = true ∧ inCellRange (d.clusters i) c = true := by
  induction n with
  | zero => simp [clusterScan]
  | succ n ih =>
    have hn : (clusterScan d ids n).clusters n = d.clusters n :=
      (clusterScan_inv d ids n).rest n (le_refl _)
    rw [clusterScan_succ]
    by_cases hd : (d.clusters n).id ∈ ids
    · have e : (processDeletions_cluster ids (clusterScan d ids n) n).cellIndicesToDelete
          = (List.range (d.clusters n).numCells).map
              (fun cellIndex => (d.clusters n).cellStartIndex + cellIndex)
            ++ (clusterScan d ids n).cellIndicesToDelete := by
        simp [processDeletions_cluster, hn, hd]
      rw [e, List.mem_append, ih]
      constructor
      · rintro (h | ⟨i, hi, h⟩)
        · refine ⟨n, by omega, by simp [clusterDeleted, hd], ?_⟩
          simp only [List.mem_map, List.mem_range] at h
          obtain ⟨k, hk, rfl⟩ := h
          simp [inCellRange]; omega
        · exact ⟨i, by omega, h⟩
      · rintro ⟨i, hi, h1, h2⟩
        rcases Nat.lt_or_ge i n with h | h
        · exact Or.inr ⟨i, h, h1, h2⟩
        · have : i = n := by omega
          subst this
          left
          simp only [inCellRange, decide_eq_true_eq] at h2
          simp only [List.mem_map, List.mem_range]
          exact ⟨c - (d.clusters i).cellStartIndex, by omega, by omega⟩
    · have e : (processDeletions_cluster ids (clusterScan d ids n) n).cellIndicesToDelete
          = (clusterScan d ids n).cellIndicesToDelete := by
        simp only [processDeletions_cluster, hn, hd, if_false]
        split
        · split <;> rfl
        · rfl
      rw [e, ih]
      constructor
      · rintro ⟨i, hi, h⟩
        exact ⟨i, by omega, h⟩
      · rintro ⟨i, hi, h1, h2⟩
        rcases Nat.lt_or_ge i n with h | h
        · exact ⟨i, h, h1, h2⟩
        · have : i = n := by omega
          subst this
          simp [clusterDeleted, hd] at h1

/-- The token indices recorded by the cluster scan are those of the token
ranges of the deleted clusters seen so far. -/
theorem mem_tokenIndicesToDelete (d : DataAccessTO) (ids : List Nat) (n t : Nat) :
    (t : Int) ∈ (clusterScan d ids n).tokenIndicesToDelete
      ↔ ∃ i, i < n ∧ clusterDeleted d ids i = true ∧ inTokenRange (d.clusters i) t = true := by
  induction n with
  | zero => simp [clusterScan]
  | succ n ih =>
    have hn : (clusterScan d ids n).clusters n = d.clusters n :=
      (clusterScan_inv d ids n).rest n (le_refl _)
    rw [clusterScan_succ]
    by_cases hd : (d.clusters n).id ∈ ids
    · have e : (processDeletions_cluster ids (clusterScan d ids n) n).tokenIndicesToDelete
          = (List.range (d.clusters n).numTokens).map
              (fun (tokenIndex : Nat) => (d.clusters n).tokenStartIndex + (tokenIndex : Int))
            ++ (clusterScan d ids n).tokenIndicesToDelete := by
        simp [processDeletions_cluster, hn, hd]
      rw [e, List.mem_append, ih]
      constructor
      · rintro (h | ⟨i, hi, h⟩)
        · refine ⟨n, by omega, by simp [clusterDeleted, hd], ?_⟩
          obtain ⟨k, hk, hk2⟩ := List.mem_map.mp h
          rw [List.mem_range] at hk
          simp only [inTokenRange, decide_eq_true_eq]; omega
        · exact ⟨i, by omega, h⟩
      · rintro ⟨i, hi, h1, h2⟩
        rcases Nat.lt_or_ge i n with h | h
        · exact Or.inr ⟨i, h, h1, h2⟩
        · have : i = n := by omega
          subst this
          left
          simp only [inTokenRange, decide_eq_true_eq] at h2
          apply List.mem_map.mpr
          refine ⟨((t : Int) - (d.clusters i).tokenStartIndex).toNat, ?_, ?_⟩
          · rw [List.mem_range]; omega
          · omega
    · have e : (processDeletions_cluster ids (clusterScan d ids n) n).tokenIndicesToDelete
          = (clusterScan d ids n).tokenIndicesToDelete := by
        simp only [processDeletions_cluster, hn, hd, if_false]
        split
        · split <;> rfl
        · rfl
      rw [e, ih]
      constructor
      · rintro ⟨i, hi, h⟩
        exact ⟨i, by omega, h⟩
      · rintro ⟨i, hi, h1, h2⟩
        rcases Nat.lt_or_ge i n with h | h
        · exact ⟨i, h, h1, h2⟩
        · have : i = n := by omega
          subst this
          simp [clusterDeleted, hd] at h1

theorem decide_mem_cellIndicesToDelete (d : DataAccessTO) (ids : List Nat) (c : Nat) :
    decide (c ∈ (clusterScan d ids d.numClusters).cellIndicesToDelete) = cellDeleted d ids c := by
  rw [Bool.eq_iff_iff]
  simp only [decide_eq_true_eq, mem_cellIndicesToDelete, cellDeleted, List.any_eq_true,
    List.mem_range, Bool.and_eq_true]

theorem decide_mem_tokenIndicesToDelete (d : DataAccessTO) (ids : List Nat) (t : Nat) :
    decide ((t : Int) ∈ (clusterScan d ids d.numClusters).tokenIndicesToDelete)
      = tokenDeleted d ids t := by
  rw [Bool.eq_iff_iff]
  simp only [decide_eq_true_eq, mem_tokenIndicesToDelete, tokenDeleted, List.any_eq_true,
    List.mem_range, Bool.and_eq_true]

/-- The old-to-new map of the cell scan: a binding for exactly the survivors
that were moved, to their rank. -/
theorem lookup_newByOldCellIndex (d : DataAccessTO) (del : List Nat) (n j : Nat) :
    (cellScan d del n).newByOldCellIndex.lookup j
      = if j < n ∧ j ∉ del ∧ rank (fun c => decide (c ∈ del)) j < j
        then some (rank (fun c => decide (c ∈ del)) j) else none := by
  induction n with
  | zero => simp [cellScan]
  | succ n ih =>
    have hinv := cellScan_inv d del n
    have hoff := hinv.off_eq
    rw [cellScan_succ]
    by_cases hd : n ∈ del
    · have e : (processDeletions_cell del (cellScan d del n) n).newByOldCellIndex
          = (cellScan d del n).newByOldCellIndex := by
        simp [processDeletions_cell, hd]
      rw [e, ih]
      by_cases hjn : j = n
      · subst hjn; simp [hd]
      · exact if_congr ⟨fun h => ⟨by omega, h.2⟩, fun h => ⟨by omega, h.2⟩⟩ rfl rfl
    · by_cases h0 : (cellScan d del n).cellIndexCopyOffset > 0
      · have e : (processDeletions_cell del (cellScan d del n) n).newByOldCellIndex
            = (n, n - (cellScan d del n).cellIndexCopyOffset)
                :: (cellScan d del n).newByOldCellIndex := by
          simp [processDeletions_cell, hd, h0]
        rw [e]
        by_cases hjn : j = n
        · subst hjn
          have hlt : rank (fun c => decide (c ∈ del)) j < j := by omega
          have hpos : j - (cellScan d del j).cellIndexCopyOffset
              = rank (fun c => decide (c ∈ del)) j := by omega
          simp [List.lookup, hd, hlt, hpos]
        · have hb : (j == n) = false := by simp [hjn]
          simp only [List.lookup, hb]
          rw [ih]
          exact if_congr ⟨fun h => ⟨by omega, h.2⟩, fun h => ⟨by omega, h.2⟩⟩ rfl rfl
      · have e : (processDeletions_cell del (cellScan d del n) n).newByOldCellIndex
            = (cellScan d del n).newByOldCellIndex := by
          simp [processDeletions_cell, hd, h0]
        rw [e, ih]
        by_cases hjn : j = n
        · subst hjn
          have : ¬ rank (fun c => decide (c ∈ del)) j < j := by omega
          simp [this]
        · exact if_congr ⟨fun h => ⟨by omega, h.2⟩, fun h => ⟨by omega, h.2⟩⟩ rfl rfl

/-- Rewriting through the map sends every surviving index to its rank and
leaves every other index alone. -/
theorem remapIndex_newByOldCellIndex (d : DataAccessTO) (del : List Nat) (n j : Nat) :
    remapIndex (cellScan d del n).newByOldCellIndex j
      = if j < n ∧ j ∉ del then rank (fun c => decide (c ∈ del)) j else j := by
  unfold remapIndex
  rw [lookup_newByOldCellIndex]
  have hle := rank_le (fun c => decide (c ∈ del)) j
  by_cases h1 : j < n ∧ j ∉ del
  · by_cases h2 : rank (fun c => decide (c ∈ del)) j < j
    · simp [h1, h2]
    · have : rank (fun c => decide (c ∈ del)) j = j := by omega
      simp [h1, h2, this]
  · have : ¬ (j < n ∧ j ∉ del ∧ rank (fun c => decide (c ∈ del)) j < j) := by
      intro h; exact h1 ⟨h.1, h.2.1⟩
    simp [h1, this]


theorem rank_add_removed (del : Nat → Bool) (n : Nat) :
    rank del n + ((List.range n).filter del).length = n := by
  induction n with
  | zero => simp [rank_zero]
  | succ n ih =>
    rw [rank_succ, List.range_succ, List.filter_append, List.length_append]
    cases h : del n <;> simp [h] <;> omega

theorem rank_eq_self (del : Nat → Bool) (n : Nat) (h : ∀ j, j < n → del j = false) :
    rank del n = n := by
  induction n with
  | zero => simp [rank_zero]
  | succ n ih =>
    rw [rank_succ, ih (fun j hj => h j (by omega)), h n (by omega)]
    simp

theorem foldl_update_range {α : Type} (g : α → α) (a : Nat → α) (n j : Nat) :
    ((List.range n).foldl (fun cs i => Function.update cs i (g (cs i))) a) j
      = if j < n then g (a j) else a j := by
  induction n with
  | zero => simp
  | succ n ih =>
    rw [List.range_succ, List.foldl_append]
    simp only [List.foldl_cons, List.foldl_nil]
    by_cases hj : j = n
    · subst hj
      have := ih
      simp only [Function.update_same]
      have h2 : ((List.range j).foldl (fun cs i => Function.update cs i (g (cs i))) a) j = a j := by
        clear ih this
        have : ∀ m, m ≤ j →
            ((List.range m).foldl (fun cs i => Function.update cs i (g (cs i))) a) j = a j := by
          intro m
          induction m with
          | zero => simp
          | succ m ihm =>
            intro hm
            rw [List.range_succ, List.foldl_append]
            simp only [List.foldl_cons, List.foldl_nil]
            rw [Function.update_noteq (by omega)]
            exact ihm (by omega)
        exact this j (le_refl _)
      simp [h2]
    · rw [Function.update_noteq hj, ih]
      by_cases h1 : j < n
      · simp [h1, show j < n + 1 by omega]
      · simp [h1, show ¬ j < n + 1 by omega]

theorem remapIndex_nil (j : Nat) : remapIndex [] j = j := by
  simp [remapIndex]

theorem clusterDeleted_nil (d : DataAccessTO) (i : Nat) : clusterDeleted d [] i = false := by
  simp [clusterDeleted]

theorem cellDeleted_nil (d : DataAccessTO) (c : Nat) : cellDeleted d [] c = false := by
  simp [cellDeleted, clusterDeleted_nil]

theorem tokenDeleted_nil (d : DataAccessTO) (t : Nat) : tokenDeleted d [] t = false := by
  simp [tokenDeleted, clusterDeleted_nil]

theorem particleDeleted_nil (d : DataAccessTO) (i : Nat) : particleDeleted d [] i = false := by
  simp [particleDeleted]

theorem newCellIndex_nil (d : DataAccessTO) (j : Nat) : newCellIndex d [] j = j := by
  unfold newCellIndex
  split
  · exact rank_eq_self _ _ (fun k _ => cellDeleted_nil d k)
  · rfl

theorem adjustCell_nil (cell : CellAccessTO) : adjustCell [] cell = cell := by
  unfold adjustCell
  generalize cell.numConnections = n
  induction n with
  | zero => simp
  | succ n ih =>
    rw [List.range_succ, List.foldl_append, ih]
    simp

/-- `adjustCell` described through the remap function: all other fields are
kept and, when the index array holds `numConnections` entries, each of the
first `numConnections` entries is remapped. -/
theorem adjustCell_fold (m : List (Nat × Nat)) (cell : CellAccessTO) (n : Nat)
    (hn : n ≤ cell.connectionIndices.length) :
    let c := (List.range n).foldl
      (fun c connectionIndex =>
        match m.lookup (byteAt c.connectionIndices connectionIndex) with
        | some j =>
          { c with connectionIndices := arrayWrite c.connectionIndices connectionIndex j }
        | none => c)
      cell
    { c with connectionIndices := [] } = { cell with connectionIndices := [] }
    ∧ c.connectionIndices.length = cell.connectionIndices.length
    ∧ ∀ k, byteAt c.connectionIndices k
        = if k < n then remapIndex m (byteAt cell.connectionIndices k)
          else byteAt cell.connectionIndices k := by
  induction n with
  | zero => simp
  | succ n ih =>
    obtain ⟨h1, h2, h3⟩ := ih (by omega)
    rw [List.range_succ, List.foldl_append]
    simp only [List.foldl_cons, List.foldl_nil]
    generalize (List.range n).foldl _ cell = c at h1 h2 h3 ⊢
    have hcn : byteAt c.connectionIndices n = byteAt cell.connectionIndices n := by
      rw [h3 n]; simp
    rw [hcn]
    cases hl : m.lookup (byteAt cell.connectionIndices n) with
    | none =>
      refine ⟨h1, h2, ?_⟩
      intro k
      rw [h3 k]
      by_cases hk : k = n
      · subst hk; simp [remapIndex, hl]
      · by_cases hk2 : k < n
        · simp [hk2, show k < n + 1 by omega]
        · simp [hk2, show ¬ k < n + 1 by omega]
    | some j =>
      have hlt : n < c.connectionIndices.length := by omega
      have haw : arrayWrite c.connectionIndices n j = c.connectionIndices.set n j := by
        rw [arrayWrite, if_pos hlt]
      refine ⟨?_, ?_, ?_⟩
      · simpa using h1
      · simp only [haw, List.length_set, h2]
      · intro k
        simp only [haw]
        by_cases hk : k = n
        · subst hk
          have e1 : byteAt (c.connectionIndices.set k j) k = j := by
            simp [byteAt, List.getD_eq_getElem?_getD, hlt]
          rw [e1]
          simp [remapIndex, hl]
        · have e2 : byteAt (c.connectionIndices.set n j) k = byteAt c.connectionIndices k := by
            simp [byteAt, List.getD_eq_getElem?_getD, List.getElem?_set_ne (Ne.symm hk)]
          rw [e2, h3 k]
          by_cases hk2 : k < n
          · simp [hk2, show k < n + 1 by omega]
          · simp [hk2, show ¬ k < n + 1 by omega]


/-! ## `processDeletions`, entry by entry -/

theorem processDeletions_eq_withDataTO (s : DataConverter) :
    processDeletions s = s.withDataTO (processDeletions s).dataTO := by
  unfold processDeletions
  split <;> rfl

/-- Unfolding of `processDeletions` when something is marked. -/
theorem processDeletions_dataTO (s : DataConverter)
    (h : (s.clusterIdsToDelete.isEmpty && s.particleIdsToDelete.isEmpty) = false) :
    (processDeletions s).dataTO =
      { s.dataTO with
        numClusters := s.dataTO.numClusters
          - (clusterScan s.dataTO s.clusterIdsToDelete s.dataTO.numClusters).clusterIndexCopyOffset
        clusters := (List.range (s.dataTO.numClusters
            - (clusterScan s.dataTO s.clusterIdsToDelete
                s.dataTO.numClusters).clusterIndexCopyOffset)).foldl
          (fun cs clusterIndex => Function.update cs clusterIndex
            (adjustCluster (cellScan s.dataTO
              (clusterScan s.dataTO s.clusterIdsToDelete s.dataTO.numClusters).cellIndicesToDelete
              s.dataTO.numCells).newByOldCellIndex (cs clusterIndex)))
          (clusterScan s.dataTO s.clusterIdsToDelete s.dataTO.numClusters).clusters
        numCells := s.dataTO.numCells
          - (cellScan s.dataTO
              (clusterScan s.dataTO s.clusterIdsToDelete s.dataTO.numClusters).cellIndicesToDelete
              s.dataTO.numCells).cellIndexCopyOffset
        cells := (List.range (s.dataTO.numCells
            - (cellScan s.dataTO
                (clusterScan s.dataTO s.clusterIdsToDelete
                  s.dataTO.numClusters).cellIndicesToDelete
                s.dataTO.numCells).cellIndexCopyOffset)).foldl
          (fun cs cellIndex => Function.update cs cellIndex
            (adjustCell (cellScan s.dataTO
              (clusterScan s.dataTO s.clusterIdsToDelete s.dataTO.numClusters).cellIndicesToDelete
              s.dataTO.numCells).newByOldCellIndex (cs cellIndex)))
          (cellScan s.dataTO
            (clusterScan s.dataTO s.clusterIdsToDelete s.dataTO.numClusters).cellIndicesToDelete
            s.dataTO.numCells).cells
        numTokens := s.dataTO.numTokens
          - (tokenScan s.dataTO
              (cellScan s.dataTO
                (clusterScan s.dataTO s.clusterIdsToDelete
                  s.dataTO.numClusters).cellIndicesToDelete
                s.dataTO.numCells).newByOldCellIndex
              (clusterScan s.dataTO s.clusterIdsToDelete s.dataTO.numClusters).tokenIndicesToDelete
              s.dataTO.numTokens).tokenIndexCopyOffset
        tokens := (tokenScan s.dataTO
              (cellScan s.dataTO
                (clusterScan s.dataTO s.clusterIdsToDelete
                  s.dataTO.numClusters).cellIndicesToDelete
                s.dataTO.numCells).newByOldCellIndex
              (clusterScan s.dataTO s.clusterIdsToDelete s.dataTO.numClusters).tokenIndicesToDelete
              s.dataTO.numTokens).tokens
        numParticles := s.dataTO.numParticles
          - (particleScan s.dataTO s.particleIdsToDelete
              s.dataTO.numParticles).particleIndexCopyOffset
        particles := (particleScan s.dataTO s.particleIdsToDelete
              s.dataTO.numParticles).particles } := by
  unfold processDeletions
  rw [h]
  rfl

theorem marks_nil_of_isEmpty (s : DataConverter)
    (h : (s.clusterIdsToDelete.isEmpty && s.particleIdsToDelete.isEmpty) = true) :
    s.clusterIdsToDelete = [] ∧ s.particleIdsToDelete = [] := by
  simp only [Bool.and_eq_true, List.isEmpty_iff] at h
  exact h

theorem processDeletions_of_isEmpty (s : DataConverter)
    (h : (s.clusterIdsToDelete.isEmpty && s.particleIdsToDelete.isEmpty) = true) :
    processDeletions s = s := by
  unfold processDeletions
  rw [h]
  rfl

theorem cellScan_del_eq (d : DataAccessTO) (ids : List Nat) :
    (fun c => decide (c ∈ (clusterScan d ids d.numClusters).cellIndicesToDelete))
      = cellDeleted d ids :=
  funext (decide_mem_cellIndicesToDelete d ids)

theorem tokenScan_del_eq (d : DataAccessTO) (ids : List Nat) :
    (fun (t : Nat) => decide ((t : Int) ∈ (clusterScan d ids d.numClusters).tokenIndicesToDelete))
      = tokenDeleted d ids :=
  funext (decide_mem_tokenIndicesToDelete d ids)

/-- The cell scan of `processDeletions`, with the recorded index set replaced
by its meaning. -/
theorem cellScan_inv' (d : DataAccessTO) (ids : List Nat) (n : Nat) :
    ScanInv CellScan.cells CellScan.cellIndexCopyOffset (cellDeleted d ids) id d.cells
      (cellScan d (clusterScan d ids d.numClusters).cellIndicesToDelete n) n := by
  have h := cellScan_inv d (clusterScan d ids d.numClusters).cellIndicesToDelete n
  rw [cellScan_del_eq] at h
  exact h

theorem remapIndex_cellScan (d : DataAccessTO) (ids : List Nat) (j : Nat) :
    remapIndex (cellScan d (clusterScan d ids d.numClusters).cellIndicesToDelete
        d.numCells).newByOldCellIndex j
      = newCellIndex d ids j := by
  rw [remapIndex_newByOldCellIndex, cellScan_del_eq]
  unfold newCellIndex
  have e : (j ∉ (clusterScan d ids d.numClusters).cellIndicesToDelete)
      ↔ cellDeleted d ids j = false := by
    rw [← decide_mem_cellIndicesToDelete]
    simp
  by_cases h1 : j < d.numCells
  · by_cases h2 : cellDeleted d ids j = false
    · rw [if_pos ⟨h1, e.mpr h2⟩, if_pos ⟨h1, h2⟩]
    · rw [if_neg (fun h => h2 (e.mp h.2)), if_neg (fun h => h2 h.2)]
  · rw [if_neg (fun h => h1 h.1), if_neg (fun h => h1 h.1)]

theorem tokenScan_inv' (d : DataAccessTO) (ids : List Nat) (n : Nat) :
    ScanInv TokenScan.tokens TokenScan.tokenIndexCopyOffset (tokenDeleted d ids)
      (fun t => { t with cellIndex := newCellIndex d ids t.cellIndex }) d.tokens
      (tokenScan d
        (cellScan d (clusterScan d ids d.numClusters).cellIndicesToDelete
          d.numCells).newByOldCellIndex
        (clusterScan d ids d.numClusters).tokenIndicesToDelete n) n := by
  have h := tokenScan_inv d
    (cellScan d (clusterScan d ids d.numClusters).cellIndicesToDelete d.numCells).newByOldCellIndex
    (clusterScan d ids d.numClusters).tokenIndicesToDelete n
  rw [tokenScan_del_eq] at h
  have e : (fun (t : TokenAccessTO) => { t with cellIndex := (remapIndex
        (cellScan d (clusterScan d ids d.numClusters).cellIndicesToDelete
          d.numCells).newByOldCellIndex t.cellIndex) })
      = (fun t => { t with cellIndex := newCellIndex d ids t.cellIndex }) := by
    funext t
    rw [remapIndex_cellScan]
  rw [e] at h
  exact h

/-- Live counts after `processDeletions`: the number of survivors. -/
theorem processDeletions_counts (s : DataConverter) :
    (processDeletions s).dataTO.numClusters
        = rank (clusterDeleted s.dataTO s.clusterIdsToDelete) s.dataTO.numClusters
    ∧ (processDeletions s).dataTO.numCells
        = rank (cellDeleted s.dataTO s.clusterIdsToDelete) s.dataTO.numCells
    ∧ (processDeletions s).dataTO.numTokens
        = rank (tokenDeleted s.dataTO s.clusterIdsToDelete) s.dataTO.numTokens
    ∧ (processDeletions s).dataTO.numParticles
        = rank (particleDeleted s.dataTO s.particleIdsToDelete) s.dataTO.numParticles := by
  cases h : (s.clusterIdsToDelete.isEmpty && s.particleIdsToDelete.isEmpty)
  · rw [processDeletions_dataTO s h]
    have h1 := (clusterScan_inv s.dataTO s.clusterIdsToDelete s.dataTO.numClusters).off_eq
    have h2 := (cellScan_inv' s.dataTO s.clusterIdsToDelete s.dataTO.numCells).off_eq
    have h3 := (tokenScan_inv' s.dataTO s.clusterIdsToDelete s.dataTO.numTokens).off_eq
    have h4 := (particleScan_inv s.dataTO s.particleIdsToDelete s.dataTO.numParticles).off_eq
    refine ⟨?_, ?_, ?_, ?_⟩ <;> simp only <;> omega
  · obtain ⟨e1, e2⟩ := marks_nil_of_isEmpty s h
    rw [processDeletions_of_isEmpty s h, e1, e2]
    refine ⟨?_, ?_, ?_, ?_⟩
    · exact (rank_eq_self _ _ (fun j _ => clusterDeleted_nil _ j)).symm
    · exact (rank_eq_self _ _ (fun j _ => cellDeleted_nil _ j)).symm
    · exact (rank_eq_self _ _ (fun j _ => tokenDeleted_nil _ j)).symm
    · exact (rank_eq_self _ _ (fun j _ => particleDeleted_nil _ j)).symm

/-- Where a surviving cluster ends up and what it holds. -/
theorem processDeletions_cluster_at (s : DataConverter) (i : Nat)
    (hi : i < s.dataTO.numClusters)
    (hd : clusterDeleted s.dataTO s.clusterIdsToDelete i = false) :
    (processDeletions s).dataTO.clusters
        (rank (clusterDeleted s.dataTO s.clusterIdsToDelete) i)
      = { s.dataTO.clusters i with
          cellStartIndex :=
            newCellIndex s.dataTO s.clusterIdsToDelete (s.dataTO.clusters i).cellStartIndex } := by
  cases h : (s.clusterIdsToDelete.isEmpty && s.particleIdsToDelete.isEmpty)
  · rw [processDeletions_dataTO s h]
    have hinv := clusterScan_inv s.dataTO s.clusterIdsToDelete s.dataTO.numClusters
    have h1 := hinv.off_eq
    have hlt := rank_lt (clusterDeleted s.dataTO s.clusterIdsToDelete) hi hd
    simp only
    rw [foldl_update_range, if_pos (by omega), hinv.moved i hi hd]
    simp only [adjustCluster, id, remapIndex_cellScan]
  · obtain ⟨e1, e2⟩ := marks_nil_of_isEmpty s h
    rw [processDeletions_of_isEmpty s h, e1]
    rw [rank_eq_self _ _ (fun j _ => clusterDeleted_nil _ j), newCellIndex_nil]

/-- Where a surviving particle ends up and what it holds. -/
theorem processDeletions_particle_at (s : DataConverter) (i : Nat)
    (hi : i < s.dataTO.numParticles)
    (hd : particleDeleted s.dataTO s.particleIdsToDelete i = false) :
    (processDeletions s).dataTO.particles
        (rank (particleDeleted s.dataTO s.particleIdsToDelete) i)
      = s.dataTO.particles i := by
  cases h : (s.clusterIdsToDelete.isEmpty && s.particleIdsToDelete.isEmpty)
  · rw [processDeletions_dataTO s h]
    exact (particleScan_inv s.dataTO s.particleIdsToDelete s.dataTO.numParticles).moved i hi hd
  · obtain ⟨e1, e2⟩ := marks_nil_of_isEmpty s h
    rw [processDeletions_of_isEmpty s h, e2]
    rw [rank_eq_self _ _ (fun j _ => particleDeleted_nil _ j)]

/-- Where a surviving token ends up and what it holds. -/
theorem processDeletions_token_at (s : DataConverter) (t : Nat)
    (ht : t < s.dataTO.numTokens)
    (hd : tokenDeleted s.dataTO s.clusterIdsToDelete t = false) :
    (processDeletions s).dataTO.tokens
        (rank (tokenDeleted s.dataTO s.clusterIdsToDelete) t)
      = { s.dataTO.tokens t with
          cellIndex :=
            newCellIndex s.dataTO s.clusterIdsToDelete (s.dataTO.tokens t).cellIndex } := by
  cases h : (s.clusterIdsToDelete.isEmpty && s.particleIdsToDelete.isEmpty)
  · rw [processDeletions_dataTO s h]
    exact (tokenScan_inv' s.dataTO s.clusterIdsToDelete s.dataTO.numTokens).moved t ht hd
  · obtain ⟨e1, e2⟩ := marks_nil_of_isEmpty s h
    rw [processDeletions_of_isEmpty s h, e1]
    rw [rank_eq_self _ _ (fun j _ => tokenDeleted_nil _ j), newCellIndex_nil]

/-- Where a surviving cell ends up: at its rank, with the same fields apart
from the connection indices, each of which is remapped. -/
theorem processDeletions_cell_at (s : DataConverter) (c : Nat)
    (hc : c < s.dataTO.numCells)
    (hd : cellDeleted s.dataTO s.clusterIdsToDelete c = false)
    (hlen : (s.dataTO.cells c).numConnections ≤ (s.dataTO.cells c).connectionIndices.length) :
    { (processDeletions s).dataTO.cells (rank (cellDeleted s.dataTO s.clusterIdsToDelete) c)
        with connectionIndices := [] }
      = { s.dataTO.cells c with connectionIndices := [] }
    ∧ ∀ k, k < (s.dataTO.cells c).numConnections →
        byteAt ((processDeletions s).dataTO.cells
            (rank (cellDeleted s.dataTO s.clusterIdsToDelete) c)).connectionIndices k
          = newCellIndex s.dataTO s.clusterIdsToDelete
              (byteAt (s.dataTO.cells c).connectionIndices k) := by
  cases h : (s.clusterIdsToDelete.isEmpty && s.particleIdsToDelete.isEmpty)
  · rw [processDeletions_dataTO s h]
    have hinv := cellScan_inv' s.dataTO s.clusterIdsToDelete s.dataTO.numCells
    have h1 := hinv.off_eq
    have hlt := rank_lt (cellDeleted s.dataTO s.clusterIdsToDelete) hc hd
    simp only
    rw [foldl_update_range, if_pos (by omega), hinv.moved c hc hd]
    simp only [id]
    obtain ⟨f1, _, f3⟩ := adjustCell_fold
      (cellScan s.dataTO
        (clusterScan s.dataTO s.clusterIdsToDelete s.dataTO.numClusters).cellIndicesToDelete
        s.dataTO.numCells).newByOldCellIndex
      (s.dataTO.cells c) (s.dataTO.cells c).numConnections hlen
    refine ⟨f1, ?_⟩
    intro k hk
    have := f3 k
    rw [if_pos hk, remapIndex_cellScan] at this
    exact this
  · obtain ⟨e1, e2⟩ := marks_nil_of_isEmpty s h
    rw [processDeletions_of_isEmpty s h, e1]
    rw [rank_eq_self _ _ (fun j _ => cellDeleted_nil _ j)]
    refine ⟨rfl, ?_⟩
    intro k _
    rw [newCellIndex_nil]


/-! ## Consequences of well-formedness -/

theorem cellDeleted_iff (d : DataAccessTO) (ids : List Nat) (c : Nat) :
    cellDeleted d ids c = true
      ↔ ∃ i, i < d.numClusters ∧ clusterDeleted d ids i = true
          ∧ inCellRange (d.clusters i) c = true := by
  simp only [cellDeleted, List.any_eq_true, List.mem_range, Bool.and_eq_true]

theorem inSurvivingCluster_iff (d : DataAccessTO) (ids : List Nat) (c : Nat) :
    inSurvivingCluster d ids c = true
      ↔ ∃ i, i < d.numClusters ∧ clusterDeleted d ids i = false
          ∧ inCellRange (d.clusters i) c = true := by
  simp only [inSurvivingCluster, List.any_eq_true, List.mem_range, Bool.and_eq_true,
    Bool.not_eq_true']

theorem tokenDeleted_iff (d : DataAccessTO) (ids : List Nat) (t : Nat) :
    tokenDeleted d ids t = true
      ↔ ∃ i, i < d.numClusters ∧ clusterDeleted d ids i = true
          ∧ inTokenRange (d.clusters i) t = true := by
  simp only [tokenDeleted, List.any_eq_true, List.mem_range, Bool.and_eq_true]

/-- In a well-formed arena a live cell is removed exactly when it is not a
cell of a surviving cluster. -/
theorem WellFormed.cellDeleted_eq {d : DataAccessTO} (hwf : WellFormed d) (ids : List Nat)
    (c : Nat) (hc : c < d.numCells) :
    cellDeleted d ids c = !inSurvivingCluster d ids c := by
  obtain ⟨_, hdis, hcov, _⟩ := hwf
  rw [Bool.eq_iff_iff]
  simp only [Bool.not_eq_true', cellDeleted_iff]
  constructor
  · rintro ⟨i, hi, hdel, hin⟩
    cases h : inSurvivingCluster d ids c
    · rfl
    · obtain ⟨j, hj, hsurv, hjn⟩ := (inSurvivingCluster_iff d ids c).mp h
      have := hdis i hi j hj c hc hin hjn
      subst this
      rw [hdel] at hsurv
      exact absurd hsurv (by simp)
  · intro h
    obtain ⟨i, hi, hin⟩ := hcov c hc
    refine ⟨i, hi, ?_, hin⟩
    cases hdel : clusterDeleted d ids i
    · have : inSurvivingCluster d ids c = true :=
        (inSurvivingCluster_iff d ids c).mpr ⟨i, hi, hdel, hin⟩
      rw [h] at this
      exact absurd this (by simp)
    · rfl

/-- A cell of a surviving cluster is not removed. -/
theorem WellFormed.not_cellDeleted {d : DataAccessTO} (hwf : WellFormed d) (ids : List Nat)
    (i c : Nat) (hi : i < d.numClusters) (hc : c < d.numCells)
    (hsurv : clusterDeleted d ids i = false) (hin : inCellRange (d.clusters i) c = true) :
    cellDeleted d ids c = false := by
  rw [hwf.cellDeleted_eq ids c hc]
  have := (inSurvivingCluster_iff d ids c).mpr ⟨i, hi, hsurv, hin⟩
  simp [this]

/-- In a well-formed arena a token is removed exactly when its cell is. -/
theorem WellFormed.tokenDeleted_eq {d : DataAccessTO} (hwf : WellFormed d) (ids : List Nat)
    (t : Nat) (ht : t < d.numTokens) :
    tokenDeleted d ids t = cellDeleted d ids (d.tokens t).cellIndex := by
  obtain ⟨_, _, _, _, htok, _⟩ := hwf
  rw [Bool.eq_iff_iff, tokenDeleted_iff, cellDeleted_iff]
  constructor
  · rintro ⟨i, hi, hdel, hin⟩
    exact ⟨i, hi, hdel, by rw [← htok i hi t ht]; exact hin⟩
  · rintro ⟨i, hi, hdel, hin⟩
    exact ⟨i, hi, hdel, by rw [htok i hi t ht]; exact hin⟩

theorem rank_eq_sub_removed (d : DataAccessTO) (ids : List Nat) (j : Nat) :
    rank (cellDeleted d ids) j = j - removedCellsBefore d ids j := by
  have := rank_add_removed (cellDeleted d ids) j
  unfold removedCellsBefore
  omega

theorem newCellIndex_of_survivor (d : DataAccessTO) (ids : List Nat) (j : Nat)
    (hj : j < d.numCells) (hd : cellDeleted d ids j = false) :
    newCellIndex d ids j = j - removedCellsBefore d ids j := by
  unfold newCellIndex
  rw [if_pos ⟨hj, hd⟩, rank_eq_sub_removed]

theorem survivors_eq_filter (del p : Nat → Bool) (n : Nat)
    (h : ∀ j, j < n → del j = !p j) :
    survivors del n = (List.range n).filter p := by
  unfold survivors
  apply List.filter_congr
  intro j hj
  rw [List.mem_range] at hj
  rw [h j hj]
  simp

/-- The id of a surviving cell is found at the cell's new index. -/
theorem processDeletions_cell_id (s : DataConverter) (hwf : WellFormed s.dataTO) (c : Nat)
    (hc : c < s.dataTO.numCells)
    (hd : cellDeleted s.dataTO s.clusterIdsToDelete c = false) :
    ((processDeletions s).dataTO.cells
        (c - removedCellsBefore s.dataTO s.clusterIdsToDelete c)).id
      = (s.dataTO.cells c).id := by
  rw [← rank_eq_sub_removed]
  have h := (processDeletions_cell_at s c hc hd (hwf.2.2.2.2.2.1 c hc)).1
  have h2 := congrArg CellAccessTO.id h
  exact h2


/-- Every position below the number of survivors is the rank of a survivor. -/
theorem exists_of_lt_rank (del : Nat → Bool) (n i : Nat) (hi : i < rank del n) :
    ∃ j, j < n ∧ del j = false ∧ rank del j = i := by
  induction n with
  | zero => simp [rank_zero] at hi
  | succ n ih =>
    rw [rank_succ] at hi
    cases hd : del n
    · rw [hd] at hi
      simp only [Bool.false_eq_true, if_false] at hi
      rcases Nat.lt_or_ge i (rank del n) with h | h
      · obtain ⟨j, hj, h1, h2⟩ := ih h
        exact ⟨j, by omega, h1, h2⟩
      · exact ⟨n, by omega, hd, by omega⟩
    · rw [hd] at hi
      simp only [if_true, Nat.add_zero] at hi
      obtain ⟨j, hj, h1, h2⟩ := ih hi
      exact ⟨j, by omega, h1, h2⟩

/-! ## Deletion compaction -/

/-- C2. For a well-formed arena and any set of cluster ids marked deleted,
after `processDeletions` (1) the live clusters are the clusters whose id is not
marked, in their original order; (2) the live cells, at indices
`0 .. numCells-1`, are exactly the cells of the clusters whose id is not marked,
in their original relative order (each cell unchanged apart from its remapped
connection indices); (3) the live tokens are exactly the tokens hosted by cells
of unmarked clusters, in their original order (each unchanged apart from its
remapped cell index); (4) no live cluster has a marked id. -/
theorem C2_deletion_compaction (s : DataConverter) (hwf : WellFormed s.dataTO) :
    (List.range (processDeletions s).dataTO.numClusters).map
        (fun i => { (processDeletions s).dataTO.clusters i with
                    cellStartIndex := 0, tokenStartIndex := 0 })
      = ((List.range s.dataTO.numClusters).filter
          (fun i => decide ((s.dataTO.clusters i).id ∉ s.clusterIdsToDelete))).map
        (fun i => { s.dataTO.clusters i with cellStartIndex := 0, tokenStartIndex := 0 })
    ∧ (List.range (processDeletions s).dataTO.numCells).map
        (fun c => { (processDeletions s).dataTO.cells c with connectionIndices := [] })
      = ((List.range s.dataTO.numCells).filter
          (inSurvivingCluster s.dataTO s.clusterIdsToDelete)).map
        (fun c => { s.dataTO.cells c with connectionIndices := [] })
    ∧ (List.range (processDeletions s).dataTO.numTokens).map
        (fun t => { (processDeletions s).dataTO.tokens t with cellIndex := 0 })
      = ((List.range s.dataTO.numTokens).filter
          (fun t => inSurvivingCluster s.dataTO s.clusterIdsToDelete
            (s.dataTO.tokens t).cellIndex)).map
        (fun t => { s.dataTO.tokens t with cellIndex := 0 })
    ∧ ∀ i, i < (processDeletions s).dataTO.numClusters →
        ((processDeletions s).dataTO.clusters i).id ∉ s.clusterIdsToDelete := by
  obtain ⟨hn1, hn2, hn3, _⟩ := processDeletions_counts s
  refine ⟨?_, ?_, ?_, ?_⟩
  · rw [hn1, map_range_rank (clusterDeleted s.dataTO s.clusterIdsToDelete) _
      (fun i => { s.dataTO.clusters i with cellStartIndex := 0, tokenStartIndex := 0 })]
    · rw [survivors_eq_filter]
      intro j _
      simp [clusterDeleted]
    · intro j hj hd
      simp only [processDeletions_cluster_at s j hj hd]
  · rw [hn2, map_range_rank (cellDeleted s.dataTO s.clusterIdsToDelete) _
      (fun c => { s.dataTO.cells c with connectionIndices := [] })]
    · rw [survivors_eq_filter]
      intro j hj
      exact hwf.cellDeleted_eq _ j hj
    · intro j hj hd
      exact (processDeletions_cell_at s j hj hd (hwf.2.2.2.2.2.1 j hj)).1
  · rw [hn3, map_range_rank (tokenDeleted s.dataTO s.clusterIdsToDelete) _
      (fun t => { s.dataTO.tokens t with cellIndex := 0 })]
    · rw [survivors_eq_filter]
      intro j hj
      rw [hwf.tokenDeleted_eq _ j hj]
      exact hwf.cellDeleted_eq _ _ (hwf.2.2.2.1 j hj)
    · intro j hj hd
      simp only [processDeletions_token_at s j hj hd]
  · intro i hi
    rw [hn1] at hi
    obtain ⟨j, hj, hd, hr⟩ := exists_of_lt_rank _ _ _ hi
    rw [← hr, processDeletions_cluster_at s j hj hd]
    simpa [clusterDeleted] using hd

/-- C2 on the example of the specification: clusters A (cells 1, 2, 3, tokens
t1, t2 on cell 2) and B (cells 4, 5); deleting A leaves one cluster, B, with
`cellStartIndex = 0`, B's cells at indices 0 and 1, and no token. -/
theorem C2_deletion_compaction_witness :
    WellFormed deleteA.dataTO
    ∧ ((List.range (processDeletions deleteA).dataTO.numClusters).map
        (fun i => { (processDeletions deleteA).dataTO.clusters i with
                    cellStartIndex := 0, tokenStartIndex := 0 })
      = ((List.range deleteA.dataTO.numClusters).filter
          (fun i => decide ((deleteA.dataTO.clusters i).id ∉ deleteA.clusterIdsToDelete))).map
        (fun i => { deleteA.dataTO.clusters i with cellStartIndex := 0, tokenStartIndex := 0 })
    ∧ (List.range (processDeletions deleteA).dataTO.numCells).map
        (fun c => { (processDeletions deleteA).dataTO.cells c with connectionIndices := [] })
      = ((List.range deleteA.dataTO.numCells).filter
          (inSurvivingCluster deleteA.dataTO deleteA.clusterIdsToDelete)).map
        (fun c => { deleteA.dataTO.cells c with connectionIndices := [] })
    ∧ (List.range (processDeletions deleteA).dataTO.numTokens).map
        (fun t => { (processDeletions deleteA).dataTO.tokens t with cellIndex := 0 })
      = ((List.range deleteA.dataTO.numTokens).filter
          (fun t => inSurvivingCluster deleteA.dataTO deleteA.clusterIdsToDelete
            (deleteA.dataTO.tokens t).cellIndex)).map
        (fun t => { deleteA.dataTO.tokens t with cellIndex := 0 })
    ∧ ∀ i, i < (processDeletions deleteA).dataTO.numClusters →
        ((processDeletions deleteA).dataTO.clusters i).id ∉ deleteA.clusterIdsToDelete)
    ∧ (processDeletions deleteA).dataTO.numClusters = 1
    ∧ ((processDeletions deleteA).dataTO.clusters 0).id = 200
    ∧ ((processDeletions deleteA).dataTO.clusters 0).cellStartIndex = 0
    ∧ (processDeletions deleteA).dataTO.numCells = 2
    ∧ ((processDeletions deleteA).dataTO.cells 0).id = 4
    ∧ ((processDeletions deleteA).dataTO.cells 1).id = 5
    ∧ (processDeletions deleteA).dataTO.numTokens = 0 :=
  ⟨by decide, C2_deletion_compaction deleteA (by decide), by decide⟩


theorem lt_numCells_of_inCellRange {d : DataAccessTO} (hwf : WellFormed d) (i c : Nat)
    (hi : i < d.numClusters) (hin : inCellRange (d.clusters i) c = true) : c < d.numCells := by
  have h1 := hwf.1 i hi
  simp only [inCellRange, decide_eq_true_eq] at hin
  omega

/-! ## Index remap -/

/-- C3. For a well-formed arena, after `processDeletions`:
(1) a surviving cluster that owns at least one cell is found at its rank among
the survivors with `cellStartIndex` decreased by the number of removed cells
below it, and the cell there has the id of the cluster's first cell;
(2) every stored connection index of a surviving cell is decreased by the
number of removed cells below the connected cell, and the cell at the new index
has the id of the connected cell;
(3) the owning-cell index of every surviving token is decreased by the number
of removed cells below the owning cell, and the cell at the new index has the
id of the owning cell. -/
theorem C3_index_remap (s : DataConverter) (hwf : WellFormed s.dataTO) :
    (∀ i, i < s.dataTO.numClusters →
      clusterDeleted s.dataTO s.clusterIdsToDelete i = false →
      0 < (s.dataTO.clusters i).numCells →
      ((processDeletions s).dataTO.clusters
          (rank (clusterDeleted s.dataTO s.clusterIdsToDelete) i)).cellStartIndex
        = (s.dataTO.clusters i).cellStartIndex
          - removedCellsBefore s.dataTO s.clusterIdsToDelete (s.dataTO.clusters i).cellStartIndex
      ∧ ((processDeletions s).dataTO.cells
          ((processDeletions s).dataTO.clusters
            (rank (clusterDeleted s.dataTO s.clusterIdsToDelete) i)).cellStartIndex).id
        = (s.dataTO.cells (s.dataTO.clusters i).cellStartIndex).id)
    ∧ (∀ c, c < s.dataTO.numCells →
      cellDeleted s.dataTO s.clusterIdsToDelete c = false →
      ∀ k, k < (s.dataTO.cells c).numConnections →
      byteAt ((processDeletions s).dataTO.cells
          (c - removedCellsBefore s.dataTO s.clusterIdsToDelete c)).connectionIndices k
        = byteAt (s.dataTO.cells c).connectionIndices k
          - removedCellsBefore s.dataTO s.clusterIdsToDelete
              (byteAt (s.dataTO.cells c).connectionIndices k)
      ∧ ((processDeletions s).dataTO.cells
          (byteAt ((processDeletions s).dataTO.cells
            (c - removedCellsBefore s.dataTO s.clusterIdsToDelete c)).connectionIndices k)).id
        = (s.dataTO.cells (byteAt (s.dataTO.cells c).connectionIndices k)).id)
    ∧ (∀ t, t < s.dataTO.numTokens →
      tokenDeleted s.dataTO s.clusterIdsToDelete t = false →
      ((processDeletions s).dataTO.tokens
          (rank (tokenDeleted s.dataTO s.clusterIdsToDelete) t)).cellIndex
        = (s.dataTO.tokens t).cellIndex
          - removedCellsBefore s.dataTO s.clusterIdsToDelete (s.dataTO.tokens t).cellIndex
      ∧ ((processDeletions s).dataTO.cells
          ((processDeletions s).dataTO.tokens
            (rank (tokenDeleted s.dataTO s.clusterIdsToDelete) t)).cellIndex).id
        = (s.dataTO.cells (s.dataTO.tokens t).cellIndex).id) := by
  refine ⟨?_, ?_, ?_⟩
  · intro i hi hsurv hpos
    have hin : inCellRange (s.dataTO.clusters i) (s.dataTO.clusters i).cellStartIndex = true := by
      simp only [inCellRange, decide_eq_true_eq]; omega
    have hc := lt_numCells_of_inCellRange hwf i _ hi hin
    have hnd := hwf.not_cellDeleted s.clusterIdsToDelete i _ hi hc hsurv hin
    have e : ((processDeletions s).dataTO.clusters
          (rank (clusterDeleted s.dataTO s.clusterIdsToDelete) i)).cellStartIndex
        = (s.dataTO.clusters i).cellStartIndex
          - removedCellsBefore s.dataTO s.clusterIdsToDelete
              (s.dataTO.clusters i).cellStartIndex := by
      rw [processDeletions_cluster_at s i hi hsurv]
      exact newCellIndex_of_survivor _ _ _ hc hnd
    exact ⟨e, by rw [e]; exact processDeletions_cell_id s hwf _ hc hnd⟩
  · intro c hc hnd k hk
    obtain ⟨i, hi, hin⟩ := hwf.2.2.1 c hc
    have hsurv : clusterDeleted s.dataTO s.clusterIdsToDelete i = false := by
      cases h : clusterDeleted s.dataTO s.clusterIdsToDelete i
      · rfl
      · have := (cellDeleted_iff s.dataTO s.clusterIdsToDelete c).mpr ⟨i, hi, h, hin⟩
        rw [hnd] at this
        exact absurd this (by simp)
    have hin2 := hwf.2.2.2.2.2.2 i hi c hc hin k hk
    have hc2 := lt_numCells_of_inCellRange hwf i _ hi hin2
    have hnd2 := hwf.not_cellDeleted s.clusterIdsToDelete i _ hi hc2 hsurv hin2
    have e : byteAt ((processDeletions s).dataTO.cells
          (c - removedCellsBefore s.dataTO s.clusterIdsToDelete c)).connectionIndices k
        = byteAt (s.dataTO.cells c).connectionIndices k
          - removedCellsBefore s.dataTO s.clusterIdsToDelete
              (byteAt (s.dataTO.cells c).connectionIndices k) := by
      rw [← rank_eq_sub_removed,
        (processDeletions_cell_at s c hc hnd (hwf.2.2.2.2.2.1 c hc)).2 k hk]
      exact newCellIndex_of_survivor _ _ _ hc2 hnd2
    exact ⟨e, by rw [e]; exact processDeletions_cell_id s hwf _ hc2 hnd2⟩
  · intro t ht hnd
    have hc := hwf.2.2.2.1 t ht
    have hnd2 : cellDeleted s.dataTO s.clusterIdsToDelete (s.dataTO.tokens t).cellIndex
        = false := by
      rw [← hwf.tokenDeleted_eq _ t ht]; exact hnd
    have e : ((processDeletions s).dataTO.tokens
          (rank (tokenDeleted s.dataTO s.clusterIdsToDelete) t)).cellIndex
        = (s.dataTO.tokens t).cellIndex
          - removedCellsBefore s.dataTO s.clusterIdsToDelete
              (s.dataTO.tokens t).cellIndex := by
      rw [processDeletions_token_at s t ht hnd]
      exact newCellIndex_of_survivor _ _ _ hc hnd2
    exact ⟨e, by rw [e]; exact processDeletions_cell_id s hwf _ hc hnd2⟩

/-- C3 on an example: cluster A (3 cells) is deleted in front of cluster B
(cells at 3 and 4, connected to each other, one token on the cell at 3): B's
`cellStartIndex` 3 becomes 0, the connection indices 4 and 3 become 1 and 0,
the token's cell index 3 becomes 0. -/
theorem C3_index_remap_witness :
    WellFormed deleteAB.dataTO
    ∧ (((processDeletions deleteAB).dataTO.clusters
          (rank (clusterDeleted deleteAB.dataTO deleteAB.clusterIdsToDelete) 1)).cellStartIndex
        = (deleteAB.dataTO.clusters 1).cellStartIndex
          - removedCellsBefore deleteAB.dataTO deleteAB.clusterIdsToDelete
              (deleteAB.dataTO.clusters 1).cellStartIndex
      ∧ ((processDeletions deleteAB).dataTO.cells
          ((processDeletions deleteAB).dataTO.clusters
            (rank (clusterDeleted deleteAB.dataTO deleteAB.clusterIdsToDelete) 1)).cellStartIndex).id
        = (deleteAB.dataTO.cells (deleteAB.dataTO.clusters 1).cellStartIndex).id)
    ∧ ((processDeletions deleteAB).dataTO.clusters 0).cellStartIndex = 0
    ∧ ((processDeletions deleteAB).dataTO.cells 0).connectionIndices = [1]
    ∧ ((processDeletions deleteAB).dataTO.cells 1).connectionIndices = [0]
    ∧ (processDeletions deleteAB).dataTO.numTokens = 1
    ∧ ((processDeletions deleteAB).dataTO.tokens 0).cellIndex = 0 :=
  ⟨by decide, (C3_index_remap deleteAB (by decide)).1 1 (by decide) (by decide) (by decide),
    by decide⟩


/-! ## Loops that may throw -/

theorem forEach_nil {σ α : Type} (body : α → σ → Step σ) (s : σ) :
    forEach [] body s = ⟨s, none⟩ := rfl

theorem foldl_andThen_failed {σ α : Type} (body : α → σ → Step σ) (xs : List α) (r : Step σ)
    (f : Failure) (h : r.failure = some f) :
    xs.foldl (fun r x => r.andThen (body x)) r = r := by
  induction xs with
  | nil => rfl
  | cons x xs ih =>
    simp only [List.foldl_cons]
    have : r.andThen (body x) = r := by
      unfold Step.andThen
      rw [h]
    rw [this, ih]

theorem forEach_cons {σ α : Type} (body : α → σ → Step σ) (x : α) (xs : List α) (s : σ) :
    forEach (x :: xs) body s = (body x s).andThen (forEach xs body) := by
  unfold forEach
  simp only [List.foldl_cons]
  have e : (⟨s, none⟩ : Step σ).andThen (body x) = body x s := rfl
  rw [e]
  cases h : (body x s).failure with
  | none =>
    have : (body x s).andThen (fun s' => xs.foldl (fun r x => r.andThen (body x)) ⟨s', none⟩)
        = xs.foldl (fun r x => r.andThen (body x)) ⟨(body x s).state, none⟩ := by
      unfold Step.andThen
      rw [h]
    rw [this]
    congr 1
    cases hb : body x s with
    | mk st fl =>
      rw [hb] at h
      simp only at h
      subst h
      rfl
  | some f =>
    rw [foldl_andThen_failed body xs _ f h]
    unfold Step.andThen
    rw [h]

theorem forEach_append {σ α : Type} (body : α → σ → Step σ) (xs ys : List α) (s : σ) :
    forEach (xs ++ ys) body s = (forEach xs body s).andThen (forEach ys body) := by
  induction xs generalizing s with
  | nil => rfl
  | cons x xs ih =>
    rw [List.cons_append, forEach_cons, forEach_cons]
    cases h : (body x s).failure with
    | none =>
      unfold Step.andThen
      simp only [h]
      exact ih _
    | some f =>
      unfold Step.andThen
      simp only [h]

theorem andThen_failure_none {σ : Type} (r : Step σ) (g : σ → Step σ)
    (h : (r.andThen g).failure = none) :
    r.failure = none ∧ r.andThen g = g r.state := by
  unfold Step.andThen at h ⊢
  cases hr : r.failure with
  | none => exact ⟨rfl, rfl⟩
  | some f => rw [hr] at h; simp only at h; rw [hr] at h; exact absurd h (by simp)

/-- Invariant rule for a loop that may throw: a relation between the items
done so far and the state, established at the start and kept by every
iteration that does not throw, holds at the end of a run that did not throw. -/
theorem forEach_rule {σ α : Type} (body : α → σ → Step σ) (R : List α → σ → Prop)
    (xs : List α) (s : σ) (h0 : R [] s)
    (hstep : ∀ done x st, R done st → (body x st).failure = none →
      R (done ++ [x]) (body x st).state)
    (hok : (forEach xs body s).failure = none) :
    R xs (forEach xs body s).state := by
  suffices H : ∀ (ys done : List α) (st : σ), R done st →
      (forEach ys body st).failure = none → R (done ++ ys) (forEach ys body st).state by
    simpa using H xs [] s h0 hok
  intro ys
  induction ys with
  | nil =>
    intro done st hR _
    simpa [forEach_nil] using hR
  | cons y ys ih =>
    intro done st hR hf
    rw [forEach_cons] at hf ⊢
    obtain ⟨h1, h2⟩ := andThen_failure_none _ _ hf
    rw [h2] at hf ⊢
    have := ih (done ++ [y]) (body y st).state (hstep done y st hR h1) hf
    simpa using this


/-! ## The string pool -/

theorem foldl_write_bytes (f : Nat → Nat) (base len : Nat) (g : Nat → Nat) (b : Nat) :
    ((List.range len).foldl (fun sb i => Function.update sb (base + i) (g i)) f) b
      = if base ≤ b ∧ b < base + len then g (b - base) else f b := by
  induction len with
  | zero =>
    rw [if_neg (by omega)]
    rfl
  | succ n ih =>
    rw [List.range_succ, List.foldl_append]
    simp only [List.foldl_cons, List.foldl_nil]
    by_cases hb : b = base + n
    · subst hb
      simp
    · rw [Function.update_noteq hb, ih]
      by_cases h1 : base ≤ b ∧ b < base + n
      · rw [if_pos h1, if_pos ⟨h1.1, by omega⟩]
      · rw [if_neg h1, if_neg (by omega)]

theorem map_range_byteAt (l : List Nat) (g : Nat → Nat) :
    (List.range l.length).map (fun i => g (byteAt l i)) = l.map g := by
  apply List.ext_getElem
  · simp
  · intro i h1 h2
    simp only [List.length_map, List.length_range] at h1
    simp [byteAt, List.getD_eq_getElem?_getD, h1]

/-- Interning a text: it is written at the cursor, the cursor advances by its
length, nothing below the old cursor changes, and the text reads back in
Latin-1. -/
theorem convertString_spec (str : QString) (s : DataConverter) :
    (convertStringAndReturnStringIndex str s).1 = s.dataTO.numStringBytes
    ∧ (∃ bytes, (convertStringAndReturnStringIndex str s).2
        = s.withDataTO { s.dataTO with stringBytes := bytes
                                       numStringBytes := s.dataTO.numStringBytes + str.length }
      ∧ (∀ b, b < s.dataTO.numStringBytes → bytes b = s.dataTO.stringBytes b)
      ∧ fromLatin1 bytes s.dataTO.numStringBytes str.length = str.map toLatin1) := by
  refine ⟨rfl, _, rfl, ?_, ?_⟩
  · intro b hb
    rw [foldl_write_bytes, if_neg (by omega)]
  · unfold fromLatin1
    rw [← map_range_byteAt str toLatin1]
    apply List.map_congr_left
    intro i hi
    rw [List.mem_range] at hi
    rw [foldl_write_bytes, if_pos ⟨by omega, by omega⟩]
    congr 2
    omega

theorem fromLatin1_congr (b1 b2 : Nat → Nat) (offset len cursor : Nat)
    (hle : offset + len ≤ cursor) (h : ∀ b, b < cursor → b2 b = b1 b) :
    fromLatin1 b2 offset len = fromLatin1 b1 offset len := by
  unfold fromLatin1
  apply List.map_congr_left
  intro i hi
  rw [List.mem_range] at hi
  exact h _ (by omega)


/-! ## What the modify phase keeps -/

theorem SameShape.refl (s : DataConverter) : SameShape s s :=
  ⟨rfl, rfl, rfl, rfl, rfl, rfl, rfl, rfl, rfl, fun _ => rfl, fun _ => rfl, fun _ => rfl,
    fun _ => rfl, fun _ => rfl, le_refl _, fun _ _ => rfl⟩

theorem SameShape.trans {s1 s2 s3 : DataConverter} (h1 : SameShape s1 s2)
    (h2 : SameShape s2 s3) : SameShape s1 s3 :=
  ⟨h2.parameters.trans h1.parameters, h2.cudaConstants.trans h1.cudaConstants,
    h2.limits.trans h1.limits, h2.cellToModifyById.trans h1.cellToModifyById,
    h2.clusterToModifyById.trans h1.clusterToModifyById,
    h2.particleToModifyById.trans h1.particleToModifyById,
    h2.numClusters.trans h1.numClusters, h2.numCells.trans h1.numCells,
    h2.numParticles.trans h1.numParticles,
    fun i => (h2.clusterId i).trans (h1.clusterId i),
    fun i => (h2.cellStartIndex i).trans (h1.cellStartIndex i),
    fun i => (h2.clusterNumCells i).trans (h1.clusterNumCells i),
    fun c => (h2.cellId c).trans (h1.cellId c),
    fun p => (h2.particleId p).trans (h1.particleId p),
    le_trans h1.numStringBytes h2.numStringBytes,
    fun b hb => (h2.stringBytes b (lt_of_lt_of_le hb h1.numStringBytes)).trans
      (h1.stringBytes b hb)⟩

theorem sameShape_setCluster (s : DataConverter) (i : Nat) (v : ClusterAccessTO)
    (h1 : v.id = (s.dataTO.clusters i).id)
    (h2 : v.cellStartIndex = (s.dataTO.clusters i).cellStartIndex)
    (h3 : v.numCells = (s.dataTO.clusters i).numCells) :
    SameShape s (s.setCluster i v) := by
  refine ⟨rfl, rfl, rfl, rfl, rfl, rfl, rfl, rfl, rfl, ?_, ?_, ?_, fun _ => rfl, fun _ => rfl,
    le_refl _, fun _ _ => rfl⟩
  all_goals
    intro j
    simp only [DataConverter.setCluster, DataConverter.withDataTO]
    by_cases hj : j = i
    · subst hj; simp [h1, h2, h3]
    · simp [Function.update_noteq hj]

theorem sameShape_setCell (s : DataConverter) (i : Nat) (v : CellAccessTO)
    (h1 : v.id = (s.dataTO.cells i).id) : SameShape s (s.setCell i v) := by
  refine ⟨rfl, rfl, rfl, rfl, rfl, rfl, rfl, rfl, rfl, fun _ => rfl, fun _ => rfl,
    fun _ => rfl, ?_, fun _ => rfl, le_refl _, fun _ _ => rfl⟩
  intro j
  simp only [DataConverter.setCell, DataConverter.withDataTO]
  by_cases hj : j = i
  · subst hj; simp [h1]
  · simp [Function.update_noteq hj]

theorem sameShape_setParticle (s : DataConverter) (i : Nat) (v : ParticleAccessTO)
    (h1 : v.id = (s.dataTO.particles i).id) : SameShape s (s.setParticle i v) := by
  refine ⟨rfl, rfl, rfl, rfl, rfl, rfl, rfl, rfl, rfl, fun _ => rfl, fun _ => rfl,
    fun _ => rfl, fun _ => rfl, ?_, le_refl _, fun _ _ => rfl⟩
  intro j
  simp only [DataConverter.setParticle, DataConverter.withDataTO]
  by_cases hj : j = i
  · subst hj; simp [h1]
  · simp [Function.update_noteq hj]

theorem sameShape_setToken (s : DataConverter) (i : Nat) (v : TokenAccessTO) :
    SameShape s (s.setToken i v) :=
  ⟨rfl, rfl, rfl, rfl, rfl, rfl, rfl, rfl, rfl, fun _ => rfl, fun _ => rfl, fun _ => rfl,
    fun _ => rfl, fun _ => rfl, le_refl _, fun _ _ => rfl⟩

theorem sameShape_numTokens (s : DataConverter) (n : Nat) :
    SameShape s (s.withDataTO { s.dataTO with numTokens := n }) :=
  ⟨rfl, rfl, rfl, rfl, rfl, rfl, rfl, rfl, rfl, fun _ => rfl, fun _ => rfl, fun _ => rfl,
    fun _ => rfl, fun _ => rfl, le_refl _, fun _ _ => rfl⟩

/-- Interning a text touches the string pool only. -/
theorem convertString_eq (str : QString) (s : DataConverter) :
    ∃ bytes n, (convertStringAndReturnStringIndex str s).2
      = s.withDataTO { s.dataTO with stringBytes := bytes, numStringBytes := n } :=
  ⟨_, _, rfl⟩

theorem sameShape_convertString (str : QString) (s : DataConverter) :
    SameShape s (convertStringAndReturnStringIndex str s).2 := by
  obtain ⟨_, bytes, he, hb, _⟩ := convertString_spec str s
  rw [he]
  exact ⟨rfl, rfl, rfl, rfl, rfl, rfl, rfl, rfl, rfl, fun _ => rfl, fun _ => rfl, fun _ => rfl,
    fun _ => rfl, fun _ => rfl, Nat.le_add_right _ _, hb⟩

theorem sameShape_writeCellMetadata (m : CellMetadata) (metadataTO : CellMetadataAccessTO)
    (s : DataConverter) : SameShape s (writeCellMetadata m metadataTO s).2 := by
  unfold writeCellMetadata
  simp only
  split <;> split <;> split <;>
    first
    | exact SameShape.refl _
    | exact sameShape_convertString _ _
    | exact (sameShape_convertString _ _).trans (sameShape_convertString _ _)
    | exact ((sameShape_convertString _ _).trans (sameShape_convertString _ _)).trans
        (sameShape_convertString _ _)


theorem applyChangeDescription_cell_shape (ch : CellChangeDescription) (c : CellAccessTO)
    (s : DataConverter) :
    (applyChangeDescription_cell ch c s).1.id = c.id
    ∧ SameShape s (applyChangeDescription_cell ch c s).2 := by
  rcases ch with ⟨id, pos, energy, maxC, conn, blocked, branch, md, feat, toks, usages⟩
  cases pos <;> cases energy <;> cases maxC <;> cases branch <;> cases feat <;> cases md <;>
    cases usages <;>
    first
    | exact ⟨rfl, SameShape.refl _⟩
    | exact ⟨rfl, sameShape_writeCellMetadata _ _ _⟩

theorem applyChangeDescription_cluster_shape (ch : ClusterChangeDescription)
    (c : ClusterAccessTO) (s : DataConverter) :
    (applyChangeDescription_cluster ch c s).1.id = c.id
    ∧ (applyChangeDescription_cluster ch c s).1.cellStartIndex = c.cellStartIndex
    ∧ (applyChangeDescription_cluster ch c s).1.numCells = c.numCells
    ∧ SameShape s (applyChangeDescription_cluster ch c s).2 := by
  rcases ch with ⟨id, pos, vel, angle, angularVel, md, cells⟩
  cases pos <;> cases vel <;> cases angle <;> cases angularVel <;> cases md <;>
    first
    | exact ⟨rfl, rfl, rfl, SameShape.refl _⟩
    | (unfold applyChangeDescription_cluster
       dsimp only
       split
       · exact ⟨rfl, rfl, rfl, sameShape_convertString _ _⟩
       · exact ⟨rfl, rfl, rfl, SameShape.refl _⟩)

theorem applyChangeDescription_particle_id (ch : ParticleChangeDescription)
    (p : ParticleAccessTO) : (applyChangeDescription_particle ch p).id = p.id := by
  rcases ch with ⟨id, pos, vel, energy, md⟩
  cases pos <;> cases vel <;> cases energy <;> cases md <;> rfl

theorem sameShape_processModifications_cluster (s : DataConverter) (i : Nat) :
    SameShape s (processModifications_cluster s i) := by
  unfold processModifications_cluster
  simp only
  split
  · rename_i changes _
    obtain ⟨h1, h2, h3, h4⟩ :=
      applyChangeDescription_cluster_shape changes (s.dataTO.clusters i) s
    refine h4.trans (sameShape_setCluster _ i _ ?_ ?_ ?_)
    · rw [h1, h4.clusterId]
    · rw [h2, h4.cellStartIndex]
    · rw [h3, h4.clusterNumCells]
  · exact SameShape.refl _

theorem sameShape_processModifications_cell (s : DataConverter) (i : Nat) :
    SameShape s (processModifications_cell s i) := by
  unfold processModifications_cell
  simp only
  split
  · rename_i changes _
    obtain ⟨h1, h4⟩ := applyChangeDescription_cell_shape changes (s.dataTO.cells i) s
    refine h4.trans (sameShape_setCell _ i _ ?_)
    rw [h1, h4.cellId]
  · exact SameShape.refl _

theorem sameShape_processModifications_particle (s : DataConverter) (i : Nat) :
    SameShape s (processModifications_particle s i) := by
  unfold processModifications_particle
  simp only
  split
  · exact sameShape_setParticle _ i _ (applyChangeDescription_particle_id _ _)
  · exact SameShape.refl _

theorem sameShape_foldl {α : Type} (step : DataConverter → α → DataConverter)
    (h : ∀ s x, SameShape s (step s x)) (xs : List α) (s : DataConverter) :
    SameShape s (xs.foldl step s) := by
  induction xs generalizing s with
  | nil => exact SameShape.refl _
  | cons x xs ih => exact (h s x).trans (ih _)

/-- The same for a loop that may throw: the state it ends in, thrown or not. -/
theorem sameShape_forEach {α : Type} (body : α → DataConverter → Step DataConverter)
    (h : ∀ x s, SameShape s (body x s).state) (xs : List α) (s : DataConverter) :
    SameShape s (forEach xs body s).state := by
  induction xs generalizing s with
  | nil => exact SameShape.refl _
  | cons x xs ih =>
    rw [forEach_cons]
    unfold Step.andThen
    split
    · exact (h x s).trans (ih _)
    · exact h x s


/-! ## The token rebuild -/

theorem tokensOn_push (d : DataAccessTO) (t : TokenAccessTO) (size c : Nat) :
    tokensOn { d with numTokens := d.numTokens + 1
                      tokens := Function.update d.tokens d.numTokens t } size c
      = tokensOn d size c
        ++ (if t.cellIndex = c then [(t.energy, t.memory.take size)] else []) := by
  unfold tokensOn
  simp only
  rw [List.range_succ, List.map_append, List.filter_append, List.map_append]
  congr 1
  · congr 2
    apply List.map_congr_left
    intro i hi
    rw [List.mem_range] at hi
    rw [Function.update_noteq (by omega)]
  · by_cases h : t.cellIndex = c <;> simp [h]

theorem convertToArray_take (data target : List Nat) (size : Nat) :
    (convertToArray data target size).take size = convertToArray data [] size := by
  unfold convertToArray
  rw [List.take_append_of_le_length (by simp)]
  simp

theorem sameShape_rebuild_deltaToken (cellIndex : Nat) (td : TokenDescription)
    (s : DataConverter) : SameShape s (rebuild_deltaToken cellIndex td s).state := by
  unfold rebuild_deltaToken
  simp only
  split
  · exact sameShape_numTokens s _
  · split
    · exact (sameShape_numTokens s _).trans (sameShape_setToken _ _ _)
    · split
      · exact (sameShape_numTokens s _).trans (sameShape_setToken _ _ _)
      · exact (sameShape_numTokens s _).trans (sameShape_setToken _ _ _)

theorem sameShape_rebuild_carriedToken (t : TokenAccessTO) (s : DataConverter) :
    SameShape s (rebuild_carriedToken t s).state := by
  unfold rebuild_carriedToken
  simp only
  split
  · exact sameShape_numTokens s _
  · exact (sameShape_numTokens s _).trans (sameShape_setToken _ _ _)

/-- A delta token written without a throw adds one token, on `cellIndex`, with
the energy and the padded data of the delta. -/
theorem tokensOn_rebuild_deltaToken (cellIndex : Nat) (td : TokenDescription)
    (s : DataConverter) (c : Nat)
    (hok : (rebuild_deltaToken cellIndex td s).failure = none) :
    (tokensOn (rebuild_deltaToken cellIndex td s).state.dataTO
        s.parameters.tokenMemorySize c).map observedToken
      = (tokensOn s.dataTO s.parameters.tokenMemorySize c).map observedToken
        ++ (if cellIndex = c then [expectedToken s.parameters.tokenMemorySize td] else []) := by
  unfold rebuild_deltaToken at hok ⊢
  simp only at hok ⊢
  split at hok
  · simp at hok
  · rename_i hcap
    rw [if_neg hcap]
    cases he : td.energy with
    | none => rw [he] at hok; simp at hok
    | some e =>
      cases hb : td.data with
      | none => rw [he, hb] at hok; simp at hok
      | some b =>
        simp only [DataConverter.setToken, DataConverter.withDataTO]
        rw [tokensOn_push, List.map_append]
        congr 1
        by_cases hc : cellIndex = c
        · simp [hc, observedToken, expectedToken, he, hb, convertToArray_take]
        · simp [hc]

/-- A carried token written without a throw adds that very token. -/
theorem tokensOn_rebuild_carriedToken (t : TokenAccessTO) (s : DataConverter) (size c : Nat)
    (hok : (rebuild_carriedToken t s).failure = none) :
    tokensOn (rebuild_carriedToken t s).state.dataTO size c
      = tokensOn s.dataTO size c
        ++ (if t.cellIndex = c then [(t.energy, t.memory.take size)] else []) := by
  unfold rebuild_carriedToken at hok ⊢
  simp only at hok ⊢
  split at hok
  · simp at hok
  · rename_i hcap
    rw [if_neg hcap]
    simp only [DataConverter.setToken, DataConverter.withDataTO]
    rw [tokensOn_push]


theorem flatMap_ite_nodup {α β : Type} [DecidableEq α] (xs : List α) (c : α) (l : List β)
    (h : xs.Nodup) :
    xs.flatMap (fun x => if x = c then l else []) = if c ∈ xs then l else [] := by
  induction xs with
  | nil => simp
  | cons x xs ih =>
    rw [List.nodup_cons] at h
    rw [List.flatMap_cons, ih h.2]
    by_cases hx : x = c
    · subst hx
      simp [h.1]
    · have : ¬ c = x := fun e => hx e.symm
      simp [hx, this]

theorem tokensOn_deltaLoop (cellIndex c : Nat) (tokens : List TokenDescription)
    (s : DataConverter)
    (hok : (forEach tokens (rebuild_deltaToken cellIndex) s).failure = none) :
    (tokensOn (forEach tokens (rebuild_deltaToken cellIndex) s).state.dataTO
        s.parameters.tokenMemorySize c).map observedToken
      = (tokensOn s.dataTO s.parameters.tokenMemorySize c).map observedToken
        ++ (if cellIndex = c then tokens.map (expectedToken s.parameters.tokenMemorySize)
            else []) := by
  have H := forEach_rule (rebuild_deltaToken cellIndex)
    (fun done st => SameShape s st
      ∧ (tokensOn st.dataTO s.parameters.tokenMemorySize c).map observedToken
        = (tokensOn s.dataTO s.parameters.tokenMemorySize c).map observedToken
          ++ (if cellIndex = c then done.map (expectedToken s.parameters.tokenMemorySize)
              else []))
    tokens s ⟨SameShape.refl s, by simp⟩
    (by
      intro done x st ⟨hs, hv⟩ hx
      refine ⟨hs.trans (sameShape_rebuild_deltaToken _ _ _), ?_⟩
      have := tokensOn_rebuild_deltaToken cellIndex x st c hx
      rw [hs.parameters] at this
      rw [this, hv]
      by_cases hc : cellIndex = c <;> simp [hc])
    hok
  exact H.2

theorem tokensOn_carriedLoop (tokens : List TokenAccessTO) (s : DataConverter) (size c : Nat)
    (hok : (forEach tokens rebuild_carriedToken s).failure = none) :
    tokensOn (forEach tokens rebuild_carriedToken s).state.dataTO size c
      = tokensOn s.dataTO size c
        ++ ((tokens.filter (fun t => decide (t.cellIndex = c))).map
            (fun t => (t.energy, t.memory.take size))) := by
  have H := forEach_rule rebuild_carriedToken
    (fun done st => tokensOn st.dataTO size c
        = tokensOn s.dataTO size c
          ++ ((done.filter (fun t => decide (t.cellIndex = c))).map
              (fun t => (t.energy, t.memory.take size))))
    tokens s (by simp)
    (by
      intro done x st hv hx
      rw [tokensOn_rebuild_carriedToken x st size c hx, hv]
      by_cases hc : x.cellIndex = c <;> simp [hc, List.filter_append])
    hok
  exact H

theorem sameShape_addClusterTokens (s : DataConverter) (i n : Nat) :
    SameShape s (s.addClusterTokens i n) :=
  sameShape_setCluster s i _ rfl rfl rfl

theorem sameShape_rebuild_cell (m : List (Nat × List TokenAccessTO)) (i x : Nat)
    (s : DataConverter) : SameShape s (rebuild_cell m i x s).state := by
  unfold rebuild_cell
  simp only
  split
  · split
    · exact (sameShape_addClusterTokens s _ _).trans
        (sameShape_forEach _ (fun t st => sameShape_rebuild_deltaToken _ t st) _ _)
    · exact SameShape.refl _
  · split
    · exact (sameShape_addClusterTokens s _ _).trans
        (sameShape_forEach _ (fun t st => sameShape_rebuild_carriedToken t st) _ _)
    · exact SameShape.refl _

theorem sameShape_rebuild_cluster (m : List (Nat × List TokenAccessTO)) (i : Nat)
    (s : DataConverter) : SameShape s (rebuild_cluster m i s).state := by
  unfold rebuild_cluster
  simp only
  apply SameShape.trans _ (sameShape_forEach _ (fun x st => sameShape_rebuild_cell m i x st) _ _)
  exact sameShape_setCluster s i _ rfl rfl rfl

/-- Rebuild of one cell, seen from the cell `c` whose delta supplies the token
list `tokens`: the cell `c` itself contributes that list, any other cell
contributes nothing to the tokens hosted by `c`. -/
theorem tokensOn_rebuild_cell (m : List (Nat × List TokenAccessTO)) (i x c : Nat)
    (s0 s : DataConverter) (cell : CellChangeDescription) (tokens : List TokenDescription)
    (hs : SameShape s0 s)
    (hdelta : s0.cellToModifyById.lookup (s0.dataTO.cells c).id = some cell)
    (htokens : cell.tokens = some tokens)
    (hsnap : ∀ k ts, m.lookup k = some ts → ∀ t, t ∈ ts → (s0.dataTO.cells t.cellIndex).id = k)
    (hok : (rebuild_cell m i x s).failure = none) :
    (tokensOn (rebuild_cell m i x s).state.dataTO
        s0.parameters.tokenMemorySize c).map observedToken
      = (tokensOn s.dataTO s0.parameters.tokenMemorySize c).map observedToken
        ++ (if x = c then tokens.map (expectedToken s0.parameters.tokenMemorySize) else []) := by
  unfold rebuild_cell at hok ⊢
  simp only at hok ⊢
  rw [hs.cellToModifyById, hs.cellId] at hok ⊢
  cases hl : s0.cellToModifyById.lookup (s0.dataTO.cells x).id with
  | some cell' =>
    rw [hl] at hok
    simp only at hok ⊢
    cases ht : cell'.tokens with
    | some tokens' =>
      rw [ht] at hok
      simp only at hok ⊢
      have h1 := tokensOn_deltaLoop x c tokens' (s.addClusterTokens i tokens'.length) hok
      rw [(sameShape_addClusterTokens s _ _).parameters, hs.parameters] at h1
      rw [h1]
      congr 1
      by_cases hxc : x = c
      · subst hxc
        rw [hdelta] at hl
        cases hl
        rw [htokens] at ht
        cases ht
        rfl
      · simp [hxc]
    | none =>
      have hxc : x ≠ c := by
        intro e
        subst e
        rw [hdelta] at hl
        cases hl
        rw [htokens] at ht
        cases ht
      simp [hxc]
  | none =>
    rw [hl] at hok
    simp only at hok ⊢
    have hxc : x ≠ c := by
      intro e
      subst e
      rw [hdelta] at hl
      cases hl
    cases hm : m.lookup (s0.dataTO.cells x).id with
    | some ts =>
      rw [hm] at hok
      simp only at hok ⊢
      rw [tokensOn_carriedLoop ts _ _ c hok]
      have hnone : ts.filter (fun t => decide (t.cellIndex = c)) = [] := by
        rw [List.filter_eq_nil_iff]
        intro t ht hc
        simp only [decide_eq_true_eq] at hc
        have := hsnap _ ts hm t ht
        rw [hc] at this
        rw [← this, hdelta] at hl
        cases hl
      rw [hnone]
      simp [hxc]
      rfl
    | none =>
      simp [hxc]


theorem lookup_pushToken (m : List (Nat × List TokenAccessTO)) (id k : Nat) (t : TokenAccessTO) :
    (pushToken m id t).lookup k
      = if k = id then some ((m.lookup id).getD [] ++ [t]) else m.lookup k := by
  induction m with
  | nil =>
    by_cases h : k = id
    · have hb : (k == id) = true := by simp [h]
      simp [pushToken, List.lookup, h]
    · have hb : (k == id) = false := by simp [h]
      simp [pushToken, List.lookup, h, hb]
  | cons e rest ih =>
    obtain ⟨k', v⟩ := e
    unfold pushToken
    by_cases h1 : k' = id
    · subst h1
      by_cases h2 : k = k'
      · subst h2; simp [List.lookup]
      · have hb : (k == k') = false := by simp [h2]
        simp [List.lookup, h2, hb]
    · simp only [h1, if_false]
      by_cases h2 : k = k'
      · subst h2
        have : ¬ k = id := h1
        simp [List.lookup, this]
      · have hb : (k == k') = false := by simp [h2]
        have hb2 : (id == k') = false := by simp [Ne.symm h1]
        simp only [List.lookup, hb, hb2, ih]

/-- Every token of the snapshot is filed under the id of its owning cell. -/
theorem collectTokens_owner (d : DataAccessTO) (k : Nat) (ts : List TokenAccessTO)
    (h : (collectTokens d).lookup k = some ts) (t : TokenAccessTO) (ht : t ∈ ts) :
    (d.cells t.cellIndex).id = k := by
  unfold collectTokens at h
  generalize d.numTokens = n at h
  induction n generalizing k ts t with
  | zero => simp [List.lookup] at h
  | succ n ih =>
    rw [List.range_succ, List.foldl_append] at h
    simp only [List.foldl_cons, List.foldl_nil] at h
    rw [lookup_pushToken] at h
    by_cases hk : k = (d.cells (d.tokens n).cellIndex).id
    · rw [if_pos hk] at h
      simp only [Option.some.injEq] at h
      subst h
      rw [List.mem_append] at ht
      rcases ht with ht | ht
      · cases hl : List.lookup (d.cells (d.tokens n).cellIndex).id
            ((List.range n).foldl
              (fun m index => pushToken m (d.cells (d.tokens index).cellIndex).id
                (d.tokens index)) []) with
        | none => rw [hl] at ht; simp at ht
        | some ts' =>
          rw [hl] at ht
          simp only [Option.getD_some] at ht
          rw [hk]
          exact ih _ ts' t ht hl
      · simp only [List.mem_singleton] at ht
        subst ht
        exact hk.symm
    · rw [if_neg hk] at h
      exact ih k ts t ht h

/-- Rebuild of one cluster, seen from the cell `c` whose delta supplies the
token list `tokens`. -/
theorem tokensOn_rebuild_cluster (m : List (Nat × List TokenAccessTO)) (i c : Nat)
    (s0 s : DataConverter) (cell : CellChangeDescription) (tokens : List TokenDescription)
    (hs : SameShape s0 s)
    (hdelta : s0.cellToModifyById.lookup (s0.dataTO.cells c).id = some cell)
    (htokens : cell.tokens = some tokens)
    (hsnap : ∀ k ts, m.lookup k = some ts → ∀ t, t ∈ ts → (s0.dataTO.cells t.cellIndex).id = k)
    (hok : (rebuild_cluster m i s).failure = none) :
    SameShape s0 (rebuild_cluster m i s).state
    ∧ (tokensOn (rebuild_cluster m i s).state.dataTO
        s0.parameters.tokenMemorySize c).map observedToken
      = (tokensOn s.dataTO s0.parameters.tokenMemorySize c).map observedToken
        ++ (if inCellRange (s0.dataTO.clusters i) c = true
            then tokens.map (expectedToken s0.parameters.tokenMemorySize) else []) := by
  refine ⟨hs.trans (sameShape_rebuild_cluster m i s), ?_⟩
  unfold rebuild_cluster at hok ⊢
  simp only at hok ⊢
  have hs1 : SameShape s0 (s.setCluster i
      { s.dataTO.clusters i with
        tokenStartIndex := (s.dataTO.numTokens : Int), numTokens := 0 }) :=
    hs.trans (sameShape_setCluster s i _ rfl rfl rfl)
  have H := forEach_rule (rebuild_cell m i)
    (fun done st => SameShape s0 st
      ∧ (tokensOn st.dataTO s0.parameters.tokenMemorySize c).map observedToken
        = (tokensOn s.dataTO s0.parameters.tokenMemorySize c).map observedToken
          ++ done.flatMap (fun x => if x = c
              then tokens.map (expectedToken s0.parameters.tokenMemorySize) else []))
    _ _ ⟨hs1, by simp; rfl⟩
    (by
      intro done x st ⟨hst, hv⟩ hx
      refine ⟨hst.trans (sameShape_rebuild_cell m i x st), ?_⟩
      rw [tokensOn_rebuild_cell m i x c s0 st cell tokens hst hdelta htokens hsnap hx, hv]
      simp [List.flatMap_append])
    hok
  rw [H.2, flatMap_ite_nodup _ _ _ (List.nodup_range' _ _)]
  congr 1
  rw [hs.cellStartIndex, hs.clusterNumCells]
  by_cases hin : inCellRange (s0.dataTO.clusters i) c = true
  · have : c ∈ List.range' (s0.dataTO.clusters i).cellStartIndex
        (s0.dataTO.clusters i).numCells := by
      rw [List.mem_range'_1]
      simpa [inCellRange] using hin
    rw [if_pos this, if_pos hin]
  · have : ¬ c ∈ List.range' (s0.dataTO.clusters i).cellStartIndex
        (s0.dataTO.clusters i).numCells := by
      rw [List.mem_range'_1]
      simpa [inCellRange] using hin
    rw [if_neg this, if_neg hin]

/-- The whole rebuild, seen from the cell `c`, which lies in the cell range of
exactly one live cluster. -/
theorem tokensOn_rebuild (m : List (Nat × List TokenAccessTO)) (c i0 : Nat)
    (s0 s : DataConverter) (cell : CellChangeDescription) (tokens : List TokenDescription)
    (hs : SameShape s0 s)
    (hdelta : s0.cellToModifyById.lookup (s0.dataTO.cells c).id = some cell)
    (htokens : cell.tokens = some tokens)
    (hsnap : ∀ k ts, m.lookup k = some ts → ∀ t, t ∈ ts → (s0.dataTO.cells t.cellIndex).id = k)
    (hi0 : i0 < s0.dataTO.numClusters)
    (hin : inCellRange (s0.dataTO.clusters i0) c = true)
    (huniq : ∀ j, j < s0.dataTO.numClusters → inCellRange (s0.dataTO.clusters j) c = true →
      j = i0)
    (hok : (forEach (List.range s.dataTO.numClusters) (rebuild_cluster m) s).failure = none) :
    (tokensOn (forEach (List.range s.dataTO.numClusters) (rebuild_cluster m) s).state.dataTO
        s0.parameters.tokenMemorySize c).map observedToken
      = (tokensOn s.dataTO s0.parameters.tokenMemorySize c).map observedToken
        ++ tokens.map (expectedToken s0.parameters.tokenMemorySize) := by
  have H := forEach_rule (rebuild_cluster m)
    (fun done st => SameShape s0 st
      ∧ (tokensOn st.dataTO s0.parameters.tokenMemorySize c).map observedToken
        = (tokensOn s.dataTO s0.parameters.tokenMemorySize c).map observedToken
          ++ done.flatMap (fun i => if inCellRange (s0.dataTO.clusters i) c = true
              then tokens.map (expectedToken s0.parameters.tokenMemorySize) else []))
    _ _ ⟨hs, by simp⟩
    (by
      intro done x st ⟨hst, hv⟩ hx
      obtain ⟨h1, h2⟩ := tokensOn_rebuild_cluster m x c s0 st cell tokens hst hdelta htokens
        hsnap hx
      refine ⟨h1, ?_⟩
      rw [h2, hv]
      simp [List.flatMap_append])
    hok
  rw [H.2]
  congr 1
  rw [hs.numClusters]
  have hcongr : (List.range s0.dataTO.numClusters).flatMap
        (fun i => if inCellRange (s0.dataTO.clusters i) c = true
          then tokens.map (expectedToken s0.parameters.tokenMemorySize) else [])
      = (List.range s0.dataTO.numClusters).flatMap
        (fun i => if i = i0
          then tokens.map (expectedToken s0.parameters.tokenMemorySize) else []) := by
    unfold List.flatMap
    congr 1
    apply List.map_congr_left
    intro j hj
    rw [List.mem_range] at hj
    by_cases hji : j = i0
    · subst hji; rw [if_pos hin, if_pos rfl]
    · rw [if_neg hji, if_neg (fun h => hji (huniq j hj h))]
  rw [hcongr, flatMap_ite_nodup _ _ _ (List.nodup_range _)]
  rw [if_pos (List.mem_range.mpr hi0)]


theorem tokens_processModifications_particle (s : DataConverter) (i : Nat) :
    (processModifications_particle s i).dataTO.tokens = s.dataTO.tokens
    ∧ (processModifications_particle s i).dataTO.numTokens = s.dataTO.numTokens := by
  unfold processModifications_particle
  simp only
  split <;> exact ⟨rfl, rfl⟩

theorem tokens_foldl_particle (xs : List Nat) (s : DataConverter) :
    (xs.foldl processModifications_particle s).dataTO.tokens = s.dataTO.tokens
    ∧ (xs.foldl processModifications_particle s).dataTO.numTokens = s.dataTO.numTokens := by
  induction xs generalizing s with
  | nil => exact ⟨rfl, rfl⟩
  | cons x xs ih =>
    simp only [List.foldl_cons]
    obtain ⟨h1, h2⟩ := ih (processModifications_particle s x)
    obtain ⟨h3, h4⟩ := tokens_processModifications_particle s x
    exact ⟨h1.trans h3, h2.trans h4⟩

theorem tokensOn_congr (d d' : DataAccessTO) (size c : Nat) (h1 : d'.tokens = d.tokens)
    (h2 : d'.numTokens = d.numTokens) : tokensOn d' size c = tokensOn d size c := by
  unfold tokensOn
  rw [h1, h2]

theorem processModifications_eq (s : DataConverter) :
    processModifications s
      = (forEach (List.range (modifiedClustersAndCells s).dataTO.numClusters)
          (rebuild_cluster (collectTokens (modifiedClustersAndCells s).dataTO))
          ((modifiedClustersAndCells s).withDataTO
            { (modifiedClustersAndCells s).dataTO with numTokens := 0 })).andThen
        (fun s => ⟨(List.range s.dataTO.numParticles).foldl processModifications_particle s,
          none⟩) := rfl

theorem sameShape_modifiedClustersAndCells (s : DataConverter) :
    SameShape s (modifiedClustersAndCells s) :=
  (sameShape_foldl _ sameShape_processModifications_cluster _ _).trans
    (sameShape_foldl _ sameShape_processModifications_cell _ _)

theorem tokensOn_andThen_particles (r : Step DataConverter) (size c : Nat)
    (h : r.failure = none) :
    tokensOn (r.andThen (fun s =>
        ⟨(List.range s.dataTO.numParticles).foldl processModifications_particle s,
          none⟩)).state.dataTO size c
      = tokensOn r.state.dataTO size c := by
  unfold Step.andThen
  rw [h]
  simp only
  obtain ⟨h1, h2⟩ := tokens_foldl_particle (List.range r.state.dataTO.numParticles) r.state
  exact tokensOn_congr _ _ _ _ h1 h2

/-! ## Token replacement -/

theorem KeepsLive.same (s : DataConverter) : KeepsLive s s :=
  ⟨rfl, le_refl _, le_refl _, le_refl _, fun _ _ => rfl, fun _ _ => rfl, fun _ _ => rfl,
    le_refl _, fun _ _ => rfl⟩

theorem KeepsLive.next {s1 s2 s3 : DataConverter} (h1 : KeepsLive s1 s2)
    (h2 : KeepsLive s2 s3) : KeepsLive s1 s3 :=
  ⟨h2.cudaConstants.trans h1.cudaConstants,
    le_trans h1.numClusters h2.numClusters, le_trans h1.numCells h2.numCells,
    le_trans h1.numParticles h2.numParticles,
    fun i hi => (h2.clusterId i (lt_of_lt_of_le hi h1.numClusters)).trans (h1.clusterId i hi),
    fun c hc => (h2.cellId c (lt_of_lt_of_le hc h1.numCells)).trans (h1.cellId c hc),
    fun p hp => (h2.particleId p (lt_of_lt_of_le hp h1.numParticles)).trans
      (h1.particleId p hp),
    le_trans h1.numStringBytes h2.numStringBytes,
    fun b hb => (h2.stringBytes b (lt_of_lt_of_le hb h1.numStringBytes)).trans
      (h1.stringBytes b hb)⟩

theorem SameShape.keepsLive {s s' : DataConverter} (h : SameShape s s') : KeepsLive s s' :=
  ⟨h.cudaConstants, le_of_eq h.numClusters.symm, le_of_eq h.numCells.symm,
    le_of_eq h.numParticles.symm, fun i _ => h.clusterId i, fun c _ => h.cellId c,
    fun p _ => h.particleId p, h.numStringBytes, h.stringBytes⟩

theorem keepsLive_forEach {α : Type} (body : α → DataConverter → Step DataConverter)
    (h : ∀ x s, KeepsLive s (body x s).state) (xs : List α) (s : DataConverter) :
    KeepsLive s (forEach xs body s).state := by
  induction xs generalizing s with
  | nil => exact KeepsLive.same _
  | cons x xs ih =>
    rw [forEach_cons]
    unfold Step.andThen
    split
    · exact (h x s).next (ih _)
    · exact h x s

theorem keepsLive_andThen (s : DataConverter) (r : Step DataConverter)
    (g : DataConverter → Step DataConverter) (h1 : KeepsLive s r.state)
    (h2 : ∀ st, KeepsLive st (g st).state) : KeepsLive s (r.andThen g).state := by
  unfold Step.andThen
  split
  · exact h1.next (h2 _)
  · exact h1

theorem KeepsLive.setCluster {s s' : DataConverter} (h0 : KeepsLive s s') (i : Nat)
    (v : ClusterAccessTO)
    (h : s.dataTO.numClusters ≤ i ∨ v.id = (s'.dataTO.clusters i).id) :
    KeepsLive s (s'.setCluster i v) := by
  refine ⟨h0.cudaConstants, h0.numClusters, h0.numCells, h0.numParticles, ?_, h0.cellId,
    h0.particleId, h0.numStringBytes, h0.stringBytes⟩
  intro j hj
  simp only [DataConverter.setCluster, DataConverter.withDataTO]
  by_cases hji : j = i
  · subst hji
    rcases h with h | h
    · omega
    · simp [h, h0.clusterId j hj]
  · simp [Function.update_noteq hji, h0.clusterId j hj]

theorem KeepsLive.setCell {s s' : DataConverter} (h0 : KeepsLive s s') (i : Nat)
    (v : CellAccessTO) (h : s.dataTO.numCells ≤ i ∨ v.id = (s'.dataTO.cells i).id) :
    KeepsLive s (s'.setCell i v) := by
  refine ⟨h0.cudaConstants, h0.numClusters, h0.numCells, h0.numParticles, h0.clusterId, ?_,
    h0.particleId, h0.numStringBytes, h0.stringBytes⟩
  intro j hj
  simp only [DataConverter.setCell, DataConverter.withDataTO]
  by_cases hji : j = i
  · subst hji
    rcases h with h | h
    · omega
    · simp [h, h0.cellId j hj]
  · simp [Function.update_noteq hji, h0.cellId j hj]

theorem KeepsLive.setParticle {s s' : DataConverter} (h0 : KeepsLive s s') (i : Nat)
    (v : ParticleAccessTO) (h : s.dataTO.numParticles ≤ i) :
    KeepsLive s (s'.setParticle i v) := by
  refine ⟨h0.cudaConstants, h0.numClusters, h0.numCells, h0.numParticles, h0.clusterId,
    h0.cellId, ?_, h0.numStringBytes, h0.stringBytes⟩
  intro j hj
  simp only [DataConverter.setParticle, DataConverter.withDataTO]
  rw [Function.update_noteq (by omega)]
  exact h0.particleId j hj

/-- Advancing the counts and replacing what is not a cluster, cell or particle
keeps the live entries. -/
theorem keepsLive_of_arrays (s s' : DataConverter) (hc : s'.cudaConstants = s.cudaConstants)
    (h1 : s'.dataTO.clusters = s.dataTO.clusters) (h2 : s'.dataTO.cells = s.dataTO.cells)
    (h3 : s'.dataTO.particles = s.dataTO.particles)
    (n1 : s.dataTO.numClusters ≤ s'.dataTO.numClusters)
    (n2 : s.dataTO.numCells ≤ s'.dataTO.numCells)
    (n3 : s.dataTO.numParticles ≤ s'.dataTO.numParticles)
    (h4 : s'.dataTO.numStringBytes = s.dataTO.numStringBytes)
    (h5 : s'.dataTO.stringBytes = s.dataTO.stringBytes) : KeepsLive s s' :=
  ⟨hc, n1, n2, n3, fun i _ => by rw [h1], fun c _ => by rw [h2], fun p _ => by rw [h3],
    le_of_eq h4.symm, fun b _ => by rw [h5]⟩

theorem keepsLive_assignId (s : DataConverter) (id : Nat) : KeepsLive s (s.assignId id).2 := by
  unfold DataConverter.assignId
  split
  · exact keepsLive_of_arrays _ _ rfl rfl rfl rfl (le_refl _) (le_refl _) (le_refl _) rfl rfl
  · exact KeepsLive.same _

theorem assignId_dataTO (s : DataConverter) (id : Nat) : (s.assignId id).2.dataTO = s.dataTO := by
  unfold DataConverter.assignId
  split <;> rfl

theorem keepsLive_addParticle (p : ParticleDescription) (s : DataConverter) :
    KeepsLive s (addParticle p s).state := by
  unfold addParticle
  simp only
  have h0 : KeepsLive s (s.withDataTO { s.dataTO with numParticles := s.dataTO.numParticles + 1 }) :=
    keepsLive_of_arrays _ _ rfl rfl rfl rfl (le_refl _) (le_refl _) (Nat.le_succ _) rfl rfl
  split
  · exact h0
  · have h1 := h0.next (keepsLive_assignId _ p.id)
    have hn : ∀ v, KeepsLive s
        (((s.withDataTO { s.dataTO with numParticles := s.dataTO.numParticles + 1 }).assignId
          p.id).2.setParticle s.dataTO.numParticles v) :=
      fun v => h1.setParticle _ v (le_refl _)
    split
    · exact hn _
    · split
      · exact hn _
      · split
        · exact hn _
        · split <;> exact hn _


theorem sameShape_addCell_token (cellIndex : Nat) (td : TokenDescription) (s : DataConverter) :
    SameShape s (addCell_token cellIndex td s).state := by
  unfold addCell_token
  simp only
  split
  · exact sameShape_numTokens s _
  · split
    · exact (sameShape_numTokens s _).trans (sameShape_setToken _ _ _)
    · exact (sameShape_numTokens s _).trans (sameShape_setToken _ _ _)

theorem sameShape_addCell_metadata (md : Option CellMetadata) (c : CellAccessTO)
    (s : DataConverter) : SameShape s (addCell_metadata md c s).2 := by
  unfold addCell_metadata
  split
  · exact sameShape_writeCellMetadata _ _ _
  · exact SameShape.refl _

theorem keepsLive_forEach_from {α : Type} {s0 s : DataConverter} (h0 : KeepsLive s0 s)
    (body : α → DataConverter → Step DataConverter)
    (h : ∀ x st, KeepsLive st (body x st).state) (xs : List α) :
    KeepsLive s0 (forEach xs body s).state :=
  h0.next (keepsLive_forEach body h xs s)

/-- `addCell` keeps the live entries, and the binding it adds to the local map
points at or above the cell count it started from. -/
theorem keepsLive_addCell (cellDesc : CellDescription) (clusterIndex : Nat) (s : DataConverter)
    (m : List (Nat × Nat)) :
    KeepsLive s (addCell cellDesc clusterIndex (s, m)).state.1
    ∧ ∀ e, e ∈ (addCell cellDesc clusterIndex (s, m)).state.2 →
        e ∈ m ∨ s.dataTO.numCells ≤ e.2 := by
  have h0 : KeepsLive s (s.withDataTO { s.dataTO with numCells := s.dataTO.numCells + 1 }) :=
    keepsLive_of_arrays _ _ rfl rfl rfl rfl (le_refl _) (Nat.le_succ _) (le_refl _) rfl rfl
  have h1 := h0.next (keepsLive_assignId _ cellDesc.id)
  unfold addCell
  simp only
  split
  · exact ⟨h0, fun e he => Or.inl he⟩
  · split
    · exact ⟨h1.setCell _ _ (Or.inl (le_refl _)), fun e he => Or.inl he⟩
    · split
      · exact ⟨h1.setCell _ _ (Or.inl (le_refl _)), fun e he => Or.inl he⟩
      · split
        · exact ⟨h1.setCell _ _ (Or.inl (le_refl _)), fun e he => Or.inl he⟩
        · have key : ∀ (r : Step DataConverter), KeepsLive s r.state →
              ∀ (id : Nat),
              KeepsLive s (match r.failure with
                | some f => (⟨(r.state, m), some f⟩ : Step AddState)
                | none => ⟨(r.state, (id, s.dataTO.numCells) :: m), none⟩).state.1
              ∧ ∀ e, e ∈ (match r.failure with
                | some f => (⟨(r.state, m), some f⟩ : Step AddState)
                | none => ⟨(r.state, (id, s.dataTO.numCells) :: m), none⟩).state.2 →
                  e ∈ m ∨ s.dataTO.numCells ≤ e.2 := by
            intro r hr id
            cases r.failure with
            | some f => exact ⟨hr, fun e he => Or.inl he⟩
            | none =>
              refine ⟨hr, fun e he => ?_⟩
              simp only [List.mem_cons] at he
              rcases he with he | he
              · right; rw [he]
              · left; exact he
          apply key
          split
          · refine keepsLive_forEach_from ?_ _
              (fun t st => (sameShape_addCell_token _ t st).keepsLive) _
            refine KeepsLive.setCluster ?_ _ _ (Or.inr rfl)
            refine KeepsLive.setCell ?_ _ _ (Or.inl (le_refl _))
            exact h1.next (sameShape_addCell_metadata _ _ _).keepsLive
          · refine KeepsLive.setCell ?_ _ _ (Or.inl (le_refl _))
            exact h1.next (sameShape_addCell_metadata _ _ _).keepsLive


theorem setConnections_step_id (m : List (Nat × Nat)) (ids : List Nat)
    (st : CellAccessTO × Nat) :
    (forEach ids (setConnections_step m) st).state.1.id = st.1.id := by
  induction ids generalizing st with
  | nil => rfl
  | cons x xs ih =>
    rw [forEach_cons]
    unfold Step.andThen
    have hstep : (setConnections_step m x st).state.1.id = st.1.id := by
      unfold setConnections_step
      split <;> rfl
    split
    · rw [ih, hstep]
    · exact hstep

theorem sameShape_setConnections (cellToAdd : CellDescription) (cellIndex : Nat)
    (m : List (Nat × Nat)) (s : DataConverter) :
    SameShape s (setConnections cellToAdd cellIndex m s).state := by
  unfold setConnections
  split
  · exact sameShape_setCell s cellIndex _ (setConnections_step_id m _ _)
  · exact SameShape.refl _

theorem sameShape_addCluster_connect (m : List (Nat × Nat)) (cellDesc : CellDescription)
    (s : DataConverter) : SameShape s (addCluster_connect m cellDesc s).state := by
  unfold addCluster_connect
  split
  · split
    · exact SameShape.refl _
    · exact sameShape_setConnections _ _ _ _
  · exact SameShape.refl _

theorem keepsLive_addCluster_cell (clusterIndex : Nat) (cellDesc : CellDescription)
    (st : AddState × Bool) :
    KeepsLive st.1.1 (addCluster_cell clusterIndex cellDesc st).state.1.1 := by
  unfold addCluster_cell
  simp only
  have h := (keepsLive_addCell cellDesc clusterIndex st.1.1 st.1.2).1
  split
  · exact h
  · split
    · exact h.setCluster clusterIndex _ (Or.inr rfl)
    · exact h

theorem keepsLive_addCluster_cells (clusterIndex : Nat) (cells : List CellDescription)
    (st : AddState × Bool) :
    KeepsLive st.1.1 (forEach cells (addCluster_cell clusterIndex) st).state.1.1 := by
  induction cells generalizing st with
  | nil => exact KeepsLive.same _
  | cons x xs ih =>
    rw [forEach_cons]
    unfold Step.andThen
    split
    · exact (keepsLive_addCluster_cell clusterIndex x st).next (ih _)
    · exact keepsLive_addCluster_cell clusterIndex x st

theorem keepsLive_addCluster (clusterDesc : ClusterDescription) (s : DataConverter) :
    KeepsLive s (addCluster clusterDesc s).state := by
  unfold addCluster
  split
  · exact KeepsLive.same _
  · simp only
    have h0 : KeepsLive s
        (s.withDataTO { s.dataTO with numClusters := s.dataTO.numClusters + 1 }) :=
      keepsLive_of_arrays _ _ rfl rfl rfl rfl (Nat.le_succ _) (le_refl _) (le_refl _) rfl rfl
    have h1 := h0.next (keepsLive_assignId _ clusterDesc.id)
    split
    · exact h0
    · split
      · exact h1.setCluster _ _ (Or.inl (le_refl _))
      · split
        · exact h1.setCluster _ _ (Or.inl (le_refl _))
        · split
          · exact h1.setCluster _ _ (Or.inl (le_refl _))
          · split
            · exact h1.setCluster _ _ (Or.inl (le_refl _))
            · have hbase : ∀ (m : ClusterAccessTO × DataConverter),
                  KeepsLive s m.2 →
                  KeepsLive s (m.2.setCluster s.dataTO.numClusters m.1) :=
                fun m hm => hm.setCluster _ _ (Or.inl (le_refl _))
              have hloops : ∀ (s' : DataConverter) (cells : List CellDescription),
                  KeepsLive s s' →
                  KeepsLive s
                    (match (forEach cells (addCluster_cell s.dataTO.numClusters)
                        ((s', []), true)).failure with
                      | some f => (⟨(forEach cells (addCluster_cell s.dataTO.numClusters)
                          ((s', []), true)).state.1.1, some f⟩ : Step DataConverter)
                      | none => forEach cells
                          (addCluster_connect (forEach cells
                            (addCluster_cell s.dataTO.numClusters)
                            ((s', []), true)).state.1.2)
                          (forEach cells (addCluster_cell s.dataTO.numClusters)
                            ((s', []), true)).state.1.1).state := by
                intro s' cells hs'
                have hl1 := hs'.next
                  (keepsLive_addCluster_cells s.dataTO.numClusters cells ((s', []), true))
                split
                · exact hl1
                · exact keepsLive_forEach_from hl1 _
                    (fun c st => (sameShape_addCluster_connect _ c st).keepsLive) _
              apply hloops
              apply hbase
              split
              · split
                · exact h1.next (sameShape_convertString _ _).keepsLive
                · exact h1
              · exact h1

theorem keepsLive_updateData_addCluster (cluster : ChangeTracker ClusterChangeDescription)
    (s : DataConverter) : KeepsLive s (updateData_addCluster cluster s).state := by
  unfold updateData_addCluster
  split
  · exact keepsLive_addCluster _ _
  · exact KeepsLive.same _

theorem keepsLive_updateData_addParticle (particle : ChangeTracker ParticleChangeDescription)
    (s : DataConverter) : KeepsLive s (updateData_addParticle particle s).state := by
  unfold updateData_addParticle
  split
  · exact keepsLive_addParticle _ _
  · exact KeepsLive.same _

/-- The modify phase keeps every id and every cell range, thrown or not. -/
theorem sameShape_processModifications (s : DataConverter) :
    SameShape s (processModifications s).state := by
  rw [processModifications_eq]
  have h1 := (sameShape_modifiedClustersAndCells s).trans
    (sameShape_numTokens (modifiedClustersAndCells s) 0)
  have h2 := h1.trans (sameShape_forEach _
    (fun i st => sameShape_rebuild_cluster
      (collectTokens (modifiedClustersAndCells s).dataTO) i st)
    (List.range (modifiedClustersAndCells s).dataTO.numClusters) _)
  unfold Step.andThen
  split
  · exact h2.trans (sameShape_foldl _ sameShape_processModifications_particle _ _)
  · exact h2


/-! ## Marking -/

theorem markModifyCluster_fields (c : ClusterChangeDescription) (s : DataConverter) :
    (markModifyCluster c s).dataTO = s.dataTO
    ∧ (markModifyCluster c s).clusterIdsToDelete = s.clusterIdsToDelete
    ∧ (markModifyCluster c s).particleIdsToDelete = s.particleIdsToDelete := by
  have key : ∀ (ts : List (ChangeTracker CellChangeDescription)) (st : DataConverter),
      (ts.foldl
        (fun s cellTracker =>
          if cellTracker.isModified then
            { s with cellToModifyById :=
                (cellTracker.value.id, cellTracker.getValue) :: s.cellToModifyById }
          else s) st).dataTO = st.dataTO
      ∧ (ts.foldl
        (fun s cellTracker =>
          if cellTracker.isModified then
            { s with cellToModifyById :=
                (cellTracker.value.id, cellTracker.getValue) :: s.cellToModifyById }
          else s) st).clusterIdsToDelete = st.clusterIdsToDelete
      ∧ (ts.foldl
        (fun s cellTracker =>
          if cellTracker.isModified then
            { s with cellToModifyById :=
                (cellTracker.value.id, cellTracker.getValue) :: s.cellToModifyById }
          else s) st).particleIdsToDelete = st.particleIdsToDelete := by
    intro ts
    induction ts with
    | nil => intro st; exact ⟨rfl, rfl, rfl⟩
    | cons t ts ih =>
      intro st
      simp only [List.foldl_cons]
      obtain ⟨a, b, c⟩ := ih (if t.isModified then
            { st with cellToModifyById := (t.value.id, t.getValue) :: st.cellToModifyById }
          else st)
      rw [a, b, c]
      split <;> exact ⟨rfl, rfl, rfl⟩
  exact key c.cells { s with clusterToModifyById := (c.id, c) :: s.clusterToModifyById }


theorem markCluster_fields (s : DataConverter) (t : ChangeTracker ClusterChangeDescription) :
    (updateData_markCluster s t).dataTO = s.dataTO
    ∧ (updateData_markCluster s t).clusterIdsToDelete
        = (if t.isDeleted then [t.value.id] else []) ++ s.clusterIdsToDelete
    ∧ (updateData_markCluster s t).particleIdsToDelete = s.particleIdsToDelete := by
  unfold updateData_markCluster
  simp only
  cases hd : t.isDeleted <;> cases hm : t.isModified
  · exact ⟨rfl, rfl, rfl⟩
  · obtain ⟨a, b, c⟩ := markModifyCluster_fields t.getValue s
    simp only [if_true, Bool.false_eq_true, if_false, List.nil_append]
    exact ⟨a, b, c⟩
  · exact ⟨rfl, rfl, rfl⟩
  · obtain ⟨a, b, c⟩ := markModifyCluster_fields t.getValue (markDelCluster t.getValue.id s)
    simp only [if_true]
    exact ⟨a, b, c⟩

theorem markParticle_fields (s : DataConverter) (t : ChangeTracker ParticleChangeDescription) :
    (updateData_markParticle s t).dataTO = s.dataTO
    ∧ (updateData_markParticle s t).clusterIdsToDelete = s.clusterIdsToDelete
    ∧ (updateData_markParticle s t).particleIdsToDelete
        = (if t.isDeleted then [t.value.id] else []) ++ s.particleIdsToDelete := by
  unfold updateData_markParticle
  simp only
  cases hd : t.isDeleted <;> cases hm : t.isModified <;> exact ⟨rfl, rfl, rfl⟩

theorem foldl_markCluster (ts : List (ChangeTracker ClusterChangeDescription))
    (s : DataConverter) :
    (ts.foldl updateData_markCluster s).dataTO = s.dataTO
    ∧ (ts.foldl updateData_markCluster s).clusterIdsToDelete
        = ((ts.filter (fun t => t.isDeleted)).map (fun t => t.value.id)).reverse
          ++ s.clusterIdsToDelete
    ∧ (ts.foldl updateData_markCluster s).particleIdsToDelete = s.particleIdsToDelete := by
  induction ts generalizing s with
  | nil => exact ⟨rfl, rfl, rfl⟩
  | cons t ts ih =>
    simp only [List.foldl_cons]
    obtain ⟨a, b, c⟩ := ih (updateData_markCluster s t)
    obtain ⟨a', b', c'⟩ := markCluster_fields s t
    rw [a, b, c, a', b', c']
    refine ⟨rfl, ?_, rfl⟩
    cases hd : t.isDeleted <;> simp [List.filter_cons, hd]

theorem foldl_markParticle (ts : List (ChangeTracker ParticleChangeDescription))
    (s : DataConverter) :
    (ts.foldl updateData_markParticle s).dataTO = s.dataTO
    ∧ (ts.foldl updateData_markParticle s).clusterIdsToDelete = s.clusterIdsToDelete
    ∧ (ts.foldl updateData_markParticle s).particleIdsToDelete
        = ((ts.filter (fun t => t.isDeleted)).map (fun t => t.value.id)).reverse
          ++ s.particleIdsToDelete := by
  induction ts generalizing s with
  | nil => exact ⟨rfl, rfl, rfl⟩
  | cons t ts ih =>
    simp only [List.foldl_cons]
    obtain ⟨a, b, c⟩ := ih (updateData_markParticle s t)
    obtain ⟨a', b', c'⟩ := markParticle_fields s t
    rw [a, b, c, a', b', c']
    refine ⟨rfl, rfl, ?_⟩
    cases hd : t.isDeleted <;> simp [List.filter_cons, hd]

/-- On a fresh converter the marking loops leave the arena alone and collect
exactly the ids of the Deleted trackers. -/
theorem marked_create (data : DataChangeDescription) (dataTO : DataAccessTO)
    (numberGen : NumberGenerator) (parameters : SimulationParameters)
    (cudaConstants : CudaConstants) (limits : ArrayLimits) :
    (marked data (DataConverter.create dataTO numberGen parameters cudaConstants limits)).dataTO
        = dataTO
    ∧ (marked data (DataConverter.create dataTO numberGen parameters cudaConstants
        limits)).clusterIdsToDelete = deletedClusterIds data
    ∧ (marked data (DataConverter.create dataTO numberGen parameters cudaConstants
        limits)).particleIdsToDelete = deletedParticleIds data := by
  unfold marked
  obtain ⟨a, b, c⟩ := foldl_markParticle data.particles
    (data.clusters.foldl updateData_markCluster
      (DataConverter.create dataTO numberGen parameters cudaConstants limits))
  obtain ⟨a', b', c'⟩ := foldl_markCluster data.clusters
    (DataConverter.create dataTO numberGen parameters cudaConstants limits)
  rw [a, b, c, a', b', c']
  simp [DataConverter.create, deletedClusterIds, deletedParticleIds]

theorem updateData_eq (data : DataChangeDescription) (s : DataConverter) :
    updateData data s
      = ((processModifications (processDeletions (marked data s))).andThen
          (forEach data.clusters updateData_addCluster)).andThen
          (forEach data.particles updateData_addParticle) := rfl

/-- From the arena after `processDeletions` to the arena after `updateData`:
ids below the compacted counts stay, counts do not go down. -/
theorem keepsLive_updateData (data : DataChangeDescription) (s : DataConverter) :
    KeepsLive (processDeletions (marked data s)) (updateData data s).state := by
  rw [updateData_eq]
  apply keepsLive_andThen
  · apply keepsLive_andThen
    · exact (sameShape_processModifications _).keepsLive
    · intro st
      exact keepsLive_forEach _ keepsLive_updateData_addCluster _ _
  · intro st
    exact keepsLive_forEach _ keepsLive_updateData_addParticle _ _


/-- The ids found in the compacted arrays are the ids of the survivors, in
their original order. -/
theorem processDeletions_ids (s : DataConverter) :
    (List.range (processDeletions s).dataTO.numClusters).map
        (fun i => ((processDeletions s).dataTO.clusters i).id)
      = ((List.range s.dataTO.numClusters).filter
          (fun i => decide ((s.dataTO.clusters i).id ∉ s.clusterIdsToDelete))).map
        (fun i => (s.dataTO.clusters i).id)
    ∧ (WellFormed s.dataTO →
      (List.range (processDeletions s).dataTO.numCells).map
        (fun c => ((processDeletions s).dataTO.cells c).id)
      = ((List.range s.dataTO.numCells).filter
          (inSurvivingCluster s.dataTO s.clusterIdsToDelete)).map
        (fun c => (s.dataTO.cells c).id))
    ∧ (List.range (processDeletions s).dataTO.numParticles).map
        (fun p => ((processDeletions s).dataTO.particles p).id)
      = ((List.range s.dataTO.numParticles).filter
          (fun p => decide ((s.dataTO.particles p).id ∉ s.particleIdsToDelete))).map
        (fun p => (s.dataTO.particles p).id) := by
  obtain ⟨hn1, hn2, _, hn4⟩ := processDeletions_counts s
  refine ⟨?_, ?_, ?_⟩
  · rw [hn1, map_range_rank (clusterDeleted s.dataTO s.clusterIdsToDelete) _
      (fun i => (s.dataTO.clusters i).id)]
    · rw [survivors_eq_filter]
      intro j _
      simp [clusterDeleted]
    · intro j hj hd
      simp only [processDeletions_cluster_at s j hj hd]
  · intro hwf
    rw [hn2, map_range_rank (cellDeleted s.dataTO s.clusterIdsToDelete) _
      (fun c => (s.dataTO.cells c).id)]
    · rw [survivors_eq_filter]
      intro j hj
      exact hwf.cellDeleted_eq _ j hj
    · intro j hj hd
      have h := (processDeletions_cell_at s j hj hd (hwf.2.2.2.2.2.1 j hj)).1
      have h2 := congrArg CellAccessTO.id h
      exact h2
  · rw [hn4, map_range_rank (particleDeleted s.dataTO s.particleIdsToDelete) _
      (fun p => (s.dataTO.particles p).id)]
    · rw [survivors_eq_filter]
      intro j _
      simp [particleDeleted]
    · intro j hj hd
      simp only [processDeletions_particle_at s j hj hd]

/-! ## Identity stability -/

theorem optList_append_singleton {α : Type} (l : List α) (x : α) :
    optList (l ++ [x]) = some (l ++ [x]) := by
  unfold optList
  cases l <;> rfl

theorem optList_getD {α : Type} (l : List α) : (optList l).getD [] = l := by
  unfold optList
  cases l <;> rfl

theorem optList_map_range_succ {α : Type} (f : Nat → α) (n : Nat) :
    optList ((List.range (n + 1)).map f) = some ((List.range (n + 1)).map f) := by
  rw [List.range_succ, List.map_append]
  exact optList_append_singleton _ _

theorem optList_eq_some {α : Type} (l : List α) (h : l ≠ []) : optList l = some l := by
  unfold optList
  cases l with
  | nil => exact absurd rfl h
  | cons x xs => rfl

/-- The cell loop of the cluster pass. -/
theorem foldl_getDataDescription_cell (d : DataAccessTO) (clusterTO : ClusterAccessTO)
    (i m : Nat) (c0 : ClusterDescription) (m1 m2 : List (Nat × Nat)) (hc0 : c0.cells = none) :
    (List.range m).foldl (getDataDescription_cell d clusterTO i)
        { clusterDesc := c0, cellIndexByCellTOIndex := m1, clusterIndexByCellTOIndex := m2 }
      = { clusterDesc := { c0 with cells := optList ((List.range m).map
            (fun j => readCell d (d.cells (clusterTO.cellStartIndex + j)))) }
          cellIndexByCellTOIndex :=
            ((List.range m).map (fun j => (clusterTO.cellStartIndex + j, j))).reverse ++ m1
          clusterIndexByCellTOIndex :=
            ((List.range m).map (fun j => (clusterTO.cellStartIndex + j, i))).reverse ++ m2 } := by
  induction m with
  | zero =>
    simp only [List.range_zero, List.foldl_nil, List.map_nil, List.reverse_nil, List.nil_append]
    cases c0
    simp only at hc0
    subst hc0
    rfl
  | succ m ih =>
    rw [List.range_succ, List.foldl_append, ih]
    simp only [List.foldl_cons, List.foldl_nil, getDataDescription_cell,
      ClusterDescription.addCell, optList_getD, List.map_append, List.map_cons, List.map_nil,
      List.reverse_append, List.reverse_cons, List.reverse_nil, List.nil_append,
      List.singleton_append, List.cons_append]
    rw [optList_append_singleton]


theorem cellWith_nil (d : DataAccessTO) (c : Nat) : cellWith d c [] = readCell d (d.cells c) :=
  rfl

theorem readPass_succ (d : DataAccessTO) (n : Nat) :
    readPass d (n + 1) = getDataDescription_cluster d (readPass d n) n := by
  simp [readPass, List.range_succ, List.foldl_append]

/-- One step of the cluster pass, with the cell loop resolved. -/
theorem getDataDescription_cluster_eq (d : DataAccessTO) (st : ReadState) (i : Nat) :
    getDataDescription_cluster d st i
      = { result := st.result.addCluster (clusterWith d i (fun _ => []))
          cellIndexByCellTOIndex :=
            ((List.range (d.clusters i).numCells).map
              (fun j => ((d.clusters i).cellStartIndex + j, j))).reverse
              ++ st.cellIndexByCellTOIndex
          clusterIndexByCellTOIndex :=
            ((List.range (d.clusters i).numCells).map
              (fun j => ((d.clusters i).cellStartIndex + j, i))).reverse
              ++ st.clusterIndexByCellTOIndex } := by
  unfold getDataDescription_cluster
  simp only
  rw [foldl_getDataDescription_cell _ _ _ _ _ _ _ rfl]
  rfl

/-- The cluster pass: the clusters read so far, without tokens, and the
entries of the two index maps. -/
theorem readPass_spec (d : DataAccessTO) (n : Nat) :
    (readPass d n).result
      = { clusters := optList ((List.range n).map (fun i => clusterWith d i (fun _ => [])))
          particles := none }
    ∧ (∀ e, e ∈ (readPass d n).cellIndexByCellTOIndex
        ↔ ∃ i, i < n ∧ ∃ j, j < (d.clusters i).numCells
            ∧ e = ((d.clusters i).cellStartIndex + j, j))
    ∧ (∀ e, e ∈ (readPass d n).clusterIndexByCellTOIndex
        ↔ ∃ i, i < n ∧ ∃ j, j < (d.clusters i).numCells
            ∧ e = ((d.clusters i).cellStartIndex + j, i)) := by
  induction n with
  | zero =>
    refine ⟨rfl, ?_, ?_⟩ <;> intro e <;> simp [readPass]
  | succ n ih =>
    obtain ⟨h1, h2, h3⟩ := ih
    rw [readPass_succ, getDataDescription_cluster_eq]
    refine ⟨?_, ?_, ?_⟩
    · simp only [h1, DataDescription.addCluster, optList_getD]
      rw [optList_map_range_succ, List.range_succ, List.map_append]
      rfl
    · intro e
      simp only [List.mem_append, List.mem_reverse, List.mem_map, List.mem_range, h2]
      constructor
      · rintro (⟨j, hj, rfl⟩ | ⟨i, hi, j, hj, rfl⟩)
        · exact ⟨n, by omega, j, hj, rfl⟩
        · exact ⟨i, by omega, j, hj, rfl⟩
      · rintro ⟨i, hi, j, hj, rfl⟩
        rcases Nat.lt_or_ge i n with h | h
        · exact Or.inr ⟨i, h, j, hj, rfl⟩
        · have : i = n := by omega
          subst this
          exact Or.inl ⟨j, hj, rfl⟩
    · intro e
      simp only [List.mem_append, List.mem_reverse, List.mem_map, List.mem_range, h3]
      constructor
      · rintro (⟨j, hj, rfl⟩ | ⟨i, hi, j, hj, rfl⟩)
        · exact ⟨n, by omega, j, hj, rfl⟩
        · exact ⟨i, by omega, j, hj, rfl⟩
      · rintro ⟨i, hi, j, hj, rfl⟩
        rcases Nat.lt_or_ge i n with h | h
        · exact Or.inr ⟨i, h, j, hj, rfl⟩
        · have : i = n := by omega
          subst this
          exact Or.inl ⟨j, hj, rfl⟩

/-- A lookup in an association list all of whose bindings for `k` agree. -/
theorem lookup_eq_of_unique {β : Type} (l : List (Nat × β)) (k : Nat) (v : β)
    (hex : ∃ e, e ∈ l ∧ e.1 = k) (hall : ∀ e, e ∈ l → e.1 = k → e.2 = v) :
    l.lookup k = some v := by
  induction l with
  | nil => obtain ⟨e, he, _⟩ := hex; simp at he
  | cons x xs ih =>
    obtain ⟨k', v'⟩ := x
    by_cases hk : k = k'
    · subst hk
      have := hall (k, v') (List.mem_cons_self _ _) rfl
      simp only at this
      subst this
      simp [List.lookup]
    · have hb : (k == k') = false := by simp [hk]
      simp only [List.lookup, hb]
      apply ih
      · obtain ⟨e, he, hek⟩ := hex
        rcases List.mem_cons.mp he with h | h
        · subst h; exact absurd hek.symm hk
        · exact ⟨e, h, hek⟩
      · intro e he hek
        exact hall e (List.mem_cons_of_mem _ he) hek

theorem lookup_eq_none_of_not_mem {β : Type} (l : List (Nat × β)) (k : Nat)
    (h : ∀ e, e ∈ l → e.1 ≠ k) : l.lookup k = none := by
  induction l with
  | nil => rfl
  | cons x xs ih =>
    obtain ⟨k', v'⟩ := x
    have hk : k ≠ k' := fun e => h (k', v') (List.mem_cons_self _ _) e.symm
    have hb : (k == k') = false := by simp [hk]
    simp only [List.lookup, hb]
    exact ih (fun e he => h e (List.mem_cons_of_mem _ he))


theorem modifyAt_map_range {α : Type} (f : Nat → α) (n k : Nat) (g : α → Except Failure α)
    (y : α) (hk : k < n) (hg : g (f k) = Except.ok y) :
    modifyAt g k ((List.range n).map f)
      = Except.ok ((List.range n).map (fun i => if i = k then y else f i)) := by
  unfold modifyAt
  have h1 : ((List.range n).map f)[k]? = some (f k) := by
    simp [hk]
  rw [h1]
  simp only [hg]
  congr 1
  apply List.ext_getElem
  · simp
  · intro i h1 h2
    simp only [List.length_set, List.length_map, List.length_range] at h1
    simp only [List.getElem_set, List.getElem_map, List.getElem_range]
    by_cases hik : k = i
    · subst hik; simp
    · have : ¬ i = k := fun e => hik e.symm
      simp [hik, this]

/-- The particle pass of `getDataDescription`. -/
theorem foldl_getDataDescription_particle (d : DataAccessTO) (r : DataDescription) (n : Nat)
    (hr : r.particles = none) :
    (List.range n).foldl (getDataDescription_particle d) r
      = { r with particles := optList ((List.range n).map (readParticle d)) } := by
  induction n with
  | zero =>
    cases r
    simp only at hr
    subst hr
    rfl
  | succ n ih =>
    rw [List.range_succ, List.foldl_append, ih]
    simp only [List.foldl_cons, List.foldl_nil, getDataDescription_particle,
      DataDescription.addParticle, optList_getD]
    rw [← List.range_succ, optList_map_range_succ, List.range_succ, List.map_append]
    rfl

/-- One token of the token pass: the token is pushed onto the cell its two
lookups designate. -/
theorem getDataDescription_token_eq (d : DataAccessTO) (size n : Nat)
    (m1 m2 : List (Nat × Nat)) (T : Nat → Nat → List TokenDescription)
    (P : Option (List ParticleDescription)) (t i j : Nat)
    (h1 : m1.lookup (d.tokens t).cellIndex = some j)
    (h2 : m2.lookup (d.tokens t).cellIndex = some i)
    (hi : i < n) (hj : j < (d.clusters i).numCells) :
    getDataDescription_token d size m1 m2
        { clusters := some ((List.range n).map (fun i => clusterWith d i (T i)))
          particles := P } t
      = Except.ok
        { clusters := some ((List.range n).map (fun i' => clusterWith d i'
            (fun j' => if i' = i ∧ j' = j then T i j ++ [readToken size (d.tokens t)]
              else T i' j')))
          particles := P } := by
  unfold getDataDescription_token
  simp only [h1, h2]
  have hcells : (clusterWith d i (T i)).cells
      = some ((List.range (d.clusters i).numCells).map
          (fun j => cellWith d ((d.clusters i).cellStartIndex + j) (T i j))) := by
    unfold clusterWith
    simp only
    apply optList_eq_some
    intro h
    have := congrArg List.length h
    simp at this
    omega
  rw [modifyAt_map_range (fun i => clusterWith d i (T i)) n i _
    { clusterWith d i (T i) with
      cells := some ((List.range (d.clusters i).numCells).map
        (fun j' => if j' = j then
          (cellWith d ((d.clusters i).cellStartIndex + j) (T i j)).addToken
            (readToken size (d.tokens t))
          else cellWith d ((d.clusters i).cellStartIndex + j') (T i j'))) } hi]
  · simp only
    congr 3
    apply List.map_congr_left
    intro i' _
    by_cases hii : i' = i
    · subst hii
      simp only [if_true, true_and]
      unfold clusterWith
      simp only
      congr 1
      rw [optList_eq_some]
      · congr 1
        apply List.map_congr_left
        intro j' _
        by_cases hjj : j' = j
        · subst hjj
          simp only [if_true]
          rfl
        · simp only [hjj, if_false]
      · intro h
        have := congrArg List.length h
        simp at this
        omega
    · simp only [hii, if_false, false_and]
  · simp only [hcells]
    rw [modifyAt_map_range (fun j => cellWith d ((d.clusters i).cellStartIndex + j) (T i j))
      _ j (fun cell => Except.ok (cell.addToken (readToken size (d.tokens t))))
      ((cellWith d ((d.clusters i).cellStartIndex + j) (T i j)).addToken
        (readToken size (d.tokens t))) hj rfl]


theorem clusterWith_congr (d : DataAccessTO) (i : Nat) (T1 T2 : Nat → List TokenDescription)
    (h : ∀ j, j < (d.clusters i).numCells → T1 j = T2 j) :
    clusterWith d i T1 = clusterWith d i T2 := by
  unfold clusterWith
  congr 2
  apply List.map_congr_left
  intro j hj
  rw [h j (List.mem_range.mp hj)]

theorem tokensOfFirst_succ (d : DataAccessTO) (size m c : Nat) :
    tokensOfFirst d size (m + 1) c
      = tokensOfFirst d size m c
        ++ (if (d.tokens m).cellIndex = c then [readToken size (d.tokens m)] else []) := by
  unfold tokensOfFirst
  rw [List.range_succ, List.map_append, List.filter_append, List.map_append]
  congr 1
  by_cases h : (d.tokens m).cellIndex = c <;> simp [h]

/-- The cluster-index map of the cluster pass, on an index covered by
cluster `i`, when distinct clusters share no cell index. -/
theorem lookup_clusterIndex (d : DataAccessTO)
    (hdisj : ∀ i j c, i < d.numClusters → j < d.numClusters →
      inCellRange (d.clusters i) c = true → inCellRange (d.clusters j) c = true → i = j)
    (i c : Nat) (hi : i < d.numClusters) (hin : inCellRange (d.clusters i) c = true) :
    (readPass d d.numClusters).clusterIndexByCellTOIndex.lookup c = some i
    ∧ (readPass d d.numClusters).cellIndexByCellTOIndex.lookup c
        = some (c - (d.clusters i).cellStartIndex) := by
  obtain ⟨_, h2, h3⟩ := readPass_spec d d.numClusters
  have hin' := hin
  simp only [inCellRange, decide_eq_true_eq] at hin'
  constructor
  · apply lookup_eq_of_unique
    · exact ⟨(c, i), (h3 _).mpr ⟨i, hi, c - (d.clusters i).cellStartIndex, by omega,
        by rw [Prod.mk.injEq]; exact ⟨by omega, rfl⟩⟩, rfl⟩
    · intro e he hec
      obtain ⟨i', hi', j', hj', rfl⟩ := (h3 e).mp he
      simp only at hec ⊢
      have hin2 : inCellRange (d.clusters i') c = true := by
        simp only [inCellRange, decide_eq_true_eq]; omega
      exact hdisj i' i c hi' hi hin2 hin
  · apply lookup_eq_of_unique
    · exact ⟨(c, c - (d.clusters i).cellStartIndex),
        (h2 _).mpr ⟨i, hi, c - (d.clusters i).cellStartIndex, by omega,
          by rw [Prod.mk.injEq]; exact ⟨by omega, rfl⟩⟩, rfl⟩
    · intro e he hec
      obtain ⟨i', hi', j', hj', rfl⟩ := (h2 e).mp he
      simp only at hec ⊢
      have hin2 : inCellRange (d.clusters i') c = true := by
        simp only [inCellRange, decide_eq_true_eq]; omega
      have := hdisj i' i c hi' hi hin2 hin
      subst this
      omega

/-- The token pass after `m` tokens: every cell holds the tokens hosted by it
among the first `m`. -/
theorem foldl_getDataDescription_token (d : DataAccessTO) (size : Nat)
    (P : Option (List ParticleDescription))
    (hdisj : ∀ i j c, i < d.numClusters → j < d.numClusters →
      inCellRange (d.clusters i) c = true → inCellRange (d.clusters j) c = true → i = j)
    (hcov : ∀ t, t < d.numTokens →
      ∃ i, i < d.numClusters ∧ inCellRange (d.clusters i) (d.tokens t).cellIndex = true)
    (m : Nat) (hm : m ≤ d.numTokens) :
    (List.range m).foldl
      (fun r i =>
        match r with
        | Except.error e => Except.error e
        | Except.ok result =>
          getDataDescription_token d size (readPass d d.numClusters).cellIndexByCellTOIndex
            (readPass d d.numClusters).clusterIndexByCellTOIndex result i)
      (Except.ok
        { clusters := optList ((List.range d.numClusters).map
            (fun i => clusterWith d i (fun _ => [])))
          particles := P })
    = Except.ok
        { clusters := optList ((List.range d.numClusters).map
            (fun i => clusterWith d i
              (fun j => tokensOfFirst d size m ((d.clusters i).cellStartIndex + j))))
          particles := P } := by
  induction m with
  | zero => rfl
  | succ m ih =>
    rw [List.range_succ, List.foldl_append, ih (by omega)]
    simp only [List.foldl_cons, List.foldl_nil]
    obtain ⟨i, hi, hin⟩ := hcov m (by omega)
    obtain ⟨l2, l1⟩ := lookup_clusterIndex d hdisj i _ hi hin
    have hin' := hin
    simp only [inCellRange, decide_eq_true_eq] at hin'
    have hne : ∀ (f : Nat → ClusterDescription),
        optList ((List.range d.numClusters).map f) = some ((List.range d.numClusters).map f) := by
      intro f
      apply optList_eq_some
      intro h
      have := congrArg List.length h
      simp at this
      omega
    rw [hne, hne]
    rw [getDataDescription_token_eq d size d.numClusters _ _ _ P m i
      ((d.tokens m).cellIndex - (d.clusters i).cellStartIndex) l1 l2 hi (by omega)]
    congr 3
    apply List.map_congr_left
    intro i' hi'
    rw [List.mem_range] at hi'
    apply clusterWith_congr
    intro j' hj'
    rw [tokensOfFirst_succ]
    by_cases hc : (d.tokens m).cellIndex = (d.clusters i').cellStartIndex + j'
    · have hin2 : inCellRange (d.clusters i') (d.tokens m).cellIndex = true := by
        simp only [inCellRange, decide_eq_true_eq]; omega
      have := hdisj i' i _ hi' hi hin2 hin
      subst this
      have hj : j' = (d.tokens m).cellIndex - (d.clusters i').cellStartIndex := by omega
      rw [if_pos ⟨rfl, hj⟩, if_pos hc, ← hc]
      congr 2
      omega
    · have : ¬ (i' = i ∧ j' = (d.tokens m).cellIndex - (d.clusters i).cellStartIndex) := by
        rintro ⟨e1, e2⟩
        subst e1
        omega
      rw [if_neg this, if_neg hc, List.append_nil]

/-- The read path in closed form.  When distinct live clusters share no cell
index and every live token is hosted by a cell of a live cluster,
`getDataDescription` returns normally: the clusters in arena order, each with
its cells in arena order, each cell with the tokens it hosts in token-array
order, and the particles in arena order. -/
theorem getDataDescription_eq (s : DataConverter)
    (hdisj : ∀ i j c, i < s.dataTO.numClusters → j < s.dataTO.numClusters →
      inCellRange (s.dataTO.clusters i) c = true → inCellRange (s.dataTO.clusters j) c = true →
      i = j)
    (hcov : ∀ t, t < s.dataTO.numTokens →
      ∃ i, i < s.dataTO.numClusters
        ∧ inCellRange (s.dataTO.clusters i) (s.dataTO.tokens t).cellIndex = true) :
    getDataDescription s
      = Except.ok
        { clusters := optList ((List.range s.dataTO.numClusters).map
            (readCluster s.dataTO s.parameters.tokenMemorySize))
          particles := optList ((List.range s.dataTO.numParticles).map
            (readParticle s.dataTO)) } := by
  unfold getDataDescription
  simp only
  have hpass := (readPass_spec s.dataTO s.dataTO.numClusters).1
  have e : (List.range s.dataTO.numClusters).foldl (getDataDescription_cluster s.dataTO)
      { result := { clusters := none, particles := none }
        cellIndexByCellTOIndex := [], clusterIndexByCellTOIndex := [] }
      = readPass s.dataTO s.dataTO.numClusters := rfl
  rw [e, hpass, foldl_getDataDescription_particle _ _ _ rfl]
  simp only
  rw [foldl_getDataDescription_token s.dataTO s.parameters.tokenMemorySize _ hdisj hcov
    s.dataTO.numTokens (le_refl _)]
  rfl


/-! ## What an append keeps -/

theorem extends_same (s : DataConverter) : Extends s s :=
  ⟨rfl, rfl, rfl, le_refl _, le_refl _, le_refl _, le_refl _, le_refl _, fun _ _ => rfl,
    fun _ _ => rfl, fun _ _ => rfl, fun _ _ => rfl, fun _ _ => rfl⟩

theorem extends_andThen {s1 s2 s3 : DataConverter} (h1 : Extends s1 s2) (h2 : Extends s2 s3) :
    Extends s1 s3 :=
  ⟨h2.parameters.trans h1.parameters, h2.cudaConstants.trans h1.cudaConstants,
    h2.limits.trans h1.limits,
    le_trans h1.numClusters h2.numClusters, le_trans h1.numCells h2.numCells,
    le_trans h1.numParticles h2.numParticles, le_trans h1.numTokens h2.numTokens,
    le_trans h1.numStringBytes h2.numStringBytes,
    fun i hi => (h2.clusters i (lt_of_lt_of_le hi h1.numClusters)).trans (h1.clusters i hi),
    fun c hc => (h2.cells c (lt_of_lt_of_le hc h1.numCells)).trans (h1.cells c hc),
    fun p hp => (h2.particles p (lt_of_lt_of_le hp h1.numParticles)).trans
      (h1.particles p hp),
    fun t ht => (h2.tokens t (lt_of_lt_of_le ht h1.numTokens)).trans (h1.tokens t ht),
    fun b hb => (h2.stringBytes b (lt_of_lt_of_le hb h1.numStringBytes)).trans
      (h1.stringBytes b hb)⟩

theorem Extends.withCluster {s0 s : DataConverter} (h : Extends s0 s) (i : Nat)
    (v : ClusterAccessTO) (hi : s0.dataTO.numClusters ≤ i) : Extends s0 (s.setCluster i v) := by
  refine ⟨h.parameters, h.cudaConstants, h.limits, h.numClusters, h.numCells, h.numParticles,
    h.numTokens, h.numStringBytes, ?_, h.cells, h.particles, h.tokens, h.stringBytes⟩
  intro j hj
  simp only [DataConverter.setCluster, DataConverter.withDataTO]
  rw [Function.update_noteq (by omega)]
  exact h.clusters j hj

theorem Extends.withCell {s0 s : DataConverter} (h : Extends s0 s) (i : Nat)
    (v : CellAccessTO) (hi : s0.dataTO.numCells ≤ i) : Extends s0 (s.setCell i v) := by
  refine ⟨h.parameters, h.cudaConstants, h.limits, h.numClusters, h.numCells, h.numParticles,
    h.numTokens, h.numStringBytes, h.clusters, ?_, h.particles, h.tokens, h.stringBytes⟩
  intro j hj
  simp only [DataConverter.setCell, DataConverter.withDataTO]
  rw [Function.update_noteq (by omega)]
  exact h.cells j hj

theorem Extends.withParticle {s0 s : DataConverter} (h : Extends s0 s) (i : Nat)
    (v : ParticleAccessTO) (hi : s0.dataTO.numParticles ≤ i) :
    Extends s0 (s.setParticle i v) := by
  refine ⟨h.parameters, h.cudaConstants, h.limits, h.numClusters, h.numCells, h.numParticles,
    h.numTokens, h.numStringBytes, h.clusters, h.cells, ?_, h.tokens, h.stringBytes⟩
  intro j hj
  simp only [DataConverter.setParticle, DataConverter.withDataTO]
  rw [Function.update_noteq (by omega)]
  exact h.particles j hj

theorem Extends.withToken {s0 s : DataConverter} (h : Extends s0 s) (i : Nat)
    (v : TokenAccessTO) (hi : s0.dataTO.numTokens ≤ i) : Extends s0 (s.setToken i v) := by
  refine ⟨h.parameters, h.cudaConstants, h.limits, h.numClusters, h.numCells, h.numParticles,
    h.numTokens, h.numStringBytes, h.clusters, h.cells, h.particles, ?_, h.stringBytes⟩
  intro j hj
  simp only [DataConverter.setToken, DataConverter.withDataTO]
  rw [Function.update_noteq (by omega)]
  exact h.tokens j hj

/-- Advancing counts, or changing the id source, keeps what was live. -/
theorem Extends.ofArrays {s0 s s' : DataConverter} (h : Extends s0 s)
    (hp : s'.parameters = s.parameters) (hc : s'.cudaConstants = s.cudaConstants)
    (hl : s'.limits = s.limits)
    (a1 : s'.dataTO.clusters = s.dataTO.clusters) (a2 : s'.dataTO.cells = s.dataTO.cells)
    (a3 : s'.dataTO.particles = s.dataTO.particles) (a4 : s'.dataTO.tokens = s.dataTO.tokens)
    (a5 : s'.dataTO.stringBytes = s.dataTO.stringBytes)
    (n1 : s.dataTO.numClusters ≤ s'.dataTO.numClusters)
    (n2 : s.dataTO.numCells ≤ s'.dataTO.numCells)
    (n3 : s.dataTO.numParticles ≤ s'.dataTO.numParticles)
    (n4 : s.dataTO.numTokens ≤ s'.dataTO.numTokens)
    (n5 : s.dataTO.numStringBytes ≤ s'.dataTO.numStringBytes) : Extends s0 s' :=
  ⟨hp.trans h.parameters, hc.trans h.cudaConstants, hl.trans h.limits,
    le_trans h.numClusters n1, le_trans h.numCells n2, le_trans h.numParticles n3,
    le_trans h.numTokens n4, le_trans h.numStringBytes n5,
    fun i hi => by rw [a1]; exact h.clusters i hi,
    fun c hc => by rw [a2]; exact h.cells c hc,
    fun p hp => by rw [a3]; exact h.particles p hp,
    fun t ht => by rw [a4]; exact h.tokens t ht,
    fun b hb => by rw [a5]; exact h.stringBytes b hb⟩

theorem Extends.convertString {s0 s : DataConverter} (h : Extends s0 s) (str : QString) :
    Extends s0 (convertStringAndReturnStringIndex str s).2 := by
  obtain ⟨_, bytes, he, hb, _⟩ := convertString_spec str s
  rw [he]
  refine ⟨h.parameters, h.cudaConstants, h.limits, h.numClusters, h.numCells, h.numParticles,
    h.numTokens, le_trans h.numStringBytes (Nat.le_add_right _ _), h.clusters, h.cells,
    h.particles, h.tokens, ?_⟩
  intro b hb0
  simp only [DataConverter.withDataTO]
  rw [hb b (lt_of_lt_of_le hb0 h.numStringBytes)]
  exact h.stringBytes b hb0


/-! ## Loops that cannot throw -/

/-- Invariant rule for a loop whose iterations do not throw: with a relation
between the items done so far and the state that every iteration keeps without
throwing, the loop returns normally and the relation holds at the end. -/
theorem forEach_total {σ α : Type} (body : α → σ → Step σ) (R : List α → σ → Prop)
    (xs : List α) (s : σ) (h0 : R [] s)
    (hstep : ∀ done x rest st, xs = done ++ x :: rest → R done st →
      (body x st).failure = none ∧ R (done ++ [x]) (body x st).state) :
    (forEach xs body s).failure = none ∧ R xs (forEach xs body s).state := by
  suffices H : ∀ (ys done : List α) (st : σ), xs = done ++ ys → R done st →
      (forEach ys body st).failure = none ∧ R (done ++ ys) (forEach ys body st).state by
    simpa using H xs [] s rfl h0
  intro ys
  induction ys with
  | nil =>
    intro done st _ hR
    exact ⟨rfl, by simpa [forEach_nil] using hR⟩
  | cons y ys ih =>
    intro done st hxs hR
    obtain ⟨h1, h2⟩ := hstep done y ys st hxs hR
    have e : forEach (y :: ys) body st = forEach ys body (body y st).state := by
      rw [forEach_cons]
      unfold Step.andThen
      rw [h1]
    rw [e]
    have := ih (done ++ [y]) (body y st).state (by simpa using hxs) h2
    simpa using this

/-! ## Buffers -/

theorem byteAt_convertToArray (source target : List Nat) (size i : Nat) (h : i < size) :
    byteAt (convertToArray source target size) i
      = if i < source.length then byteAt source i else 0 := by
  unfold convertToArray byteAt
  rw [List.getD_eq_getElem?_getD, List.getElem?_append_left (by simpa using h)]
  simp [h]

/-- A feature buffer reads back cut to its maximum. -/
theorem convertToQByteArray_convertToArray (source target : List Nat) (size : Nat) :
    convertToQByteArray (convertToArray source target size) (min source.length size)
      = source.take size := by
  unfold convertToQByteArray
  apply List.ext_getElem
  · simp [Nat.min_comm]
  · intro i h1 h2
    simp only [List.length_map, List.length_range] at h1
    have hs : i < size := lt_of_lt_of_le h1 (Nat.min_le_right _ _)
    have hl : i < source.length := lt_of_lt_of_le h1 (Nat.min_le_left _ _)
    simp only [List.getElem_map, List.getElem_range, List.getElem_take]
    rw [byteAt_convertToArray _ _ _ _ hs, if_pos hl]
    simp [byteAt, List.getD_eq_getElem?_getD, hl]

/-- A token memory reads back cut or zero-padded to the memory size. -/
theorem map_byteAt_convertToArray (source target : List Nat) (size : Nat) :
    (List.range size).map (fun i => byteAt (convertToArray source target size) i)
      = convertToArray source [] size := by
  unfold convertToArray
  simp only [List.drop_nil, List.append_nil]
  apply List.map_congr_left
  intro i hi
  rw [List.mem_range] at hi
  have := byteAt_convertToArray source target size i hi
  unfold convertToArray at this
  exact this


/-! ## Metadata texts -/

theorem writeCellMetadata_eq (m : CellMetadata) (metadataTO : CellMetadataAccessTO)
    (s : DataConverter) :
    writeCellMetadata m metadataTO s
      = ({ color := m.color
           nameLen := m.name.length
           nameStringIndex := (internText m.name metadataTO.nameStringIndex s).1
           descriptionLen := m.description.length
           descriptionStringIndex :=
             (internText m.description metadataTO.descriptionStringIndex
               (internText m.name metadataTO.nameStringIndex s).2).1
           sourceCodeLen := m.computerSourcecode.length
           sourceCodeStringIndex :=
             (internText m.computerSourcecode metadataTO.sourceCodeStringIndex
               (internText m.description metadataTO.descriptionStringIndex
                 (internText m.name metadataTO.nameStringIndex s).2).2).1 },
         (internText m.computerSourcecode metadataTO.sourceCodeStringIndex
               (internText m.description metadataTO.descriptionStringIndex
                 (internText m.name metadataTO.nameStringIndex s).2).2).2) := by
  unfold writeCellMetadata internText
  by_cases h1 : m.name.length > 0 <;> by_cases h2 : m.description.length > 0 <;>
    by_cases h3 : m.computerSourcecode.length > 0 <;> simp [h1, h2, h3]

/-- What interning a text does to the converter: only the pool grows. -/
theorem internText_state (str : QString) (recorded : Nat) (s : DataConverter) :
    ∃ bytes cursor, (internText str recorded s).2
        = s.withDataTO { s.dataTO with stringBytes := bytes, numStringBytes := cursor }
      ∧ s.dataTO.numStringBytes ≤ cursor
      ∧ (∀ b, b < s.dataTO.numStringBytes → bytes b = s.dataTO.stringBytes b)
      ∧ (str.length > 0 →
          (internText str recorded s).1 = s.dataTO.numStringBytes
          ∧ s.dataTO.numStringBytes + str.length ≤ cursor
          ∧ fromLatin1 bytes s.dataTO.numStringBytes str.length = str.map toLatin1) := by
  unfold internText
  by_cases h : str.length > 0
  · rw [if_pos h]
    obtain ⟨h1, bytes, he, hb, hr⟩ := convertString_spec str s
    exact ⟨bytes, _, he, Nat.le_add_right _ _, hb, fun _ => ⟨h1, le_refl _, hr⟩⟩
  · rw [if_neg h]
    exact ⟨s.dataTO.stringBytes, s.dataTO.numStringBytes, rfl, le_refl _, fun _ _ => rfl,
      fun h' => absurd h' h⟩


theorem fromLatin1_zero (bytes : Nat → Nat) (offset : Nat) : fromLatin1 bytes offset 0 = [] := rfl

/-- The metadata block written by the add path: only the pool grows, and the
block reads back as the metadata with its texts in Latin-1. -/
theorem writeCellMetadata_spec (m : CellMetadata) (metadataTO : CellMetadataAccessTO)
    (s : DataConverter) :
    ∃ bytes cursor, (writeCellMetadata m metadataTO s).2
        = s.withDataTO { s.dataTO with stringBytes := bytes, numStringBytes := cursor }
      ∧ s.dataTO.numStringBytes ≤ cursor
      ∧ (∀ b, b < s.dataTO.numStringBytes → bytes b = s.dataTO.stringBytes b)
      ∧ readCellMetadata { s.dataTO with stringBytes := bytes, numStringBytes := cursor }
          (writeCellMetadata m metadataTO s).1 = m.normalize
      ∧ TextsInside { s.dataTO with stringBytes := bytes, numStringBytes := cursor }
          (writeCellMetadata m metadataTO s).1 := by
  rw [writeCellMetadata_eq]
  obtain ⟨B1, N1, e1, hN1, hB1, hR1⟩ := internText_state m.name metadataTO.nameStringIndex s
  rw [e1]
  obtain ⟨B2, N2, e2, hN2, hB2, hR2⟩ := internText_state m.description
    metadataTO.descriptionStringIndex
    (s.withDataTO { s.dataTO with stringBytes := B1, numStringBytes := N1 })
  rw [e2]
  obtain ⟨B3, N3, e3, hN3, hB3, hR3⟩ := internText_state m.computerSourcecode
    metadataTO.sourceCodeStringIndex
    ((s.withDataTO { s.dataTO with stringBytes := B1, numStringBytes := N1 }).withDataTO
      { (s.withDataTO { s.dataTO with stringBytes := B1, numStringBytes := N1 }).dataTO with
        stringBytes := B2, numStringBytes := N2 })
  rw [e3]
  simp only [DataConverter.withDataTO] at hN2 hB2 hR2 hN3 hB3 hR3 ⊢
  refine ⟨B3, N3, rfl, by omega, ?_, ?_, ?_⟩
  · intro b hb
    rw [hB3 b (by omega), hB2 b (by omega), hB1 b hb]
  · unfold readCellMetadata CellMetadata.normalize
    simp only
    congr 1
    · by_cases h : m.computerSourcecode.length > 0
      · obtain ⟨i3, b3, r3⟩ := hR3 h
        rw [if_pos h, i3, r3]
      · rw [if_neg h]
        have : m.computerSourcecode = [] := List.length_eq_zero.mp (by omega)
        rw [this]
        rfl
    · by_cases h : m.name.length > 0
      · obtain ⟨i1, b1, r1⟩ := hR1 h
        rw [if_pos h, i1, ← r1]
        apply fromLatin1_congr B1 B3 _ _ N1 b1
        intro b hb
        rw [hB3 b (by omega), hB2 b hb]
      · rw [if_neg h]
        have : m.name = [] := List.length_eq_zero.mp (by omega)
        rw [this]
        rfl
    · by_cases h : m.description.length > 0
      · obtain ⟨i2, b2, r2⟩ := hR2 h
        rw [if_pos h, i2, ← r2]
        apply fromLatin1_congr B2 B3 _ _ N2 b2
        intro b hb
        rw [hB3 b hb]
      · rw [if_neg h]
        have : m.description = [] := List.length_eq_zero.mp (by omega)
        rw [this]
        rfl
  · refine ⟨?_, ?_, ?_⟩
    · intro h
      obtain ⟨i1, b1, _⟩ := hR1 h
      simp only at h ⊢
      rw [i1]
      omega
    · intro h
      obtain ⟨i2, b2, _⟩ := hR2 h
      simp only at h ⊢
      rw [i2]
      omega
    · intro h
      obtain ⟨i3, b3, _⟩ := hR3 h
      simp only at h ⊢
      rw [i3]
      omega


/-! ## The token loop of `addCell` -/

theorem addCell_token_complete (x : Nat) (energy : ℚ) (data : QByteArray) (s : DataConverter) :
    addCell_token x { energy := some energy, data := some data } s
      = ⟨s.withDataTO { s.dataTO with
            numTokens := s.dataTO.numTokens + 1
            tokens := Function.update s.dataTO.tokens s.dataTO.numTokens
              { energy := energy
                cellIndex := x
                memory := convertToArray data (s.dataTO.tokens s.dataTO.numTokens).memory
                  s.parameters.tokenMemorySize } }, none⟩ := rfl

/-- The token loop of `addCell` on complete tokens: it does not throw, the
tokens are appended in order on the cell, and each reads back cut or padded to
the token memory size. -/
theorem forEach_addCell_token (x : Nat) (tokens : List TokenDescription)
    (hcomplete : ∀ t, t ∈ tokens → t.energy.isSome = true ∧ t.data.isSome = true)
    (s : DataConverter) :
    ∃ T, forEach tokens (addCell_token x) s
        = ⟨s.withDataTO { s.dataTO with
            numTokens := s.dataTO.numTokens + tokens.length, tokens := T }, none⟩
      ∧ (∀ t, t < s.dataTO.numTokens → T t = s.dataTO.tokens t)
      ∧ (∀ k (hk : k < tokens.length),
          (T (s.dataTO.numTokens + k)).cellIndex = x
          ∧ readToken s.parameters.tokenMemorySize (T (s.dataTO.numTokens + k))
              = (tokens[k]).normalize s.parameters.tokenMemorySize) := by
  induction tokens generalizing s with
  | nil =>
    exact ⟨s.dataTO.tokens, rfl, fun _ _ => rfl, fun k hk => absurd hk (by simp)⟩
  | cons t ts ih =>
    obtain ⟨energy, data⟩ := t
    have hc := hcomplete _ (List.mem_cons_self _ _)
    cases energy with
    | none => simp at hc
    | some energy =>
    cases data with
    | none => simp at hc
    | some data =>
    rw [forEach_cons, addCell_token_complete]
    obtain ⟨T, e, hold, hnew⟩ := ih (fun t ht => hcomplete t (List.mem_cons_of_mem _ ht))
      (s.withDataTO { s.dataTO with
            numTokens := s.dataTO.numTokens + 1
            tokens := Function.update s.dataTO.tokens s.dataTO.numTokens
              { energy := energy
                cellIndex := x
                memory := convertToArray data (s.dataTO.tokens s.dataTO.numTokens).memory
                  s.parameters.tokenMemorySize } })
    refine ⟨T, ?_, ?_, ?_⟩
    · unfold Step.andThen
      simp only
      rw [e]
      simp only [DataConverter.withDataTO, List.length_cons]
      have : s.dataTO.numTokens + 1 + ts.length = s.dataTO.numTokens + (ts.length + 1) := by
        omega
      rw [this]
    · intro t ht
      simp only [DataConverter.withDataTO] at hold
      rw [hold t (by omega), Function.update_noteq (by omega)]
    · intro k hk
      simp only [DataConverter.withDataTO] at hold hnew
      cases k with
      | zero =>
        simp only [Nat.add_zero, List.getElem_cons_zero]
        rw [hold _ (by omega), Function.update_same]
        refine ⟨rfl, ?_⟩
        unfold readToken TokenDescription.normalize
        simp only [Option.map_some']
        rw [map_byteAt_convertToArray]
      | succ k =>
        have hk2 : k < ts.length := by simpa using hk
        have := hnew k hk2
        have e2 : s.dataTO.numTokens + (k + 1) = s.dataTO.numTokens + 1 + k := by omega
        rw [e2]
        simpa using this


/-! ## `addCell` -/

/-- The metadata part of `addCell`: only the pool grows, only the metadata of
the cell change, and they read back as the normal form of the description's. -/
theorem addCell_metadata_spec (md : Option CellMetadata) (cellTO : CellAccessTO)
    (s : DataConverter) :
    ∃ bytes cursor, (addCell_metadata md cellTO s).2
        = s.withDataTO { s.dataTO with stringBytes := bytes, numStringBytes := cursor }
      ∧ s.dataTO.numStringBytes ≤ cursor
      ∧ (∀ b, b < s.dataTO.numStringBytes → bytes b = s.dataTO.stringBytes b)
      ∧ (addCell_metadata md cellTO s).1
          = { cellTO with metadata := (addCell_metadata md cellTO s).1.metadata }
      ∧ readCellMetadata { s.dataTO with stringBytes := bytes, numStringBytes := cursor }
          (addCell_metadata md cellTO s).1.metadata
            = (md.map CellMetadata.normalize).getD CellMetadata.default
      ∧ TextsInside { s.dataTO with stringBytes := bytes, numStringBytes := cursor }
          (addCell_metadata md cellTO s).1.metadata := by
  cases md with
  | none =>
    refine ⟨s.dataTO.stringBytes, s.dataTO.numStringBytes, rfl, le_refl _, fun _ _ => rfl, rfl,
      rfl, ?_⟩
    refine ⟨fun h => ?_, fun h => ?_, fun h => ?_⟩ <;>
      exact absurd h (by simp [addCell_metadata])
  | some m =>
    obtain ⟨bytes, cursor, e, hc, hb, hr, ht⟩ := writeCellMetadata_spec m cellTO.metadata s
    exact ⟨bytes, cursor, e, hc, hb, rfl, hr, ht⟩

/-- The cell built by `addCell` holds the description, whatever metadata
block that reads back as the description's is attached to it. -/
theorem cellStored_addCell_fields (limits : ArrayLimits) (d : DataAccessTO)
    (cd : CellDescription) (pos : QVector2D) (energy : ℚ) (mc : Int) (previous : CellAccessTO)
    (metadata : CellMetadataAccessTO)
    (hpos : cd.pos = some pos) (hen : cd.energy = some energy)
    (hmc : cd.maxConnections = some mc)
    (hr : readCellMetadata d metadata
      = (cd.metadata.map CellMetadata.normalize).getD CellMetadata.default)
    (ht : TextsInside d metadata) :
    CellStored limits d
      { addCell_fields limits cd pos energy mc previous with metadata := metadata } cd := by
  refine ⟨rfl, by rw [hpos]; rfl, by rw [hen]; rfl, by rw [hmc]; rfl, ?_, rfl, rfl, rfl, ?_, hr,
    ht⟩
  · show (match cd.connectingCells with
      | some l => l.length
      | none => 0) = _
    cases cd.connectingCells <;> rfl
  · show ({ type := _, constData := convertToQByteArray (convertToArray _ _ _) (min _ _),
            volatileData := convertToQByteArray (convertToArray _ _ _) (min _ _) } :
        CellFeatureDescription) = _
    rw [convertToQByteArray_convertToArray, convertToQByteArray_convertToArray]
    rfl


theorem textsInside_mono {d d' : DataAccessTO} {m : CellMetadataAccessTO}
    (h : TextsInside d m) (hc : d.numStringBytes ≤ d'.numStringBytes) : TextsInside d' m :=
  ⟨fun x => le_trans (h.name x) hc, fun x => le_trans (h.description x) hc,
    fun x => le_trans (h.sourceCode x) hc⟩

/-- Texts below the cursor read the same from a pool that has only grown. -/
theorem readCellMetadata_congr {d d' : DataAccessTO} {m : CellMetadataAccessTO}
    (h : TextsInside d m)
    (hb : ∀ b, b < d.numStringBytes → d'.stringBytes b = d.stringBytes b) :
    readCellMetadata d' m = readCellMetadata d m := by
  unfold readCellMetadata
  congr 1
  · by_cases hl : m.sourceCodeLen > 0
    · rw [if_pos hl, if_pos hl]
      exact fromLatin1_congr _ _ _ _ _ (h.sourceCode hl) hb
    · rw [if_neg hl, if_neg hl]
  · by_cases hl : m.nameLen > 0
    · rw [if_pos hl, if_pos hl]
      exact fromLatin1_congr _ _ _ _ _ (h.name hl) hb
    · rw [if_neg hl, if_neg hl]
  · by_cases hl : m.descriptionLen > 0
    · rw [if_pos hl, if_pos hl]
      exact fromLatin1_congr _ _ _ _ _ (h.description hl) hb
    · rw [if_neg hl, if_neg hl]

theorem readClusterMetadata_congr {d d' : DataAccessTO} {m : ClusterMetadataAccessTO}
    (h : m.nameLen > 0 → m.nameStringIndex + m.nameLen ≤ d.numStringBytes)
    (hb : ∀ b, b < d.numStringBytes → d'.stringBytes b = d.stringBytes b) :
    readClusterMetadata d' m = readClusterMetadata d m := by
  unfold readClusterMetadata
  congr 1
  by_cases hl : m.nameLen > 0
  · rw [if_pos hl, if_pos hl]
    exact fromLatin1_congr _ _ _ _ _ (h hl) hb
  · rw [if_neg hl, if_neg hl]

/-- A stored cell stays stored when the pool only grows. -/
theorem cellStored_mono {limits : ArrayLimits} {d d' : DataAccessTO} {cellTO : CellAccessTO}
    {cd : CellDescription} (h : CellStored limits d cellTO cd)
    (hc : d.numStringBytes ≤ d'.numStringBytes)
    (hb : ∀ b, b < d.numStringBytes → d'.stringBytes b = d.stringBytes b) :
    CellStored limits d' cellTO cd :=
  ⟨h.id, h.pos, h.energy, h.maxConnections, h.numConnections, h.tokenBlocked, h.branchNumber,
    h.tokenUsages, h.feature, (readCellMetadata_congr h.texts hb).trans h.metadata,
    textsInside_mono h.texts hc⟩

/-- A stored cell stays stored when only its connection targets change. -/
theorem cellStored_sameButConnections {limits : ArrayLimits} {d : DataAccessTO}
    {a b : CellAccessTO} {cd : CellDescription} (h : CellStored limits d a cd)
    (hab : SameButConnections a b) : CellStored limits d b cd := by
  obtain ⟨l, rfl⟩ := hab
  exact ⟨h.id, h.pos, h.energy, h.maxConnections, h.numConnections, h.tokenBlocked,
    h.branchNumber, h.tokenUsages, h.feature, h.metadata, h.texts⟩

theorem sameButConnections_same (a : CellAccessTO) : SameButConnections a a :=
  ⟨a.connectionIndices, rfl⟩

theorem sameButConnections_andThen {a b c : CellAccessTO} (h1 : SameButConnections a b)
    (h2 : SameButConnections b c) : SameButConnections a c := by
  obtain ⟨l1, rfl⟩ := h1
  obtain ⟨l2, rfl⟩ := h2
  exact ⟨l2, rfl⟩


theorem assignId_withDataTO (s : DataConverter) (d : DataAccessTO) (id : Nat) :
    (s.withDataTO d).assignId id = ((s.assignId id).1, (s.assignId id).2.withDataTO d) := by
  unfold DataConverter.assignId
  split <;> rfl

theorem assignId_config (s : DataConverter) (id : Nat) :
    (s.assignId id).2.limits = s.limits ∧ (s.assignId id).2.parameters = s.parameters
    ∧ (s.assignId id).2.cudaConstants = s.cudaConstants := by
  unfold DataConverter.assignId
  split <;> exact ⟨rfl, rfl, rfl⟩

theorem assignId_of_ne_zero (s : DataConverter) (id : Nat) (h : id ≠ 0) :
    s.assignId id = (id, s) := by
  unfold DataConverter.assignId
  rw [if_neg h]

/-- Appending a cell that has the fields `addCell` reads without a default,
when there is room: `addCell` does not throw, records the cell under its id,
and changes the arena as stated — the cell goes to the first free slot, its
tokens to the first free token slots, its texts above the pool cursor, and the
token count of the cluster grows. -/
theorem addCell_spec (cd : CellDescription) (ci : Nat) (s : DataConverter)
    (m : List (Nat × Nat)) (hp : cd.pos.isSome = true) (he : cd.energy.isSome = true)
    (hm : cd.maxConnections.isSome = true)
    (htok : ∀ t, t ∈ cd.tokens.getD [] → t.energy.isSome = true ∧ t.data.isSome = true)
    (hroom : s.dataTO.numCells < s.cudaConstants.MAX_CELLS) :
    ∃ cellTO T bytes cursor,
      addCell cd ci (s, m)
        = ⟨((s.assignId cd.id).2.withDataTO { s.dataTO with
              numCells := s.dataTO.numCells + 1
              cells := Function.update s.dataTO.cells s.dataTO.numCells cellTO
              clusters := Function.update s.dataTO.clusters ci
                { s.dataTO.clusters ci with
                  numTokens := (s.dataTO.clusters ci).numTokens + (cd.tokens.getD []).length }
              numTokens := s.dataTO.numTokens + (cd.tokens.getD []).length
              tokens := T
              stringBytes := bytes
              numStringBytes := cursor },
            ((s.assignId cd.id).1, s.dataTO.numCells) :: m), none⟩
      ∧ CellStored s.limits { s.dataTO with stringBytes := bytes, numStringBytes := cursor }
          cellTO { cd with id := (s.assignId cd.id).1 }
      ∧ cellTO.numStaticBytes
          = min ((cd.cellFeature.getD
              { type := s.limits.defaultCellFunction, volatileData := [], constData := [] }
            ).constData.length)
            s.limits.MAX_CELL_STATIC_BYTES
      ∧ cellTO.numMutableBytes
          = min ((cd.cellFeature.getD
              { type := s.limits.defaultCellFunction, volatileData := [], constData := [] }
            ).volatileData.length)
            s.limits.MAX_CELL_MUTABLE_BYTES
      ∧ s.dataTO.numStringBytes ≤ cursor
      ∧ (∀ b, b < s.dataTO.numStringBytes → bytes b = s.dataTO.stringBytes b)
      ∧ (∀ t, t < s.dataTO.numTokens → T t = s.dataTO.tokens t)
      ∧ (∀ k (hk : k < (cd.tokens.getD []).length),
          (T (s.dataTO.numTokens + k)).cellIndex = s.dataTO.numCells
          ∧ readToken s.parameters.tokenMemorySize (T (s.dataTO.numTokens + k))
              = ((cd.tokens.getD [])[k]).normalize s.parameters.tokenMemorySize) := by
  obtain ⟨cid, cpos, cenergy, cmc, cconn, cblocked, cbranch, cmeta, cfeature, ctokens, cusages⟩ :=
    cd
  simp only at hp he hm htok
  obtain ⟨pos, rfl⟩ := Option.isSome_iff_exists.mp hp
  obtain ⟨energy, rfl⟩ := Option.isSome_iff_exists.mp he
  obtain ⟨mc, rfl⟩ := Option.isSome_iff_exists.mp hm
  have ha := fun d => assignId_withDataTO s d cid
  have hd := assignId_dataTO s cid
  obtain ⟨hl, hpar, hcc⟩ := assignId_config s cid
  unfold addCell
  simp only [ha]
  generalize s.assignId cid = a at hd hl hpar hcc ⊢
  obtain ⟨id', s'⟩ := a
  simp only at hd hl hpar hcc ⊢
  obtain ⟨bytes, cursor, e2, hc, hb, e1, hr, ht⟩ := addCell_metadata_spec cmeta
    (addCell_fields s'.limits
      { id := id', pos := some pos, energy := some energy, maxConnections := some mc,
        connectingCells := cconn, tokenBlocked := cblocked, tokenBranchNumber := cbranch,
        metadata := cmeta, cellFeature := cfeature, tokens := ctokens, tokenUsages := cusages }
      pos energy mc (s.dataTO.cells s.dataTO.numCells))
    (s'.withDataTO { s.dataTO with numCells := s.dataTO.numCells + 1 })
  have hst := cellStored_mono (cellStored_addCell_fields s'.limits _
    { id := id', pos := some pos, energy := some energy, maxConnections := some mc,
      connectingCells := cconn, tokenBlocked := cblocked, tokenBranchNumber := cbranch,
      metadata := cmeta, cellFeature := cfeature, tokens := ctokens, tokenUsages := cusages }
    pos energy mc (s.dataTO.cells s.dataTO.numCells) _ rfl rfl rfl hr ht)
    (show _ ≤ ({ s.dataTO with stringBytes := bytes, numStringBytes := cursor } :
      DataAccessTO).numStringBytes from le_refl _) (fun _ _ => rfl)
  rw [← e1] at hst
  have hn1 := congrArg CellAccessTO.numStaticBytes e1
  have hn2 := congrArg CellAccessTO.numMutableBytes e1
  dsimp only [DataConverter.withDataTO]
  rw [if_neg (by omega)]
  generalize hmres : addCell_metadata cmeta _ _ = mres
  replace hmres : addCell_metadata cmeta
      (addCell_fields s'.limits
        { id := id', pos := some pos, energy := some energy, maxConnections := some mc,
          connectingCells := cconn, tokenBlocked := cblocked, tokenBranchNumber := cbranch,
          metadata := cmeta, cellFeature := cfeature, tokens := ctokens, tokenUsages := cusages }
        pos energy mc (s.dataTO.cells s.dataTO.numCells))
      (s'.withDataTO { s.dataTO with numCells := s.dataTO.numCells + 1 }) = mres := hmres
  rw [hmres] at e2 hst hn1 hn2
  rw [hl] at hst hn1 hn2
  have hmid : mres.1.id = id' := hst.id
  cases ctokens with
  | none =>
    refine ⟨mres.1, s.dataTO.tokens, bytes, cursor, ?_, hst, hn1, hn2, hc, hb, fun _ _ => rfl,
      fun k hk => absurd hk (by simp)⟩
    simp only [e2, hmid, DataConverter.setCell, DataConverter.withDataTO, Option.getD_none,
      List.length_nil, Nat.add_zero]
    rw [Function.update_eq_self ci s.dataTO.clusters]
  | some tokens =>
    simp only [Option.getD_some] at htok ⊢
    have hloop := forEach_addCell_token s.dataTO.numCells tokens htok
    generalize hS : DataConverter.setCluster _ ci _ = S2
    obtain ⟨T, e, hold, hnew⟩ := hloop S2
    rw [e]
    subst hS
    simp only [e2, DataConverter.setCell, DataConverter.setCluster,
      DataConverter.withDataTO, hpar] at hold hnew
    refine ⟨mres.1, T, bytes, cursor, ?_, hst, hn1, hn2, hc, hb, hold, hnew⟩
    simp only [e2, hmid, DataConverter.setCell, DataConverter.setCluster,
      DataConverter.withDataTO]

/-! ## What the appends keep of the live arena -/

theorem mem_of_lookup_eq_some {β : Type} (l : List (Nat × β)) (k : Nat) (v : β)
    (h : l.lookup k = some v) : (k, v) ∈ l := by
  induction l with
  | nil => simp at h
  | cons e rest ih =>
    obtain ⟨k', v'⟩ := e
    by_cases hk : k = k'
    · subst hk
      simp only [List.lookup_cons, beq_self_eq_true] at h
      simp only [Option.some.injEq] at h
      subst h
      exact List.mem_cons_self _ _
    · have hb : (k == k') = false := by simpa using hk
      simp only [List.lookup_cons, hb] at h
      exact List.mem_cons_of_mem _ (ih h)

theorem extends_forEach_from {α : Type} {s0 s : DataConverter} (h0 : Extends s0 s)
    (body : α → DataConverter → Step DataConverter)
    (h : ∀ x st, Extends s0 st → Extends s0 (body x st).state) (xs : List α) :
    Extends s0 (forEach xs body s).state := by
  induction xs generalizing s with
  | nil => exact h0
  | cons x xs ih =>
    rw [forEach_cons]
    unfold Step.andThen
    split
    · exact ih (h x s h0)
    · exact h x s h0

theorem extends_assignId {s0 s : DataConverter} (h : Extends s0 s) (id : Nat) :
    Extends s0 (s.assignId id).2 := by
  obtain ⟨hl, hp, hc⟩ := assignId_config s id
  have hd := assignId_dataTO s id
  exact h.ofArrays hp hc hl (by rw [hd]) (by rw [hd]) (by rw [hd]) (by rw [hd]) (by rw [hd])
    (by rw [hd]) (by rw [hd]) (by rw [hd]) (by rw [hd]) (by rw [hd])

theorem extends_addCell_token {s0 s : DataConverter} (h : Extends s0 s) (x : Nat)
    (td : TokenDescription) : Extends s0 (addCell_token x td s).state := by
  have h1 : Extends s0 (s.withDataTO { s.dataTO with numTokens := s.dataTO.numTokens + 1 }) :=
    h.ofArrays rfl rfl rfl rfl rfl rfl rfl rfl (le_refl _) (le_refl _) (le_refl _)
      (Nat.le_succ _) (le_refl _)
  unfold addCell_token
  simp only
  split
  · exact h1
  · split
    · exact h1.withToken _ _ h.numTokens
    · exact h1.withToken _ _ h.numTokens

theorem extends_internText {s0 s : DataConverter} (h : Extends s0 s) (str : QString)
    (recorded : Nat) : Extends s0 (internText str recorded s).2 := by
  unfold internText
  split
  · exact h.convertString str
  · exact h

theorem extends_writeCellMetadata {s0 s : DataConverter} (h : Extends s0 s) (m : CellMetadata)
    (metadataTO : CellMetadataAccessTO) : Extends s0 (writeCellMetadata m metadataTO s).2 := by
  rw [writeCellMetadata_eq]
  exact extends_internText (extends_internText (extends_internText h _ _) _ _) _ _

theorem extends_addCell_metadata {s0 s : DataConverter} (h : Extends s0 s)
    (md : Option CellMetadata) (c : CellAccessTO) : Extends s0 (addCell_metadata md c s).2 := by
  unfold addCell_metadata
  split
  · exact extends_writeCellMetadata h _ _
  · exact h

/-- `addCell` for a cluster slot at or above the cluster count of `s0` keeps
what was live in `s0`, thrown or not. -/
theorem extends_addCell {s0 s : DataConverter} (h : Extends s0 s) (cellDesc : CellDescription)
    (clusterIndex : Nat) (hci : s0.dataTO.numClusters ≤ clusterIndex) (m : List (Nat × Nat)) :
    Extends s0 (addCell cellDesc clusterIndex (s, m)).state.1 := by
  have h0 : Extends s0 (s.withDataTO { s.dataTO with numCells := s.dataTO.numCells + 1 }) :=
    h.ofArrays rfl rfl rfl rfl rfl rfl rfl rfl (le_refl _) (Nat.le_succ _) (le_refl _)
      (le_refl _) (le_refl _)
  have h1 := extends_assignId h0 cellDesc.id
  unfold addCell
  simp only
  split
  · exact h0
  · split
    · exact h1.withCell _ _ h.numCells
    · split
      · exact h1.withCell _ _ h.numCells
      · split
        · exact h1.withCell _ _ h.numCells
        · have key : ∀ (r : Step DataConverter), Extends s0 r.state →
              ∀ (id : Nat),
              Extends s0 (match r.failure with
                | some f => (⟨(r.state, m), some f⟩ : Step AddState)
                | none => ⟨(r.state, (id, s.dataTO.numCells) :: m), none⟩).state.1 := by
            intro r hr id
            cases r.failure with
            | some f => exact hr
            | none => exact hr
          apply key
          split
          · refine extends_forEach_from ?_ _ (fun t st hst => extends_addCell_token hst _ t) _
            refine Extends.withCluster ?_ _ _ hci
            refine Extends.withCell ?_ _ _ h.numCells
            exact extends_addCell_metadata h1 _ _
          · refine Extends.withCell ?_ _ _ h.numCells
            exact extends_addCell_metadata h1 _ _

theorem extends_setConnections {s0 s : DataConverter} (h : Extends s0 s)
    (cellToAdd : CellDescription) (cellIndex : Nat) (hx : s0.dataTO.numCells ≤ cellIndex)
    (m : List (Nat × Nat)) : Extends s0 (setConnections cellToAdd cellIndex m s).state := by
  unfold setConnections
  split
  · exact h.withCell _ _ hx
  · exact h

theorem extends_addCluster_connect {s0 s : DataConverter} (h : Extends s0 s)
    (m : List (Nat × Nat)) (hm : ∀ e, e ∈ m → s0.dataTO.numCells ≤ e.2)
    (cellDesc : CellDescription) : Extends s0 (addCluster_connect m cellDesc s).state := by
  unfold addCluster_connect
  split
  · split
    · exact h
    · rename_i cellIndex hl
      exact extends_setConnections h _ _ (hm _ (mem_of_lookup_eq_some _ _ _ hl)) _
  · exact h

theorem extends_addCluster_cell {s0 : DataConverter} (clusterIndex : Nat)
    (hci : s0.dataTO.numClusters ≤ clusterIndex) (cellDesc : CellDescription)
    (st : AddState × Bool) (h : Extends s0 st.1.1)
    (hm : ∀ e, e ∈ st.1.2 → s0.dataTO.numCells ≤ e.2) :
    Extends s0 (addCluster_cell clusterIndex cellDesc st).state.1.1
    ∧ ∀ e, e ∈ (addCluster_cell clusterIndex cellDesc st).state.1.2 →
        s0.dataTO.numCells ≤ e.2 := by
  have h1 := extends_addCell h cellDesc clusterIndex hci st.1.2
  have h2 := (keepsLive_addCell cellDesc clusterIndex st.1.1 st.1.2).2
  have h3 : ∀ e, e ∈ (addCell cellDesc clusterIndex st.1).state.2 →
      s0.dataTO.numCells ≤ e.2 := by
    intro e he
    rcases h2 e he with h4 | h4
    · exact hm e h4
    · exact le_trans h.numCells h4
  unfold addCluster_cell
  simp only
  split
  · exact ⟨h1, h3⟩
  · split
    · exact ⟨h1.withCluster _ _ hci, h3⟩
    · exact ⟨h1, h3⟩

theorem extends_addCluster_cells {s0 : DataConverter} (clusterIndex : Nat)
    (hci : s0.dataTO.numClusters ≤ clusterIndex) (cells : List CellDescription)
    (st : AddState × Bool) (h : Extends s0 st.1.1)
    (hm : ∀ e, e ∈ st.1.2 → s0.dataTO.numCells ≤ e.2) :
    Extends s0 (forEach cells (addCluster_cell clusterIndex) st).state.1.1
    ∧ ∀ e, e ∈ (forEach cells (addCluster_cell clusterIndex) st).state.1.2 →
        s0.dataTO.numCells ≤ e.2 := by
  induction cells generalizing st with
  | nil => exact ⟨h, hm⟩
  | cons x xs ih =>
    obtain ⟨a, b⟩ := extends_addCluster_cell clusterIndex hci x st h hm
    rw [forEach_cons]
    unfold Step.andThen
    split
    · exact ih _ a b
    · exact ⟨a, b⟩

/-- `addCluster` keeps every cluster, cell, particle, token and pool byte
that was live before the call, thrown or not. -/
theorem extends_addCluster (clusterDesc : ClusterDescription) (s : DataConverter) :
    Extends s (addCluster clusterDesc s).state := by
  unfold addCluster
  split
  · exact extends_same _
  · simp only
    have h0 : Extends s
        (s.withDataTO { s.dataTO with numClusters := s.dataTO.numClusters + 1 }) :=
      (extends_same s).ofArrays rfl rfl rfl rfl rfl rfl rfl rfl (Nat.le_succ _) (le_refl _)
        (le_refl _) (le_refl _) (le_refl _)
    have h1 := extends_assignId h0 clusterDesc.id
    split
    · exact h0
    · split
      · exact h1.withCluster _ _ (le_refl _)
      · split
        · exact h1.withCluster _ _ (le_refl _)
        · split
          · exact h1.withCluster _ _ (le_refl _)
          · split
            · exact h1.withCluster _ _ (le_refl _)
            · have hbase : ∀ (m : ClusterAccessTO × DataConverter),
                  Extends s m.2 →
                  Extends s (m.2.setCluster s.dataTO.numClusters m.1) :=
                fun m hm => hm.withCluster _ _ (le_refl _)
              have hloops : ∀ (s' : DataConverter) (cells : List CellDescription),
                  Extends s s' →
                  Extends s
                    (match (forEach cells (addCluster_cell s.dataTO.numClusters)
                        ((s', []), true)).failure with
                      | some f => (⟨(forEach cells (addCluster_cell s.dataTO.numClusters)
                          ((s', []), true)).state.1.1, some f⟩ : Step DataConverter)
                      | none => forEach cells
                          (addCluster_connect (forEach cells
                            (addCluster_cell s.dataTO.numClusters)
                            ((s', []), true)).state.1.2)
                          (forEach cells (addCluster_cell s.dataTO.numClusters)
                            ((s', []), true)).state.1.1).state := by
                intro s' cells hs'
                obtain ⟨hl1, hl2⟩ := extends_addCluster_cells s.dataTO.numClusters (le_refl _)
                  cells ((s', []), true) hs' (fun e he => absurd he (List.not_mem_nil e))
                split
                · exact hl1
                · exact extends_forEach_from hl1 _
                    (fun c st hst => extends_addCluster_connect hst _ hl2 c) _
              apply hloops
              apply hbase
              split
              · split
                · exact h1.convertString _
                · exact h1
              · exact h1

theorem extends_addParticle (p : ParticleDescription) (s : DataConverter) :
    Extends s (addParticle p s).state := by
  have h0 : Extends s
      (s.withDataTO { s.dataTO with numParticles := s.dataTO.numParticles + 1 }) :=
    (extends_same s).ofArrays rfl rfl rfl rfl rfl rfl rfl rfl (le_refl _) (le_refl _)
      (Nat.le_succ _) (le_refl _) (le_refl _)
  have h1 := extends_assignId h0 p.id
  unfold addParticle
  simp only
  split
  · exact h0
  · split
    · exact h1.withParticle _ _ (le_refl _)
    · split
      · exact h1.withParticle _ _ (le_refl _)
      · split
        · exact h1.withParticle _ _ (le_refl _)
        · split
          · exact h1.withParticle _ _ (le_refl _)
          · exact h1.withParticle _ _ (le_refl _)


/-! ## Tokens appended to an arena -/

theorem tokensOfFirst_congr (d d' : DataAccessTO) (size m c : Nat)
    (h : ∀ t, t < m → d'.tokens t = d.tokens t) :
    tokensOfFirst d' size m c = tokensOfFirst d size m c := by
  unfold tokensOfFirst
  congr 2
  apply List.map_congr_left
  intro t ht
  exact h t (List.mem_range.mp ht)

theorem tokensOfFirst_eq_nil (d : DataAccessTO) (size m c : Nat)
    (h : ∀ t, t < m → (d.tokens t).cellIndex ≠ c) : tokensOfFirst d size m c = [] := by
  induction m with
  | zero => rfl
  | succ m ih =>
    rw [tokensOfFirst_succ, ih (fun t ht => h t (by omega)), if_neg (h m (by omega))]
    rfl

/-- The tokens of a cell after `added.length` tokens were appended, all on the
cell `x`, reading back as `added`. -/
theorem tokensOf_append (d d' : DataAccessTO) (size x c : Nat) (added : List TokenDescription)
    (hn : d'.numTokens = d.numTokens + added.length)
    (hold : ∀ t, t < d.numTokens → d'.tokens t = d.tokens t)
    (hnew : ∀ k (hk : k < added.length),
      (d'.tokens (d.numTokens + k)).cellIndex = x
      ∧ readToken size (d'.tokens (d.numTokens + k)) = added[k]) :
    tokensOf d' size c = tokensOf d size c ++ (if c = x then added else []) := by
  unfold tokensOf
  rw [hn]
  suffices H : ∀ j, j ≤ added.length →
      tokensOfFirst d' size (d.numTokens + j) c
        = tokensOfFirst d size d.numTokens c ++ (if c = x then added.take j else []) by
    have := H added.length (le_refl _)
    rw [List.take_length] at this
    exact this
  intro j
  induction j with
  | zero =>
    intro _
    rw [Nat.add_zero, tokensOfFirst_congr d d' size d.numTokens c hold]
    by_cases hc : c = x <;> simp [hc]
  | succ j ih =>
    intro hj
    have hj' : j < added.length := by omega
    obtain ⟨h1, h2⟩ := hnew j hj'
    rw [← Nat.add_assoc, tokensOfFirst_succ, ih (by omega), h1, h2]
    by_cases hc : c = x
    · subst hc
      simp only [if_true, List.append_assoc]
      congr 1
      rw [List.take_succ]
      simp [List.getElem?_eq_getElem hj']
    · have hc' : ¬ x = c := fun e => hc e.symm
      simp [hc, hc']


/-! ## The first loop of `addCluster` -/

theorem addedCells_start (s1 : DataConverter) (n : Nat) :
    AddedCells s1 n [] ((s1, []), true) := by
  constructor
  · rfl
  · rfl
  · rfl
  · rfl
  · rfl
  · rfl
  · rfl
  · intro _ _; rfl
  · exact ⟨_, _, rfl⟩
  · rfl
  · rfl
  · intro h; exact absurd rfl h
  · intro _ _; rfl
  · exact le_refl _
  · intro _ _; rfl
  · intro t h1 h2
    exact absurd h2 (by simp only; omega)
  · exact le_refl _
  · intro _ _; rfl
  · rfl
  · intro k hk; exact absurd hk (by simp)
  · intro k hk; exact absurd hk (by simp)
  · intro _ k hk; exact absurd hk (by simp)

/-- One more cell: the state `addCell` leaves, with the cell range start
recorded after the first cell, continues the first loop. -/
theorem addedCells_snoc (s1 : DataConverter) (n : Nat) (done : List CellDescription)
    (x : CellDescription) (s : DataConverter) (m : List (Nat × Nat)) (first : Bool)
    (h : AddedCells s1 n done ((s, m), first))
    (cellTO : CellAccessTO) (T : Nat → TokenAccessTO) (bytes : Nat → Nat) (cursor cs : Nat)
    (hst : CellStored s.limits
      { s.dataTO with stringBytes := bytes, numStringBytes := cursor } cellTO
      { x with id := (s.assignId x.id).1 })
    (hc : s.dataTO.numStringBytes ≤ cursor)
    (hb : ∀ b, b < s.dataTO.numStringBytes → bytes b = s.dataTO.stringBytes b)
    (hold : ∀ t, t < s.dataTO.numTokens → T t = s.dataTO.tokens t)
    (hnew : ∀ k (hk : k < (x.tokens.getD []).length),
      (T (s.dataTO.numTokens + k)).cellIndex = s.dataTO.numCells
      ∧ readToken s.parameters.tokenMemorySize (T (s.dataTO.numTokens + k))
          = ((x.tokens.getD [])[k]).normalize s.parameters.tokenMemorySize)
    (hcs : cs = if done.isEmpty then s1.dataTO.numCells
      else (s.dataTO.clusters n).cellStartIndex) :
    AddedCells s1 n (done ++ [x])
      (((s.assignId x.id).2.withDataTO { s.dataTO with
          numCells := s.dataTO.numCells + 1
          cells := Function.update s.dataTO.cells s.dataTO.numCells cellTO
          clusters := Function.update s.dataTO.clusters n
            { s.dataTO.clusters n with
              numTokens := (s.dataTO.clusters n).numTokens + (x.tokens.getD []).length
              cellStartIndex := cs }
          numTokens := s.dataTO.numTokens + (x.tokens.getD []).length
          tokens := T
          stringBytes := bytes
          numStringBytes := cursor },
        ((s.assignId x.id).1, s.dataTO.numCells) :: m), false) := by
  obtain ⟨hl, hpar, hcc⟩ := assignId_config s x.id
  have hnc : s.dataTO.numCells = s1.dataTO.numCells + done.length := h.numCells
  have hpar1 : s.parameters = s1.parameters := h.parameters
  have hlim1 : s.limits = s1.limits := h.limits
  have hcid : cellTO.id = (s.assignId x.id).1 := hst.id
  have hcellOld : ∀ c, c < s.dataTO.numCells →
      Function.update s.dataTO.cells s.dataTO.numCells cellTO c = s.dataTO.cells c :=
    fun c hc' => Function.update_noteq (by omega) _ _
  constructor
  · exact hpar.trans h.parameters
  · exact hcc.trans h.cudaConstants
  · exact hl.trans h.limits
  · exact h.numClusters
  · show s.dataTO.numCells + 1 = s1.dataTO.numCells + (done ++ [x]).length
    rw [List.length_append, List.length_singleton, hnc]
    omega
  · exact h.numParticles
  · exact h.particles
  · intro i hi
    show Function.update s.dataTO.clusters n _ i = _
    rw [Function.update_noteq hi]
    exact h.otherClusters i hi
  · obtain ⟨nt, cs0, heq⟩ := h.cluster
    refine ⟨nt + (x.tokens.getD []).length, cs, ?_⟩
    show Function.update s.dataTO.clusters n _ n = _
    rw [Function.update_same]
    have heq' : s.dataTO.clusters n = _ := heq
    rw [heq']
  · show (Function.update s.dataTO.clusters n _ n).numTokens + _ = _ + (_ + _)
    rw [Function.update_same]
    have := h.clusterTokens
    simp only at this ⊢
    omega
  · simp
  · intro _
    show (Function.update s.dataTO.clusters n _ n).cellStartIndex = _
    rw [Function.update_same]
    show cs = _
    rw [hcs]
    by_cases hd : done = []
    · subst hd
      rfl
    · have he : done.isEmpty = false := by
        cases done with
        | nil => exact absurd rfl hd
        | cons _ _ => rfl
      rw [he]
      exact h.cellStartIndex hd
  · intro c hc'
    show Function.update s.dataTO.cells s.dataTO.numCells cellTO c = _
    rw [hcellOld c (by omega)]
    exact h.oldCells c hc'
  · exact le_trans h.numTokens (Nat.le_add_right _ _)
  · intro t ht
    show T t = _
    rw [hold t (lt_of_lt_of_le ht h.numTokens)]
    exact h.oldTokens t ht
  · intro t ht1 ht2
    show _ ≤ (T t).cellIndex ∧ (T t).cellIndex < s.dataTO.numCells + 1
    have ht2' : t < s.dataTO.numTokens + (x.tokens.getD []).length := ht2
    by_cases hlt : t < s.dataTO.numTokens
    · rw [hold t hlt]
      obtain ⟨a, b⟩ := h.newTokens t ht1 hlt
      exact ⟨a, Nat.lt_succ_of_lt b⟩
    · obtain ⟨a, _⟩ := hnew (t - s.dataTO.numTokens) (by omega)
      have e : s.dataTO.numTokens + (t - s.dataTO.numTokens) = t := by omega
      rw [e] at a
      rw [a]
      omega
  · exact le_trans h.numStringBytes hc
  · intro b hb'
    show bytes b = _
    rw [hb b (lt_of_lt_of_le hb' h.numStringBytes)]
    exact h.stringBytes b hb'
  · show ((s.assignId x.id).1, s.dataTO.numCells) :: m
      = ((List.range' s1.dataTO.numCells (done ++ [x]).length).map
          (fun c => ((Function.update s.dataTO.cells s.dataTO.numCells cellTO c).id, c))).reverse
    rw [List.length_append, List.length_singleton, List.range'_concat, List.map_append,
      List.reverse_append]
    simp only [List.map_cons, List.map_nil, List.reverse_cons, List.reverse_nil,
      List.nil_append, List.singleton_append, Nat.one_mul]
    rw [← hnc, Function.update_same, hcid]
    congr 1
    have hm : m = _ := h.map
    rw [hm]
    congr 1
    apply List.map_congr_left
    intro c hc'
    rw [List.mem_range'_1] at hc'
    rw [hcellOld c (by omega)]
  · intro k hk
    dsimp only [DataConverter.withDataTO]
    rw [List.length_append, List.length_singleton] at hk
    by_cases hlt : k < done.length
    · rw [hcellOld _ (by omega), List.getElem_append_left hlt]
      exact cellStored_mono (h.stored k hlt) hc hb
    · have hk' : k = done.length := by omega
      subst hk'
      rw [← hnc, Function.update_same]
      have hx : (done ++ [x])[done.length] = x := by simp
      rw [hx, ← hlim1, hcid]
      exact cellStored_mono hst (le_refl _) (fun _ _ => rfl)
  · intro k hk hid
    dsimp only [DataConverter.withDataTO]
    rw [List.length_append, List.length_singleton] at hk
    by_cases hlt : k < done.length
    · rw [hcellOld _ (by omega)]
      rw [List.getElem_append_left hlt] at hid ⊢
      exact h.ids k hlt hid
    · have hk' : k = done.length := by omega
      subst hk'
      have hx : (done ++ [x])[done.length] = x := by simp
      rw [hx] at hid ⊢
      rw [← hnc, Function.update_same, hcid, assignId_of_ne_zero s x.id hid]
  · intro hT k hk
    rw [List.length_append, List.length_singleton] at hk
    have hTs : ∀ t, t < s.dataTO.numTokens → (s.dataTO.tokens t).cellIndex < s.dataTO.numCells := by
      intro t ht
      by_cases hlt : t < s1.dataTO.numTokens
      · rw [h.oldTokens t hlt]
        have := hT t hlt
        omega
      · exact (h.newTokens t (by omega) ht).2
    have happ := tokensOf_append s.dataTO
      { s.dataTO with
          numCells := s.dataTO.numCells + 1
          cells := Function.update s.dataTO.cells s.dataTO.numCells cellTO
          clusters := Function.update s.dataTO.clusters n
            { s.dataTO.clusters n with
              numTokens := (s.dataTO.clusters n).numTokens + (x.tokens.getD []).length
              cellStartIndex := cs }
          numTokens := s.dataTO.numTokens + (x.tokens.getD []).length
          tokens := T
          stringBytes := bytes
          numStringBytes := cursor }
      s1.parameters.tokenMemorySize s.dataTO.numCells (s1.dataTO.numCells + k)
      ((x.tokens.getD []).map (TokenDescription.normalize s1.parameters.tokenMemorySize))
      (by simp) hold
      (by
        intro j hj
        rw [List.length_map] at hj
        obtain ⟨a, b⟩ := hnew j hj
        rw [hpar1] at b
        exact ⟨a, by rw [List.getElem_map]; exact b⟩)
    refine Eq.trans happ ?_
    by_cases hlt : k < done.length
    · rw [if_neg (by omega), List.append_nil, List.getElem_append_left hlt]
      exact h.tokensOf hT k hlt
    · have hk' : k = done.length := by omega
      subst hk'
      have hx : (done ++ [x])[done.length] = x := by simp
      rw [hx, if_pos hnc.symm]
      have hnil : tokensOf s.dataTO s1.parameters.tokenMemorySize
          (s1.dataTO.numCells + done.length) = [] := by
        unfold tokensOf
        apply tokensOfFirst_eq_nil
        intro t ht
        have := hTs t ht
        omega
      rw [hnil, List.nil_append]


/-- One iteration of the first loop on a cell that has the fields `addCell`
reads without a default, when there is room: no throw, and the loop state
continues. -/
theorem addCluster_cell_step (s1 : DataConverter) (n : Nat) (done : List CellDescription)
    (x : CellDescription) (st : AddState × Bool) (h : AddedCells s1 n done st)
    (hp : x.pos.isSome = true) (he : x.energy.isSome = true)
    (hm : x.maxConnections.isSome = true)
    (htok : ∀ t, t ∈ x.tokens.getD [] → t.energy.isSome = true ∧ t.data.isSome = true)
    (hroom : s1.dataTO.numCells + done.length < s1.cudaConstants.MAX_CELLS) :
    (addCluster_cell n x st).failure = none
    ∧ AddedCells s1 n (done ++ [x]) (addCluster_cell n x st).state := by
  obtain ⟨⟨s, m⟩, first⟩ := st
  have hnc : s.dataTO.numCells = s1.dataTO.numCells + done.length := h.numCells
  have hcc : s.cudaConstants = s1.cudaConstants := h.cudaConstants
  have hroom' : s.dataTO.numCells < s.cudaConstants.MAX_CELLS := by
    rw [hnc, hcc]
    exact hroom
  obtain ⟨cellTO, T, bytes, cursor, e, hst, _, _, hc, hb, hold, hnew⟩ :=
    addCell_spec x n s m hp he hm htok hroom'
  have hfirst : first = done.isEmpty := h.first
  unfold addCluster_cell
  dsimp only
  rw [e]
  dsimp only
  cases first with
  | true =>
    have hd : done.isEmpty = true := hfirst.symm
    have key := addedCells_snoc s1 n done x s m true h cellTO T bytes cursor s.dataTO.numCells
      hst hc hb hold hnew
      (by
        rw [hd, if_pos rfl, hnc]
        have : done = [] := List.isEmpty_iff.mp hd
        rw [this]
        rfl)
    refine ⟨rfl, ?_⟩
    simp only [if_true, List.head?_cons, DataConverter.setCluster, DataConverter.withDataTO,
      Function.update_same, Function.update_idem]
    exact key
  | false =>
    have hd : done.isEmpty = false := hfirst.symm
    have key := addedCells_snoc s1 n done x s m false h cellTO T bytes cursor
      (s.dataTO.clusters n).cellStartIndex hst hc hb hold hnew
      (by rw [hd]; rfl)
    exact ⟨rfl, key⟩


/-- The first loop of `addCluster` on cells that have the fields `addCell`
reads without a default, when there is room for all of them: it does not throw
and ends in the state described by `AddedCells`. -/
theorem addCluster_cells_spec (s1 : DataConverter) (n : Nat) (cells : List CellDescription)
    (hcells : ∀ c, c ∈ cells → c.pos.isSome = true ∧ c.energy.isSome = true
      ∧ c.maxConnections.isSome = true
      ∧ ∀ t, t ∈ c.tokens.getD [] → t.energy.isSome = true ∧ t.data.isSome = true)
    (hroom : s1.dataTO.numCells + cells.length ≤ s1.cudaConstants.MAX_CELLS) :
    (forEach cells (addCluster_cell n) ((s1, []), true)).failure = none
    ∧ AddedCells s1 n cells (forEach cells (addCluster_cell n) ((s1, []), true)).state := by
  apply forEach_total (addCluster_cell n) (AddedCells s1 n) cells _ (addedCells_start s1 n)
  intro done x rest st hxs hR
  obtain ⟨hp, he, hm, htok⟩ := hcells x (by rw [hxs]; simp)
  have hlen : done.length < cells.length := by
    rw [hxs]
    simp
  exact addCluster_cell_step s1 n done x st hR hp he hm htok (by omega)

/-- A token loop of `addCell` that did not throw was given complete tokens. -/
theorem forEach_addCell_token_normal (x : Nat) (tokens : List TokenDescription)
    (s : DataConverter) (h : (forEach tokens (addCell_token x) s).failure = none) :
    ∀ t, t ∈ tokens → t.energy.isSome = true ∧ t.data.isSome = true := by
  induction tokens generalizing s with
  | nil => intro t ht; exact absurd ht (List.not_mem_nil t)
  | cons t ts ih =>
    rw [forEach_cons] at h
    obtain ⟨h1, h2⟩ := andThen_failure_none _ _ h
    rw [h2] at h
    have ht : t.energy.isSome = true ∧ t.data.isSome = true := by
      obtain ⟨energy, data⟩ := t
      cases energy with
      | none => exact absurd h1 (by simp [addCell_token])
      | some energy =>
        cases data with
        | none => exact absurd h1 (by simp [addCell_token])
        | some data => exact ⟨rfl, rfl⟩
    intro t' ht'
    rcases List.mem_cons.mp ht' with e | e
    · rw [e]; exact ht
    · exact ih _ h t' e

/-- A call of `addCell` that did not throw had room and was given the fields
it reads without a default. -/
theorem addCell_of_normal (cd : CellDescription) (ci : Nat) (s : DataConverter)
    (m : List (Nat × Nat)) (h : (addCell cd ci (s, m)).failure = none) :
    s.dataTO.numCells < s.cudaConstants.MAX_CELLS
    ∧ cd.pos.isSome = true ∧ cd.energy.isSome = true ∧ cd.maxConnections.isSome = true
    ∧ ∀ t, t ∈ cd.tokens.getD [] → t.energy.isSome = true ∧ t.data.isSome = true := by
  obtain ⟨cid, cpos, cenergy, cmc, cconn, cblocked, cbranch, cmeta, cfeature, ctokens, cusages⟩ :=
    cd
  unfold addCell at h
  simp only at h
  by_cases hroom : s.dataTO.numCells ≥ s.cudaConstants.MAX_CELLS
  · have h1 : s.dataTO.numCells
        ≥ (s.withDataTO { s.dataTO with numCells := s.dataTO.numCells + 1 }).cudaConstants.MAX_CELLS :=
      hroom
    rw [if_pos h1] at h
    exact absurd h (by simp)
  · have h1 : ¬ s.dataTO.numCells
        ≥ (s.withDataTO { s.dataTO with numCells := s.dataTO.numCells + 1 }).cudaConstants.MAX_CELLS :=
      hroom
    rw [if_neg h1] at h
    refine ⟨by omega, ?_⟩
    cases cpos with
    | none => exact absurd h (by simp)
    | some pos =>
    cases cenergy with
    | none => exact absurd h (by simp)
    | some energy =>
    cases cmc with
    | none => exact absurd h (by simp)
    | some mc =>
    refine ⟨rfl, rfl, rfl, ?_⟩
    cases ctokens with
    | none => intro t ht; exact absurd ht (by simp)
    | some tokens =>
      simp only [Option.getD_some]
      simp only at h
      generalize hS : DataConverter.setCluster _ ci _ = S2 at h
      apply forEach_addCell_token_normal s.dataTO.numCells tokens S2
      cases hf : (forEach tokens (addCell_token s.dataTO.numCells) S2).failure with
      | none => rfl
      | some f =>
        rw [hf] at h
        exact absurd h (by simp)

theorem addCluster_cell_of_normal (n : Nat) (x : CellDescription) (st : AddState × Bool)
    (h : (addCluster_cell n x st).failure = none) : (addCell x n st.1).failure = none := by
  unfold addCluster_cell at h
  simp only at h
  cases hf : (addCell x n st.1).failure with
  | none => rfl
  | some f =>
    rw [hf] at h
    exact absurd h (by simp)

/-- The first loop of `addCluster`, when it did not throw, ends in the state
described by `AddedCells`. -/
theorem addCluster_cells_of_normal (s1 : DataConverter) (n : Nat) (cells : List CellDescription)
    (h : (forEach cells (addCluster_cell n) ((s1, []), true)).failure = none) :
    AddedCells s1 n cells (forEach cells (addCluster_cell n) ((s1, []), true)).state := by
  apply forEach_rule (addCluster_cell n) (AddedCells s1 n) cells _ (addedCells_start s1 n) _ h
  intro done x st hR hok
  obtain ⟨hroom, hp, he, hm, htok⟩ :=
    addCell_of_normal x n st.1.1 st.1.2 (addCluster_cell_of_normal n x st hok)
  have hroom' : s1.dataTO.numCells + done.length < s1.cudaConstants.MAX_CELLS := by
    rw [← hR.numCells, ← hR.cudaConstants]
    exact hroom
  exact (addCluster_cell_step s1 n done x st hR hp he hm htok hroom').2


/-! ## The cluster slot written by `addCluster` -/

/-- `addCluster` on a description with a cell list, room for the cluster and
the fields it reads without a default: the slot at the old cluster count is
written — id, position, velocity, angle, angular velocity, the length of the
cell list, an empty token range starting at the token count, the name
interned above the pool cursor — and the two loops run from there. -/
theorem addCluster_header (c : ClusterDescription) (s : DataConverter)
    (cells : List CellDescription) (clusterPos vel : QVector2D) (angle angularVel : ℚ)
    (hcells : c.cells = some cells)
    (hroom : s.dataTO.numClusters < s.cudaConstants.MAX_CLUSTERS)
    (hpos : clusterPosOf c = some clusterPos) (hvel : c.vel = some vel)
    (hangle : c.angle = some angle) (hangvel : c.angularVel = some angularVel) :
    ∃ metadata bytes cursor,
      addCluster c s
        = addCluster_loops s.dataTO.numClusters cells
            ((s.assignId c.id).2.withDataTO { s.dataTO with
              numClusters := s.dataTO.numClusters + 1
              clusters := Function.update s.dataTO.clusters s.dataTO.numClusters
                { id := (s.assignId c.id).1
                  pos := convert clusterPos
                  vel := convert vel
                  angle := angle
                  angularVel := angularVel
                  numCells := cells.length
                  cellStartIndex := (s.dataTO.clusters s.dataTO.numClusters).cellStartIndex
                  numTokens := 0
                  tokenStartIndex := (s.dataTO.numTokens : Int)
                  metadata := metadata }
              stringBytes := bytes
              numStringBytes := cursor })
      ∧ readClusterMetadata { s.dataTO with stringBytes := bytes, numStringBytes := cursor }
          metadata = { name := ((c.metadata.map (fun md => md.name)).getD []).map toLatin1 }
      ∧ (metadata.nameLen > 0 → metadata.nameStringIndex + metadata.nameLen ≤ cursor)
      ∧ s.dataTO.numStringBytes ≤ cursor
      ∧ (∀ b, b < s.dataTO.numStringBytes → bytes b = s.dataTO.stringBytes b) := by
  obtain ⟨cid, cpos, cvel, cangle, cangvel, cmeta, ccells⟩ := c
  simp only at hcells hvel hangle hangvel
  subst hcells hvel hangle hangvel
  have ha := fun d => assignId_withDataTO s d cid
  have hd := assignId_dataTO s cid
  obtain ⟨hl, hpar, hcc⟩ := assignId_config s cid
  have hge : ¬ (s.dataTO.numClusters ≥ s.cudaConstants.MAX_CLUSTERS) := by omega
  unfold addCluster addCluster_loops
  simp only [ha, hpos]
  generalize s.assignId cid = a at hd hl hpar hcc ⊢
  obtain ⟨id', s'⟩ := a
  simp only at hd hl hpar hcc ⊢
  dsimp only [DataConverter.withDataTO]
  rw [if_neg hge]
  cases cmeta with
  | none =>
    refine ⟨{ nameLen := 0
              nameStringIndex :=
                (s.dataTO.clusters s.dataTO.numClusters).metadata.nameStringIndex },
      s.dataTO.stringBytes, s.dataTO.numStringBytes, ?_, ?_, ?_, le_refl _, fun _ _ => rfl⟩
    · rfl
    · rfl
    · intro h
      exact absurd h (by simp)
  | some md =>
    by_cases hlen : md.name.length > 0
    · obtain ⟨hidx, bytes, he, hb, hr⟩ := convertString_spec md.name
        (s'.withDataTO { s.dataTO with numClusters := s.dataTO.numClusters + 1 })
      refine ⟨{ nameLen := md.name.length, nameStringIndex := s.dataTO.numStringBytes },
        bytes, s.dataTO.numStringBytes + md.name.length, ?_, ?_, ?_,
        Nat.le_add_right _ _, hb⟩
      · simp only [hlen, if_true]
        dsimp only [DataConverter.withDataTO] at he
        rw [he]
        rfl
      · unfold readClusterMetadata
        simp only [hlen, if_true, Option.map_some', Option.getD_some]
        exact congrArg ClusterMetadata.mk hr
      · intro _
        exact le_refl _
    · refine ⟨{ nameLen := md.name.length
                nameStringIndex :=
                  (s.dataTO.clusters s.dataTO.numClusters).metadata.nameStringIndex },
        s.dataTO.stringBytes, s.dataTO.numStringBytes, ?_, ?_, ?_, le_refl _,
        fun _ _ => rfl⟩
      · simp only [hlen, if_false]
        rfl
      · unfold readClusterMetadata
        simp only [hlen, if_false, Option.map_some', Option.getD_some]
        have : md.name = [] := List.length_eq_zero.mp (by omega)
        rw [this]
        rfl
      · intro h
        exact absurd h hlen

/-! ## The second loop of `addCluster`: when it throws -/

theorem lookup_isSome_iff {β : Type} (l : List (Nat × β)) (k : Nat) :
    (l.lookup k).isSome = true ↔ k ∈ l.map Prod.fst := by
  induction l with
  | nil => simp
  | cons e rest ih =>
    obtain ⟨k', v'⟩ := e
    by_cases hk : k = k'
    · subst hk
      simp [List.lookup_cons]
    · have hb : (k == k') = false := by simpa using hk
      simp only [List.lookup_cons, hb, List.map_cons, List.mem_cons]
      rw [ih]
      constructor
      · intro h; exact Or.inr h
      · intro h
        rcases h with h | h
        · exact absurd h hk
        · exact h

/-- The loop of `setConnections` throws exactly when an id has no entry. -/
theorem setConnections_loop_failure (m : List (Nat × Nat)) (ids : List Nat)
    (st : CellAccessTO × Nat) :
    (forEach ids (setConnections_step m) st).failure
      = if ids.all (fun id => (m.lookup id).isSome) then none
        else some Failure.outOfRange := by
  induction ids generalizing st with
  | nil => rfl
  | cons id ids ih =>
    rw [forEach_cons]
    unfold Step.andThen
    cases hl : m.lookup id with
    | none =>
      have e : setConnections_step m id st = ⟨st, some Failure.outOfRange⟩ := by
        unfold setConnections_step
        rw [hl]
      rw [e]
      simp [hl]
    | some target =>
      have e : (setConnections_step m id st).failure = none := by
        unfold setConnections_step
        rw [hl]
      rw [e]
      simp only
      rw [ih]
      simp only [List.all_cons, hl, Option.isSome_some, Bool.true_and]

theorem addCluster_connect_failure (m : List (Nat × Nat)) (cd : CellDescription)
    (s : DataConverter) (hid : cd.id ≠ 0) (hown : (m.lookup cd.id).isSome = true) :
    (addCluster_connect m cd s).failure
      = if connectionsResolve m cd then none else some Failure.outOfRange := by
  unfold addCluster_connect connectionsResolve
  rw [if_pos hid]
  obtain ⟨idx, hidx⟩ := Option.isSome_iff_exists.mp hown
  rw [hidx]
  simp only
  unfold setConnections
  cases hc : cd.connectingCells with
  | none => simp
  | some ids =>
    simp only [Option.getD_some]
    exact setConnections_loop_failure m ids _

/-- The second loop throws a lookup failure exactly when a connection of
some cell has no entry in the map. -/
theorem addCluster_connects_failure (m : List (Nat × Nat)) (cells : List CellDescription)
    (s : DataConverter)
    (h : ∀ cd, cd ∈ cells → cd.id ≠ 0 ∧ (m.lookup cd.id).isSome = true) :
    (forEach cells (addCluster_connect m) s).failure
      = if cells.all (connectionsResolve m) then none else some Failure.outOfRange := by
  induction cells generalizing s with
  | nil => rfl
  | cons cd cells ih =>
    obtain ⟨hid, hown⟩ := h cd (List.mem_cons_self _ _)
    have hf := addCluster_connect_failure m cd s hid hown
    rw [forEach_cons]
    unfold Step.andThen
    by_cases hr : connectionsResolve m cd = true
    · rw [hr, if_pos rfl] at hf
      rw [hf]
      simp only
      rw [ih _ (fun c hc => h c (List.mem_cons_of_mem _ hc))]
      simp [hr]
    · have hr' : connectionsResolve m cd = false := by simpa using hr
      rw [hr'] at hf
      simp only [Bool.false_eq_true, if_false] at hf
      rw [hf]
      simp only [List.all_cons, hr', Bool.false_and, Bool.false_eq_true, if_false]
      exact hf

/-- The keys of the map built by the first loop, when every cell has an id of
its own: the ids of the cells. -/
theorem addedCells_lookup (s1 : DataConverter) (n : Nat) (cells : List CellDescription)
    (st : AddState × Bool) (h : AddedCells s1 n cells st)
    (hids : ∀ cell, cell ∈ cells → cell.id ≠ 0) (k : Nat) :
    (st.1.2.lookup k).isSome = true ↔ k ∈ cells.map (fun cell => cell.id) := by
  rw [lookup_isSome_iff, h.map, List.map_reverse, List.mem_reverse, List.map_map]
  have e : (List.range' s1.dataTO.numCells cells.length).map
      (Prod.fst ∘ fun c => ((st.1.1.dataTO.cells c).id, c))
      = cells.map (fun cell => cell.id) := by
    apply List.ext_getElem
    · simp
    · intro i h1 h2
      simp only [List.length_map, List.length_range'] at h1
      simp only [List.getElem_map, List.getElem_range', Function.comp, Nat.one_mul]
      exact h.ids i h1 (hids _ (List.getElem_mem _))
  rw [e]


/-! ## `addCluster` when it returns normally -/

/-- A call of `addCluster` that did not throw, on a description with a cell
list, had room for the cluster and was given the fields it reads without a
default. -/
theorem addCluster_of_normal (c : ClusterDescription) (s : DataConverter)
    (cells : List CellDescription) (hcells : c.cells = some cells)
    (hok : (addCluster c s).failure = none) :
    s.dataTO.numClusters < s.cudaConstants.MAX_CLUSTERS
    ∧ (clusterPosOf c).isSome = true ∧ c.vel.isSome = true ∧ c.angle.isSome = true
    ∧ c.angularVel.isSome = true := by
  unfold addCluster at hok
  simp only [hcells] at hok
  by_cases hroom : s.dataTO.numClusters ≥ s.cudaConstants.MAX_CLUSTERS
  · have h1 : s.dataTO.numClusters ≥ (s.withDataTO { s.dataTO with
        numClusters := s.dataTO.numClusters + 1 }).cudaConstants.MAX_CLUSTERS := hroom
    rw [if_pos h1] at hok
    exact absurd hok (by simp)
  · have h1 : ¬ s.dataTO.numClusters ≥ (s.withDataTO { s.dataTO with
        numClusters := s.dataTO.numClusters + 1 }).cudaConstants.MAX_CLUSTERS := hroom
    rw [if_neg h1] at hok
    refine ⟨by omega, ?_⟩
    cases hp : clusterPosOf c with
    | none => rw [hp] at hok; exact absurd hok (by simp)
    | some p =>
    cases hv : c.vel with
    | none => rw [hp, hv] at hok; exact absurd hok (by simp)
    | some v =>
    cases ha : c.angle with
    | none => rw [hp, hv, ha] at hok; exact absurd hok (by simp)
    | some a =>
    cases hw : c.angularVel with
    | none => rw [hp, hv, ha, hw] at hok; exact absurd hok (by simp)
    | some w => exact ⟨rfl, rfl, rfl, rfl⟩

/-- What a normally returning `addCluster` has appended, for a description
with a non-empty cell list: one cluster, in the slot at the old cluster count,
whose cell range starts at the old cell count and has the length of the cell
list; the cell count has grown by that length. -/
theorem addCluster_normal_spec (c : ClusterDescription) (s : DataConverter)
    (cells : List CellDescription) (hcells : c.cells = some cells) (hne : cells ≠ [])
    (hok : (addCluster c s).failure = none) :
    (addCluster c s).state.dataTO.numClusters = s.dataTO.numClusters + 1
    ∧ (addCluster c s).state.dataTO.numCells = s.dataTO.numCells + cells.length
    ∧ (addCluster c s).state.dataTO.numParticles = s.dataTO.numParticles
    ∧ ((addCluster c s).state.dataTO.clusters s.dataTO.numClusters).numCells = cells.length
    ∧ ((addCluster c s).state.dataTO.clusters s.dataTO.numClusters).cellStartIndex
        = s.dataTO.numCells
    ∧ ((addCluster c s).state.dataTO.clusters s.dataTO.numClusters).id = (s.assignId c.id).1 := by
  obtain ⟨hroom, hpos, hvel, hangle, hangvel⟩ := addCluster_of_normal c s cells hcells hok
  obtain ⟨clusterPos, hpos'⟩ := Option.isSome_iff_exists.mp hpos
  obtain ⟨vel, hvel'⟩ := Option.isSome_iff_exists.mp hvel
  obtain ⟨angle, hangle'⟩ := Option.isSome_iff_exists.mp hangle
  obtain ⟨angularVel, hangvel'⟩ := Option.isSome_iff_exists.mp hangvel
  obtain ⟨metadata, bytes, cursor, e, _⟩ :=
    addCluster_header c s cells clusterPos vel angle angularVel hcells hroom hpos' hvel'
      hangle' hangvel'
  rw [e] at hok ⊢
  generalize hs1 : (s.assignId c.id).2.withDataTO _ = s1 at hok ⊢
  have h1a : s1.dataTO.numClusters = s.dataTO.numClusters + 1 := by rw [← hs1]; rfl
  have h1b : s1.dataTO.numCells = s.dataTO.numCells := by rw [← hs1]; rfl
  have h1c : s1.dataTO.numParticles = s.dataTO.numParticles := by rw [← hs1]; rfl
  have h1d : (s1.dataTO.clusters s.dataTO.numClusters).numCells = cells.length := by
    rw [← hs1]
    simp [DataConverter.withDataTO]
  have h1e : (s1.dataTO.clusters s.dataTO.numClusters).id = (s.assignId c.id).1 := by
    rw [← hs1]
    simp [DataConverter.withDataTO]
  unfold addCluster_loops at hok ⊢
  cases hr1 : (forEach cells (addCluster_cell s.dataTO.numClusters) ((s1, []), true)).failure with
  | some f =>
    rw [hr1] at hok
    exact absurd hok (by simp)
  | none =>
    have hR := addCluster_cells_of_normal s1 s.dataTO.numClusters cells hr1
    simp only
    have hS := sameShape_forEach
      (addCluster_connect (forEach cells (addCluster_cell s.dataTO.numClusters)
        ((s1, []), true)).state.1.2)
      (fun cd st => sameShape_addCluster_connect _ cd st) cells
      (forEach cells (addCluster_cell s.dataTO.numClusters) ((s1, []), true)).state.1.1
    obtain ⟨nt, cs, hcl⟩ := hR.cluster
    refine ⟨?_, ?_, ?_, ?_, ?_, ?_⟩
    · rw [hS.numClusters, hR.numClusters, h1a]
    · rw [hS.numCells, hR.numCells, h1b]
    · rw [hS.numParticles, hR.numParticles, h1c]
    · rw [hS.clusterNumCells, hcl]
      exact h1d
    · rw [hS.cellStartIndex, hR.cellStartIndex hne, h1b]
    · rw [hS.clusterId, hcl]
      exact h1e

/-- The cell list built from the cell trackers of a cluster delta is absent
or non-empty. -/
theorem ofChange_cells_ne_nil (change : ClusterChangeDescription) (cells : List CellDescription)
    (h : (ClusterDescription.ofChange change).cells = some cells) : cells ≠ [] := by
  have key : ∀ (ts : List (ChangeTracker CellChangeDescription))
      (acc : Option (List CellDescription)),
      (∀ l, acc = some l → l ≠ []) →
      ∀ l, ts.foldl
        (fun cells cellTracker =>
          if !cellTracker.isDeleted then
            some (cells.getD [] ++ [CellDescription.ofChange cellTracker.getValue])
          else cells) acc = some l → l ≠ [] := by
    intro ts
    induction ts with
    | nil => intro acc hacc l hl; exact hacc l hl
    | cons t ts ih =>
      intro acc hacc l hl
      simp only [List.foldl_cons] at hl
      refine ih _ ?_ l hl
      intro l' hl'
      split at hl'
      · simp only [Option.some.injEq] at hl'
        rw [← hl']
        simp
      · exact hacc l' hl'
  exact key change.cells none (fun l hl => absurd hl (by simp)) cells h


/-! ## The add phase of `updateData` -/

theorem addedClustersOf_append (done : List (ChangeTracker ClusterChangeDescription))
    (x : ChangeTracker ClusterChangeDescription) :
    addedClustersOf (done ++ [x])
      = addedClustersOf done
        ++ (if x.isAdded = true ∧ (ClusterDescription.ofChange x.getValue).cells.isSome = true
            then [ClusterDescription.ofChange x.getValue] else []) := by
  unfold addedClustersOf
  rw [List.filter_append, List.map_append, List.filter_append]
  congr 1
  by_cases h1 : x.isAdded = true
  · by_cases h2 : (ClusterDescription.ofChange x.getValue).cells.isSome = true
    · simp [h1, h2]
    · simp [h1, h2]
  · simp [h1]

theorem addedParticlesOf_append (done : List (ChangeTracker ParticleChangeDescription))
    (x : ChangeTracker ParticleChangeDescription) :
    addedParticlesOf (done ++ [x])
      = addedParticlesOf done
        ++ (if x.isAdded = true then [ParticleDescription.ofChange x.getValue] else []) := by
  unfold addedParticlesOf
  rw [List.filter_append, List.map_append]
  congr 1
  by_cases h1 : x.isAdded = true <;> simp [h1]

/-- A call of `addParticle` that did not throw had room and was given a
position, a velocity and an energy. -/
theorem addParticle_of_normal (p : ParticleDescription) (s : DataConverter)
    (hok : (addParticle p s).failure = none) :
    s.dataTO.numParticles < s.cudaConstants.MAX_PARTICLES
    ∧ p.pos.isSome = true ∧ p.vel.isSome = true ∧ p.energy.isSome = true := by
  unfold addParticle at hok
  simp only at hok
  by_cases hroom : s.dataTO.numParticles ≥ s.cudaConstants.MAX_PARTICLES
  · have h1 : s.dataTO.numParticles ≥ (s.withDataTO { s.dataTO with
        numParticles := s.dataTO.numParticles + 1 }).cudaConstants.MAX_PARTICLES := hroom
    rw [if_pos h1] at hok
    exact absurd hok (by simp)
  · have h1 : ¬ s.dataTO.numParticles ≥ (s.withDataTO { s.dataTO with
        numParticles := s.dataTO.numParticles + 1 }).cudaConstants.MAX_PARTICLES := hroom
    rw [if_neg h1] at hok
    refine ⟨by omega, ?_⟩
    cases hp : p.pos with
    | none => rw [hp] at hok; exact absurd hok (by simp)
    | some pos =>
    cases hv : p.vel with
    | none => rw [hp, hv] at hok; exact absurd hok (by simp)
    | some vel =>
    cases he : p.energy with
    | none => rw [hp, hv, he] at hok; exact absurd hok (by simp)
    | some energy => exact ⟨rfl, rfl, rfl⟩

/-- What `addParticle` writes when there is room and the description has a
position, a velocity and an energy. -/
theorem addParticle_spec (p : ParticleDescription) (s : DataConverter)
    (hroom : s.dataTO.numParticles < s.cudaConstants.MAX_PARTICLES)
    (hpos : p.pos.isSome = true) (hvel : p.vel.isSome = true) (hen : p.energy.isSome = true) :
    (addParticle p s).failure = none
    ∧ (addParticle p s).state.dataTO
        = { s.dataTO with
            numParticles := s.dataTO.numParticles + 1
            particles := (addParticle p s).state.dataTO.particles }
    ∧ (∀ i, i ≠ s.dataTO.numParticles →
        (addParticle p s).state.dataTO.particles i = s.dataTO.particles i)
    ∧ readParticle (addParticle p s).state.dataTO s.dataTO.numParticles
        = { id := (s.assignId p.id).1
            pos := p.pos
            vel := p.vel
            energy := p.energy
            metadata := some { color := (p.metadata.map (fun m => m.color)).getD 0 } }
    ∧ (addParticle p s).state.parameters = s.parameters
    ∧ (addParticle p s).state.cudaConstants = s.cudaConstants
    ∧ (addParticle p s).state.limits = s.limits := by
  obtain ⟨pos, hpos'⟩ := Option.isSome_iff_exists.mp hpos
  obtain ⟨vel, hvel'⟩ := Option.isSome_iff_exists.mp hvel
  obtain ⟨energy, hen'⟩ := Option.isSome_iff_exists.mp hen
  have hge : ¬ (s.dataTO.numParticles ≥ s.cudaConstants.MAX_PARTICLES) := by omega
  unfold readParticle addParticle
  simp only [DataConverter.withDataTO, hge, if_false, hpos', hvel', hen']
  by_cases hid : p.id = 0 <;> cases hmeta : p.metadata <;>
    simp [DataConverter.assignId, DataConverter.setParticle, DataConverter.withDataTO, hid,
      convert] <;>
    intro i hi <;> exact Function.update_noteq hi _ _


theorem readParticle_congr (d d' : DataAccessTO) (i : Nat)
    (h : d'.particles i = d.particles i) : readParticle d' i = readParticle d i := by
  unfold readParticle
  rw [h]

/-- The cluster loop of the add phase, when it did not throw. -/
theorem clustersAdded_loop (trackers : List (ChangeTracker ClusterChangeDescription))
    (s0 : DataConverter)
    (hok : (forEach trackers updateData_addCluster s0).failure = none) :
    ClustersAdded s0 (addedClustersOf trackers)
      (forEach trackers updateData_addCluster s0).state := by
  apply forEach_rule updateData_addCluster (fun done st => ClustersAdded s0 (addedClustersOf done) st)
    trackers s0 _ _ hok
  · exact ⟨extends_same s0, rfl, rfl, rfl, fun k hk => absurd hk (by simp [addedClustersOf])⟩
  · intro done x st hR hx
    rw [addedClustersOf_append]
    by_cases hadd : x.isAdded = true
    · cases hc : (ClusterDescription.ofChange x.getValue).cells with
      | none =>
        have e : updateData_addCluster x st = ⟨st, none⟩ := by
          unfold updateData_addCluster addCluster
          rw [if_pos hadd]
          simp only [hc]
        rw [e]
        simp only [hc, Option.isSome_none, Bool.false_eq_true, and_false, if_false,
          List.append_nil]
        exact hR
      | some cells =>
        have e : updateData_addCluster x st
            = addCluster (ClusterDescription.ofChange x.getValue) st := by
          unfold updateData_addCluster
          rw [if_pos hadd]
        rw [e] at hx ⊢
        simp only [hadd, hc, Option.isSome_some, and_self, if_true]
        have hne := ofChange_cells_ne_nil x.getValue cells hc
        obtain ⟨n1, n2, n3, n4, n5, n6⟩ :=
          addCluster_normal_spec (ClusterDescription.ofChange x.getValue) st cells hc hne hx
        have hext := extends_addCluster (ClusterDescription.ofChange x.getValue) st
        have hcount : cellCount (ClusterDescription.ofChange x.getValue) = cells.length := by
          unfold cellCount
          rw [hc]
          rfl
        refine ⟨extends_andThen hR.keeps hext, ?_, ?_, ?_, ?_⟩
        · rw [n1, hR.numClusters, List.length_append, List.length_singleton]
          omega
        · rw [n2, hR.numCells, List.map_append, List.sum_append, List.map_singleton,
            List.sum_singleton, hcount]
          omega
        · rw [n3, hR.numParticles]
        · intro k hk
          rw [List.length_append, List.length_singleton] at hk
          by_cases hlt : k < (addedClustersOf done).length
          · have hi : s0.dataTO.numClusters + k < st.dataTO.numClusters := by
              rw [hR.numClusters]
              omega
            rw [hext.clusters _ hi, List.getElem_append_left hlt,
              List.take_append_of_le_length (le_of_lt hlt)]
            exact hR.cluster k hlt
          · have hk' : k = (addedClustersOf done).length := by omega
            subst hk'
            have hx' : (addedClustersOf done ++ [ClusterDescription.ofChange x.getValue])[
                (addedClustersOf done).length] = ClusterDescription.ofChange x.getValue := by
              simp
            rw [hx', ← hR.numClusters, n4, n5, n6, hcount, hR.numCells,
              List.take_left]
            refine ⟨rfl, rfl, ?_⟩
            intro hid
            rw [assignId_of_ne_zero _ _ hid]
    · have hadd' : x.isAdded = false := by simpa using hadd
      have e : updateData_addCluster x st = ⟨st, none⟩ := by
        unfold updateData_addCluster
        rw [hadd']
        rfl
      rw [e]
      simp only [hadd', Bool.false_eq_true, false_and, if_false, List.append_nil]
      exact hR

/-- The particle loop of the add phase, when it did not throw. -/
theorem particlesAdded_loop (trackers : List (ChangeTracker ParticleChangeDescription))
    (s0 : DataConverter)
    (hok : (forEach trackers updateData_addParticle s0).failure = none) :
    ParticlesAdded s0 (addedParticlesOf trackers)
      (forEach trackers updateData_addParticle s0).state := by
  apply forEach_rule updateData_addParticle
    (fun done st => ParticlesAdded s0 (addedParticlesOf done) st) trackers s0 _ _ hok
  · exact ⟨extends_same s0, rfl, rfl, rfl, rfl, rfl, rfl, rfl, rfl, rfl,
      fun k hk => absurd hk (by simp [addedParticlesOf])⟩
  · intro done x st hR hx
    rw [addedParticlesOf_append]
    by_cases hadd : x.isAdded = true
    · have e : updateData_addParticle x st
          = addParticle (ParticleDescription.ofChange x.getValue) st := by
        unfold updateData_addParticle
        rw [if_pos hadd]
      rw [e] at hx ⊢
      simp only [hadd, if_true]
      obtain ⟨hroom, hp, hv, he⟩ := addParticle_of_normal _ _ hx
      obtain ⟨_, hd, hother, hread, hpar, _, _⟩ :=
        addParticle_spec (ParticleDescription.ofChange x.getValue) st hroom hp hv he
      have hext := extends_addParticle (ParticleDescription.ofChange x.getValue) st
      have f1 := congrArg DataAccessTO.numParticles hd
      have f2 := congrArg DataAccessTO.numClusters hd
      have f3 := congrArg DataAccessTO.clusters hd
      have f4 := congrArg DataAccessTO.numCells hd
      have f5 := congrArg DataAccessTO.cells hd
      have f6 := congrArg DataAccessTO.numTokens hd
      have f7 := congrArg DataAccessTO.tokens hd
      have f8 := congrArg DataAccessTO.stringBytes hd
      simp only at f1 f2 f3 f4 f5 f6 f7 f8
      refine ⟨extends_andThen hR.keeps hext, ?_, f2.trans hR.numClusters, f3.trans hR.clusters,
        f4.trans hR.numCells, f5.trans hR.cells, f6.trans hR.numTokens, f7.trans hR.tokens,
        f8.trans hR.stringBytes, hpar.trans hR.parameters, ?_⟩
      · rw [f1, hR.numParticles, List.length_append, List.length_singleton]
        omega
      · intro k hk
        rw [List.length_append, List.length_singleton] at hk
        by_cases hlt : k < (addedParticlesOf done).length
        · have hi : s0.dataTO.numParticles + k ≠ st.dataTO.numParticles := by
            rw [hR.numParticles]
            omega
          rw [readParticle_congr _ _ _ (hother _ hi), hother _ hi,
            List.getElem_append_left hlt]
          exact hR.particle k hlt
        · have hk' : k = (addedParticlesOf done).length := by omega
          subst hk'
          have hx' : (addedParticlesOf done ++ [ParticleDescription.ofChange x.getValue])[
              (addedParticlesOf done).length] = ParticleDescription.ofChange x.getValue := by
            simp
          rw [hx', ← hR.numParticles, hread]
          have hid : ((addParticle (ParticleDescription.ofChange x.getValue)
              st).state.dataTO.particles st.dataTO.numParticles).id
              = (st.assignId (ParticleDescription.ofChange x.getValue).id).1 := by
            have := congrArg ParticleDescription.id hread
            exact this
          rw [hid]
          refine ⟨rfl, ?_⟩
          intro hne
          rw [assignId_of_ne_zero _ _ hne]
    · have hadd' : x.isAdded = false := by simpa using hadd
      have e : updateData_addParticle x st = ⟨st, none⟩ := by
        unfold updateData_addParticle
        rw [hadd']
        rfl
      rw [e]
      simp only [hadd', Bool.false_eq_true, if_false, List.append_nil]
      exact hR


/-- The three phases of a normal `updateData` after the deletions: the modify
phase keeps the shape, the cluster loop appends the Added clusters that have
cells, the particle loop appends the Added particles. -/
theorem updateData_added (data : DataChangeDescription) (s : DataConverter)
    (hok : (updateData data s).failure = none) :
    ∃ sM st1, SameShape (processDeletions (marked data s)) sM
      ∧ ClustersAdded sM (addedClustersOf data.clusters) st1
      ∧ ParticlesAdded st1 (addedParticlesOf data.particles) (updateData data s).state := by
  rw [updateData_eq] at hok ⊢
  obtain ⟨h12, e12⟩ := andThen_failure_none _ _ hok
  rw [e12] at hok ⊢
  obtain ⟨h1, e1⟩ := andThen_failure_none _ _ h12
  rw [e1] at hok h12 ⊢
  exact ⟨_, _, sameShape_processModifications _, clustersAdded_loop _ _ h12,
    particlesAdded_loop _ _ hok⟩


/-! ## C15: the postcondition of `addParticle` -/

/-- C15. On an arena with fewer than `MAX_PARTICLES` particles, `addParticle`
of a description that has a position, a velocity and an energy returns
normally, raises the particle count by exactly one, and writes at the index of
the old count the description's position, velocity and energy, the
description's id when it is non-zero and the next id of the number generator
when it is 0, and the colour of the metadata when they are present and 0 when
they are absent; every other particle slot, and every cluster, cell, token and
pool byte, is unchanged. -/
theorem C15_addParticle_postcondition (p : ParticleDescription) (s : DataConverter)
    (pos vel : QVector2D) (energy : ℚ)
    (hroom : s.dataTO.numParticles < s.cudaConstants.MAX_PARTICLES)
    (hpos : p.pos = some pos) (hvel : p.vel = some vel) (hen : p.energy = some energy) :
    (addParticle p s).failure = none
    ∧ (addParticle p s).state.dataTO.numParticles = s.dataTO.numParticles + 1
    ∧ (addParticle p s).state.dataTO.particles s.dataTO.numParticles
        = { id := if p.id = 0 then (s.numberGen.getId).1 else p.id
            pos := convert pos
            vel := convert vel
            energy := energy
            metadata := { color := (p.metadata.map (fun m => m.color)).getD 0 } }
    ∧ (∀ i, i ≠ s.dataTO.numParticles →
        (addParticle p s).state.dataTO.particles i = s.dataTO.particles i)
    ∧ (addParticle p s).state.dataTO.clusters = s.dataTO.clusters
    ∧ (addParticle p s).state.dataTO.numClusters = s.dataTO.numClusters
    ∧ (addParticle p s).state.dataTO.cells = s.dataTO.cells
    ∧ (addParticle p s).state.dataTO.numCells = s.dataTO.numCells
    ∧ (addParticle p s).state.dataTO.tokens = s.dataTO.tokens
    ∧ (addParticle p s).state.dataTO.numTokens = s.dataTO.numTokens
    ∧ (addParticle p s).state.dataTO.stringBytes = s.dataTO.stringBytes
    ∧ (addParticle p s).state.dataTO.numStringBytes = s.dataTO.numStringBytes := by
  have hge : ¬ (s.dataTO.numParticles ≥ s.cudaConstants.MAX_PARTICLES) := by omega
  unfold addParticle
  simp only [DataConverter.withDataTO, hge, if_false, hpos, hvel, hen]
  by_cases hid : p.id = 0 <;> cases hmeta : p.metadata <;>
    simp [DataConverter.assignId, DataConverter.setParticle, DataConverter.withDataTO, hid] <;>
    intro i hi <;> exact Function.update_noteq hi _ _

theorem C15_addParticle_postcondition_witness :
    (addParticle (sampleParticle 0) (sampleConverter DataAccessTO.empty 4 4 4 4)).failure = none
    ∧ (addParticle (sampleParticle 0)
        (sampleConverter DataAccessTO.empty 4 4 4 4)).state.dataTO.numParticles = 1
    ∧ (addParticle (sampleParticle 0)
        (sampleConverter DataAccessTO.empty 4 4 4 4)).state.dataTO.particles 0
        = { id := 1000, pos := ⟨1, 2⟩, vel := ⟨0, 0⟩, energy := 5, metadata := { color := 0 } } :=
  have h := C15_addParticle_postcondition (sampleParticle 0)
    (sampleConverter DataAccessTO.empty 4 4 4 4) ⟨1, 2⟩ ⟨0, 0⟩ 5 (by decide) rfl rfl rfl
  ⟨h.1, h.2.1, h.2.2.1⟩


/-! ## C19: string pool monotonicity -/

theorem internSession_append (steps : List ((DataConverter → DataConverter) × QString))
    (step : (DataConverter → DataConverter) × QString) (s : DataConverter) :
    internSession (steps ++ [step]) s
      = (((internSession steps s).1
            ++ [((convertStringAndReturnStringIndex step.2
                  (step.1 (internSession steps s).2)).1, step.2.length)]),
          (convertStringAndReturnStringIndex step.2 (step.1 (internSession steps s).2)).2) := by
  unfold internSession
  rw [List.foldl_append]
  rfl

/-- C19. Every call of `convertStringAndReturnStringIndex` returns the pool
cursor at entry and advances the cursor by the length of the text; hence, for
every session in which non-empty texts are interned one after the other, with
any work in between that does not move the cursor back, the recorded
(offset, length) pairs are pairwise non-overlapping and strictly increasing in
offset, in call order. -/
theorem C19_string_pool_monotonicity
    (steps : List ((DataConverter → DataConverter) × QString)) (s : DataConverter)
    (hnonempty : ∀ step, step ∈ steps → 0 < step.2.length)
    (hkeep : ∀ step, step ∈ steps → ∀ t : DataConverter,
      t.dataTO.numStringBytes ≤ (step.1 t).dataTO.numStringBytes) :
    (∀ (str : QString) (t : DataConverter),
        (convertStringAndReturnStringIndex str t).1 = t.dataTO.numStringBytes
        ∧ (convertStringAndReturnStringIndex str t).2.dataTO.numStringBytes
            = t.dataTO.numStringBytes + str.length)
    ∧ (internSession steps s).1.Pairwise (fun p q => p.1 + p.2 ≤ q.1 ∧ p.1 < q.1) := by
  refine ⟨fun _ _ => ⟨rfl, rfl⟩, ?_⟩
  suffices H : (internSession steps s).1.Pairwise (fun p q => p.1 + p.2 ≤ q.1 ∧ p.1 < q.1)
      ∧ (∀ p, p ∈ (internSession steps s).1 →
          0 < p.2 ∧ p.1 + p.2 ≤ (internSession steps s).2.dataTO.numStringBytes) from H.1
  induction steps using List.reverseRecOn with
  | nil => exact ⟨List.Pairwise.nil, fun p hp => absurd hp (List.not_mem_nil p)⟩
  | append_singleton steps step ih =>
    obtain ⟨ih1, ih2⟩ := ih (fun x hx => hnonempty x (List.mem_append_left _ hx))
      (fun x hx => hkeep x (List.mem_append_left _ hx))
    have hlen := hnonempty step (List.mem_append_right _ (List.mem_singleton_self _))
    have hk := hkeep step (List.mem_append_right _ (List.mem_singleton_self _))
      (internSession steps s).2
    rw [internSession_append]
    have hidx : (convertStringAndReturnStringIndex step.2
        (step.1 (internSession steps s).2)).1
        = (step.1 (internSession steps s).2).dataTO.numStringBytes := rfl
    have hcur : (convertStringAndReturnStringIndex step.2
        (step.1 (internSession steps s).2)).2.dataTO.numStringBytes
        = (step.1 (internSession steps s).2).dataTO.numStringBytes + step.2.length := rfl
    refine ⟨?_, ?_⟩
    · rw [List.pairwise_append]
      refine ⟨ih1, List.pairwise_singleton _ _, ?_⟩
      intro p hp q hq
      rw [List.mem_singleton] at hq
      subst hq
      obtain ⟨h1, h2⟩ := ih2 p hp
      simp only [hidx]
      omega
    · intro p hp
      rw [hcur]
      rcases List.mem_append.mp hp with h | h
      · obtain ⟨h1, h2⟩ := ih2 p h
        exact ⟨h1, by omega⟩
      · rw [List.mem_singleton] at h
        subst h
        simp only [hidx]
        exact ⟨hlen, le_refl _⟩

theorem C19_string_pool_monotonicity_witness :
    (internSession [(id, [110, 97, 109, 101]), (id, [100]), (id, [99, 111])]
        (sampleConverter DataAccessTO.empty 4 4 4 4)).1 = [(0, 4), (4, 1), (5, 2)]
    ∧ (internSession [(id, [110, 97, 109, 101]), (id, [100]), (id, [99, 111])]
        (sampleConverter DataAccessTO.empty 4 4 4 4)).1.Pairwise
          (fun p q => p.1 + p.2 ≤ q.1 ∧ p.1 < q.1) :=
  ⟨by decide,
   (C19_string_pool_monotonicity [(id, [110, 97, 109, 101]), (id, [100]), (id, [99, 111])]
      (sampleConverter DataAccessTO.empty 4 4 4 4) (by decide)
      (fun step hstep t => by
        simp only [List.mem_cons, List.mem_singleton, List.not_mem_nil, or_false] at hstep
        rcases hstep with rfl | rfl | rfl <;> exact le_refl _)).2⟩


/-! ## C20: the string pool only grows -/

/-- Compaction leaves the string pool alone. -/
theorem processDeletions_pool (s : DataConverter) :
    (processDeletions s).dataTO.numStringBytes = s.dataTO.numStringBytes
    ∧ (processDeletions s).dataTO.stringBytes = s.dataTO.stringBytes := by
  unfold processDeletions
  split <;> exact ⟨rfl, rfl⟩

theorem marked_dataTO (data : DataChangeDescription) (s : DataConverter) :
    (marked data s).dataTO = s.dataTO := by
  unfold marked
  rw [(foldl_markParticle _ _).1, (foldl_markCluster _ _).1]

/-- C20. For every converter state and every ChangeSet, in the state
`updateData` ends in (returned or thrown) the pool cursor is at least its value
before and every pool byte below the old cursor is unchanged; `processDeletions`
does not touch the pool at all, and the cluster and cell overloads of
`applyChangeDescription` only append to it, so neither a deletion nor new
metadata reclaim pool space. -/
theorem C20_string_pool_only_grows (data : DataChangeDescription) (s : DataConverter) :
    s.dataTO.numStringBytes ≤ (updateData data s).state.dataTO.numStringBytes
    ∧ (∀ b, b < s.dataTO.numStringBytes →
        (updateData data s).state.dataTO.stringBytes b = s.dataTO.stringBytes b)
    ∧ (∀ t : DataConverter,
        (processDeletions t).dataTO.numStringBytes = t.dataTO.numStringBytes
        ∧ (processDeletions t).dataTO.stringBytes = t.dataTO.stringBytes)
    ∧ (∀ (changes : CellChangeDescription) (cellTO : CellAccessTO) (t : DataConverter),
        t.dataTO.numStringBytes
          ≤ (applyChangeDescription_cell changes cellTO t).2.dataTO.numStringBytes
        ∧ ∀ b, b < t.dataTO.numStringBytes →
          (applyChangeDescription_cell changes cellTO t).2.dataTO.stringBytes b
            = t.dataTO.stringBytes b)
    ∧ (∀ (changes : ClusterChangeDescription) (clusterTO : ClusterAccessTO)
        (t : DataConverter),
        t.dataTO.numStringBytes
          ≤ (applyChangeDescription_cluster changes clusterTO t).2.dataTO.numStringBytes
        ∧ ∀ b, b < t.dataTO.numStringBytes →
          (applyChangeDescription_cluster changes clusterTO t).2.dataTO.stringBytes b
            = t.dataTO.stringBytes b) := by
  have h := keepsLive_updateData data s
  have h1 := (processDeletions_pool (marked data s)).1
  have h2 := (processDeletions_pool (marked data s)).2
  rw [marked_dataTO] at h1 h2
  refine ⟨?_, ?_, processDeletions_pool, ?_, ?_⟩
  · rw [← h1]
    exact h.numStringBytes
  · intro b hb
    rw [h.stringBytes b (by rw [h1]; exact hb), h2]
  · intro changes cellTO t
    have hs := (applyChangeDescription_cell_shape changes cellTO t).2
    exact ⟨hs.numStringBytes, hs.stringBytes⟩
  · intro changes clusterTO t
    have hs := (applyChangeDescription_cluster_shape changes clusterTO t).2.2.2
    exact ⟨hs.numStringBytes, hs.stringBytes⟩


/-! ## C11: interning past the end of the pool -/

/-- C11 (divergence). With a metadata pool of 4 bytes and the cursor at 0,
interning a five-byte name does not fail: `convertStringAndReturnStringIndex`
has no failing outcome at all, returns offset 0, writes the byte at position 4
and leaves the cursor at 5; reached through `addCluster`, the call returns
normally with the cursor at 5. -/
theorem C11_pool_overflow_unchecked :
    tinyPoolConverter.cudaConstants.METADATA_DYNAMIC_MEMORY_SIZE = 4
    ∧ tinyPoolConverter.dataTO.numStringBytes = 0
    ∧ (convertStringAndReturnStringIndex [110, 97, 109, 101, 50] tinyPoolConverter).1 = 0
    ∧ (convertStringAndReturnStringIndex [110, 97, 109, 101, 50]
        tinyPoolConverter).2.dataTO.numStringBytes = 5
    ∧ (convertStringAndReturnStringIndex [110, 97, 109, 101, 50]
        tinyPoolConverter).2.dataTO.stringBytes 4 = 50
    ∧ (addCluster namedCluster tinyPoolConverter).failure = none
    ∧ (addCluster namedCluster tinyPoolConverter).state.dataTO.numStringBytes = 5
    ∧ (addCluster namedCluster tinyPoolConverter).state.dataTO.stringBytes 4 = 50 := by
  decide


/-! ## C12: a failed append keeps the live elements -/

/-- The token loop of `addCell` can only fail on an absent token field. -/
theorem forEach_addCell_token_failure (x : Nat) (tokens : List TokenDescription)
    (s : DataConverter) :
    (forEach tokens (addCell_token x) s).failure = none
    ∨ (forEach tokens (addCell_token x) s).failure = some Failure.emptyOptional := by
  induction tokens generalizing s with
  | nil => exact Or.inl rfl
  | cons t ts ih =>
    rw [forEach_cons]
    unfold Step.andThen
    split
    · exact ih _
    · rename_i f hf
      right
      rw [hf]
      unfold addCell_token at hf
      simp only at hf
      split at hf
      · simp only [Option.some.injEq] at hf
        rw [hf]
      · split at hf
        · simp only [Option.some.injEq] at hf
          rw [hf]
        · simp at hf

/-- The only capacity error of `addCell` is raised before anything but the
cell count has changed. -/
theorem addCell_capacity_failure (cellDesc : CellDescription) (clusterIndex : Nat)
    (s : DataConverter) (m : List (Nat × Nat)) (f : Failure)
    (hf : (addCell cellDesc clusterIndex (s, m)).failure = some f)
    (hc : f.isCapacity = true) :
    (addCell cellDesc clusterIndex (s, m)).state.1
      = s.withDataTO { s.dataTO with numCells := s.dataTO.numCells + 1 } := by
  unfold addCell at hf ⊢
  simp only at hf ⊢
  split
  · rfl
  · rename_i hroom
    rw [if_neg hroom] at hf
    exfalso
    have hne : f ≠ Failure.emptyOptional := by
      intro h
      rw [h] at hc
      exact absurd hc (by decide)
    split at hf
    · simp only [Option.some.injEq] at hf
      exact hne hf.symm
    · split at hf
      · simp only [Option.some.injEq] at hf
        exact hne hf.symm
      · split at hf
        · simp only [Option.some.injEq] at hf
          exact hne hf.symm
        · split at hf
          · rename_i f' hf'
            simp only [Option.some.injEq] at hf
            subst hf
            split at hf'
            · rcases forEach_addCell_token_failure _ _ _ with h | h
              · rw [h] at hf'
                exact absurd hf' (by simp)
              · rw [h] at hf'
                simp only [Option.some.injEq] at hf'
                exact hne hf'.symm
            · exact absurd hf' (by simp)
          · exact absurd hf (by simp)

/-- C12. When `addParticle`, `addCluster` or `addCell` fails with a capacity
error, every cluster, cell, particle and token that was live before the call
(and every pool byte below the cursor) still holds the same value at the same
index; no count has gone down. -/
theorem C12_failed_append_keeps_live (s : DataConverter) (p : ParticleDescription)
    (c : ClusterDescription) (cd : CellDescription) (ci : Nat) (m : List (Nat × Nat)) :
    (∀ f, (addParticle p s).failure = some f → f.isCapacity = true →
        Extends s (addParticle p s).state)
    ∧ (∀ f, (addCluster c s).failure = some f → f.isCapacity = true →
        Extends s (addCluster c s).state)
    ∧ (∀ f, (addCell cd ci (s, m)).failure = some f → f.isCapacity = true →
        Extends s (addCell cd ci (s, m)).state.1) := by
  refine ⟨fun _ _ _ => extends_addParticle p s, fun _ _ _ => extends_addCluster c s, ?_⟩
  intro f hf hc
  rw [addCell_capacity_failure cd ci s m f hf hc]
  exact (extends_same s).ofArrays rfl rfl rfl rfl rfl rfl rfl rfl (le_refl _) (Nat.le_succ _)
    (le_refl _) (le_refl _) (le_refl _)

theorem C12_failed_append_keeps_live_witness :
    (addParticle (sampleParticle 3) fullConverter).failure
        = some Failure.particleArrayTooSmall
    ∧ Extends fullConverter (addParticle (sampleParticle 3) fullConverter).state
    ∧ (addCluster (sampleCluster 5 (some [sampleCell 7 none])) fullConverter).failure
        = some Failure.clusterArrayTooSmall
    ∧ Extends fullConverter
        (addCluster (sampleCluster 5 (some [sampleCell 7 none])) fullConverter).state
    ∧ (addCell (sampleCell 7 none) 0 (fullConverter, [])).failure
        = some Failure.cellArrayTooSmall
    ∧ Extends fullConverter (addCell (sampleCell 7 none) 0 (fullConverter, [])).state.1 :=
  ⟨by decide,
   (C12_failed_append_keeps_live fullConverter (sampleParticle 3)
      (sampleCluster 5 (some [sampleCell 7 none])) (sampleCell 7 none) 0 []).1
      Failure.particleArrayTooSmall (by decide) (by decide),
   by decide,
   (C12_failed_append_keeps_live fullConverter (sampleParticle 3)
      (sampleCluster 5 (some [sampleCell 7 none])) (sampleCell 7 none) 0 []).2.1
      Failure.clusterArrayTooSmall (by decide) (by decide),
   by decide,
   (C12_failed_append_keeps_live fullConverter (sampleParticle 3)
      (sampleCluster 5 (some [sampleCell 7 none])) (sampleCell 7 none) 0 []).2.2
      Failure.cellArrayTooSmall (by decide) (by decide)⟩


/-! ## C17: ids of a delta that the arena does not hold -/

theorem forEach_failure_ne {σ α : Type} (body : α → σ → Step σ) (f : Failure)
    (h : ∀ x st, (body x st).failure ≠ some f) (xs : List α) (s : σ) :
    (forEach xs body s).failure ≠ some f := by
  induction xs generalizing s with
  | nil => simp [forEach_nil]
  | cons x xs ih =>
    rw [forEach_cons]
    unfold Step.andThen
    split
    · exact ih _
    · exact h x s

theorem andThen_failure_ne {σ : Type} (r : Step σ) (g : σ → Step σ) (f : Failure)
    (h1 : r.failure ≠ some f) (h2 : ∀ st, (g st).failure ≠ some f) :
    (r.andThen g).failure ≠ some f := by
  unfold Step.andThen
  split
  · exact h2 _
  · exact h1

theorem rebuild_deltaToken_failure (cellIndex : Nat) (td : TokenDescription)
    (s : DataConverter) :
    (rebuild_deltaToken cellIndex td s).failure ≠ some Failure.outOfRange := by
  unfold rebuild_deltaToken
  simp only
  split
  · simp
  · split
    · simp
    · split <;> simp

theorem rebuild_carriedToken_failure (t : TokenAccessTO) (s : DataConverter) :
    (rebuild_carriedToken t s).failure ≠ some Failure.outOfRange := by
  unfold rebuild_carriedToken
  simp only
  split <;> simp

theorem rebuild_cell_failure (m : List (Nat × List TokenAccessTO)) (i x : Nat)
    (s : DataConverter) : (rebuild_cell m i x s).failure ≠ some Failure.outOfRange := by
  unfold rebuild_cell
  simp only
  split
  · split
    · exact forEach_failure_ne _ _ (fun t st => rebuild_deltaToken_failure x t st) _ _
    · simp
  · split
    · exact forEach_failure_ne _ _ (fun t st => rebuild_carriedToken_failure t st) _ _
    · simp

theorem rebuild_cluster_failure (m : List (Nat × List TokenAccessTO)) (i : Nat)
    (s : DataConverter) : (rebuild_cluster m i s).failure ≠ some Failure.outOfRange := by
  unfold rebuild_cluster
  exact forEach_failure_ne _ _ (fun x st => rebuild_cell_failure m i x st) _ _

/-- The modify phase raises no lookup failure. -/
theorem processModifications_failure (s : DataConverter) :
    (processModifications s).failure ≠ some Failure.outOfRange := by
  unfold processModifications
  apply andThen_failure_ne
  · exact forEach_failure_ne _ _ (fun i st => rebuild_cluster_failure _ i st) _ _
  · intro st
    simp

theorem addParticle_failure (p : ParticleDescription) (s : DataConverter) :
    (addParticle p s).failure ≠ some Failure.outOfRange := by
  unfold addParticle
  simp only
  split
  · simp
  · split
    · simp
    · split
      · simp
      · split
        · simp
        · split <;> simp

/-- C17 (counterexample). A ChangeSet that marks Deleted or Modified only ids
the arena does not hold (cluster ids 77 and 78 against 10, cell id 79 against
7, particle ids 80 and 81 against none) makes `updateData` return normally: no
lookup failure is raised. -/
theorem C17_unknown_ids_raise_nothing :
    (updateData unknownIdChange (sampleConverter oneTokenArena 4 4 4 4)).failure = none
    ∧ (List.range oneTokenArena.numClusters).map (fun i => (oneTokenArena.clusters i).id)
        = [10]
    ∧ (List.range oneTokenArena.numCells).map (fun c => (oneTokenArena.cells c).id) = [7]
    ∧ oneTokenArena.numParticles = 0 := by
  decide

/-- C17 (amended). `updateData` raises no lookup failure on account of a
Deleted or Modified mark, whatever ids the marks name: for every converter
state and every ChangeSet without an Added cluster, `updateData` does not fail
with a lookup failure. -/
theorem C17_no_lookup_failure_from_marks (data : DataChangeDescription) (s : DataConverter)
    (hadded : ∀ c, c ∈ data.clusters → c.isAdded = false) :
    (updateData data s).failure ≠ some Failure.outOfRange := by
  rw [updateData_eq]
  apply andThen_failure_ne
  · apply andThen_failure_ne
    · exact processModifications_failure _
    · intro st
      suffices H : ∀ (xs : List (ChangeTracker ClusterChangeDescription)) (t : DataConverter),
          (∀ c, c ∈ xs → c.isAdded = false) →
          (forEach xs updateData_addCluster t).failure ≠ some Failure.outOfRange from
        H _ _ hadded
      intro xs
      induction xs with
      | nil => intro t _; simp [forEach_nil]
      | cons x xs ih =>
        intro t hx
        have hx0 := hx x (List.mem_cons_self _ _)
        have e : updateData_addCluster x t = ⟨t, none⟩ := by
          unfold updateData_addCluster
          rw [hx0]
          rfl
        rw [forEach_cons, e]
        exact ih _ (fun c hc => hx c (List.mem_cons_of_mem _ hc))
  · intro st
    apply forEach_failure_ne
    intro x t
    unfold updateData_addParticle
    split
    · exact addParticle_failure _ _
    · simp

theorem C17_no_lookup_failure_from_marks_witness :
    (∀ c, c ∈ unknownIdChange.clusters → c.isAdded = false)
    ∧ (updateData unknownIdChange (sampleConverter oneTokenArena 4 4 4 4)).failure
        ≠ some Failure.outOfRange :=
  ⟨by decide,
   C17_no_lookup_failure_from_marks unknownIdChange (sampleConverter oneTokenArena 4 4 4 4)
     (by decide)⟩


/-! ## C18: feature buffers are cut, not rejected -/

/-- Whether the token loop of `addCell` throws depends on the tokens only. -/
theorem forEach_addCell_token_failure_eq (x : Nat) (tokens : List TokenDescription)
    (s s' : DataConverter) :
    (forEach tokens (addCell_token x) s).failure
      = (forEach tokens (addCell_token x) s').failure := by
  induction tokens generalizing s s' with
  | nil => rfl
  | cons t ts ih =>
    rw [forEach_cons, forEach_cons]
    obtain ⟨energy, data⟩ := t
    cases energy with
    | none => rfl
    | some energy =>
      cases data with
      | none => rfl
      | some data =>
        rw [addCell_token_complete, addCell_token_complete]
        exact ih _ _

/-- Whether `addCell` throws, and what, does not depend on the feature of the
description. -/
theorem addCell_failure_feature (cd : CellDescription) (ci : Nat) (s : DataConverter)
    (m : List (Nat × Nat)) (feature : Option CellFeatureDescription) :
    (addCell { cd with cellFeature := feature } ci (s, m)).failure
      = (addCell cd ci (s, m)).failure := by
  obtain ⟨cid, cpos, cenergy, cmc, cconn, cblocked, cbranch, cmeta, cfeature, ctokens, cusages⟩ :=
    cd
  unfold addCell
  simp only
  by_cases hroom : s.dataTO.numCells ≥ s.cudaConstants.MAX_CELLS
  · have h1 : s.dataTO.numCells
        ≥ (s.withDataTO { s.dataTO with numCells := s.dataTO.numCells + 1 }).cudaConstants.MAX_CELLS :=
      hroom
    rw [if_pos h1, if_pos h1]
  · have h1 : ¬ s.dataTO.numCells
        ≥ (s.withDataTO { s.dataTO with numCells := s.dataTO.numCells + 1 }).cudaConstants.MAX_CELLS :=
      hroom
    rw [if_neg h1, if_neg h1]
    cases cpos with
    | none => rfl
    | some pos =>
    cases cenergy with
    | none => rfl
    | some energy =>
    cases cmc with
    | none => rfl
    | some mc =>
    have key : ∀ (r r' : Step DataConverter) (id id' : Nat), r.failure = r'.failure →
        (match r.failure with
          | some f => (⟨(r.state, m), some f⟩ : Step AddState)
          | none => ⟨(r.state, (id, s.dataTO.numCells) :: m), none⟩).failure
        = (match r'.failure with
          | some f => (⟨(r'.state, m), some f⟩ : Step AddState)
          | none => ⟨(r'.state, (id', s.dataTO.numCells) :: m), none⟩).failure := by
      intro r r' id id' h
      rw [h]
      cases r'.failure <;> rfl
    simp only
    apply key
    cases ctokens with
    | none => rfl
    | some tokens => exact forEach_addCell_token_failure_eq _ _ _ _

/-- C18. Whether `addCell` fails does not depend on the feature data of the
description, whatever their length; and when the cell has the fields `addCell`
reads without a default and there is room, `addCell` returns normally, the
stored `numStaticBytes` and `numMutableBytes` are the minimum of the buffer
length and the maximum, and the description `getDataDescription` builds for
the stored cell carries exactly the first `min(length, maximum)` bytes of each
buffer. -/
theorem C18_feature_buffers_truncated (cd : CellDescription) (ci : Nat) (s : DataConverter)
    (m : List (Nat × Nat)) (feature : CellFeatureDescription) :
    (∀ other : Option CellFeatureDescription,
        (addCell { cd with cellFeature := some feature } ci (s, m)).failure
          = (addCell { cd with cellFeature := other } ci (s, m)).failure)
    ∧ (cd.cellFeature = some feature →
        cd.pos.isSome = true → cd.energy.isSome = true → cd.maxConnections.isSome = true →
        (∀ t, t ∈ cd.tokens.getD [] → t.energy.isSome = true ∧ t.data.isSome = true) →
        s.dataTO.numCells < s.cudaConstants.MAX_CELLS →
        (addCell cd ci (s, m)).failure = none
        ∧ ((addCell cd ci (s, m)).state.1.dataTO.cells s.dataTO.numCells).numStaticBytes
            = min feature.constData.length s.limits.MAX_CELL_STATIC_BYTES
        ∧ ((addCell cd ci (s, m)).state.1.dataTO.cells s.dataTO.numCells).numMutableBytes
            = min feature.volatileData.length s.limits.MAX_CELL_MUTABLE_BYTES
        ∧ (readCell (addCell cd ci (s, m)).state.1.dataTO
            ((addCell cd ci (s, m)).state.1.dataTO.cells s.dataTO.numCells)).cellFeature
            = some
              { type := feature.type
                constData := feature.constData.take
                  (min feature.constData.length s.limits.MAX_CELL_STATIC_BYTES)
                volatileData := feature.volatileData.take
                  (min feature.volatileData.length s.limits.MAX_CELL_MUTABLE_BYTES) }) := by
  refine ⟨fun other => ?_, ?_⟩
  · rw [addCell_failure_feature cd ci s m (some feature), addCell_failure_feature cd ci s m other]
  · intro hfeat hp he hm htok hroom
    obtain ⟨cellTO, T, bytes, cursor, e, hst, hn1, hn2, _⟩ :=
      addCell_spec cd ci s m hp he hm htok hroom
    rw [e]
    simp only [DataConverter.withDataTO, Function.update_same]
    rw [hfeat] at hn1 hn2
    simp only [Option.getD_some] at hn1 hn2
    refine ⟨trivial, hn1, hn2, ?_⟩
    have hf := hst.feature
    simp only [hfeat, Option.getD_some] at hf
    unfold readCell
    simp only
    rw [hf]
    unfold CellFeatureDescription.normalize
    simp only [Option.some.injEq, CellFeatureDescription.mk.injEq, true_and]
    constructor
    · rw [Nat.min_comm, ← List.take_take, List.take_length]
    · rw [Nat.min_comm, ← List.take_take, List.take_length]


theorem C18_feature_buffers_truncated_witness :
    (addCell longFeatureCell 0 (sampleConverter DataAccessTO.empty 4 4 4 4, [])).failure = none
    ∧ ((addCell longFeatureCell 0
        (sampleConverter DataAccessTO.empty 4 4 4 4, [])).state.1.dataTO.cells 0).numStaticBytes
        = 4
    ∧ ((addCell longFeatureCell 0
        (sampleConverter DataAccessTO.empty 4 4 4 4, [])).state.1.dataTO.cells 0).numMutableBytes
        = 2
    ∧ (readCell (addCell longFeatureCell 0
          (sampleConverter DataAccessTO.empty 4 4 4 4, [])).state.1.dataTO
        ((addCell longFeatureCell 0
          (sampleConverter DataAccessTO.empty 4 4 4 4, [])).state.1.dataTO.cells 0)).cellFeature
        = some { type := 1, constData := [1, 2, 3, 4], volatileData := [9, 8] } :=
  (C18_feature_buffers_truncated longFeatureCell 0 (sampleConverter DataAccessTO.empty 4 4 4 4)
    [] { type := 1, constData := [1, 2, 3, 4, 5, 6], volatileData := [9, 8] }).2
    rfl rfl rfl rfl (by decide) (by decide)


/-! ## C16: an unresolvable connection -/

/-- C16 (counterexample). On an arena whose cluster array is full, `addCluster`
of a cluster whose only cell (id 7) declares a connection to the id 99, which
no cell of the cluster has, fails with the cluster capacity error, not with a
lookup failure. -/
theorem C16_capacity_error_comes_first :
    (∀ cell, cell ∈ danglingCluster.cells.getD [] → cell.id ≠ 0)
    ∧ (∃ cell, cell ∈ danglingCluster.cells.getD [] ∧ ∃ k, k ∈ cell.connectingCells.getD []
        ∧ k ∉ (danglingCluster.cells.getD []).map (fun cell => cell.id))
    ∧ (addCluster danglingCluster fullConverter).failure
        = some Failure.clusterArrayTooSmall
    ∧ (addCluster danglingCluster fullConverter).failure ≠ some Failure.outOfRange := by
  refine ⟨by decide, ?_, by decide, by decide⟩
  exact ⟨{ sampleCell 7 none with connectingCells := some [99] }, by decide, 99, by decide,
    by decide⟩

/-- C16 (amended). For every cluster description with a cell list whose cells
all have non-zero ids, when the first phase goes through — there is room for
the cluster and for its cells, and the cluster and its cells have the fields
the add path reads without a default — `addCluster` fails with a lookup failure
exactly when some cell declares a connection to an id that no cell of the
cluster has; and when every declared connection id is the id of a cell of the
cluster, `addCluster` returns normally. -/
theorem C16_lookup_failure_iff (c : ClusterDescription) (s : DataConverter)
    (cells : List CellDescription) (hcells : c.cells = some cells)
    (hids : ∀ cell, cell ∈ cells → cell.id ≠ 0)
    (hroom : s.dataTO.numClusters < s.cudaConstants.MAX_CLUSTERS)
    (hroomCells : s.dataTO.numCells + cells.length ≤ s.cudaConstants.MAX_CELLS)
    (hpos : (clusterPosOf c).isSome = true) (hvel : c.vel.isSome = true)
    (hangle : c.angle.isSome = true) (hangvel : c.angularVel.isSome = true)
    (hfields : ∀ cell, cell ∈ cells → cell.pos.isSome = true ∧ cell.energy.isSome = true
      ∧ cell.maxConnections.isSome = true
      ∧ ∀ t, t ∈ cell.tokens.getD [] → t.energy.isSome = true ∧ t.data.isSome = true) :
    ((addCluster c s).failure = some Failure.outOfRange
      ↔ ∃ cell, cell ∈ cells ∧ ∃ k, k ∈ cell.connectingCells.getD []
          ∧ k ∉ cells.map (fun cell => cell.id))
    ∧ ((∀ cell, cell ∈ cells → ∀ k, k ∈ cell.connectingCells.getD [] →
          k ∈ cells.map (fun cell => cell.id)) →
        (addCluster c s).failure = none) := by
  obtain ⟨clusterPos, hpos'⟩ := Option.isSome_iff_exists.mp hpos
  obtain ⟨vel, hvel'⟩ := Option.isSome_iff_exists.mp hvel
  obtain ⟨angle, hangle'⟩ := Option.isSome_iff_exists.mp hangle
  obtain ⟨angularVel, hangvel'⟩ := Option.isSome_iff_exists.mp hangvel
  obtain ⟨metadata, bytes, cursor, e, _⟩ :=
    addCluster_header c s cells clusterPos vel angle angularVel hcells hroom hpos' hvel'
      hangle' hangvel'
  rw [e]
  generalize hs1 : (s.assignId c.id).2.withDataTO _ = s1
  have hs1cells : s1.dataTO.numCells = s.dataTO.numCells := by rw [← hs1]; rfl
  have hs1cc : s1.cudaConstants = s.cudaConstants := by
    rw [← hs1]
    exact (assignId_config s c.id).2.2
  obtain ⟨hok, hR⟩ := addCluster_cells_spec s1 s.dataTO.numClusters cells hfields
    (by rw [hs1cells, hs1cc]; exact hroomCells)
  have hlook := addedCells_lookup s1 s.dataTO.numClusters cells _ hR hids
  have hfail : (addCluster_loops s.dataTO.numClusters cells s1).failure
      = if cells.all (connectionsResolve
          (forEach cells (addCluster_cell s.dataTO.numClusters) ((s1, []), true)).state.1.2)
        then none else some Failure.outOfRange := by
    unfold addCluster_loops
    rw [hok]
    apply addCluster_connects_failure
    intro cd hcd
    exact ⟨hids cd hcd, (hlook cd.id).mpr (List.mem_map_of_mem _ hcd)⟩
  rw [hfail]
  have hall : cells.all (connectionsResolve
      (forEach cells (addCluster_cell s.dataTO.numClusters) ((s1, []), true)).state.1.2) = true
      ↔ ∀ cell, cell ∈ cells → ∀ k, k ∈ cell.connectingCells.getD [] →
          k ∈ cells.map (fun cell => cell.id) := by
    rw [List.all_eq_true]
    constructor
    · intro h cell hcell k hk
      have := h cell hcell
      unfold connectionsResolve at this
      rw [List.all_eq_true] at this
      exact (hlook k).mp (this k hk)
    · intro h cell hcell
      unfold connectionsResolve
      rw [List.all_eq_true]
      intro k hk
      exact (hlook k).mpr (h cell hcell k hk)
  constructor
  · constructor
    · intro hf
      by_contra hne
      have hyes : ∀ cell, cell ∈ cells → ∀ k, k ∈ cell.connectingCells.getD [] →
          k ∈ cells.map (fun cell => cell.id) := by
        intro cell hcell k hk
        by_contra hk'
        exact hne ⟨cell, hcell, k, hk, hk'⟩
      rw [if_pos (hall.mpr hyes)] at hf
      exact absurd hf (by simp)
    · intro ⟨cell, hcell, k, hk, hk'⟩
      rw [if_neg]
      intro hyes
      exact hk' (hall.mp hyes cell hcell k hk)
  · intro hyes
    rw [if_pos (hall.mpr hyes)]

theorem C16_lookup_failure_iff_witness :
    (addCluster danglingCluster (sampleConverter DataAccessTO.empty 4 4 4 4)).failure
      = some Failure.outOfRange
    ↔ ∃ cell, cell ∈ [{ sampleCell 7 none with connectingCells := some [99] }]
        ∧ ∃ k, k ∈ cell.connectingCells.getD []
          ∧ k ∉ [{ sampleCell 7 none with connectingCells := some [99] }].map
              (fun cell => cell.id) :=
  (C16_lookup_failure_iff danglingCluster (sampleConverter DataAccessTO.empty 4 4 4 4)
    [{ sampleCell 7 none with connectingCells := some [99] }] rfl (by decide) (by decide)
    (by decide) rfl rfl rfl rfl (by decide)).1


/-! ## Additions land on the tail -/

theorem onlyCells_setConnections (cellToAdd : CellDescription) (cellIndex : Nat)
    (m : List (Nat × Nat)) (s : DataConverter) :
    OnlyCells s (setConnections cellToAdd cellIndex m s).state := by
  unfold setConnections
  split
  · rfl
  · rfl

theorem onlyCells_addCluster_connect (m : List (Nat × Nat)) (cellDesc : CellDescription)
    (s : DataConverter) : OnlyCells s (addCluster_connect m cellDesc s).state := by
  unfold addCluster_connect
  split
  · split
    · rfl
    · exact onlyCells_setConnections _ _ _ _
  · rfl

theorem onlyCells_connects (m : List (Nat × Nat)) (cells : List CellDescription)
    (s : DataConverter) : OnlyCells s (forEach cells (addCluster_connect m) s).state := by
  induction cells generalizing s with
  | nil => rfl
  | cons x xs ih =>
    rw [forEach_cons]
    unfold Step.andThen
    split
    · have h1 := onlyCells_addCluster_connect m x s
      have h2 := ih (addCluster_connect m x s).state
      unfold OnlyCells at h1 h2 ⊢
      rw [h2, h1]
    · exact onlyCells_addCluster_connect m x s

/-- What a normally returning `addCluster` has appended, token side: the new
cluster's token range starts at the old token count and holds exactly the
tokens appended by the call, and each of them is owned by one of the new
cells; the clusters, cells and tokens that were live are as they were. -/
theorem addCluster_normal_tokens (c : ClusterDescription) (s : DataConverter)
    (cells : List CellDescription) (hcells : c.cells = some cells)
    (hok : (addCluster c s).failure = none) :
    ((addCluster c s).state.dataTO.clusters s.dataTO.numClusters).tokenStartIndex
        = (s.dataTO.numTokens : Int)
    ∧ ((addCluster c s).state.dataTO.clusters s.dataTO.numClusters).numTokens
          + s.dataTO.numTokens = (addCluster c s).state.dataTO.numTokens
    ∧ (∀ t, s.dataTO.numTokens ≤ t → t < (addCluster c s).state.dataTO.numTokens →
        s.dataTO.numCells ≤ ((addCluster c s).state.dataTO.tokens t).cellIndex
        ∧ ((addCluster c s).state.dataTO.tokens t).cellIndex
            < s.dataTO.numCells + cells.length) := by
  obtain ⟨hroom, hpos, hvel, hangle, hangvel⟩ := addCluster_of_normal c s cells hcells hok
  obtain ⟨clusterPos, hpos'⟩ := Option.isSome_iff_exists.mp hpos
  obtain ⟨vel, hvel'⟩ := Option.isSome_iff_exists.mp hvel
  obtain ⟨angle, hangle'⟩ := Option.isSome_iff_exists.mp hangle
  obtain ⟨angularVel, hangvel'⟩ := Option.isSome_iff_exists.mp hangvel
  obtain ⟨metadata, bytes, cursor, e, _⟩ :=
    addCluster_header c s cells clusterPos vel angle angularVel hcells hroom hpos' hvel'
      hangle' hangvel'
  rw [e] at hok ⊢
  generalize hs1 : (s.assignId c.id).2.withDataTO _ = s1 at hok ⊢
  have h1b : s1.dataTO.numCells = s.dataTO.numCells := by rw [← hs1]; rfl
  have h1t : s1.dataTO.numTokens = s.dataTO.numTokens := by rw [← hs1]; rfl
  have h1d : (s1.dataTO.clusters s.dataTO.numClusters).numTokens = 0 := by
    rw [← hs1]
    simp [DataConverter.withDataTO]
  have h1e : (s1.dataTO.clusters s.dataTO.numClusters).tokenStartIndex
      = (s.dataTO.numTokens : Int) := by
    rw [← hs1]
    simp [DataConverter.withDataTO]
  unfold addCluster_loops at hok ⊢
  cases hr1 : (forEach cells (addCluster_cell s.dataTO.numClusters) ((s1, []), true)).failure with
  | some f =>
    rw [hr1] at hok
    exact absurd hok (by simp)
  | none =>
    have hR := addCluster_cells_of_normal s1 s.dataTO.numClusters cells hr1
    simp only
    have hO := onlyCells_connects
      (forEach cells (addCluster_cell s.dataTO.numClusters) ((s1, []), true)).state.1.2 cells
      (forEach cells (addCluster_cell s.dataTO.numClusters) ((s1, []), true)).state.1.1
    unfold OnlyCells at hO
    have o1 := congrArg DataAccessTO.clusters hO
    have o2 := congrArg DataAccessTO.numTokens hO
    have o3 := congrArg DataAccessTO.tokens hO
    simp only at o1 o2 o3
    obtain ⟨nt, cs, hcl⟩ := hR.cluster
    have hct := hR.clusterTokens
    refine ⟨?_, ?_, ?_⟩
    · rw [o1, hcl]
      exact h1e
    · rw [o1, o2]
      rw [h1d, h1t] at hct
      omega
    · intro t ht1 ht2
      rw [o2] at ht2
      rw [o3]
      have := hR.newTokens t (by rw [h1t]; exact ht1) ht2
      rw [hR.numCells, h1b] at this
      exact this


theorem inCellRange_iff (c : ClusterAccessTO) (i : Nat) :
    inCellRange c i = true ↔ c.cellStartIndex ≤ i ∧ i < c.cellStartIndex + c.numCells := by
  unfold inCellRange
  exact decide_eq_true_iff

theorem inTokenRange_iff (c : ClusterAccessTO) (t : Nat) :
    inTokenRange c t = true
      ↔ c.tokenStartIndex ≤ (t : Int) ∧ (t : Int) < c.tokenStartIndex + (c.numTokens : Int) := by
  unfold inTokenRange
  exact decide_eq_true_iff

/-- A cell index in the range of a live cluster is the index of a live cell. -/
theorem Layout.cell_lt {d : DataAccessTO} (h : Layout d) (i : Nat) (hi : i < d.numClusters)
    (c : Nat) (hc : inCellRange (d.clusters i) c = true) : c < d.numCells := by
  rw [inCellRange_iff] at hc
  rcases h.1 i hi with h0 | h0 <;> omega

/-- A token index in the range of a live cluster is the index of a live token. -/
theorem Layout.token_lt {d : DataAccessTO} (h : Layout d) (i : Nat) (hi : i < d.numClusters)
    (t : Nat) (ht : inTokenRange (d.clusters i) t = true) : t < d.numTokens := by
  rw [inTokenRange_iff] at ht
  rcases h.2.2.1 i hi with h0 | h0 <;> omega

/-- Appending one cluster with fresh cells and tokens behind the live ones
keeps the layout. -/
theorem layout_append_cluster (d d' : DataAccessTO) (len : Nat)
    (hL : Layout d) (hT : TokensOwned d)
    (hn : d'.numClusters = d.numClusters + 1)
    (hc : d'.numCells = d.numCells + len)
    (hnt : d.numTokens ≤ d'.numTokens)
    (hcl : ∀ i, i < d.numClusters → d'.clusters i = d.clusters i)
    (htk : ∀ t, t < d.numTokens → d'.tokens t = d.tokens t)
    (n1 : (d'.clusters d.numClusters).numCells = len)
    (n2 : (d'.clusters d.numClusters).cellStartIndex = d.numCells)
    (n3 : (d'.clusters d.numClusters).tokenStartIndex = (d.numTokens : Int))
    (n4 : (d'.clusters d.numClusters).numTokens + d.numTokens = d'.numTokens)
    (n5 : ∀ t, d.numTokens ≤ t → t < d'.numTokens →
      d.numCells ≤ (d'.tokens t).cellIndex ∧ (d'.tokens t).cellIndex < d.numCells + len) :
    Layout d' ∧ TokensOwned d' := by
  have hnew : ∀ i, i < d'.numClusters → i < d.numClusters ∨ i = d.numClusters := by
    intro i hi
    omega
  refine ⟨⟨?_, ?_, ?_, ?_⟩, ?_⟩
  · intro i hi
    rcases hnew i hi with h | h
    · rw [hcl i h]
      rcases hL.1 i h with h0 | h0
      · exact Or.inl h0
      · exact Or.inr (by omega)
    · subst h
      right
      omega
  · intro i hi j hj c _ hci hcj
    rcases hnew i hi with h | h <;> rcases hnew j hj with h' | h'
    · rw [hcl i h] at hci
      rw [hcl j h'] at hcj
      exact hL.2.1 i h j h' c (hL.cell_lt i h c hci) hci hcj
    · rw [hcl i h] at hci
      have := hL.cell_lt i h c hci
      subst h'
      rw [inCellRange_iff] at hcj
      omega
    · rw [hcl j h'] at hcj
      have := hL.cell_lt j h' c hcj
      subst h
      rw [inCellRange_iff] at hci
      omega
    · rw [h, h']
  · intro i hi
    rcases hnew i hi with h | h
    · rw [hcl i h]
      rcases hL.2.2.1 i h with h0 | h0
      · exact Or.inl h0
      · exact Or.inr ⟨h0.1, by omega⟩
    · subst h
      right
      rw [n3]
      omega
  · intro i hi t ht
    rcases hnew i hi with h | h
    · rw [hcl i h]
      by_cases hto : t < d.numTokens
      · rw [htk t hto]
        exact hL.2.2.2 i h t hto
      · have e1 : inTokenRange (d.clusters i) t = false := by
          cases hb : inTokenRange (d.clusters i) t
          · rfl
          · exact absurd (hL.token_lt i h t hb) hto
        have e2 : inCellRange (d.clusters i) (d'.tokens t).cellIndex = false := by
          cases hb : inCellRange (d.clusters i) (d'.tokens t).cellIndex
          · rfl
          · have := hL.cell_lt i h _ hb
            have := (n5 t (by omega) ht).1
            omega
        rw [e1, e2]
    · subst h
      by_cases hto : t < d.numTokens
      · have e1 : inTokenRange (d'.clusters d.numClusters) t = false := by
          cases hb : inTokenRange (d'.clusters d.numClusters) t
          · rfl
          · rw [inTokenRange_iff, n3] at hb
            omega
        have e2 : inCellRange (d'.clusters d.numClusters) (d'.tokens t).cellIndex = false := by
          cases hb : inCellRange (d'.clusters d.numClusters) (d'.tokens t).cellIndex
          · rfl
          · rw [htk t hto, inCellRange_iff, n2] at hb
            obtain ⟨j, hj, hjc⟩ := hT t hto
            have := hL.cell_lt j hj _ hjc
            omega
        rw [e1, e2]
      · have e1 : inTokenRange (d'.clusters d.numClusters) t = true := by
          rw [inTokenRange_iff, n3]
          omega
        have e2 : inCellRange (d'.clusters d.numClusters) (d'.tokens t).cellIndex = true := by
          rw [inCellRange_iff, n1, n2]
          exact n5 t (by omega) ht
        rw [e1, e2]
  · intro t ht
    by_cases hto : t < d.numTokens
    · obtain ⟨j, hj, hjc⟩ := hT t hto
      exact ⟨j, by omega, by rw [hcl j hj, htk t hto]; exact hjc⟩
    · refine ⟨d.numClusters, by omega, ?_⟩
      rw [inCellRange_iff, n1, n2]
      exact n5 t (by omega) ht

/-- A normally returning `addCluster` of a description with a non-empty cell
list keeps the layout. -/
theorem layout_addCluster (c : ClusterDescription) (s : DataConverter)
    (cells : List CellDescription) (hcells : c.cells = some cells) (hne : cells ≠ [])
    (hok : (addCluster c s).failure = none)
    (hL : Layout s.dataTO) (hT : TokensOwned s.dataTO) :
    Layout (addCluster c s).state.dataTO ∧ TokensOwned (addCluster c s).state.dataTO := by
  obtain ⟨n1, n2, _, n4, n5, _⟩ := addCluster_normal_spec c s cells hcells hne hok
  obtain ⟨t1, t2, t3⟩ := addCluster_normal_tokens c s cells hcells hok
  have hext := extends_addCluster c s
  exact layout_append_cluster s.dataTO _ cells.length hL hT n1 n2 hext.numTokens
    hext.clusters hext.tokens n4 n5 t1 t2 t3

/-- The cluster loop of the add phase, when it does not throw, keeps the
layout. -/
theorem layout_addClusters (trackers : List (ChangeTracker ClusterChangeDescription))
    (s : DataConverter) (hL : Layout s.dataTO) (hT : TokensOwned s.dataTO)
    (hok : (forEach trackers updateData_addCluster s).failure = none) :
    Layout (forEach trackers updateData_addCluster s).state.dataTO
    ∧ TokensOwned (forEach trackers updateData_addCluster s).state.dataTO := by
  apply forEach_rule updateData_addCluster
    (fun _ st => Layout st.dataTO ∧ TokensOwned st.dataTO) trackers s ⟨hL, hT⟩ _ hok
  intro done x st hR hx
  unfold updateData_addCluster at hx ⊢
  by_cases hadd : x.isAdded = true
  · rw [if_pos hadd] at hx ⊢
    cases hc : (ClusterDescription.ofChange x.getValue).cells with
    | none =>
      have e : addCluster (ClusterDescription.ofChange x.getValue) st = ⟨st, none⟩ := by
        unfold addCluster
        simp only [hc]
      rw [e]
      exact hR
    | some cells =>
      exact layout_addCluster _ st cells hc (ofChange_cells_ne_nil _ _ hc) hx hR.1 hR.2
  · rw [if_neg hadd]
    exact hR

/-- The particle loop of the add phase, when it does not throw, keeps the
layout. -/
theorem layout_addParticles (trackers : List (ChangeTracker ParticleChangeDescription))
    (s : DataConverter) (hL : Layout s.dataTO) (hT : TokensOwned s.dataTO)
    (hok : (forEach trackers updateData_addParticle s).failure = none) :
    Layout (forEach trackers updateData_addParticle s).state.dataTO
    ∧ TokensOwned (forEach trackers updateData_addParticle s).state.dataTO := by
  have h := particlesAdded_loop trackers s hok
  unfold Layout at hL ⊢
  unfold TokensOwned at hT ⊢
  rw [h.numClusters, h.clusters, h.numCells, h.numTokens, h.tokens]
  exact ⟨hL, hT⟩


/-! ### The delete phase -/

theorem adjustCell_id (m : List (Nat × Nat)) (cell : CellAccessTO) :
    (adjustCell m cell).id = cell.id := by
  unfold adjustCell
  generalize cell.numConnections = n
  induction n with
  | zero => rfl
  | succ n ih =>
    rw [List.range_succ, List.foldl_append]
    simp only [List.foldl_cons, List.foldl_nil]
    split
    · exact ih
    · exact ih

/-- A surviving cell is found at its rank with its id. -/
theorem processDeletions_cell_id_at (s : DataConverter) (c : Nat)
    (hc : c < s.dataTO.numCells)
    (hd : cellDeleted s.dataTO s.clusterIdsToDelete c = false) :
    ((processDeletions s).dataTO.cells
        (rank (cellDeleted s.dataTO s.clusterIdsToDelete) c)).id = (s.dataTO.cells c).id := by
  cases h : (s.clusterIdsToDelete.isEmpty && s.particleIdsToDelete.isEmpty)
  · rw [processDeletions_dataTO s h]
    have hinv := cellScan_inv' s.dataTO s.clusterIdsToDelete s.dataTO.numCells
    have h1 := hinv.off_eq
    have hlt := rank_lt (cellDeleted s.dataTO s.clusterIdsToDelete) hc hd
    simp only
    rw [foldl_update_range, if_pos (by omega), hinv.moved c hc hd]
    simp only [id]
    exact adjustCell_id _ _
  · obtain ⟨e1, e2⟩ := marks_nil_of_isEmpty s h
    rw [processDeletions_of_isEmpty s h, e1]
    rw [rank_eq_self _ _ (fun j _ => cellDeleted_nil _ j)]

/-- Over a stretch of survivors the rank advances with the index. -/
theorem rank_add_of_survivors (del : Nat → Bool) (a k : Nat)
    (h : ∀ j, a ≤ j → j < a + k → del j = false) : rank del (a + k) = rank del a + k := by
  induction k with
  | zero => rfl
  | succ k ih =>
    rw [← Nat.add_assoc, rank_succ, ih (fun j h1 h2 => h j h1 (by omega)),
      h (a + k) (by omega) (by omega)]
    simp
    omega

/-- In an arena with the layout, no cell of a cluster that is not marked
deleted is removed. -/
theorem Layout.survivor_cells {d : DataAccessTO} (hL : Layout d) (ids : List Nat) (i : Nat)
    (hi : i < d.numClusters) (hd : clusterDeleted d ids i = false) (c : Nat)
    (hc : inCellRange (d.clusters i) c = true) : cellDeleted d ids c = false := by
  cases hcd : cellDeleted d ids c
  · rfl
  · obtain ⟨j, hj, hjd, hjc⟩ := (cellDeleted_iff d ids c).mp hcd
    have := hL.2.1 i hi j hj c (hL.cell_lt i hi c hc) hc hjc
    subst this
    rw [hd] at hjd
    exact absurd hjd (by simp)

/-- The cell range of a surviving cluster after the compaction: the ranks of
its old cells. -/
theorem Layout.newRange {d : DataAccessTO} (hL : Layout d) (ids : List Nat) (i : Nat)
    (hi : i < d.numClusters) (hd : clusterDeleted d ids i = false)
    (hne : (d.clusters i).numCells ≠ 0) (k : Nat) (hk : k ≤ (d.clusters i).numCells) :
    newCellIndex d ids (d.clusters i).cellStartIndex + k
      = rank (cellDeleted d ids) ((d.clusters i).cellStartIndex + k) := by
  have hb : (d.clusters i).cellStartIndex + (d.clusters i).numCells ≤ d.numCells := by
    rcases hL.1 i hi with h0 | h0
    · exact absurd h0 hne
    · exact h0
  have hs : ∀ j, (d.clusters i).cellStartIndex ≤ j →
      j < (d.clusters i).cellStartIndex + k → cellDeleted d ids j = false := by
    intro j h1 h2
    apply hL.survivor_cells ids i hi hd j
    rw [inCellRange_iff]
    omega
  have h0 : cellDeleted d ids (d.clusters i).cellStartIndex = false := by
    apply hL.survivor_cells ids i hi hd
    rw [inCellRange_iff]
    omega
  rw [rank_add_of_survivors _ _ _ hs]
  unfold newCellIndex
  rw [if_pos ⟨by omega, h0⟩]

/-- What the delete phase hands to the modify phase, from an arena with the
layout in which every token is owned by a cell of a cluster and no two cells
share an id: the cell ranges of the clusters lie inside the live cells and
share no cell, every live token is owned by a live cell, and no two cells
share an id. -/
theorem layout_processDeletions (s : DataConverter) (hL : Layout s.dataTO)
    (hT : TokensOwned s.dataTO) (hI : DistinctCellIds s.dataTO) :
    (∀ i, i < (processDeletions s).dataTO.numClusters →
        ((processDeletions s).dataTO.clusters i).numCells = 0
        ∨ ((processDeletions s).dataTO.clusters i).cellStartIndex
            + ((processDeletions s).dataTO.clusters i).numCells
            ≤ (processDeletions s).dataTO.numCells)
    ∧ (∀ i, i < (processDeletions s).dataTO.numClusters →
        ∀ j, j < (processDeletions s).dataTO.numClusters →
        ∀ c, c < (processDeletions s).dataTO.numCells →
        inCellRange ((processDeletions s).dataTO.clusters i) c = true →
        inCellRange ((processDeletions s).dataTO.clusters j) c = true → i = j)
    ∧ (∀ t, t < (processDeletions s).dataTO.numTokens →
        ((processDeletions s).dataTO.tokens t).cellIndex
          < (processDeletions s).dataTO.numCells)
    ∧ DistinctCellIds (processDeletions s).dataTO := by
  obtain ⟨hn1, hn2, hn3, _⟩ := processDeletions_counts s
  have hb : ∀ i, i < s.dataTO.numClusters → (s.dataTO.clusters i).numCells ≠ 0 →
      (s.dataTO.clusters i).cellStartIndex + (s.dataTO.clusters i).numCells
        ≤ s.dataTO.numCells := by
    intro i hi hne
    rcases hL.1 i hi with h0 | h0
    · exact absurd h0 hne
    · exact h0
  refine ⟨?_, ?_, ?_, ?_⟩
  · intro i' hi'
    rw [hn1] at hi'
    obtain ⟨i, hi, hd, rfl⟩ := exists_of_lt_rank _ _ _ hi'
    rw [processDeletions_cluster_at s i hi hd, hn2]
    by_cases hne : (s.dataTO.clusters i).numCells = 0
    · exact Or.inl hne
    · right
      simp only
      rw [hL.newRange _ i hi hd hne _ (le_refl _)]
      exact rank_mono _ (hb i hi hne)
  · intro i' hi' j' hj' c _ hci hcj
    rw [hn1] at hi' hj'
    obtain ⟨i, hi, hdi, rfl⟩ := exists_of_lt_rank _ _ _ hi'
    obtain ⟨j, hj, hdj, rfl⟩ := exists_of_lt_rank _ _ _ hj'
    rw [processDeletions_cluster_at s i hi hdi, inCellRange_iff] at hci
    rw [processDeletions_cluster_at s j hj hdj, inCellRange_iff] at hcj
    simp only at hci hcj
    have hnei : (s.dataTO.clusters i).numCells ≠ 0 := by omega
    have hnej : (s.dataTO.clusters j).numCells ≠ 0 := by omega
    obtain ⟨k, hk⟩ : ∃ k, c = newCellIndex s.dataTO s.clusterIdsToDelete
        (s.dataTO.clusters i).cellStartIndex + k :=
      ⟨c - newCellIndex s.dataTO s.clusterIdsToDelete (s.dataTO.clusters i).cellStartIndex,
        by omega⟩
    obtain ⟨k', hk'⟩ : ∃ k', c = newCellIndex s.dataTO s.clusterIdsToDelete
        (s.dataTO.clusters j).cellStartIndex + k' :=
      ⟨c - newCellIndex s.dataTO s.clusterIdsToDelete (s.dataTO.clusters j).cellStartIndex,
        by omega⟩
    have hki : k < (s.dataTO.clusters i).numCells := by omega
    have hkj : k' < (s.dataTO.clusters j).numCells := by omega
    have e1 := hL.newRange _ i hi hdi hnei k (le_of_lt hki)
    have e2 := hL.newRange _ j hj hdj hnej k' (le_of_lt hkj)
    have hin1 : inCellRange (s.dataTO.clusters i) ((s.dataTO.clusters i).cellStartIndex + k)
        = true := by
      rw [inCellRange_iff]
      omega
    have hin2 : inCellRange (s.dataTO.clusters j) ((s.dataTO.clusters j).cellStartIndex + k')
        = true := by
      rw [inCellRange_iff]
      omega
    have hsame := rank_injective (cellDeleted s.dataTO s.clusterIdsToDelete)
      (hL.survivor_cells _ i hi hdi _ hin1) (hL.survivor_cells _ j hj hdj _ hin2)
      (by rw [← e1, ← e2, ← hk, ← hk'])
    rw [← hsame] at hin2
    have := hL.2.1 i hi j hj _ (hL.cell_lt i hi _ hin1) hin1 hin2
    rw [this]
  · intro t' ht'
    rw [hn3] at ht'
    obtain ⟨t, ht, hd, rfl⟩ := exists_of_lt_rank _ _ _ ht'
    rw [processDeletions_token_at s t ht hd, hn2]
    simp only
    obtain ⟨i, hi, hic⟩ := hT t ht
    have hclt := hL.cell_lt i hi _ hic
    have hdi : clusterDeleted s.dataTO s.clusterIdsToDelete i = false := by
      cases hcd : clusterDeleted s.dataTO s.clusterIdsToDelete i
      · rfl
      · have hin : inTokenRange (s.dataTO.clusters i) t = true := by
          rw [hL.2.2.2 i hi t ht]
          exact hic
        have : tokenDeleted s.dataTO s.clusterIdsToDelete t = true :=
          (tokenDeleted_iff _ _ _).mpr ⟨i, hi, hcd, hin⟩
        rw [hd] at this
        exact absurd this (by simp)
    have hcs := hL.survivor_cells _ i hi hdi _ hic
    unfold newCellIndex
    rw [if_pos ⟨hclt, hcs⟩]
    exact rank_lt _ hclt hcs
  · intro c1' h1' c2' h2' hid
    rw [hn2] at h1' h2'
    obtain ⟨c1, h1, hd1, rfl⟩ := exists_of_lt_rank _ _ _ h1'
    obtain ⟨c2, h2, hd2, rfl⟩ := exists_of_lt_rank _ _ _ h2'
    rw [processDeletions_cell_id_at s c1 h1 hd1, processDeletions_cell_id_at s c2 h2 hd2] at hid
    rw [hI c1 h1 c2 h2 hid]


/-! ### The modify phase -/

/-- Invariant rule for a loop that may throw, the iteration knowing where in
the list it stands. -/
theorem forEach_rule_at {σ α : Type} (body : α → σ → Step σ) (R : List α → σ → Prop)
    (xs : List α) (s : σ) (h0 : R [] s)
    (hstep : ∀ done x rest st, xs = done ++ x :: rest → R done st →
      (body x st).failure = none → R (done ++ [x]) (body x st).state)
    (hok : (forEach xs body s).failure = none) :
    R xs (forEach xs body s).state := by
  suffices H : ∀ (ys done : List α) (st : σ), xs = done ++ ys → R done st →
      (forEach ys body st).failure = none → R (done ++ ys) (forEach ys body st).state by
    simpa using H xs [] s rfl h0 hok
  intro ys
  induction ys with
  | nil =>
    intro done st _ hR _
    simpa [forEach_nil] using hR
  | cons y ys ih =>
    intro done st hxs hR hf
    rw [forEach_cons] at hf ⊢
    obtain ⟨h1, e⟩ := andThen_failure_none _ _ hf
    rw [e] at hf ⊢
    have := ih (done ++ [y]) (body y st).state (by simpa using hxs)
      (hstep done y ys st hxs hR h1) hf
    simpa using this

theorem range_eq_append_cons (n : Nat) (done : List Nat) (x : Nat) (rest : List Nat)
    (h : List.range n = done ++ x :: rest) : x = done.length ∧ x < n := by
  have h1 : (List.range n)[done.length]? = some x := by
    rw [h, List.getElem?_append_right (le_refl _)]
    simp
  rw [List.getElem?_range] at h1
  · simp only [Option.some.injEq] at h1
    have hl := congrArg List.length h
    simp only [List.length_range, List.length_append, List.length_cons] at hl
    exact ⟨h1.symm, by omega⟩
  · have hl := congrArg List.length h
    simp only [List.length_range, List.length_append, List.length_cons] at hl
    omega

theorem range'_eq_append_cons (a n : Nat) (done : List Nat) (x : Nat) (rest : List Nat)
    (h : List.range' a n = done ++ x :: rest) : a ≤ x ∧ x < a + n := by
  have hx : x ∈ List.range' a n := by
    rw [h]
    simp
  rw [List.mem_range'_1] at hx
  exact hx

theorem sameTokens_refl (s : DataConverter) : SameTokens s s := ⟨rfl, rfl⟩

theorem sameTokens_trans {a b c : DataConverter} (h1 : SameTokens a b) (h2 : SameTokens b c) :
    SameTokens a c := ⟨h2.1.trans h1.1, h2.2.trans h1.2⟩

theorem sameTokens_convertString (str : QString) (s : DataConverter) :
    SameTokens s (convertStringAndReturnStringIndex str s).2 := ⟨rfl, rfl⟩

theorem sameTokens_writeCellMetadata (m : CellMetadata) (metadataTO : CellMetadataAccessTO)
    (s : DataConverter) : SameTokens s (writeCellMetadata m metadataTO s).2 := by
  unfold writeCellMetadata
  simp only
  split <;> split <;> split <;> exact ⟨rfl, rfl⟩

theorem sameTokens_applyChangeDescription_cell (ch : CellChangeDescription) (c : CellAccessTO)
    (s : DataConverter) : SameTokens s (applyChangeDescription_cell ch c s).2 := by
  rcases ch with ⟨id, pos, energy, maxC, conn, blocked, branch, md, feat, toks, usages⟩
  cases pos <;> cases energy <;> cases maxC <;> cases branch <;> cases feat <;> cases md <;>
    cases usages <;>
    first
    | exact sameTokens_refl _
    | exact sameTokens_writeCellMetadata _ _ _

theorem sameTokens_applyChangeDescription_cluster (ch : ClusterChangeDescription)
    (c : ClusterAccessTO) (s : DataConverter) :
    SameTokens s (applyChangeDescription_cluster ch c s).2 := by
  rcases ch with ⟨id, pos, vel, angle, angularVel, md, cells⟩
  cases pos <;> cases vel <;> cases angle <;> cases angularVel <;> cases md <;>
    first
    | exact sameTokens_refl _
    | (unfold applyChangeDescription_cluster
       dsimp only
       split
       · exact sameTokens_convertString _ _
       · exact sameTokens_refl _)

theorem sameTokens_processModifications_cluster (s : DataConverter) (i : Nat) :
    SameTokens s (processModifications_cluster s i) := by
  unfold processModifications_cluster
  simp only
  split
  · rename_i changes _
    exact sameTokens_trans
      (sameTokens_applyChangeDescription_cluster changes (s.dataTO.clusters i) s) ⟨rfl, rfl⟩
  · exact sameTokens_refl _

theorem sameTokens_processModifications_cell (s : DataConverter) (i : Nat) :
    SameTokens s (processModifications_cell s i) := by
  unfold processModifications_cell
  simp only
  split
  · rename_i changes _
    exact sameTokens_trans
      (sameTokens_applyChangeDescription_cell changes (s.dataTO.cells i) s) ⟨rfl, rfl⟩
  · exact sameTokens_refl _

theorem sameTokens_foldl {α : Type} (step : DataConverter → α → DataConverter)
    (h : ∀ s x, SameTokens s (step s x)) (xs : List α) (s : DataConverter) :
    SameTokens s (xs.foldl step s) := by
  induction xs generalizing s with
  | nil => exact sameTokens_refl _
  | cons x xs ih => exact sameTokens_trans (h s x) (ih _)

theorem sameTokens_modifiedClustersAndCells (s : DataConverter) :
    SameTokens s (modifiedClustersAndCells s) :=
  sameTokens_trans (sameTokens_foldl _ sameTokens_processModifications_cluster _ _)
    (sameTokens_foldl _ sameTokens_processModifications_cell _ _)

/-- Every token of the snapshot is a live token of the arena it was taken
from. -/
theorem collectTokens_live (d : DataAccessTO) (k : Nat) (ts : List TokenAccessTO)
    (h : (collectTokens d).lookup k = some ts) (t : TokenAccessTO) (ht : t ∈ ts) :
    ∃ index, index < d.numTokens ∧ t = d.tokens index := by
  unfold collectTokens at h
  generalize d.numTokens = n at h ⊢
  induction n generalizing k ts t with
  | zero => simp [List.lookup] at h
  | succ n ih =>
    rw [List.range_succ, List.foldl_append] at h
    simp only [List.foldl_cons, List.foldl_nil] at h
    rw [lookup_pushToken] at h
    by_cases hk : k = (d.cells (d.tokens n).cellIndex).id
    · rw [if_pos hk] at h
      simp only [Option.some.injEq] at h
      subst h
      rw [List.mem_append] at ht
      rcases ht with ht | ht
      · cases hl : List.lookup (d.cells (d.tokens n).cellIndex).id
            ((List.range n).foldl
              (fun m index => pushToken m (d.cells (d.tokens index).cellIndex).id
                (d.tokens index)) []) with
        | none => rw [hl] at ht; simp at ht
        | some ts' =>
          rw [hl] at ht
          simp only [Option.getD_some] at ht
          obtain ⟨index, h1, h2⟩ := ih _ ts' t ht hl
          exact ⟨index, by omega, h2⟩
      · simp only [List.mem_singleton] at ht
        exact ⟨n, by omega, ht⟩
    · rw [if_neg hk] at h
      obtain ⟨index, h1, h2⟩ := ih k ts t ht h
      exact ⟨index, by omega, h2⟩

theorem pushed_refl (P : Nat → Prop) (s : DataConverter) : Pushed P 0 s s :=
  ⟨rfl, rfl, fun _ _ => rfl, fun t h1 h2 => absurd h2 (by omega)⟩

theorem pushed_trans {P : Nat → Prop} {n m : Nat} {a b c : DataConverter}
    (h1 : Pushed P n a b) (h2 : Pushed P m b c) : Pushed P (n + m) a c := by
  refine ⟨h2.clusters.trans h1.clusters, ?_, ?_, ?_⟩
  · rw [h2.numTokens, h1.numTokens]
    omega
  · intro t ht
    rw [h2.old t (by rw [h1.numTokens]; omega), h1.old t ht]
  · intro t ht1 ht2
    by_cases hb : t < b.dataTO.numTokens
    · rw [h2.old t hb]
      exact h1.fresh t ht1 hb
    · exact h2.fresh t (by omega) ht2

theorem pushed_deltaToken (cellIndex : Nat) (td : TokenDescription) (s : DataConverter)
    (hok : (rebuild_deltaToken cellIndex td s).failure = none) :
    Pushed (fun c => c = cellIndex) 1 s (rebuild_deltaToken cellIndex td s).state := by
  unfold rebuild_deltaToken at hok ⊢
  simp only at hok ⊢
  split at hok
  · exact absurd hok (by simp)
  · rename_i hcap
    rw [if_neg hcap]
    cases he : td.energy with
    | none => rw [he] at hok; exact absurd hok (by simp)
    | some e =>
      cases hd : td.data with
      | none => rw [he, hd] at hok; exact absurd hok (by simp)
      | some data =>
        simp only
        refine ⟨rfl, rfl, ?_, ?_⟩
        · intro t ht
          simp only [DataConverter.setToken, DataConverter.withDataTO]
          rw [Function.update_noteq (by omega)]
        · intro t ht1 ht2
          have : t = s.dataTO.numTokens := by
            simp only [DataConverter.setToken, DataConverter.withDataTO] at ht2
            omega
          subst this
          simp only [DataConverter.setToken, DataConverter.withDataTO]
          rw [Function.update_same]

theorem pushed_carriedToken (tok : TokenAccessTO) (s : DataConverter)
    (hok : (rebuild_carriedToken tok s).failure = none) :
    Pushed (fun c => c = tok.cellIndex) 1 s (rebuild_carriedToken tok s).state := by
  unfold rebuild_carriedToken at hok ⊢
  simp only at hok ⊢
  split at hok
  · exact absurd hok (by simp)
  · rename_i hcap
    rw [if_neg hcap]
    refine ⟨rfl, rfl, ?_, ?_⟩
    · intro t ht
      simp only [DataConverter.setToken, DataConverter.withDataTO]
      rw [Function.update_noteq (by omega)]
    · intro t ht1 ht2
      have : t = s.dataTO.numTokens := by
        simp only [DataConverter.setToken, DataConverter.withDataTO] at ht2
        omega
      subst this
      simp only [DataConverter.setToken, DataConverter.withDataTO]
      rw [Function.update_same]

theorem Pushed.imp {P Q : Nat → Prop} {n : Nat} {a b : DataConverter} (h : Pushed P n a b)
    (hPQ : ∀ c, P c → Q c) : Pushed Q n a b :=
  ⟨h.clusters, h.numTokens, h.old, fun t h1 h2 => hPQ _ (h.fresh t h1 h2)⟩

theorem pushed_deltaLoop (cellIndex : Nat) (tokens : List TokenDescription) (s : DataConverter)
    (hok : (forEach tokens (rebuild_deltaToken cellIndex) s).failure = none) :
    Pushed (fun c => c = cellIndex) tokens.length s
      (forEach tokens (rebuild_deltaToken cellIndex) s).state := by
  apply forEach_rule (rebuild_deltaToken cellIndex)
    (fun done st => Pushed (fun c => c = cellIndex) done.length s st) tokens s
    (pushed_refl _ s) _ hok
  intro done x st hR hx
  rw [List.length_append, List.length_singleton]
  exact pushed_trans hR (pushed_deltaToken cellIndex x st hx)

theorem pushed_carriedLoop (P : Nat → Prop) (tokens : List TokenAccessTO) (s : DataConverter)
    (hP : ∀ t, t ∈ tokens → P t.cellIndex)
    (hok : (forEach tokens rebuild_carriedToken s).failure = none) :
    Pushed P tokens.length s (forEach tokens rebuild_carriedToken s).state := by
  apply forEach_rule_at rebuild_carriedToken
    (fun done st => Pushed P done.length s st) tokens s (pushed_refl _ s) _ hok
  intro done x rest st hxs hR hx
  rw [List.length_append, List.length_singleton]
  refine pushed_trans hR ((pushed_carriedToken x st hx).imp ?_)
  intro c hc
  rw [hc]
  apply hP
  rw [hxs]
  simp


/-- Adding to the token count of the cluster being rebuilt and pushing that
many tokens owned by cells of the cluster keeps `RebuiltCells`. -/
theorem rebuiltCells_push (k a n : Nat) (s0 st st' : DataConverter)
    (hR : RebuiltCells k a s0 st) (ha : a ≤ st.dataTO.numTokens)
    (hP : Pushed (fun c => inCellRange (s0.dataTO.clusters k) c = true) n
      (st.addClusterTokens k n) st') :
    RebuiltCells k a s0 st' := by
  have hc := hP.clusters
  have hnt : (st.addClusterTokens k n).dataTO.numTokens = st.dataTO.numTokens := rfl
  have htk : (st.addClusterTokens k n).dataTO.tokens = st.dataTO.tokens := rfl
  have hck : (st.addClusterTokens k n).dataTO.clusters k
      = { st.dataTO.clusters k with numTokens := (st.dataTO.clusters k).numTokens + n } := by
    simp [DataConverter.addClusterTokens, DataConverter.setCluster, DataConverter.withDataTO]
  have hco : ∀ i, i ≠ k → (st.addClusterTokens k n).dataTO.clusters i = st.dataTO.clusters i := by
    intro i hi
    simp [DataConverter.addClusterTokens, DataConverter.setCluster, DataConverter.withDataTO,
      Function.update_noteq hi]
  refine ⟨?_, ?_, ?_, ?_, ?_⟩
  · intro i hi
    rw [hc, hco i hi]
    exact hR.others i hi
  · rw [hc, hck]
    exact hR.tokenStartIndex
  · rw [hc, hck, hP.numTokens, hnt]
    have := hR.count
    simp only
    omega
  · intro t ht
    rw [hP.old t (by rw [hnt]; omega), htk]
    exact hR.old t ht
  · intro t ht1 ht2
    by_cases hb : t < st.dataTO.numTokens
    · rw [hP.old t (by rw [hnt]; exact hb), htk]
      exact hR.fresh t ht1 hb
    · exact hP.fresh t (by rw [hnt]; omega) ht2

/-- Rebuild of one cell of the cluster `k`, when it does not throw.  The base
state `b` fixes the cell ids; the snapshot `m` files live tokens of `b` under
the id of their owning cell. -/
theorem rebuiltCells_rebuild_cell (m : List (Nat × List TokenAccessTO)) (k a x : Nat)
    (b s0 st : DataConverter) (hb : SameShape b st)
    (hI : ∀ c, c < b.dataTO.numCells → ∀ c', c' < b.dataTO.numCells →
      (b.dataTO.cells c).id = (b.dataTO.cells c').id → c = c')
    (hsnap : ∀ id ts, m.lookup id = some ts → ∀ t, t ∈ ts →
      t.cellIndex < b.dataTO.numCells ∧ (b.dataTO.cells t.cellIndex).id = id)
    (hx : inCellRange (s0.dataTO.clusters k) x = true) (hxlt : x < b.dataTO.numCells)
    (hR : RebuiltCells k a s0 st) (ha : a ≤ st.dataTO.numTokens)
    (hok : (rebuild_cell m k x st).failure = none) :
    RebuiltCells k a s0 (rebuild_cell m k x st).state
    ∧ a ≤ (rebuild_cell m k x st).state.dataTO.numTokens := by
  unfold rebuild_cell at hok ⊢
  simp only at hok ⊢
  split
  · rename_i cell hcell
    rw [hcell] at hok
    simp only at hok
    split
    · rename_i tokens htokens
      rw [htokens] at hok
      simp only at hok
      have hP := pushed_deltaLoop x tokens _ hok
      refine ⟨rebuiltCells_push k a tokens.length s0 st _ hR ha (hP.imp ?_), ?_⟩
      · intro c hc
        rw [hc]
        exact hx
      · rw [hP.numTokens]
        exact le_trans ha (Nat.le_add_right _ _)
    · exact ⟨hR, ha⟩
  · rename_i hcell
    rw [hcell] at hok
    simp only at hok
    split
    · rename_i tokens htokens
      rw [htokens] at hok
      simp only at hok
      have hP := pushed_carriedLoop
        (fun c => inCellRange (s0.dataTO.clusters k) c = true) tokens _ ?_ hok
      · refine ⟨rebuiltCells_push k a tokens.length s0 st _ hR ha hP, ?_⟩
        rw [hP.numTokens]
        exact le_trans ha (Nat.le_add_right _ _)
      · intro t ht
        obtain ⟨h1, h2⟩ := hsnap _ tokens htokens t ht
        rw [hb.cellId x] at h2
        rw [hI _ h1 x hxlt h2]
        exact hx
    · exact ⟨hR, ha⟩

/-- Rebuild of one cluster, when it does not throw: the invariant of the
token rebuild advances by one cluster. -/
theorem rebuilt_rebuild_cluster (m : List (Nat × List TokenAccessTO)) (k : Nat)
    (b st : DataConverter) (hb : SameShape b st)
    (hI : ∀ c, c < b.dataTO.numCells → ∀ c', c' < b.dataTO.numCells →
      (b.dataTO.cells c).id = (b.dataTO.cells c').id → c = c')
    (hsnap : ∀ id ts, m.lookup id = some ts → ∀ t, t ∈ ts →
      t.cellIndex < b.dataTO.numCells ∧ (b.dataTO.cells t.cellIndex).id = id)
    (hrange : ∀ c, inCellRange (b.dataTO.clusters k) c = true → c < b.dataTO.numCells)
    (hR : Rebuilt k st)
    (hok : (rebuild_cluster m k st).failure = none) :
    Rebuilt (k + 1) (rebuild_cluster m k st).state := by
  unfold rebuild_cluster at hok ⊢
  simp only at hok ⊢
  generalize hs0 : st.setCluster k { st.dataTO.clusters k with
    tokenStartIndex := (st.dataTO.numTokens : Int), numTokens := 0 } = s0 at hok ⊢
  have hs0k : s0.dataTO.clusters k = { st.dataTO.clusters k with
      tokenStartIndex := (st.dataTO.numTokens : Int), numTokens := 0 } := by
    rw [← hs0]
    simp [DataConverter.setCluster, DataConverter.withDataTO]
  have hs0o : ∀ i, i ≠ k → s0.dataTO.clusters i = st.dataTO.clusters i := by
    intro i hi
    rw [← hs0]
    simp [DataConverter.setCluster, DataConverter.withDataTO, Function.update_noteq hi]
  have hs0n : s0.dataTO.numTokens = st.dataTO.numTokens := by rw [← hs0]; rfl
  have hs0t : s0.dataTO.tokens = st.dataTO.tokens := by rw [← hs0]; rfl
  have hbs0 : SameShape b s0 := by
    rw [← hs0]
    exact hb.trans (sameShape_setCluster _ _ _ rfl rfl rfl)
  have hcr : ∀ c, inCellRange (s0.dataTO.clusters k) c = inCellRange (b.dataTO.clusters k) c := by
    intro c
    unfold inCellRange
    rw [hbs0.cellStartIndex, hbs0.clusterNumCells]
  have hloop := forEach_rule_at (rebuild_cell m k)
    (fun _ st' => SameShape b st' ∧ RebuiltCells k st.dataTO.numTokens s0 st'
      ∧ st.dataTO.numTokens ≤ st'.dataTO.numTokens)
    (List.range' (st.dataTO.clusters k).cellStartIndex (st.dataTO.clusters k).numCells) s0
    ⟨hbs0, ⟨fun _ _ => rfl, by rw [hs0k], by rw [hs0k, hs0n]; simp, fun _ _ => rfl,
      fun t h1 h2 => absurd h2 (by rw [hs0n]; omega)⟩, by rw [hs0n]⟩
    (by
      intro done x rest st' hxs hR' hx
      obtain ⟨h1, h2, h3⟩ := hR'
      have hxr := range'_eq_append_cons _ _ _ _ _ hxs
      have hxin : inCellRange (s0.dataTO.clusters k) x = true := by
        rw [inCellRange_iff, hs0k]
        exact hxr
      have hxlt := hrange x (by rw [← hcr]; exact hxin)
      obtain ⟨r1, r2⟩ := rebuiltCells_rebuild_cell m k _ x b s0 st' h1 hI hsnap hxin hxlt h2 h3
        hx
      exact ⟨h1.trans (sameShape_rebuild_cell m k x st'), r1, r2⟩)
    hok
  obtain ⟨hS, hC, hle⟩ := hloop
  generalize (forEach (List.range' (st.dataTO.clusters k).cellStartIndex
    (st.dataTO.clusters k).numCells) (rebuild_cell m k) s0).state = fin at hS hC hle ⊢
  have hold : ∀ i, i < k → fin.dataTO.clusters i = st.dataTO.clusters i := by
    intro i hi
    rw [hC.others i (by omega), hs0o i (by omega)]
  refine ⟨?_, ?_, ?_⟩
  · intro i hi
    by_cases hik : i < k
    · rw [hold i hik]
      obtain ⟨h1, h2⟩ := hR.start i hik
      exact ⟨h1, by omega⟩
    · have : i = k := by omega
      subst this
      rw [hC.tokenStartIndex]
      have := hC.count
      omega
  · intro i hi t ht
    by_cases hik : i < k
    · rw [hold i hik] at ht ⊢
      have hlt : t < st.dataTO.numTokens := by
        obtain ⟨h1, h2⟩ := hR.start i hik
        rw [inTokenRange_iff] at ht
        omega
      rw [hC.old t hlt, hs0t]
      exact hR.owned i hik t ht
    · have : i = k := by omega
      subst this
      rw [inTokenRange_iff, hC.tokenStartIndex] at ht
      have hcnt := hC.count
      have := hC.fresh t (by omega) (by omega)
      rw [hcr] at this
      unfold inCellRange at this ⊢
      rw [hS.cellStartIndex, hS.clusterNumCells]
      exact this
  · intro t ht
    by_cases hlt : t < st.dataTO.numTokens
    · obtain ⟨i, hi, hin⟩ := hR.covered t hlt
      exact ⟨i, by omega, by rw [hold i hi]; exact hin⟩
    · refine ⟨k, by omega, ?_⟩
      rw [inTokenRange_iff, hC.tokenStartIndex]
      have := hC.count
      omega

/-- The token rebuild over all clusters, when it does not throw. -/
theorem rebuilt_loop (m : List (Nat × List TokenAccessTO)) (b : DataConverter)
    (hb0 : b.dataTO.numTokens = 0)
    (hI : ∀ c, c < b.dataTO.numCells → ∀ c', c' < b.dataTO.numCells →
      (b.dataTO.cells c).id = (b.dataTO.cells c').id → c = c')
    (hsnap : ∀ id ts, m.lookup id = some ts → ∀ t, t ∈ ts →
      t.cellIndex < b.dataTO.numCells ∧ (b.dataTO.cells t.cellIndex).id = id)
    (hrange : ∀ k, k < b.dataTO.numClusters →
      ∀ c, inCellRange (b.dataTO.clusters k) c = true → c < b.dataTO.numCells)
    (hok : (forEach (List.range b.dataTO.numClusters) (rebuild_cluster m) b).failure = none) :
    SameShape b (forEach (List.range b.dataTO.numClusters) (rebuild_cluster m) b).state
    ∧ Rebuilt b.dataTO.numClusters
        (forEach (List.range b.dataTO.numClusters) (rebuild_cluster m) b).state := by
  have h := forEach_rule_at (rebuild_cluster m)
    (fun done st => SameShape b st ∧ Rebuilt done.length st)
    (List.range b.dataTO.numClusters) b
    ⟨SameShape.refl b, ⟨fun i hi => absurd hi (by simp), fun i hi => absurd hi (by simp),
      fun t ht => absurd ht (by rw [hb0]; omega)⟩⟩
    (by
      intro done x rest st hxs hR hx
      obtain ⟨h1, h2⟩ := hR
      obtain ⟨e, hlt⟩ := range_eq_append_cons _ _ _ _ hxs
      subst e
      rw [List.length_append, List.length_singleton]
      exact ⟨h1.trans (sameShape_rebuild_cluster m _ st),
        rebuilt_rebuild_cluster m _ b st h1 hI hsnap (hrange _ hlt) h2 hx⟩)
    hok
  simp only [List.length_range] at h
  exact h


theorem onlyParticles_foldl (xs : List Nat) (s : DataConverter) :
    (xs.foldl processModifications_particle s).dataTO
      = { s.dataTO with
          particles := (xs.foldl processModifications_particle s).dataTO.particles } := by
  induction xs generalizing s with
  | nil => rfl
  | cons x xs ih =>
    simp only [List.foldl_cons]
    rw [ih]
    have : (processModifications_particle s x).dataTO
        = { s.dataTO with particles := (processModifications_particle s x).dataTO.particles } := by
      unfold processModifications_particle
      simp only
      split
      · rfl
      · rfl
    rw [this]

theorem layout_particles (r : DataConverter)
    (h : Layout r.dataTO ∧ TokensOwned r.dataTO) :
    Layout ((List.range r.dataTO.numParticles).foldl processModifications_particle r).dataTO
    ∧ TokensOwned
        ((List.range r.dataTO.numParticles).foldl processModifications_particle r).dataTO := by
  rw [onlyParticles_foldl]
  exact h

/-- The layout from the invariant of a finished token rebuild. -/
theorem layout_of_rebuilt (s0 st : DataConverter) (hS : SameShape s0 st)
    (h1 : ∀ i, i < s0.dataTO.numClusters → (s0.dataTO.clusters i).numCells = 0
      ∨ (s0.dataTO.clusters i).cellStartIndex + (s0.dataTO.clusters i).numCells
          ≤ s0.dataTO.numCells)
    (h2 : ∀ i, i < s0.dataTO.numClusters → ∀ j, j < s0.dataTO.numClusters →
      ∀ c, c < s0.dataTO.numCells → inCellRange (s0.dataTO.clusters i) c = true →
      inCellRange (s0.dataTO.clusters j) c = true → i = j)
    (hR : Rebuilt st.dataTO.numClusters st) :
    Layout st.dataTO ∧ TokensOwned st.dataTO := by
  have hcr : ∀ i c, inCellRange (st.dataTO.clusters i) c = inCellRange (s0.dataTO.clusters i) c := by
    intro i c
    unfold inCellRange
    rw [hS.cellStartIndex, hS.clusterNumCells]
  have hlt : ∀ i, i < s0.dataTO.numClusters → ∀ c,
      inCellRange (s0.dataTO.clusters i) c = true → c < s0.dataTO.numCells := by
    intro i hi c hc
    rw [inCellRange_iff] at hc
    rcases h1 i hi with h0 | h0 <;> omega
  refine ⟨⟨?_, ?_, ?_, ?_⟩, ?_⟩
  · intro i hi
    rw [hS.clusterNumCells, hS.cellStartIndex, hS.numCells]
    exact h1 i (by rw [← hS.numClusters]; exact hi)
  · intro i hi j hj c hc hci hcj
    rw [hS.numClusters] at hi hj
    rw [hS.numCells] at hc
    rw [hcr] at hci hcj
    exact h2 i hi j hj c hc hci hcj
  · intro i hi
    exact Or.inr (hR.start i hi)
  · intro i hi t ht
    cases hb : inCellRange (st.dataTO.clusters i) (st.dataTO.tokens t).cellIndex
    · cases hb' : inTokenRange (st.dataTO.clusters i) t
      · rfl
      · have := hR.owned i hi t hb'
        rw [hb] at this
        exact absurd this (by simp)
    · obtain ⟨j, hj, hjt⟩ := hR.covered t ht
      have hjc := hR.owned j hj t hjt
      rw [hcr] at hb hjc
      rw [hS.numClusters] at hi hj
      have := h2 i hi j hj _ (hlt i hi _ hb) hb hjc
      subst this
      exact hjt
  · intro t ht
    obtain ⟨j, hj, hjt⟩ := hR.covered t ht
    exact ⟨j, hj, hR.owned j hj t hjt⟩

/-- The modify phase, when it does not throw, establishes the layout: from an
arena in which the cell ranges of the clusters lie inside the live cells and
share no cell, every live token is owned by a live cell, and no two cells share
an id. -/
theorem layout_processModifications (s : DataConverter)
    (h1 : ∀ i, i < s.dataTO.numClusters → (s.dataTO.clusters i).numCells = 0
      ∨ (s.dataTO.clusters i).cellStartIndex + (s.dataTO.clusters i).numCells
          ≤ s.dataTO.numCells)
    (h2 : ∀ i, i < s.dataTO.numClusters → ∀ j, j < s.dataTO.numClusters →
      ∀ c, c < s.dataTO.numCells → inCellRange (s.dataTO.clusters i) c = true →
      inCellRange (s.dataTO.clusters j) c = true → i = j)
    (h3 : ∀ t, t < s.dataTO.numTokens → (s.dataTO.tokens t).cellIndex < s.dataTO.numCells)
    (hI : DistinctCellIds s.dataTO)
    (hok : (processModifications s).failure = none) :
    Layout (processModifications s).state.dataTO
    ∧ TokensOwned (processModifications s).state.dataTO := by
  rw [processModifications_eq] at hok ⊢
  obtain ⟨hloop, e⟩ := andThen_failure_none _ _ hok
  rw [e]
  have hSA := sameShape_modifiedClustersAndCells s
  have hTA := sameTokens_modifiedClustersAndCells s
  generalize modifiedClustersAndCells s = sA at hSA hTA hloop ⊢
  have hb : SameShape s (sA.withDataTO { sA.dataTO with numTokens := 0 }) :=
    hSA.trans (sameShape_numTokens sA 0)
  obtain ⟨hS, hR⟩ := rebuilt_loop (collectTokens sA.dataTO)
    (sA.withDataTO { sA.dataTO with numTokens := 0 }) rfl
    (by
      intro c hc c' hc' hid
      have e1 : ∀ x, ((sA.withDataTO { sA.dataTO with numTokens := 0 }).dataTO.cells x).id
          = (s.dataTO.cells x).id := hb.cellId
      rw [e1, e1] at hid
      rw [hb.numCells] at hc hc'
      exact hI c hc c' hc' hid)
    (by
      intro id ts hl t ht
      obtain ⟨index, hi1, hi2⟩ := collectTokens_live sA.dataTO id ts hl t ht
      refine ⟨?_, collectTokens_owner sA.dataTO id ts hl t ht⟩
      rw [hb.numCells, hi2, hTA.1]
      exact h3 index (by rw [← hTA.2]; exact hi1))
    (by
      intro k hk c hc
      rw [hb.numClusters] at hk
      rw [hb.numCells]
      unfold inCellRange at hc
      rw [hb.cellStartIndex, hb.clusterNumCells] at hc
      have hc' := of_decide_eq_true hc
      rcases h1 k hk with h0 | h0 <;> omega)
    hloop
  have hfin := layout_of_rebuilt s _ (hb.trans hS) h1 h2 (by rw [hS.numClusters]; exact hR)
  exact layout_particles _ hfin


/-! ## The arena layout is preserved -/

/-- C13, the claim as stated fails: in `sharedIdArena` every cluster's cells
and tokens are its index ranges and the ranges are disjoint, but two cells of
different clusters have the same id.  `updateData` with the empty ChangeSet
returns normally and leaves two tokens, the second in the token range of the
second cluster although it is owned by the cell of the first: the layout is
lost. -/
theorem C13_shared_cell_id_breaks_layout :
    Layout sharedIdArena ∧ TokensOwned sharedIdArena
    ∧ (updateData emptyChange (sampleConverter sharedIdArena 4 4 4 4)).failure = none
    ∧ (updateData emptyChange (sampleConverter sharedIdArena 4 4 4 4)).state.dataTO.numTokens = 2
    ∧ inTokenRange ((updateData emptyChange
          (sampleConverter sharedIdArena 4 4 4 4)).state.dataTO.clusters 1) 1 = true
    ∧ inCellRange ((updateData emptyChange
          (sampleConverter sharedIdArena 4 4 4 4)).state.dataTO.clusters 1)
        (((updateData emptyChange
          (sampleConverter sharedIdArena 4 4 4 4)).state.dataTO.tokens 1).cellIndex) = false
    ∧ ¬ Layout (updateData emptyChange (sampleConverter sharedIdArena 4 4 4 4)).state.dataTO := by
  decide

/-- C13, amended. Starting from an arena with the layout — every cluster's
cell range lies inside the live cells, the cell ranges of distinct clusters
are disjoint, every cluster's token range lies inside the live tokens, and a
live token lies in a cluster's token range exactly when its owning cell lies in
that cluster's cell range — in which moreover every live token is owned by a
cell of some cluster and no two live cells have the same id, the arena after
any `updateData` call that returns normally has the layout again, and every
live token is again owned by a cell of some cluster.  This holds for every
converter state and every ChangeSet (delete and compact, modify with token
rebuild, then add). -/
theorem C13_layout_preserved (data : DataChangeDescription) (s : DataConverter)
    (hL : Layout s.dataTO) (hT : TokensOwned s.dataTO) (hI : DistinctCellIds s.dataTO)
    (hok : (updateData data s).failure = none) :
    Layout (updateData data s).state.dataTO
    ∧ TokensOwned (updateData data s).state.dataTO := by
  rw [updateData_eq] at hok ⊢
  obtain ⟨h12, e12⟩ := andThen_failure_none _ _ hok
  rw [e12] at hok ⊢
  obtain ⟨h1, e1⟩ := andThen_failure_none _ _ h12
  rw [e1] at hok h12 ⊢
  have hm := marked_dataTO data s
  rw [← hm] at hL hT hI
  obtain ⟨d1, d2, d3, d4⟩ := layout_processDeletions (marked data s) hL hT hI
  obtain ⟨m1, m2⟩ := layout_processModifications _ d1 d2 d3 d4 h1
  obtain ⟨a1, a2⟩ := layout_addClusters data.clusters _ m1 m2 h12
  exact layout_addParticles data.particles _ a1 a2 hok

/-- C13 on an example: `twoClusterArenaB` has the layout, its tokens are owned
and its cell ids are distinct; with cluster 100 deleted, cluster 200 modified,
a cluster 300 and a particle added, `updateData` returns normally and the
arena has the layout again. -/
theorem C13_layout_preserved_witness :
    Layout twoClusterArenaB ∧ TokensOwned twoClusterArenaB ∧ DistinctCellIds twoClusterArenaB
    ∧ (updateData mixedChange (sampleConverter twoClusterArenaB 8 8 8 8)).failure = none
    ∧ Layout (updateData mixedChange (sampleConverter twoClusterArenaB 8 8 8 8)).state.dataTO
    ∧ TokensOwned
        (updateData mixedChange (sampleConverter twoClusterArenaB 8 8 8 8)).state.dataTO :=
  ⟨by decide, by decide, by decide, by decide,
   C13_layout_preserved mixedChange (sampleConverter twoClusterArenaB 8 8 8 8)
     (by decide) (by decide) (by decide) (by decide)⟩


/-! ## The connection loop of `addCluster` -/

theorem byteAt_arrayWrite (l : List Nat) (i v j : Nat) :
    byteAt (arrayWrite l i v) j = if j = i then v else byteAt l j := by
  unfold arrayWrite byteAt
  by_cases hi : i < l.length
  · rw [if_pos hi]
    rw [List.getD_eq_getElem?_getD, List.getD_eq_getElem?_getD, List.getElem?_set]
    by_cases hji : j = i
    · subst hji
      simp [hi]
    · have : ¬ i = j := fun h => hji h.symm
      simp [hji, this]
  · rw [if_neg hi]
    rw [List.getD_eq_getElem?_getD, List.getD_eq_getElem?_getD]
    have hA : (l ++ List.replicate (i - l.length) 0).length = i := by
      simp only [List.length_append, List.length_replicate]
      omega
    by_cases hj : j < l.length
    · have hji : j ≠ i := by omega
      rw [if_neg hji, List.append_assoc, List.getElem?_append_left hj]
    · rw [List.getElem?_eq_none (by omega : l.length ≤ j)]
      by_cases hji : j = i
      · subst hji
        rw [if_pos rfl, List.getElem?_append_right (by omega), hA, Nat.sub_self]
        rfl
      · rw [if_neg hji]
        by_cases hlt : j < i
        · rw [List.getElem?_append_left (by omega), List.getElem?_append_right (by omega),
            List.getElem?_replicate, if_pos (by omega)]
          rfl
        · rw [List.getElem?_eq_none (by
            simp only [List.length_append, List.length_replicate, List.length_singleton]
            omega)]

/-- The loop of `setConnections` when every declared id has an entry: it does
not throw, only the connection indices change, the position `j0 + i` holds the
index recorded for the `i`-th id, and the positions below `j0` are as before. -/
theorem setConnections_loop_spec (m : List (Nat × Nat)) (ids : List Nat)
    (hall : ∀ id, id ∈ ids → (m.lookup id).isSome = true)
    (cell : CellAccessTO) (j0 : Nat) :
    ∃ L, forEach ids (setConnections_step m) (cell, j0)
        = ⟨({ cell with connectionIndices := L }, j0 + ids.length), none⟩
      ∧ (∀ i (hi : i < ids.length), m.lookup ids[i] = some (byteAt L (j0 + i)))
      ∧ (∀ j, j < j0 → byteAt L j = byteAt cell.connectionIndices j) := by
  induction ids generalizing cell j0 with
  | nil => exact ⟨cell.connectionIndices, rfl, fun i hi => absurd hi (by simp), fun _ _ => rfl⟩
  | cons id rest ih =>
    obtain ⟨target, ht⟩ := Option.isSome_iff_exists.mp (hall id (List.mem_cons_self _ _))
    have hstep : setConnections_step m id (cell, j0)
        = ⟨({ cell with connectionIndices := arrayWrite cell.connectionIndices j0 target },
            j0 + 1), none⟩ := by
      unfold setConnections_step
      simp only [ht]
    obtain ⟨L, e, h1, h2⟩ := ih (fun x hx => hall x (List.mem_cons_of_mem _ hx))
      { cell with connectionIndices := arrayWrite cell.connectionIndices j0 target } (j0 + 1)
    refine ⟨L, ?_, ?_, ?_⟩
    · rw [forEach_cons, hstep]
      unfold Step.andThen
      simp only
      rw [e]
      simp only [List.length_cons]
      congr 2
      omega
    · intro i hi
      cases i with
      | zero =>
        simp only [List.getElem_cons_zero, Nat.add_zero]
        rw [ht, h2 j0 (by omega)]
        simp only
        rw [byteAt_arrayWrite, if_pos rfl]
      | succ i =>
        simp only [List.getElem_cons_succ]
        have := h1 i (by simpa using hi)
        rw [this]
        congr 2
        omega
    · intro j hj
      rw [h2 j (by omega)]
      simp only
      rw [byteAt_arrayWrite, if_neg (by omega)]

/-- The resolved cell differs from the cell only in the connection indices. -/
theorem connected_sameButConnections (m : List (Nat × Nat)) (cd : CellDescription)
    (cell : CellAccessTO)
    (hall : ∀ id, id ∈ cd.connectingCells.getD [] → (m.lookup id).isSome = true) :
    SameButConnections cell (connected m cd cell) := by
  unfold connected
  cases hc : cd.connectingCells with
  | none => exact sameButConnections_same _
  | some ids =>
    rw [hc] at hall
    obtain ⟨L, e, _, _⟩ := setConnections_loop_spec m ids hall cell 0
    simp only
    rw [e]
    exact ⟨L, rfl⟩

/-- The connection indices of the resolved cell: position `i` holds the index
recorded for the `i`-th declared id. -/
theorem connected_targets (m : List (Nat × Nat)) (cd : CellDescription)
    (cell : CellAccessTO)
    (hall : ∀ id, id ∈ cd.connectingCells.getD [] → (m.lookup id).isSome = true)
    (i : Nat) (hi : i < (cd.connectingCells.getD []).length) :
    m.lookup (cd.connectingCells.getD [])[i]
      = some (byteAt (connected m cd cell).connectionIndices i) := by
  rcases cd with ⟨id, pos, energy, mc, conn, blocked, branch, md, feat, toks, usages⟩
  cases conn with
  | none => exact absurd hi (by simp)
  | some ids =>
    simp only [Option.getD_some] at hall hi ⊢
    obtain ⟨L, e, h1, _⟩ := setConnections_loop_spec m ids hall cell 0
    unfold connected
    simp only
    rw [e]
    have := h1 i hi
    rw [Nat.zero_add] at this
    exact this

/-- One iteration of the second loop of `addCluster`, for a cell with an id of
its own recorded at index `x` and connections that all have an entry. -/
theorem addCluster_connect_spec (m : List (Nat × Nat)) (cd : CellDescription)
    (s : DataConverter) (x : Nat) (hid : cd.id ≠ 0) (hx : m.lookup cd.id = some x)
    (hall : ∀ id, id ∈ cd.connectingCells.getD [] → (m.lookup id).isSome = true) :
    (addCluster_connect m cd s).failure = none
    ∧ (addCluster_connect m cd s).state.dataTO.cells
        = Function.update s.dataTO.cells x (connected m cd (s.dataTO.cells x)) := by
  have e0 : addCluster_connect m cd s = setConnections cd x m s := by
    unfold addCluster_connect
    rw [if_pos hid]
    simp only [hx]
  rw [e0]
  unfold setConnections connected
  cases hc : cd.connectingCells with
  | none =>
    refine ⟨rfl, ?_⟩
    show s.dataTO.cells = Function.update s.dataTO.cells x (s.dataTO.cells x)
    rw [Function.update_eq_self]
  | some ids =>
    rw [hc] at hall
    obtain ⟨L, e, _, _⟩ := setConnections_loop_spec m ids hall (s.dataTO.cells x) 0
    show (forEach ids (setConnections_step m) (s.dataTO.cells x, 0)).failure = none
      ∧ Function.update s.dataTO.cells x
          (forEach ids (setConnections_step m) (s.dataTO.cells x, 0)).state.1
        = Function.update s.dataTO.cells x
          (forEach ids (setConnections_step m) (s.dataTO.cells x, 0)).state.1
    rw [e]
    exact ⟨rfl, rfl⟩

/-- The second loop of `addCluster` over cells with ids of their own, the
`k`-th recorded at index `x0 + k`, whose connections all have an entry: it
does not throw and only resolves the connections of these cells. -/
theorem addCluster_connects_spec (m : List (Nat × Nat)) (cells : List CellDescription)
    (s : DataConverter) (x0 : Nat)
    (hids : ∀ cd, cd ∈ cells → cd.id ≠ 0)
    (hown : ∀ k (hk : k < cells.length), m.lookup cells[k].id = some (x0 + k))
    (hall : ∀ cd, cd ∈ cells → ∀ id, id ∈ cd.connectingCells.getD [] →
      (m.lookup id).isSome = true) :
    (forEach cells (addCluster_connect m) s).failure = none
    ∧ (forEach cells (addCluster_connect m) s).state.dataTO.cells
        = connectedAt m cells x0 s.dataTO.cells := by
  have h := forEach_total (addCluster_connect m)
    (fun done st => st.dataTO.cells = connectedAt m done x0 s.dataTO.cells) cells s
    (by
      funext c
      unfold connectedAt
      simp)
    (by
      intro done x rest st hxs hR
      have hxm : x ∈ cells := by rw [hxs]; simp
      have hlen : done.length < cells.length := by rw [hxs]; simp
      have hxk : cells[done.length] = x := by
        simp only [hxs]
        rw [List.getElem_append_right (le_refl _)]
        simp
      have hl := hown done.length hlen
      rw [hxk] at hl
      obtain ⟨f, e⟩ := addCluster_connect_spec m x st (x0 + done.length) (hids x hxm) hl
        (hall x hxm)
      refine ⟨f, ?_⟩
      show (addCluster_connect m x st).state.dataTO.cells
        = connectedAt m (done ++ [x]) x0 s.dataTO.cells
      rw [e, hR]
      funext c
      unfold connectedAt
      by_cases hc : c = x0 + done.length
      · subst hc
        rw [Function.update_same, if_pos (by omega), if_pos (by omega)]
        have e1 : x0 + done.length - x0 = done.length := by omega
        rw [e1, List.getElem?_append_right (le_refl _), List.getElem?_eq_none (le_refl _)]
        simp
      · rw [Function.update_noteq hc]
        by_cases hx0 : x0 ≤ c
        · rw [if_pos hx0, if_pos hx0]
          by_cases hlt : c - x0 < done.length
          · rw [List.getElem?_append_left hlt]
          · rw [List.getElem?_eq_none (by omega : done.length ≤ c - x0),
              List.getElem?_eq_none (by
                simp only [List.length_append, List.length_singleton]
                omega)]
        · rw [if_neg hx0, if_neg hx0])
  exact h


/-- With pairwise different ids of their own, the local map of `addCluster`
records the `k`-th cell at the index `k` places behind the old cells. -/
theorem addedCells_lookup_eq (s1 : DataConverter) (n : Nat) (cells : List CellDescription)
    (st : AddState × Bool) (h : AddedCells s1 n cells st)
    (hids : ∀ cell, cell ∈ cells → cell.id ≠ 0)
    (hnd : (cells.map (fun cell => cell.id)).Nodup) (k : Nat) (hk : k < cells.length) :
    st.1.2.lookup cells[k].id = some (s1.dataTO.numCells + k) := by
  have hmem : ∀ e, e ∈ st.1.2 ↔ ∃ j, ∃ hj : j < cells.length,
      e = (cells[j].id, s1.dataTO.numCells + j) := by
    intro e
    rw [h.map, List.mem_reverse, List.mem_map]
    constructor
    · rintro ⟨c, hc, rfl⟩
      rw [List.mem_range'_1] at hc
      obtain ⟨j, rfl⟩ : ∃ j, c = s1.dataTO.numCells + j :=
        ⟨c - s1.dataTO.numCells, by omega⟩
      have hj : j < cells.length := by omega
      refine ⟨j, hj, ?_⟩
      rw [h.ids j hj (hids _ (List.getElem_mem _))]
    · rintro ⟨j, hj, rfl⟩
      refine ⟨s1.dataTO.numCells + j, ?_, ?_⟩
      · rw [List.mem_range'_1]
        omega
      · rw [h.ids j hj (hids _ (List.getElem_mem _))]
  apply lookup_eq_of_unique
  · exact ⟨_, (hmem _).mpr ⟨k, hk, rfl⟩, rfl⟩
  · intro e he hek
    obtain ⟨j, hj, rfl⟩ := (hmem e).mp he
    simp only at hek ⊢
    have hjk : j = k := by
      have h1 : (cells.map (fun cell => cell.id)).get ⟨j, by simpa using hj⟩
          = (cells.map (fun cell => cell.id)).get ⟨k, by simpa using hk⟩ := by
        simpa using hek
      exact (List.Nodup.getElem_inj_iff hnd).mp h1
    rw [hjk]


theorem getClusterPosFromCells_isSome (c : ClusterDescription)
    (h : ∀ cell, cell ∈ c.cells.getD [] → cell.pos.isSome = true) :
    (getClusterPosFromCells c).isSome = true := by
  unfold getClusterPosFromCells
  cases hc : c.cells with
  | none => rfl
  | some cells =>
    rw [hc] at h
    simp only [Option.getD_some] at h
    simp only [Option.isSome_map']
    have key : ∀ (l : List CellDescription) (acc : QVector2D),
        (∀ cell, cell ∈ l → cell.pos.isSome = true) →
        (l.foldl (fun acc cell =>
          match acc, cell.pos with
          | some r, some p => some (⟨r.x + p.x, r.y + p.y⟩ : QVector2D)
          | _, _ => none) (some acc)).isSome = true := by
      intro l
      induction l with
      | nil => intro acc _; rfl
      | cons x xs ih =>
        intro acc hl
        obtain ⟨p, hp⟩ := Option.isSome_iff_exists.mp (hl x (List.mem_cons_self _ _))
        simp only [List.foldl_cons, hp]
        exact ih _ (fun cell hcell => hl cell (List.mem_cons_of_mem _ hcell))
    exact key cells _ h

theorem clusterPosOf_isSome (c : ClusterDescription)
    (h : ∀ cell, cell ∈ c.cells.getD [] → cell.pos.isSome = true) :
    (clusterPosOf c).isSome = true := by
  unfold clusterPosOf
  cases hp : c.pos with
  | some p => rfl
  | none => exact getClusterPosFromCells_isSome c h

theorem tokensOf_congr (d d' : DataAccessTO) (size c : Nat) (h1 : d'.tokens = d.tokens)
    (h2 : d'.numTokens = d.numTokens) : tokensOf d' size c = tokensOf d size c := by
  unfold tokensOf tokensOfFirst
  rw [h1, h2]

/-- A loadable cluster is appended without a throw, and is stored as
`ClusterLoaded` describes. -/
theorem addCluster_loaded (c : ClusterDescription) (s : DataConverter)
    (cells : List CellDescription) (hcells : c.cells = some cells) (hload : c.Loadable)
    (hroom : s.dataTO.numClusters < s.cudaConstants.MAX_CLUSTERS)
    (hroomCells : s.dataTO.numCells + cells.length ≤ s.cudaConstants.MAX_CELLS)
    (hH : TokensHosted s.dataTO) :
    (addCluster c s).failure = none ∧ ClusterLoaded s c cells (addCluster c s).state := by
  obtain ⟨hid, hvel, hangle, hangvel, _, hne, hcl, hnd, hconn⟩ := hload
  rw [hcells] at hne hcl hnd hconn
  simp only [Option.getD_some] at hne hcl hnd hconn
  have hids : ∀ cell, cell ∈ cells → cell.id ≠ 0 := fun cell h => (hcl cell h).1
  have hfields : ∀ cell, cell ∈ cells → cell.pos.isSome = true ∧ cell.energy.isSome = true
      ∧ cell.maxConnections.isSome = true
      ∧ ∀ t, t ∈ cell.tokens.getD [] → t.energy.isSome = true ∧ t.data.isSome = true :=
    fun cell h => (hcl cell h).2
  have hpos := clusterPosOf_isSome c (by
    rw [hcells]
    exact fun cell h => (hfields cell h).1)
  obtain ⟨clusterPos, hpos'⟩ := Option.isSome_iff_exists.mp hpos
  obtain ⟨vel, hvel'⟩ := Option.isSome_iff_exists.mp hvel
  obtain ⟨angle, hangle'⟩ := Option.isSome_iff_exists.mp hangle
  obtain ⟨angularVel, hangvel'⟩ := Option.isSome_iff_exists.mp hangvel
  obtain ⟨metadata, bytes, cursor, e, hname, hnameIn, hcur, hbytes⟩ :=
    addCluster_header c s cells clusterPos vel angle angularVel hcells hroom hpos' hvel'
      hangle' hangvel'
  rw [assignId_of_ne_zero s c.id hid] at e
  simp only at e
  rw [e]
  generalize hs1 : s.withDataTO _ = s1
  have h1n : s1.dataTO.numCells = s.dataTO.numCells := by rw [← hs1]; rfl
  have h1t : s1.dataTO.numTokens = s.dataTO.numTokens := by rw [← hs1]; rfl
  have h1tk : s1.dataTO.tokens = s.dataTO.tokens := by rw [← hs1]; rfl
  have h1c : s1.cudaConstants = s.cudaConstants := by rw [← hs1]; rfl
  have h1l : s1.limits = s.limits := by rw [← hs1]; rfl
  have h1p : s1.parameters = s.parameters := by rw [← hs1]; rfl
  have h1b : s1.dataTO.stringBytes = bytes := by rw [← hs1]; rfl
  have h1nb : s1.dataTO.numStringBytes = cursor := by rw [← hs1]; rfl
  have h1cl : s1.dataTO.clusters s.dataTO.numClusters
      = { id := c.id, pos := convert clusterPos, vel := convert vel, angle := angle,
          angularVel := angularVel, numCells := cells.length,
          cellStartIndex := (s.dataTO.clusters s.dataTO.numClusters).cellStartIndex,
          numTokens := 0, tokenStartIndex := (s.dataTO.numTokens : Int),
          metadata := metadata } := by
    rw [← hs1]
    simp [DataConverter.withDataTO]
  have hH1 : TokensHosted s1.dataTO := by
    intro t ht
    rw [h1tk, h1n]
    exact hH t (by rw [← h1t]; exact ht)
  obtain ⟨hok1, hR⟩ := addCluster_cells_spec s1 s.dataTO.numClusters cells hfields
    (by rw [h1n, h1c]; exact hroomCells)
  have hown := addedCells_lookup_eq s1 s.dataTO.numClusters cells _ hR hids hnd
  have hlook := addedCells_lookup s1 s.dataTO.numClusters cells _ hR hids
  have hall : ∀ cd, cd ∈ cells → ∀ id, id ∈ cd.connectingCells.getD [] →
      ((forEach cells (addCluster_cell s.dataTO.numClusters)
        ((s1, []), true)).state.1.2.lookup id).isSome = true :=
    fun cd hcd id hid' => (hlook id).mpr (hconn cd hcd id hid')
  obtain ⟨hok2, hcellsF⟩ := addCluster_connects_spec
    (forEach cells (addCluster_cell s.dataTO.numClusters) ((s1, []), true)).state.1.2 cells
    (forEach cells (addCluster_cell s.dataTO.numClusters) ((s1, []), true)).state.1.1
    s1.dataTO.numCells hids hown hall
  have hO := onlyCells_connects
    (forEach cells (addCluster_cell s.dataTO.numClusters) ((s1, []), true)).state.1.2 cells
    (forEach cells (addCluster_cell s.dataTO.numClusters) ((s1, []), true)).state.1.1
  unfold addCluster_loops
  rw [hok1]
  simp only
  refine ⟨hok2, ?_⟩
  generalize (forEach cells (addCluster_cell s.dataTO.numClusters) ((s1, []), true)).state = st1
    at hR hown hlook hall hcellsF hO ⊢
  generalize (forEach cells (addCluster_connect st1.1.2) st1.1.1).state = F at hcellsF hO ⊢
  unfold OnlyCells at hO
  have o1 : F.dataTO.clusters = st1.1.1.dataTO.clusters := by
    have h := congrArg DataAccessTO.clusters hO
    exact h
  have o2 : F.dataTO.numTokens = st1.1.1.dataTO.numTokens := by
    have h := congrArg DataAccessTO.numTokens hO
    exact h
  have o3 : F.dataTO.tokens = st1.1.1.dataTO.tokens := by
    have h := congrArg DataAccessTO.tokens hO
    exact h
  have o4 : F.dataTO.stringBytes = st1.1.1.dataTO.stringBytes := by
    have h := congrArg DataAccessTO.stringBytes hO
    exact h
  have o5 : F.dataTO.numStringBytes = st1.1.1.dataTO.numStringBytes := by
    have h := congrArg DataAccessTO.numStringBytes hO
    exact h
  obtain ⟨nt, cs, hcl1⟩ := hR.cluster
  have hclF : F.dataTO.clusters s.dataTO.numClusters
      = { id := c.id, pos := convert clusterPos, vel := convert vel, angle := angle,
          angularVel := angularVel, numCells := cells.length,
          cellStartIndex := cs, numTokens := nt,
          tokenStartIndex := (s.dataTO.numTokens : Int), metadata := metadata } := by
    rw [o1, hcl1, h1cl]
  have hcellF : ∀ j (hj : j < cells.length), F.dataTO.cells (s.dataTO.numCells + j)
      = connected st1.1.2 cells[j] (st1.1.1.dataTO.cells (s.dataTO.numCells + j)) := by
    intro j hj
    rw [hcellsF]
    unfold connectedAt
    rw [h1n, if_pos (by omega)]
    have e1 : s.dataTO.numCells + j - s.dataTO.numCells = j := by omega
    rw [e1, List.getElem?_eq_getElem hj]
  have hallj : ∀ j (hj : j < cells.length), ∀ id, id ∈ cells[j].connectingCells.getD [] →
      (st1.1.2.lookup id).isSome = true :=
    fun j hj => hall _ (List.getElem_mem _)
  refine ⟨?_, ?_, ?_, ?_, ?_, ?_, ?_, ?_, ?_, ?_, ?_, ?_⟩
  · rw [hclF]
  · rw [hclF, hpos']
    rfl
  · rw [hclF, hvel']
    rfl
  · rw [hclF, hangle']
  · rw [hclF, hangvel']
  · rw [hclF]
  · rw [o1, hR.cellStartIndex hne, h1n]
  · rw [hclF]
    simp only
    rw [← hname]
    apply readClusterMetadata_congr hnameIn
    intro b hb
    simp only at hb ⊢
    rw [o4, hR.stringBytes b (by rw [h1nb]; exact hb), h1b]
  · rw [hclF]
    simp only
    intro hlen
    have := hnameIn hlen
    simp only at this
    have h2 := hR.numStringBytes
    rw [h1nb] at h2
    rw [o5]
    omega
  · intro j hj
    have hst := hR.stored j hj
    rw [hR.ids j hj (hids _ (List.getElem_mem _)), h1n, h1l] at hst
    rw [hcellF j hj]
    refine cellStored_sameButConnections (cellStored_mono hst (by rw [o5]) ?_)
      (connected_sameButConnections _ _ _ (hallj j hj))
    intro b _
    rw [o4]
  · intro j hj i hi
    have ht := connected_targets st1.1.2 cells[j]
      (st1.1.1.dataTO.cells (s.dataTO.numCells + j)) (hallj j hj) i hi
    have hmem := hconn cells[j] (List.getElem_mem _) _ (List.getElem_mem hi)
    rw [List.mem_map] at hmem
    obtain ⟨cd, hcd, hcdid⟩ := hmem
    obtain ⟨k, hk, rfl⟩ := List.getElem_of_mem hcd
    refine ⟨k, hk, ?_, hcdid⟩
    rw [hcellF j hj]
    have h2 := hown k hk
    rw [hcdid, ht, h1n] at h2
    exact Option.some.inj h2
  · intro j hj
    have := hR.tokensOf hH1 j hj
    rw [h1p, h1n] at this
    rw [tokensOf_congr _ _ _ _ o3 o2]
    exact this


/-! ## Reading back what was appended -/

/-- An arena cell that holds a description, with its connections resolved to
cells that carry the declared ids and with the normalised tokens of the
description on it, reads back as the normal form of the description. -/
theorem cellWith_loaded (limits : ArrayLimits) (size : Nat) (d : DataAccessTO) (x : Nat)
    (cd : CellDescription) (toks : List TokenDescription)
    (hst : CellStored limits d (d.cells x) cd)
    (htg : ∀ i (hi : i < (cd.connectingCells.getD []).length),
      (d.cells (byteAt (d.cells x).connectionIndices i)).id = (cd.connectingCells.getD [])[i])
    (htk : toks = (cd.tokens.getD []).map (TokenDescription.normalize size)) :
    cellWith d x toks = cd.normalize limits size := by
  unfold cellWith readCell CellDescription.normalize
  simp only [CellDescription.mk.injEq]
  refine ⟨hst.id, hst.pos, hst.energy, hst.maxConnections, ?_, ?_, ?_, ?_, ?_, ?_, ?_⟩
  · congr 1
    apply List.ext_getElem
    · simp [hst.numConnections]
    · intro i h1 h2
      simp only [List.getElem_map, List.getElem_range]
      exact htg i h2
  · rw [hst.tokenBlocked]
  · rw [hst.branchNumber]
  · rw [hst.metadata]
  · rw [hst.feature]
  · rw [htk]
  · rw [hst.tokenUsages]

/-- The cluster appended by `addCluster` reads back as the normal form of its
description. -/
theorem readCluster_loaded (s F : DataConverter) (c : ClusterDescription)
    (cells : List CellDescription) (hcells : c.cells = some cells)
    (h : ClusterLoaded s c cells F) :
    readCluster F.dataTO s.parameters.tokenMemorySize s.dataTO.numClusters
      = c.normalize s.limits s.parameters.tokenMemorySize := by
  unfold readCluster clusterWith ClusterDescription.normalize
  rw [h.id, h.pos, h.vel, h.angle, h.angularVel, h.name, h.numCells, h.cellStartIndex, hcells]
  simp only [ClusterDescription.mk.injEq, true_and, Option.getD_some]
  congr 1
  apply List.ext_getElem
  · simp
  · intro j h1 h2
    simp only [List.length_map] at h2
    simp only [List.getElem_map, List.getElem_range]
    apply cellWith_loaded _ _ _ _ _ _ (h.stored j h2) _ (h.tokens j h2)
    intro i hi
    obtain ⟨k, hk, e1, e2⟩ := h.targets j h2 i hi
    rw [e1, (h.stored k hk).id, e2]

/-- Appending a loadable cluster keeps the arena closed. -/
theorem closed_loaded (s F : DataConverter) (c : ClusterDescription)
    (cells : List CellDescription) (hC : Closed s.dataTO) (hE : Extends s F)
    (hn : F.dataTO.numClusters = s.dataTO.numClusters + 1)
    (hx : F.dataTO.numCells = s.dataTO.numCells + cells.length)
    (h : ClusterLoaded s c cells F) : Closed F.dataTO := by
  refine ⟨?_, ?_, ?_⟩
  · intro i hi hlen
    by_cases hlt : i < s.dataTO.numClusters
    · rw [hE.clusters i hlt] at hlen ⊢
      have := hC.names i hlt hlen
      have := hE.numStringBytes
      omega
    · have : i = s.dataTO.numClusters := by omega
      subst this
      exact h.nameInside hlen
  · intro x hxlt
    by_cases hlt : x < s.dataTO.numCells
    · rw [hE.cells x hlt]
      exact textsInside_mono (hC.texts x hlt) hE.numStringBytes
    · obtain ⟨j, rfl⟩ : ∃ j, x = s.dataTO.numCells + j := ⟨x - s.dataTO.numCells, by omega⟩
      exact (h.stored j (by omega)).texts
  · intro x hxlt k hk
    by_cases hlt : x < s.dataTO.numCells
    · rw [hE.cells x hlt] at hk ⊢
      have := hC.connections x hlt k hk
      have := hE.numCells
      omega
    · obtain ⟨j, rfl⟩ : ∃ j, x = s.dataTO.numCells + j := ⟨x - s.dataTO.numCells, by omega⟩
      have hj : j < cells.length := by omega
      rw [(h.stored j hj).numConnections] at hk
      obtain ⟨k', hk', e1, _⟩ := h.targets j hj k hk
      rw [e1, hx]
      omega

theorem appends_same (s : DataConverter) : Appends s s :=
  ⟨extends_same s, fun t h1 h2 => absurd h2 (by omega)⟩

theorem appends_andThen {a b c : DataConverter} (h1 : Appends a b) (h2 : Appends b c) :
    Appends a c := by
  refine ⟨extends_andThen h1.keeps h2.keeps, ?_⟩
  intro t ht1 ht2
  by_cases hb : t < b.dataTO.numTokens
  · rw [h2.keeps.tokens t hb]
    exact h1.fresh t ht1 hb
  · have := h2.fresh t (by omega) ht2
    have := h1.keeps.numCells
    omega

/-- Tokens owned by cells other than `c` do not show among the tokens of `c`. -/
theorem tokensOfFirst_add (d : DataAccessTO) (size m k c : Nat)
    (h : ∀ t, m ≤ t → t < m + k → (d.tokens t).cellIndex ≠ c) :
    tokensOfFirst d size (m + k) c = tokensOfFirst d size m c := by
  induction k with
  | zero => rfl
  | succ k ih =>
    rw [← Nat.add_assoc, tokensOfFirst_succ, if_neg (h (m + k) (by omega) (by omega)),
      List.append_nil]
    exact ih (fun t h1 h2 => h t h1 (by omega))

/-- What was appended behind a closed arena with the layout does not change
how a cluster that was live reads back. -/
theorem readCluster_appends (s s' : DataConverter) (size : Nat) (hL : Layout s.dataTO)
    (hC : Closed s.dataTO) (hA : Appends s s') (i : Nat) (hi : i < s.dataTO.numClusters) :
    readCluster s'.dataTO size i = readCluster s.dataTO size i := by
  unfold readCluster clusterWith
  rw [hA.keeps.clusters i hi, readClusterMetadata_congr (hC.names i hi) hA.keeps.stringBytes]
  simp only [ClusterDescription.mk.injEq, true_and]
  congr 1
  apply List.map_congr_left
  intro j hj
  rw [List.mem_range] at hj
  have hx : (s.dataTO.clusters i).cellStartIndex + j < s.dataTO.numCells := by
    rcases hL.1 i hi with h0 | h0 <;> omega
  generalize (s.dataTO.clusters i).cellStartIndex + j = x at hx
  have htok : tokensOf s'.dataTO size x = tokensOf s.dataTO size x := by
    unfold tokensOf
    have hle := hA.keeps.numTokens
    obtain ⟨k, hk⟩ : ∃ k, s'.dataTO.numTokens = s.dataTO.numTokens + k :=
      ⟨s'.dataTO.numTokens - s.dataTO.numTokens, by omega⟩
    rw [hk, tokensOfFirst_add]
    · exact tokensOfFirst_congr _ _ _ _ _ hA.keeps.tokens
    · intro t h1 h2
      have := hA.fresh t h1 (by omega)
      omega
  rw [htok]
  unfold cellWith readCell
  rw [hA.keeps.cells x hx, readCellMetadata_congr (hC.texts x hx) hA.keeps.stringBytes]
  simp only [CellDescription.mk.injEq, true_and, and_true, Option.some.injEq]
  apply List.map_congr_left
  intro k hk
  rw [List.mem_range] at hk
  rw [hA.keeps.cells _ (hC.connections x hx k hk)]


/-! ## Loading a snapshot -/

theorem andThen_of_normal {σ : Type} (r : Step σ) (g : σ → Step σ) (h : r.failure = none) :
    r.andThen g = g r.state := by
  unfold Step.andThen
  rw [h]

theorem cellDescription_ofChange_ofDescription (cell : CellDescription) :
    CellDescription.ofChange (CellChangeDescription.ofDescription cell) = cell := rfl

/-- The description `addCluster` is given for an Added cluster of a snapshot
is the cluster itself, when it has cells. -/
theorem clusterDescription_ofChange_ofDescription (c : ClusterDescription)
    (cells : List CellDescription) (hcells : c.cells = some cells) (hne : cells ≠ []) :
    ClusterDescription.ofChange (ClusterChangeDescription.ofDescription c) = c := by
  have key : ∀ (l : List CellDescription) (acc : Option (List CellDescription)),
      (l.map (fun cell => (⟨TrackerState.Added, CellChangeDescription.ofDescription cell⟩ :
          ChangeTracker CellChangeDescription))).foldl
        (fun cells cellTracker =>
          if !cellTracker.isDeleted then
            some (cells.getD [] ++ [CellDescription.ofChange cellTracker.getValue])
          else cells) acc
        = if l = [] then acc else some (acc.getD [] ++ l) := by
    intro l
    induction l with
    | nil => intro acc; rfl
    | cons x xs ih =>
      intro acc
      simp only [List.map_cons, List.foldl_cons]
      rw [ih]
      have e : (!(⟨TrackerState.Added, CellChangeDescription.ofDescription x⟩ :
          ChangeTracker CellChangeDescription).isDeleted) = true := rfl
      rw [if_pos e]
      by_cases hxs : xs = []
      · subst hxs
        simp
        rfl
      · rw [if_neg hxs]
        simp
        rfl
  obtain ⟨id, pos, vel, angle, angularVel, metadata, ccells⟩ := c
  simp only at hcells
  subst hcells
  unfold ClusterDescription.ofChange ClusterChangeDescription.ofDescription
  simp only [Option.getD_some]
  rw [key cells none, if_neg hne]
  rfl

theorem particleDescription_ofChange_ofDescription (p : ParticleDescription) :
    ParticleDescription.ofChange (ParticleChangeDescription.ofDescription p) = p := rfl

/-- Nothing is marked by a ChangeSet that loads a snapshot. -/
theorem marked_ofDescription (g : DataDescription) (s : DataConverter) :
    marked (DataChangeDescription.ofDescription g) s = s := by
  unfold marked DataChangeDescription.ofDescription
  simp only
  have k1 : ∀ (l : List ClusterDescription) (st : DataConverter),
      (l.map (fun c => (⟨TrackerState.Added, ClusterChangeDescription.ofDescription c⟩ :
        ChangeTracker ClusterChangeDescription))).foldl updateData_markCluster st = st := by
    intro l
    induction l with
    | nil => intro st; rfl
    | cons x xs ih =>
      intro st
      simp only [List.map_cons, List.foldl_cons]
      exact ih _
  have k2 : ∀ (l : List ParticleDescription) (st : DataConverter),
      (l.map (fun p => (⟨TrackerState.Added, ParticleChangeDescription.ofDescription p⟩ :
        ChangeTracker ParticleChangeDescription))).foldl updateData_markParticle st = st := by
    intro l
    induction l with
    | nil => intro st; rfl
    | cons x xs ih =>
      intro st
      simp only [List.map_cons, List.foldl_cons]
      exact ih _
  rw [k1, k2]

/-- On the empty arena the delete and modify phases do nothing. -/
theorem processModifications_empty (numberGen : NumberGenerator)
    (parameters : SimulationParameters) (cudaConstants : CudaConstants) (limits : ArrayLimits) :
    processModifications (processDeletions
        (DataConverter.create DataAccessTO.empty numberGen parameters cudaConstants limits))
      = ⟨DataConverter.create DataAccessTO.empty numberGen parameters cudaConstants limits,
          none⟩ := rfl


theorem Layout.tokensHosted {d : DataAccessTO} (hL : Layout d) (hT : TokensOwned d) :
    TokensHosted d := by
  intro t ht
  obtain ⟨i, hi, hic⟩ := hT t ht
  exact hL.cell_lt i hi _ hic

/-- One loadable cluster appended: everything the loading loop keeps track
of. -/
theorem addCluster_loadable (c : ClusterDescription) (s : DataConverter)
    (hload : c.Loadable)
    (hroom : s.dataTO.numClusters < s.cudaConstants.MAX_CLUSTERS)
    (hroomCells : s.dataTO.numCells + cellCount c ≤ s.cudaConstants.MAX_CELLS)
    (hL : Layout s.dataTO) (hT : TokensOwned s.dataTO) (hC : Closed s.dataTO) :
    (addCluster c s).failure = none
    ∧ Appends s (addCluster c s).state
    ∧ Layout (addCluster c s).state.dataTO
    ∧ TokensOwned (addCluster c s).state.dataTO
    ∧ Closed (addCluster c s).state.dataTO
    ∧ (addCluster c s).state.dataTO.numClusters = s.dataTO.numClusters + 1
    ∧ (addCluster c s).state.dataTO.numCells = s.dataTO.numCells + cellCount c
    ∧ (addCluster c s).state.dataTO.numParticles = s.dataTO.numParticles
    ∧ readCluster (addCluster c s).state.dataTO s.parameters.tokenMemorySize
        s.dataTO.numClusters = c.normalize s.limits s.parameters.tokenMemorySize := by
  obtain ⟨cells, hcells⟩ := Option.isSome_iff_exists.mp hload.2.2.2.2.1
  have hne : cells ≠ [] := by
    have := hload.2.2.2.2.2.1
    rw [hcells] at this
    exact this
  have hcount : cellCount c = cells.length := by
    unfold cellCount
    rw [hcells]
    rfl
  rw [hcount] at hroomCells ⊢
  obtain ⟨hok, hCL⟩ := addCluster_loaded c s cells hcells hload hroom hroomCells
    (hL.tokensHosted hT)
  obtain ⟨n1, n2, n3, _⟩ := addCluster_normal_spec c s cells hcells hne hok
  obtain ⟨_, _, t3⟩ := addCluster_normal_tokens c s cells hcells hok
  have hE := extends_addCluster c s
  obtain ⟨l1, l2⟩ := layout_addCluster c s cells hcells hne hok hL hT
  exact ⟨hok, ⟨hE, fun t h1 h2 => (t3 t h1 h2).1⟩, l1, l2,
    closed_loaded s _ c cells hC hE n1 n2 hCL, n1, n2, n3,
    readCluster_loaded s _ c cells hcells hCL⟩

/-- The cluster loop of the add phase over the clusters of a snapshot. -/
theorem load_clusters (cs : List ClusterDescription) (s : DataConverter)
    (hload : ∀ c, c ∈ cs → c.Loadable)
    (hroom : s.dataTO.numClusters + cs.length ≤ s.cudaConstants.MAX_CLUSTERS)
    (hroomCells : s.dataTO.numCells + (cs.map cellCount).sum ≤ s.cudaConstants.MAX_CELLS)
    (hL : Layout s.dataTO) (hT : TokensOwned s.dataTO) (hC : Closed s.dataTO) :
    (forEach (cs.map (fun c => (⟨TrackerState.Added, ClusterChangeDescription.ofDescription c⟩ :
        ChangeTracker ClusterChangeDescription))) updateData_addCluster s).failure = none
    ∧ Appends s (forEach (cs.map (fun c =>
        (⟨TrackerState.Added, ClusterChangeDescription.ofDescription c⟩ :
          ChangeTracker ClusterChangeDescription))) updateData_addCluster s).state
    ∧ Layout (forEach (cs.map (fun c =>
        (⟨TrackerState.Added, ClusterChangeDescription.ofDescription c⟩ :
          ChangeTracker ClusterChangeDescription))) updateData_addCluster s).state.dataTO
    ∧ TokensOwned (forEach (cs.map (fun c =>
        (⟨TrackerState.Added, ClusterChangeDescription.ofDescription c⟩ :
          ChangeTracker ClusterChangeDescription))) updateData_addCluster s).state.dataTO
    ∧ (forEach (cs.map (fun c =>
        (⟨TrackerState.Added, ClusterChangeDescription.ofDescription c⟩ :
          ChangeTracker ClusterChangeDescription))) updateData_addCluster
          s).state.dataTO.numClusters = s.dataTO.numClusters + cs.length
    ∧ (forEach (cs.map (fun c =>
        (⟨TrackerState.Added, ClusterChangeDescription.ofDescription c⟩ :
          ChangeTracker ClusterChangeDescription))) updateData_addCluster
          s).state.dataTO.numParticles = s.dataTO.numParticles
    ∧ ∀ k (hk : k < cs.length),
        readCluster (forEach (cs.map (fun c =>
          (⟨TrackerState.Added, ClusterChangeDescription.ofDescription c⟩ :
            ChangeTracker ClusterChangeDescription))) updateData_addCluster s).state.dataTO
          s.parameters.tokenMemorySize (s.dataTO.numClusters + k)
        = cs[k].normalize s.limits s.parameters.tokenMemorySize := by
  induction cs generalizing s with
  | nil =>
    exact ⟨rfl, appends_same s, hL, hT, rfl, rfl, fun k hk => absurd hk (by simp)⟩
  | cons c cs ih =>
    have hcl := hload c (List.mem_cons_self _ _)
    obtain ⟨cells, hcells⟩ := Option.isSome_iff_exists.mp hcl.2.2.2.2.1
    have hne : cells ≠ [] := by
      have := hcl.2.2.2.2.2.1
      rw [hcells] at this
      exact this
    simp only [List.length_cons, List.map_cons, List.sum_cons] at hroom hroomCells
    have hstep : updateData_addCluster
        (⟨TrackerState.Added, ClusterChangeDescription.ofDescription c⟩ :
          ChangeTracker ClusterChangeDescription) s = addCluster c s := by
      have hA : (⟨TrackerState.Added, ClusterChangeDescription.ofDescription c⟩ :
          ChangeTracker ClusterChangeDescription).isAdded = true := rfl
      unfold updateData_addCluster
      rw [if_pos hA]
      show addCluster (ClusterDescription.ofChange (ClusterChangeDescription.ofDescription c)) s
        = addCluster c s
      rw [clusterDescription_ofChange_ofDescription c cells hcells hne]
    obtain ⟨a1, a2, a3, a4, a5, a6, a7, a8, a9⟩ :=
      addCluster_loadable c s hcl (by omega) (by omega) hL hT hC
    rw [List.map_cons, forEach_cons, hstep, andThen_of_normal _ _ a1]
    obtain ⟨b1, b2, b3, b4, b5, b6, b7⟩ := ih (addCluster c s).state
      (fun c' h => hload c' (List.mem_cons_of_mem _ h))
      (by rw [a6, a2.keeps.cudaConstants]; omega)
      (by rw [a7, a2.keeps.cudaConstants]; omega) a3 a4 a5
    refine ⟨b1, appends_andThen a2 b2, b3, b4, ?_, ?_, ?_⟩
    · rw [b5, a6, List.length_cons]
      omega
    · rw [b6, a8]
    · intro k hk
      cases k with
      | zero =>
        simp only [Nat.add_zero, List.getElem_cons_zero]
        rw [readCluster_appends _ _ _ a3 a5 b2 _ (by rw [a6]; omega)]
        exact a9
      | succ k =>
        simp only [List.getElem_cons_succ]
        have := b7 k (by simpa using hk)
        rw [a6, a2.keeps.parameters, a2.keeps.limits] at this
        rw [← this]
        congr 1
        omega

/-- The particle loop of the add phase over the particles of a snapshot does
not throw. -/
theorem load_particles_normal (ps : List ParticleDescription) (s : DataConverter)
    (hload : ∀ p, p ∈ ps → p.Loadable)
    (hroom : s.dataTO.numParticles + ps.length ≤ s.cudaConstants.MAX_PARTICLES) :
    (forEach (ps.map (fun p => (⟨TrackerState.Added, ParticleChangeDescription.ofDescription p⟩ :
        ChangeTracker ParticleChangeDescription))) updateData_addParticle s).failure = none := by
  induction ps generalizing s with
  | nil => rfl
  | cons p ps ih =>
    have hp := hload p (List.mem_cons_self _ _)
    simp only [List.length_cons] at hroom
    have hstep : updateData_addParticle
        (⟨TrackerState.Added, ParticleChangeDescription.ofDescription p⟩ :
          ChangeTracker ParticleChangeDescription) s = addParticle p s := by
      have hA : (⟨TrackerState.Added, ParticleChangeDescription.ofDescription p⟩ :
          ChangeTracker ParticleChangeDescription).isAdded = true := rfl
      unfold updateData_addParticle
      rw [if_pos hA]
      rfl
    obtain ⟨a1, a2, _, _, _, a7, _⟩ := addParticle_spec p s (by omega) hp.2.1 hp.2.2.1 hp.2.2.2
    rw [List.map_cons, forEach_cons, hstep, andThen_of_normal _ _ a1]
    apply ih _ (fun p' h => hload p' (List.mem_cons_of_mem _ h))
    have e1 := congrArg DataAccessTO.numParticles a2
    simp only at e1
    rw [e1, a7]
    omega

theorem addedParticlesOf_ofDescription (ps : List ParticleDescription) :
    addedParticlesOf (ps.map (fun p =>
      (⟨TrackerState.Added, ParticleChangeDescription.ofDescription p⟩ :
        ChangeTracker ParticleChangeDescription))) = ps := by
  unfold addedParticlesOf
  induction ps with
  | nil => rfl
  | cons p ps ih =>
    simp only [List.map_cons]
    rw [List.filter_cons_of_pos (by rfl), List.map_cons, ih]
    rfl

theorem readCluster_congr (d d' : DataAccessTO) (size i : Nat)
    (h1 : d'.clusters = d.clusters) (h2 : d'.cells = d.cells) (h3 : d'.tokens = d.tokens)
    (h4 : d'.numTokens = d.numTokens) (h5 : d'.stringBytes = d.stringBytes) :
    readCluster d' size i = readCluster d size i := by
  unfold readCluster clusterWith cellWith readCell readClusterMetadata readCellMetadata tokensOf
    tokensOfFirst
  rw [h1, h2, h3, h4, h5]


theorem closed_empty : Closed DataAccessTO.empty :=
  ⟨fun i hi => absurd hi (Nat.not_lt_zero i), fun c hc => absurd hc (Nat.not_lt_zero c),
    fun c hc => absurd hc (Nat.not_lt_zero c)⟩

/-- Loading a loadable snapshot into the empty arena and reading it back: the
load does not throw and the read returns the normal form of the snapshot. -/
theorem load_read (g : DataDescription) (numberGen : NumberGenerator)
    (parameters : SimulationParameters) (cudaConstants : CudaConstants) (limits : ArrayLimits)
    (hload : g.Loadable cudaConstants) :
    (updateData (DataChangeDescription.ofDescription g)
      (DataConverter.create DataAccessTO.empty numberGen parameters cudaConstants
        limits)).failure = none
    ∧ getDataDescription (updateData (DataChangeDescription.ofDescription g)
        (DataConverter.create DataAccessTO.empty numberGen parameters cudaConstants
          limits)).state
      = Except.ok (g.normalize limits parameters.tokenMemorySize) := by
  obtain ⟨hlc, hlp, hrc, hrcells, hrp⟩ := hload
  have hnone : ∀ (s : DataConverter) (f : DataConverter → Step DataConverter),
      (⟨s, none⟩ : Step DataConverter).andThen f = f s := fun _ _ => rfl
  rw [updateData_eq, marked_ofDescription, processModifications_empty, hnone]
  have hclusters : (DataChangeDescription.ofDescription g).clusters
      = (g.clusters.getD []).map (fun c =>
          (⟨TrackerState.Added, ClusterChangeDescription.ofDescription c⟩ :
            ChangeTracker ClusterChangeDescription)) := rfl
  have hparticles : (DataChangeDescription.ofDescription g).particles
      = (g.particles.getD []).map (fun p =>
          (⟨TrackerState.Added, ParticleChangeDescription.ofDescription p⟩ :
            ChangeTracker ParticleChangeDescription)) := rfl
  rw [hclusters, hparticles]
  generalize hcs : g.clusters.getD [] = cs at hlc hrc hrcells ⊢
  generalize hps : g.particles.getD [] = ps at hlp hrp ⊢
  obtain ⟨b1, b2, b3, b4, b5, b6, b7⟩ := load_clusters cs
    (DataConverter.create DataAccessTO.empty numberGen parameters cudaConstants limits) hlc
    (by
      show 0 + cs.length ≤ cudaConstants.MAX_CLUSTERS
      omega)
    (by
      show 0 + (cs.map cellCount).sum ≤ cudaConstants.MAX_CELLS
      have : cs.map cellCount = cs.map (fun c => (c.cells.getD []).length) := rfl
      rw [this]
      omega)
    (show Layout DataAccessTO.empty by decide) (show TokensOwned DataAccessTO.empty by decide)
    closed_empty
  rw [andThen_of_normal _ _ b1]
  generalize (forEach (cs.map (fun c =>
    (⟨TrackerState.Added, ClusterChangeDescription.ofDescription c⟩ :
      ChangeTracker ClusterChangeDescription))) updateData_addCluster
    (DataConverter.create DataAccessTO.empty numberGen parameters cudaConstants limits)).state
    = F1 at b2 b3 b4 b5 b6 b7 ⊢
  have hcc : F1.cudaConstants = cudaConstants := b2.keeps.cudaConstants
  have hpar : F1.parameters = parameters := b2.keeps.parameters
  have hnp : F1.dataTO.numParticles = 0 := b6
  have hnc : F1.dataTO.numClusters = cs.length := by
    rw [b5]
    show 0 + cs.length = cs.length
    omega
  have hok := load_particles_normal ps F1 hlp (by rw [hnp, hcc]; omega)
  refine ⟨hok, ?_⟩
  have hP := particlesAdded_loop _ F1 hok
  rw [addedParticlesOf_ofDescription] at hP
  obtain ⟨l1, l2⟩ := layout_addParticles _ F1 b3 b4 hok
  generalize (forEach (ps.map (fun p =>
    (⟨TrackerState.Added, ParticleChangeDescription.ofDescription p⟩ :
      ChangeTracker ParticleChangeDescription))) updateData_addParticle F1).state = F
    at hP l1 l2 ⊢
  rw [getDataDescription_eq F
    (fun i j c hi hj hci hcj => l1.2.1 i hi j hj c (l1.cell_lt i hi c hci) hci hcj) l2]
  unfold DataDescription.normalize
  rw [hps, hcs]
  congr 3
  · apply List.ext_getElem
    · simp [hP.numClusters, hnc]
    · intro k h1 h2
      simp only [List.length_map] at h2
      simp only [List.getElem_map, List.getElem_range]
      rw [readCluster_congr F1.dataTO F.dataTO _ k hP.clusters hP.cells hP.tokens hP.numTokens
        hP.stringBytes, hP.parameters, hpar]
      have := b7 k h2
      have e0 : (DataConverter.create DataAccessTO.empty numberGen parameters cudaConstants
          limits).dataTO.numClusters + k = k := by
        show 0 + k = k
        omega
      rw [e0] at this
      exact this
  · apply List.ext_getElem
    · simp [hP.numParticles, hnp]
    · intro k h1 h2
      simp only [List.length_map] at h2
      simp only [List.getElem_map, List.getElem_range]
      obtain ⟨p1, p2⟩ := hP.particle k h2
      have e0 : F1.dataTO.numParticles + k = k := by omega
      rw [e0] at p1 p2
      rw [p1, p2 (hlp _ (List.getElem_mem _)).1]
      rfl


/-! ## The round trip -/

/-- The fixture with the angular velocity 1.25 holds single-precision values
only. -/
theorem completeDataFloat_floatValued : completeDataFloat.FloatValued := by
  decide!

/-- C28. For every cluster description whose cell list is absent and every
converter state, `addCluster` returns normally and the state after the call is
the state before it: the five live counts, every arena element, the string
pool and the id generator are unchanged; no cluster is appended and no
capacity error is raised, whatever the live counts are. -/
theorem C28_cluster_without_cells_skipped (c : ClusterDescription) (s : DataConverter)
    (h : c.cells = none) :
    (addCluster c s).failure = none ∧ (addCluster c s).state = s := by
  unfold addCluster
  simp only [h]
  exact ⟨trivial, trivial⟩

/-- C28 on an example: on an arena whose cluster array is full, a cluster
description without a cell list is skipped; the cluster count stays 1 and the
generator has handed out no id. -/
theorem C28_cluster_without_cells_skipped_witness :
    (sampleCluster 0 none).cells = none
    ∧ fullConverter.dataTO.numClusters = fullConverter.cudaConstants.MAX_CLUSTERS
    ∧ (addCluster (sampleCluster 0 none) fullConverter).failure = none
    ∧ (addCluster (sampleCluster 0 none) fullConverter).state = fullConverter :=
  ⟨rfl, rfl, (C28_cluster_without_cells_skipped (sampleCluster 0 none) fullConverter rfl).1,
    (C28_cluster_without_cells_skipped (sampleCluster 0 none) fullConverter rfl).2⟩


/-! ## From a cluster delta to a cluster description -/

/-- The cell list built by the conversion of a cluster delta, from any list
built so far. -/
theorem ofChange_cells_foldl (ts : List (ChangeTracker CellChangeDescription))
    (acc : Option (List CellDescription)) :
    ts.foldl
      (fun cells cellTracker =>
        if !cellTracker.isDeleted then
          some (cells.getD [] ++ [CellDescription.ofChange cellTracker.getValue])
        else cells) acc
      = if (ts.filter (fun t => !t.isDeleted)).isEmpty then acc
        else some (acc.getD [] ++ (ts.filter (fun t => !t.isDeleted)).map
          (fun t => CellDescription.ofChange t.getValue)) := by
  induction ts generalizing acc with
  | nil => rfl
  | cons t ts ih =>
    simp only [List.foldl_cons]
    rw [ih]
    cases hd : t.isDeleted
    · have e : (!false) = true := rfl
      simp only [e, if_true]
      rw [List.filter_cons_of_pos (by rw [hd]; rfl)]
      simp only [List.map_cons, Option.getD_some, List.append_assoc, List.singleton_append]
      cases hr : ts.filter (fun t => !t.isDeleted) with
      | nil => simp
      | cons x xs => simp
    · have e : (!true) = false := rfl
      simp only [e, Bool.false_eq_true, if_false]
      rw [List.filter_cons_of_neg (by rw [hd]; simp)]

/-- C29. Converting a cluster delta to a cluster description keeps the id and
the optional position, velocity, angle, angular velocity and metadata as they
are, present or absent; the cell list holds exactly the cells whose tracker is
not Deleted, in tracker order, each converted field by field; and when there is
no such cell the cell list is absent, not empty. -/
theorem C29_cluster_description_of_change (change : ClusterChangeDescription) :
    (ClusterDescription.ofChange change).id = change.id
    ∧ (ClusterDescription.ofChange change).pos = change.pos
    ∧ (ClusterDescription.ofChange change).vel = change.vel
    ∧ (ClusterDescription.ofChange change).angle = change.angle
    ∧ (ClusterDescription.ofChange change).angularVel = change.angularVel
    ∧ (ClusterDescription.ofChange change).metadata = change.metadata
    ∧ (ClusterDescription.ofChange change).cells
        = optList ((change.cells.filter (fun t => !t.isDeleted)).map
            (fun t => CellDescription.ofChange t.getValue))
    ∧ ∀ cell : CellChangeDescription,
        (CellDescription.ofChange cell).id = cell.id
        ∧ (CellDescription.ofChange cell).pos = cell.pos
        ∧ (CellDescription.ofChange cell).energy = cell.energy
        ∧ (CellDescription.ofChange cell).maxConnections = cell.maxConnections
        ∧ (CellDescription.ofChange cell).connectingCells = cell.connectingCells
        ∧ (CellDescription.ofChange cell).tokenBlocked = cell.tokenBlocked
        ∧ (CellDescription.ofChange cell).tokenBranchNumber = cell.tokenBranchNumber
        ∧ (CellDescription.ofChange cell).metadata = cell.metadata
        ∧ (CellDescription.ofChange cell).cellFeature = cell.cellFeatures
        ∧ (CellDescription.ofChange cell).tokens = cell.tokens
        ∧ (CellDescription.ofChange cell).tokenUsages = cell.tokenUsages := by
  refine ⟨rfl, rfl, rfl, rfl, rfl, rfl, ?_, fun cell =>
    ⟨rfl, rfl, rfl, rfl, rfl, rfl, rfl, rfl, rfl, rfl, rfl⟩⟩
  unfold ClusterDescription.ofChange
  simp only
  rw [ofChange_cells_foldl]
  unfold optList
  cases change.cells.filter (fun t => !t.isDeleted) with
  | nil => rfl
  | cons x xs => rfl


/-! ## The token range start in the cluster scan -/

/-- C23, failing input. In `twoClusterArenaB` cluster 100 (two tokens) precedes
cluster 200 (token range starting at 2, one token).  With cluster 100 marked
deleted, `processDeletions` moves cluster 200 to index 0 and leaves one live
token, but the token range start stored at index 0 is still 2, not 2 - 2 = 0:
the cluster is copied to its new slot before the start is decremented, and the
decrement lands in the abandoned slot 1. -/
theorem C23_shifted_cluster_keeps_token_start :
    (deleteAB.dataTO.clusters 0).id = 100 ∧ (deleteAB.dataTO.clusters 0).numTokens = 2
    ∧ (deleteAB.dataTO.clusters 1).id = 200 ∧ (deleteAB.dataTO.clusters 1).tokenStartIndex = 2
    ∧ deleteAB.clusterIdsToDelete = [100]
    ∧ (processDeletions deleteAB).dataTO.numClusters = 1
    ∧ (processDeletions deleteAB).dataTO.numTokens = 1
    ∧ ((processDeletions deleteAB).dataTO.clusters 0).id = 200
    ∧ ((processDeletions deleteAB).dataTO.clusters 0).numTokens = 1
    ∧ ((processDeletions deleteAB).dataTO.clusters 0).tokenStartIndex = 2
    ∧ ((processDeletions deleteAB).dataTO.clusters 1).tokenStartIndex = 0 := by
  decide


/-! ## Deltas of a cell -/

/-- C24, failing input and the rule behind it.  On `oneTokenArena`, whose cell
7 is not blocked, the ChangeSet `blockChange` carries a delta for cell 7 in
which the blocked flag is present and true; `updateData` returns normally and
the cell is still not blocked.  For every delta, cell and converter state the
cell overload of `applyChangeDescription` leaves the blocked flag as it was,
while position, max connections, energy, branch number, usage counter, feature
and metadata colour take the value of the delta when it is present. -/
theorem C24_blocked_flag_delta_dropped :
    ((oneTokenArena.cells 0).id = 7 ∧ (oneTokenArena.cells 0).tokenBlocked = false
      ∧ (updateData blockChange (sampleConverter oneTokenArena 4 4 4 4)).failure = none
      ∧ ((marked blockChange (sampleConverter oneTokenArena 4 4 4 4)).cellToModifyById.lookup
          7).map (fun cellChanges => cellChanges.tokenBlocked) = some (some true)
      ∧ ((updateData blockChange
          (sampleConverter oneTokenArena 4 4 4 4)).state.dataTO.cells 0).tokenBlocked = false)
    ∧ ∀ (cellChanges : CellChangeDescription) (cellTO : CellAccessTO) (s : DataConverter),
        (applyChangeDescription_cell cellChanges cellTO s).1.tokenBlocked = cellTO.tokenBlocked
        ∧ (applyChangeDescription_cell cellChanges cellTO s).1.pos
            = (cellChanges.pos.map convert).getD cellTO.pos
        ∧ (applyChangeDescription_cell cellChanges cellTO s).1.maxConnections
            = cellChanges.maxConnections.getD cellTO.maxConnections
        ∧ (applyChangeDescription_cell cellChanges cellTO s).1.energy
            = cellChanges.energy.getD cellTO.energy
        ∧ (applyChangeDescription_cell cellChanges cellTO s).1.branchNumber
            = cellChanges.tokenBranchNumber.getD cellTO.branchNumber
        ∧ (applyChangeDescription_cell cellChanges cellTO s).1.tokenUsages
            = cellChanges.tokenUsages.getD cellTO.tokenUsages
        ∧ (applyChangeDescription_cell cellChanges cellTO s).1.cellFunctionType
            = (cellChanges.cellFeatures.map (fun f => f.type)).getD cellTO.cellFunctionType
        ∧ (applyChangeDescription_cell cellChanges cellTO s).1.metadata.color
            = (cellChanges.metadata.map (fun m => m.color)).getD cellTO.metadata.color := by
  refine ⟨by decide, ?_⟩
  intro ch c s
  rcases ch with ⟨id, pos, energy, maxC, conn, blocked, branch, md, feat, toks, usages⟩
  cases pos <;> cases energy <;> cases maxC <;> cases branch <;> cases feat <;> cases md <;>
    cases usages <;>
    first
    | exact ⟨rfl, rfl, rfl, rfl, rfl, rfl, rfl, rfl⟩
    | (refine ⟨rfl, rfl, rfl, rfl, rfl, rfl, rfl, ?_⟩
       simp only [applyChangeDescription_cell, Option.map_some', Option.getD_some]
       rw [writeCellMetadata_eq])


/-! ## Round trip of the engine settings -/

theorem getCudaConstants_ofCudaConstants (c : CudaSettings) :
    (EngineGpuData.ofCudaConstants c).getCudaConstants
      = Except.ok
        { NUM_THREADS_PER_BLOCK := c.NUM_THREADS_PER_BLOCK
          NUM_BLOCKS := c.NUM_BLOCKS
          MAX_CLUSTERS := c.MAX_CLUSTERS
          MAX_CELLS := c.MAX_CELLS
          MAX_PARTICLES := c.MAX_PARTICLES
          MAX_TOKENS := c.MAX_TOKENS
          MAX_CELLPOINTERS := wrapInt32 (c.MAX_CELLS * 10)
          MAX_CLUSTERPOINTERS := wrapInt32 (c.MAX_CLUSTERS * 10)
          MAX_PARTICLEPOINTERS := wrapInt32 (c.MAX_PARTICLES * 10)
          MAX_TOKENPOINTERS := wrapInt32 (c.MAX_TOKENS * 10)
          DYNAMIC_MEMORY_SIZE := c.DYNAMIC_MEMORY_SIZE
          METADATA_DYNAMIC_MEMORY_SIZE := c.METADATA_DYNAMIC_MEMORY_SIZE } := by
  simp [EngineGpuData.getCudaConstants, EngineGpuData.ofCudaConstants, insert_or_assign, mapAt,
    List.lookup, numThreadsPerBlock_key, numBlocks_key, maxClusters_key, maxCells_key,
    maxParticles_key, maxTokens_key, dynamicMemorySize_key, metadataDynamicMemorySize_key]

theorem wrapInt32_of_isInt32 (x : Int) (h : isInt32 x) : wrapInt32 x = x := by
  unfold isInt32 at h
  unfold wrapInt32
  omega

/-- C30, counterexample.  The settings `largeSettings` are 32-bit integers with
`MAX_CELLS = 300000000`; the round trip returns normally with
`MAX_CELLPOINTERS = -1294967296`, which is not `10 * MAX_CELLS = 3000000000`. -/
theorem C30_pointer_maximum_overflows :
    largeSettings.Valid ∧ largeSettings.MAX_CELLS = 300000000
    ∧ ((EngineGpuData.ofCudaConstants largeSettings).getCudaConstants.toOption.map
        (fun r => r.MAX_CELLPOINTERS)) = some (-1294967296)
    ∧ ((EngineGpuData.ofCudaConstants largeSettings).getCudaConstants.toOption.map
        (fun r => r.MAX_CELLPOINTERS)) ≠ some (10 * largeSettings.MAX_CELLS) := by
  rw [getCudaConstants_ofCudaConstants]
  decide

/-- C30, amended.  For settings whose four element maxima times 10 are 32-bit
integers, `EngineGpuData(c).getCudaConstants()` returns normally, the eight
stored settings are those of `c`, and the four pointer maxima are exactly 10
times the element maxima, whatever pointer maxima `c` holds. -/
theorem C30_settings_round_trip (c : CudaSettings)
    (hcells : isInt32 (c.MAX_CELLS * 10)) (hclusters : isInt32 (c.MAX_CLUSTERS * 10))
    (hparticles : isInt32 (c.MAX_PARTICLES * 10)) (htokens : isInt32 (c.MAX_TOKENS * 10)) :
    ∃ r, (EngineGpuData.ofCudaConstants c).getCudaConstants = Except.ok r
      ∧ r.NUM_THREADS_PER_BLOCK = c.NUM_THREADS_PER_BLOCK
      ∧ r.NUM_BLOCKS = c.NUM_BLOCKS
      ∧ r.MAX_CLUSTERS = c.MAX_CLUSTERS
      ∧ r.MAX_CELLS = c.MAX_CELLS
      ∧ r.MAX_PARTICLES = c.MAX_PARTICLES
      ∧ r.MAX_TOKENS = c.MAX_TOKENS
      ∧ r.DYNAMIC_MEMORY_SIZE = c.DYNAMIC_MEMORY_SIZE
      ∧ r.METADATA_DYNAMIC_MEMORY_SIZE = c.METADATA_DYNAMIC_MEMORY_SIZE
      ∧ r.MAX_CELLPOINTERS = 10 * c.MAX_CELLS
      ∧ r.MAX_CLUSTERPOINTERS = 10 * c.MAX_CLUSTERS
      ∧ r.MAX_PARTICLEPOINTERS = 10 * c.MAX_PARTICLES
      ∧ r.MAX_TOKENPOINTERS = 10 * c.MAX_TOKENS := by
  refine ⟨_, getCudaConstants_ofCudaConstants c, rfl, rfl, rfl, rfl, rfl, rfl, rfl, rfl, ?_, ?_,
    ?_, ?_⟩
  · show wrapInt32 (c.MAX_CELLS * 10) = 10 * c.MAX_CELLS
    rw [wrapInt32_of_isInt32 _ hcells]; ring
  · show wrapInt32 (c.MAX_CLUSTERS * 10) = 10 * c.MAX_CLUSTERS
    rw [wrapInt32_of_isInt32 _ hclusters]; ring
  · show wrapInt32 (c.MAX_PARTICLES * 10) = 10 * c.MAX_PARTICLES
    rw [wrapInt32_of_isInt32 _ hparticles]; ring
  · show wrapInt32 (c.MAX_TOKENS * 10) = 10 * c.MAX_TOKENS
    rw [wrapInt32_of_isInt32 _ htokens]; ring

theorem C30_settings_round_trip_witness :
    isInt32 (smallSettings.MAX_CELLS * 10) ∧ smallSettings.MAX_CELLPOINTERS = 5
    ∧ ∃ r, (EngineGpuData.ofCudaConstants smallSettings).getCudaConstants = Except.ok r
      ∧ r.NUM_THREADS_PER_BLOCK = smallSettings.NUM_THREADS_PER_BLOCK
      ∧ r.NUM_BLOCKS = smallSettings.NUM_BLOCKS
      ∧ r.MAX_CLUSTERS = smallSettings.MAX_CLUSTERS
      ∧ r.MAX_CELLS = smallSettings.MAX_CELLS
      ∧ r.MAX_PARTICLES = smallSettings.MAX_PARTICLES
      ∧ r.MAX_TOKENS = smallSettings.MAX_TOKENS
      ∧ r.DYNAMIC_MEMORY_SIZE = smallSettings.DYNAMIC_MEMORY_SIZE
      ∧ r.METADATA_DYNAMIC_MEMORY_SIZE = smallSettings.METADATA_DYNAMIC_MEMORY_SIZE
      ∧ r.MAX_CELLPOINTERS = 10 * smallSettings.MAX_CELLS
      ∧ r.MAX_CLUSTERPOINTERS = 10 * smallSettings.MAX_CLUSTERS
      ∧ r.MAX_PARTICLEPOINTERS = 10 * smallSettings.MAX_PARTICLES
      ∧ r.MAX_TOKENPOINTERS = 10 * smallSettings.MAX_TOKENS :=
  ⟨by decide, rfl,
    C30_settings_round_trip smallSettings (by decide) (by decide) (by decide) (by decide)⟩
/-! ## Connections of a cell without an id of its own -/

/-- C22, the claim as stated fails.  `addCluster` appends `freshIdCluster` to
the arena `staleArena`, which has no live entity, and returns normally: its
first cell, which has the id 0 and declares the connection `[7]`, is stored at
index 0 under the fresh id 1000 with `numConnections = 1`, the cell with id 7
is stored at index 1, and the second loop passes over the first cell because
of its guard `cellDesc.id != 0`, so that its `connectionIndices[0]` is still
the 3 that the slot held before the call and not the index 1 of the cell with
id 7.  The same happens to a cell that shares its id with a later cell of the
cluster: in `twinCluster` both cells have the id 7, the map of the call keeps
the index 1 for it, the second loop resolves the cell at index 1 twice, and the
cell at index 0, which declares the connection `[7]`, keeps the stale 3. -/
theorem C22_connections_of_fresh_id_cell_unresolved :
    (addCluster freshIdCluster (sampleConverter staleArena 4 4 4 4)).failure = none
    ∧ staleArena.numCells = 0
    ∧ byteAt (staleArena.cells 0).connectionIndices 0 = 3
    ∧ (freshIdCluster.cells.getD []).map (fun cell => (cell.id, cell.connectingCells))
        = [(0, some [7]), (7, none)]
    ∧ (addCluster freshIdCluster (sampleConverter staleArena 4 4 4 4)).state.dataTO.numCells = 2
    ∧ ((addCluster freshIdCluster
        (sampleConverter staleArena 4 4 4 4)).state.dataTO.cells 0).id = 1000
    ∧ ((addCluster freshIdCluster
        (sampleConverter staleArena 4 4 4 4)).state.dataTO.cells 1).id = 7
    ∧ ((addCluster freshIdCluster
        (sampleConverter staleArena 4 4 4 4)).state.dataTO.cells 0).numConnections = 1
    ∧ byteAt ((addCluster freshIdCluster
        (sampleConverter staleArena 4 4 4 4)).state.dataTO.cells 0).connectionIndices 0 = 3
    ∧ byteAt ((addCluster freshIdCluster
        (sampleConverter staleArena 4 4 4 4)).state.dataTO.cells 0).connectionIndices 0 ≠ 1
    ∧ (twinCluster.cells.getD []).map (fun cell => (cell.id, cell.connectingCells))
        = [(7, some [7]), (7, none)]
    ∧ (addCluster twinCluster (sampleConverter staleArena 4 4 4 4)).failure = none
    ∧ ((addCluster twinCluster
        (sampleConverter staleArena 4 4 4 4)).state.dataTO.cells 0).id = 7
    ∧ ((addCluster twinCluster
        (sampleConverter staleArena 4 4 4 4)).state.dataTO.cells 1).id = 7
    ∧ ((addCluster twinCluster
        (sampleConverter staleArena 4 4 4 4)).state.dataTO.cells 0).numConnections = 1
    ∧ byteAt ((addCluster twinCluster
        (sampleConverter staleArena 4 4 4 4)).state.dataTO.cells 0).connectionIndices 0 = 3 := by
  decide

/-- C22, amended. For every cluster description whose cells all have non-zero,
pairwise different ids, a call of `addCluster` that returns normally has
appended the cells behind the old ones, the `j`-th at index `numCells + j`
under its own id, and for every such cell `numConnections` is the number of
declared connection ids and `connectionIndices[i]` is the index of the cell,
appended by the same call, whose id is the `i`-th declared connection id. -/
theorem C22_connections_resolved_for_own_ids (c : ClusterDescription) (s : DataConverter)
    (cells : List CellDescription) (hcells : c.cells = some cells)
    (hids : ∀ cell, cell ∈ cells → cell.id ≠ 0)
    (hnd : (cells.map (fun cell => cell.id)).Nodup)
    (hok : (addCluster c s).failure = none) :
    (addCluster c s).state.dataTO.numCells = s.dataTO.numCells + cells.length
    ∧ ∀ j (hj : j < cells.length),
        ((addCluster c s).state.dataTO.cells (s.dataTO.numCells + j)).id = cells[j].id
        ∧ ((addCluster c s).state.dataTO.cells (s.dataTO.numCells + j)).numConnections
            = (cells[j].connectingCells.getD []).length
        ∧ ∀ i (hi : i < (cells[j].connectingCells.getD []).length),
            ∃ k, ∃ hk : k < cells.length,
              byteAt ((addCluster c s).state.dataTO.cells
                (s.dataTO.numCells + j)).connectionIndices i = s.dataTO.numCells + k
              ∧ cells[k].id = (cells[j].connectingCells.getD [])[i]
              ∧ ((addCluster c s).state.dataTO.cells (s.dataTO.numCells + k)).id
                  = (cells[j].connectingCells.getD [])[i] := by
  obtain ⟨hroom, hpos, hvel, hangle, hangvel⟩ := addCluster_of_normal c s cells hcells hok
  obtain ⟨clusterPos, hpos'⟩ := Option.isSome_iff_exists.mp hpos
  obtain ⟨vel, hvel'⟩ := Option.isSome_iff_exists.mp hvel
  obtain ⟨angle, hangle'⟩ := Option.isSome_iff_exists.mp hangle
  obtain ⟨angularVel, hangvel'⟩ := Option.isSome_iff_exists.mp hangvel
  obtain ⟨metadata, bytes, cursor, e, _⟩ :=
    addCluster_header c s cells clusterPos vel angle angularVel hcells hroom hpos' hvel'
      hangle' hangvel'
  rw [e] at hok ⊢
  generalize hs1 : (s.assignId c.id).2.withDataTO _ = s1 at hok ⊢
  have h1n : s1.dataTO.numCells = s.dataTO.numCells := by rw [← hs1]; rfl
  unfold addCluster_loops at hok ⊢
  cases hr1 : (forEach cells (addCluster_cell s.dataTO.numClusters) ((s1, []), true)).failure with
  | some f =>
    rw [hr1] at hok
    exact absurd hok (by simp)
  | none =>
    rw [hr1] at hok
    simp only at hok ⊢
    have hR := addCluster_cells_of_normal s1 s.dataTO.numClusters cells hr1
    have hown := addedCells_lookup_eq s1 s.dataTO.numClusters cells _ hR hids hnd
    have hlook := addedCells_lookup s1 s.dataTO.numClusters cells _ hR hids
    have hfail := addCluster_connects_failure
      (forEach cells (addCluster_cell s.dataTO.numClusters) ((s1, []), true)).state.1.2 cells
      (forEach cells (addCluster_cell s.dataTO.numClusters) ((s1, []), true)).state.1.1
      (fun cd hcd => ⟨hids cd hcd, (hlook cd.id).mpr (List.mem_map_of_mem _ hcd)⟩)
    rw [hok] at hfail
    have hres : cells.all (connectionsResolve
        (forEach cells (addCluster_cell s.dataTO.numClusters) ((s1, []), true)).state.1.2)
        = true := by
      by_contra hne
      rw [if_neg hne] at hfail
      exact absurd hfail (by simp)
    have hall : ∀ cd, cd ∈ cells → ∀ id, id ∈ cd.connectingCells.getD [] →
        ((forEach cells (addCluster_cell s.dataTO.numClusters)
          ((s1, []), true)).state.1.2.lookup id).isSome = true := by
      intro cd hcd id hid
      have h1 := List.all_eq_true.mp hres cd hcd
      unfold connectionsResolve at h1
      exact List.all_eq_true.mp h1 id hid
    obtain ⟨_, hcellsF⟩ := addCluster_connects_spec
      (forEach cells (addCluster_cell s.dataTO.numClusters) ((s1, []), true)).state.1.2 cells
      (forEach cells (addCluster_cell s.dataTO.numClusters) ((s1, []), true)).state.1.1
      s1.dataTO.numCells hids hown hall
    have hO := onlyCells_connects
      (forEach cells (addCluster_cell s.dataTO.numClusters) ((s1, []), true)).state.1.2 cells
      (forEach cells (addCluster_cell s.dataTO.numClusters) ((s1, []), true)).state.1.1
    generalize (forEach cells (addCluster_cell s.dataTO.numClusters) ((s1, []), true)).state = st1
      at hR hown hlook hall hcellsF hO ⊢
    generalize (forEach cells (addCluster_connect st1.1.2) st1.1.1).state = F at hcellsF hO ⊢
    unfold OnlyCells at hO
    have o1 : F.dataTO.numCells = st1.1.1.dataTO.numCells := by
      have h := congrArg DataAccessTO.numCells hO
      exact h
    have hcellF : ∀ j (hj : j < cells.length), F.dataTO.cells (s.dataTO.numCells + j)
        = connected st1.1.2 cells[j] (st1.1.1.dataTO.cells (s.dataTO.numCells + j)) := by
      intro j hj
      rw [hcellsF]
      unfold connectedAt
      rw [h1n, if_pos (by omega)]
      have e1 : s.dataTO.numCells + j - s.dataTO.numCells = j := by omega
      rw [e1, List.getElem?_eq_getElem hj]
    have hallj : ∀ j (hj : j < cells.length), ∀ id, id ∈ cells[j].connectingCells.getD [] →
        (st1.1.2.lookup id).isSome = true :=
      fun j hj => hall _ (List.getElem_mem _)
    have hstored : ∀ j (hj : j < cells.length),
        CellStored s1.limits st1.1.1.dataTO (F.dataTO.cells (s.dataTO.numCells + j))
          cells[j] := by
      intro j hj
      have hst := hR.stored j hj
      rw [hR.ids j hj (hids _ (List.getElem_mem _)), h1n] at hst
      rw [hcellF j hj]
      exact cellStored_sameButConnections hst
        (connected_sameButConnections _ _ _ (hallj j hj))
    refine ⟨?_, ?_⟩
    · rw [o1, hR.numCells, h1n]
    · intro j hj
      refine ⟨(hstored j hj).id, (hstored j hj).numConnections, ?_⟩
      intro i hi
      have ht := connected_targets st1.1.2 cells[j]
        (st1.1.1.dataTO.cells (s.dataTO.numCells + j)) (hallj j hj) i hi
      have hmem := (hlook _).mp (hallj j hj _ (List.getElem_mem hi))
      rw [List.mem_map] at hmem
      obtain ⟨cd, hcd, hcdid⟩ := hmem
      obtain ⟨k, hk, rfl⟩ := List.getElem_of_mem hcd
      refine ⟨k, hk, ?_, hcdid, ?_⟩
      · rw [hcellF j hj]
        have h2 := hown k hk
        rw [hcdid, ht, h1n] at h2
        exact Option.some.inj h2
      · rw [(hstored k hk).id]
        exact hcdid

/-- C22 on a cluster of two cells with the ids 7 and 9, each connected to the
other, appended to an arena without live cells whose cell slots hold a stale
connection index: the call returns normally, two cells are live afterwards,
the cell with id 7 is at index 0 with one connection, to index 1, and the cell
with id 9 is at index 1. -/
theorem C22_connections_resolved_for_own_ids_witness :
    (∀ cell, cell ∈ mutualCluster.cells.getD [] → cell.id ≠ 0)
    ∧ ((mutualCluster.cells.getD []).map (fun cell => cell.id)).Nodup
    ∧ (addCluster mutualCluster (sampleConverter staleArena 4 4 4 4)).failure = none
    ∧ (addCluster mutualCluster (sampleConverter staleArena 4 4 4 4)).state.dataTO.numCells = 2
    ∧ ((addCluster mutualCluster (sampleConverter staleArena 4 4 4 4)).state.dataTO.cells 0).id = 7
    ∧ ((addCluster mutualCluster
        (sampleConverter staleArena 4 4 4 4)).state.dataTO.cells 0).numConnections = 1
    ∧ byteAt ((addCluster mutualCluster
        (sampleConverter staleArena 4 4 4 4)).state.dataTO.cells 0).connectionIndices 0 = 1
    ∧ ((addCluster mutualCluster
        (sampleConverter staleArena 4 4 4 4)).state.dataTO.cells 1).id = 9 :=
  ⟨by decide, by decide, by decide,
   (C22_connections_resolved_for_own_ids mutualCluster (sampleConverter staleArena 4 4 4 4)
      [{ sampleCell 7 none with connectingCells := some [9] },
       { sampleCell 9 none with connectingCells := some [7] }] rfl (by decide) (by decide)
      (by decide)).1,
   ((C22_connections_resolved_for_own_ids mutualCluster (sampleConverter staleArena 4 4 4 4)
      [{ sampleCell 7 none with connectingCells := some [9] },
       { sampleCell 9 none with connectingCells := some [7] }] rfl (by decide) (by decide)
      (by decide)).2 0 (by decide)).1,
   ((C22_connections_resolved_for_own_ids mutualCluster (sampleConverter staleArena 4 4 4 4)
      [{ sampleCell 7 none with connectingCells := some [9] },
       { sampleCell 9 none with connectingCells := some [7] }] rfl (by decide) (by decide)
      (by decide)).2 0 (by decide)).2.1,
   by decide, by decide⟩

/-! ## Cells marked Deleted inside a cluster that stays -/

theorem extends_updateData_addCluster (cluster : ChangeTracker ClusterChangeDescription)
    (s : DataConverter) : Extends s (updateData_addCluster cluster s).state := by
  unfold updateData_addCluster
  split
  · exact extends_addCluster _ _
  · exact extends_same _

theorem extends_updateData_addParticle (particle : ChangeTracker ParticleChangeDescription)
    (s : DataConverter) : Extends s (updateData_addParticle particle s).state := by
  unfold updateData_addParticle
  split
  · exact extends_addParticle _ _
  · exact extends_same _

theorem extends_step {s0 : DataConverter} (r : Step DataConverter)
    (g : DataConverter → Step DataConverter) (h1 : Extends s0 r.state)
    (h2 : ∀ st, Extends st (g st).state) : Extends s0 (r.andThen g).state := by
  unfold Step.andThen
  split
  · exact extends_andThen h1 (h2 _)
  · exact h1

/-- The add phase of `updateData` keeps what the modify phase left live, thrown
or not. -/
theorem extends_updateData (data : DataChangeDescription) (s : DataConverter) :
    Extends (processModifications (processDeletions (marked data s))).state
      (updateData data s).state := by
  rw [updateData_eq]
  apply extends_step
  · apply extends_step
    · exact extends_same _
    · intro st
      exact extends_forEach_from (extends_same st) _
        (fun x st1 h => extends_andThen h (extends_updateData_addCluster x st1)) _
  · intro st
    exact extends_forEach_from (extends_same st) _
      (fun x st1 h => extends_andThen h (extends_updateData_addParticle x st1)) _

theorem deletedClusterIds_eq_nil (data : DataChangeDescription)
    (h : ∀ t, t ∈ data.clusters → t.isDeleted = false) : deletedClusterIds data = [] := by
  unfold deletedClusterIds
  rw [List.filter_eq_nil_iff.mpr (fun t ht => by simp [h t ht])]
  rfl

/-- C21, counterexample.  In `cellDeletionChange` the tracker of cell 4 is
marked Deleted while the tracker of its cluster 200 is Modified; `updateData`
on `twoClusterArena` returns normally and the live cell count goes from 5 to 2,
because the same ChangeSet deletes cluster 100. -/
theorem C21_cell_count_changes_with_other_deletion :
    cellDeletionChange.clusters.map
        (fun t => (t.state, t.value.id, t.value.cells.map (fun c => (c.state, c.value.id))))
      = [(TrackerState.Deleted, 100, []),
         (TrackerState.Modified, 200, [(TrackerState.Deleted, 4)])]
    ∧ (twoClusterArena.clusters 1).id = 200 ∧ (twoClusterArena.cells 3).id = 4
    ∧ inCellRange (twoClusterArena.clusters 1) 3 = true
    ∧ twoClusterArena.numCells = 5
    ∧ (updateData cellDeletionChange (sampleConverter twoClusterArena 8 8 8 8)).failure = none
    ∧ (updateData cellDeletionChange
        (sampleConverter twoClusterArena 8 8 8 8)).state.dataTO.numCells = 2 := by
  decide

theorem addParticle_numCells (p : ParticleDescription) (s : DataConverter) :
    (addParticle p s).state.dataTO.numCells = s.dataTO.numCells := by
  unfold addParticle
  simp only
  repeat' split
  all_goals first
    | rfl
    | (simp only [DataConverter.setParticle, DataConverter.withDataTO, DataConverter.assignId]
       split <;> rfl)

theorem forEach_addParticle_numCells (ts : List (ChangeTracker ParticleChangeDescription))
    (s : DataConverter) :
    (forEach ts updateData_addParticle s).state.dataTO.numCells = s.dataTO.numCells := by
  induction ts generalizing s with
  | nil => rfl
  | cons t ts ih =>
    have h1 : (updateData_addParticle t s).state.dataTO.numCells = s.dataTO.numCells := by
      unfold updateData_addParticle
      split
      · exact addParticle_numCells _ _
      · rfl
    rw [forEach_cons]
    unfold Step.andThen
    split
    · rw [ih, h1]
    · exact h1

theorem forEach_addCluster_none (ts : List (ChangeTracker ClusterChangeDescription))
    (h : ∀ t, t ∈ ts → t.isAdded = false) (s : DataConverter) :
    forEach ts updateData_addCluster s = ⟨s, none⟩ := by
  induction ts generalizing s with
  | nil => rfl
  | cons t ts ih =>
    have h1 : updateData_addCluster t s = ⟨s, none⟩ := by
      unfold updateData_addCluster
      rw [if_neg (by simp [h t (List.mem_cons_self _ _)])]
    rw [forEach_cons, h1]
    exact ih (fun u hu => h u (List.mem_cons_of_mem _ hu)) s

/-- C21, amended.  For every arena, fresh converter and ChangeSet, in the state
`updateData` ends in (returned or thrown): a cluster whose id is not marked
deleted is found at the index that counts the clusters before it that stay,
with its id and its `numCells`, whatever the trackers of its cells say.  When
no cluster tracker is Deleted, every cluster keeps its index, id, `numCells`
and `cellStartIndex`, every live cell keeps its index and id, the live cell
count does not go down, it is unchanged when no cluster tracker is Added, and
on a normal return it has grown by exactly the cells of the Added clusters
whose trackers are not Deleted.  A Deleted tracker on a cell removes nothing. -/
theorem C21_deleted_cell_trackers_remove_nothing (data : DataChangeDescription)
    (dataTO : DataAccessTO) (numberGen : NumberGenerator) (parameters : SimulationParameters)
    (cudaConstants : CudaConstants) (limits : ArrayLimits) :
    (∀ i, i < dataTO.numClusters → (dataTO.clusters i).id ∉ deletedClusterIds data →
      ((updateData data (DataConverter.create dataTO numberGen parameters cudaConstants
          limits)).state.dataTO.clusters
            (rank (clusterDeleted dataTO (deletedClusterIds data)) i)).id
          = (dataTO.clusters i).id
      ∧ ((updateData data (DataConverter.create dataTO numberGen parameters cudaConstants
          limits)).state.dataTO.clusters
            (rank (clusterDeleted dataTO (deletedClusterIds data)) i)).numCells
          = (dataTO.clusters i).numCells)
    ∧ ((∀ t, t ∈ data.clusters → t.isDeleted = false) →
      dataTO.numCells ≤ (updateData data (DataConverter.create dataTO numberGen parameters
          cudaConstants limits)).state.dataTO.numCells
      ∧ (∀ i, i < dataTO.numClusters →
          ((updateData data (DataConverter.create dataTO numberGen parameters cudaConstants
              limits)).state.dataTO.clusters i).id = (dataTO.clusters i).id
          ∧ ((updateData data (DataConverter.create dataTO numberGen parameters cudaConstants
              limits)).state.dataTO.clusters i).numCells = (dataTO.clusters i).numCells
          ∧ ((updateData data (DataConverter.create dataTO numberGen parameters cudaConstants
              limits)).state.dataTO.clusters i).cellStartIndex
              = (dataTO.clusters i).cellStartIndex)
      ∧ (∀ c, c < dataTO.numCells →
          ((updateData data (DataConverter.create dataTO numberGen parameters cudaConstants
              limits)).state.dataTO.cells c).id = (dataTO.cells c).id)
      ∧ ((∀ t, t ∈ data.clusters → t.isAdded = false) →
          (updateData data (DataConverter.create dataTO numberGen parameters cudaConstants
              limits)).state.dataTO.numCells = dataTO.numCells)
      ∧ ((updateData data (DataConverter.create dataTO numberGen parameters cudaConstants
            limits)).failure = none →
          (updateData data (DataConverter.create dataTO numberGen parameters cudaConstants
              limits)).state.dataTO.numCells
            = dataTO.numCells + ((addedClustersOf data.clusters).map cellCount).sum)) := by
  obtain ⟨hd, hD, _⟩ := marked_create data dataTO numberGen parameters cudaConstants limits
  have hE := extends_updateData data
    (DataConverter.create dataTO numberGen parameters cudaConstants limits)
  have hS := sameShape_processModifications (processDeletions (marked data
    (DataConverter.create dataTO numberGen parameters cudaConstants limits)))
  obtain ⟨n1, n2, _, _⟩ := processDeletions_counts (marked data
    (DataConverter.create dataTO numberGen parameters cudaConstants limits))
  rw [hd, hD] at n1 n2
  refine ⟨?_, ?_⟩
  · intro i hi hid
    have hdel : clusterDeleted (marked data (DataConverter.create dataTO numberGen parameters
        cudaConstants limits)).dataTO (marked data (DataConverter.create dataTO numberGen
        parameters cudaConstants limits)).clusterIdsToDelete i = false := by
      rw [hd, hD]
      simp [clusterDeleted, hid]
    have hat := processDeletions_cluster_at _ i (by rw [hd]; exact hi) hdel
    rw [hd, hD] at hat hdel
    have hlt := rank_lt (clusterDeleted dataTO (deletedClusterIds data)) hi hdel
    rw [← n1, ← hS.numClusters] at hlt
    rw [hE.clusters _ hlt, hS.clusterId, hS.clusterNumCells, hat]
    exact ⟨rfl, rfl⟩
  · intro hnone
    have hnil := deletedClusterIds_eq_nil data hnone
    rw [hnil] at n1 n2
    rw [rank_eq_self _ _ (fun j _ => clusterDeleted_nil _ j)] at n1
    rw [rank_eq_self _ _ (fun j _ => cellDeleted_nil _ j)] at n2
    refine ⟨?_, ?_, ?_, ?_, ?_⟩
    · have := hE.numCells
      rw [hS.numCells, n2] at this
      exact this
    · intro i hi
      have hdel : clusterDeleted (marked data (DataConverter.create dataTO numberGen parameters
          cudaConstants limits)).dataTO (marked data (DataConverter.create dataTO numberGen
          parameters cudaConstants limits)).clusterIdsToDelete i = false := by
        rw [hd, hD, hnil]
        exact clusterDeleted_nil _ _
      have hat := processDeletions_cluster_at _ i (by rw [hd]; exact hi) hdel
      rw [hd, hD, hnil, rank_eq_self _ _ (fun j _ => clusterDeleted_nil _ j),
        newCellIndex_nil] at hat
      have hlt : i < (processModifications (processDeletions (marked data
          (DataConverter.create dataTO numberGen parameters cudaConstants
            limits)))).state.dataTO.numClusters := by
        rw [hS.numClusters, n1]; exact hi
      rw [hE.clusters _ hlt, hS.clusterId, hS.clusterNumCells, hS.cellStartIndex, hat]
      exact ⟨rfl, rfl, rfl⟩
    · intro c hc
      have hdel : cellDeleted (marked data (DataConverter.create dataTO numberGen parameters
          cudaConstants limits)).dataTO (marked data (DataConverter.create dataTO numberGen
          parameters cudaConstants limits)).clusterIdsToDelete c = false := by
        rw [hd, hD, hnil]
        exact cellDeleted_nil _ _
      have hat := processDeletions_cell_id_at _ c (by rw [hd]; exact hc) hdel
      rw [hd, hD, hnil, rank_eq_self _ _ (fun j _ => cellDeleted_nil _ j)] at hat
      have hlt : c < (processModifications (processDeletions (marked data
          (DataConverter.create dataTO numberGen parameters cudaConstants
            limits)))).state.dataTO.numCells := by
        rw [hS.numCells, n2]; exact hc
      rw [hE.cells _ hlt, hS.cellId, hat]
    · intro hadd
      have hfun : forEach data.clusters updateData_addCluster
          = fun st => (⟨st, none⟩ : Step DataConverter) :=
        funext (forEach_addCluster_none _ hadd)
      rw [updateData_eq, hfun]
      generalize processModifications (processDeletions (marked data
        (DataConverter.create dataTO numberGen parameters cudaConstants limits))) = r
        at hS ⊢
      have key : ((r.andThen (fun st => (⟨st, none⟩ : Step DataConverter))).andThen
          (forEach data.particles updateData_addParticle)).state.dataTO.numCells
          = r.state.dataTO.numCells := by
        rcases r with ⟨st, f⟩
        cases f with
        | none => exact forEach_addParticle_numCells _ _
        | some f => rfl
      rw [← n2, ← hS.numCells]
      exact key
    · intro hok
      obtain ⟨sM, st1, h1, h2, h3⟩ := updateData_added data _ hok
      rw [h3.numCells, h2.numCells, h1.numCells, n2]

/-- C21 on an example: `cellDeletionOnlyChange` marks cell 4 of the Modified
cluster 200 Deleted and adds a cluster with one Added and one Deleted cell
tracker.  Cluster 200 keeps its two cells, and the cell count goes from 5 to 6,
by the one cell that is added. -/
theorem C21_deleted_cell_trackers_remove_nothing_witness :
    (∀ t, t ∈ cellDeletionOnlyChange.clusters → t.isDeleted = false)
    ∧ (updateData cellDeletionOnlyChange (DataConverter.create twoClusterArena sampleGen
        { tokenMemorySize := 4 }
        { MAX_CLUSTERS := 8, MAX_CELLS := 8, MAX_PARTICLES := 8, MAX_TOKENS := 8,
          METADATA_DYNAMIC_MEMORY_SIZE := 64 } sampleLimits)).failure = none
    ∧ (twoClusterArena.clusters 1).numCells = 2
    ∧ ((updateData cellDeletionOnlyChange (DataConverter.create twoClusterArena sampleGen
        { tokenMemorySize := 4 }
        { MAX_CLUSTERS := 8, MAX_CELLS := 8, MAX_PARTICLES := 8, MAX_TOKENS := 8,
          METADATA_DYNAMIC_MEMORY_SIZE := 64 } sampleLimits)).state.dataTO.clusters 1).numCells
        = (twoClusterArena.clusters 1).numCells
    ∧ ((addedClustersOf cellDeletionOnlyChange.clusters).map cellCount).sum = 1
    ∧ (updateData cellDeletionOnlyChange (DataConverter.create twoClusterArena sampleGen
        { tokenMemorySize := 4 }
        { MAX_CLUSTERS := 8, MAX_CELLS := 8, MAX_PARTICLES := 8, MAX_TOKENS := 8,
          METADATA_DYNAMIC_MEMORY_SIZE := 64 } sampleLimits)).state.dataTO.numCells
        = twoClusterArena.numCells
          + ((addedClustersOf cellDeletionOnlyChange.clusters).map cellCount).sum :=
  have h : ∀ t, t ∈ cellDeletionOnlyChange.clusters → t.isDeleted = false := by decide
  ⟨h, by decide, by decide,
    (((C21_deleted_cell_trackers_remove_nothing cellDeletionOnlyChange twoClusterArena sampleGen
      { tokenMemorySize := 4 }
      { MAX_CLUSTERS := 8, MAX_CELLS := 8, MAX_PARTICLES := 8, MAX_TOKENS := 8,
        METADATA_DYNAMIC_MEMORY_SIZE := 64 } sampleLimits).2 h).2.1 1 (by decide)).2.1,
    by decide,
    ((C21_deleted_cell_trackers_remove_nothing cellDeletionOnlyChange twoClusterArena sampleGen
      { tokenMemorySize := 4 }
      { MAX_CLUSTERS := 8, MAX_CELLS := 8, MAX_PARTICLES := 8, MAX_TOKENS := 8,
        METADATA_DYNAMIC_MEMORY_SIZE := 64 } sampleLimits).2 h).2.2.2.2 (by decide)⟩

/-! ## The read path without disjoint cell ranges -/

theorem lookup_block (start n : Nat) (v : Nat → Nat) (c : Nat) :
    (((List.range n).map (fun j => (start + j, v j))).reverse).lookup c
      = if start ≤ c ∧ c < start + n then some (v (c - start)) else none := by
  induction n with
  | zero =>
    simp only [List.range_zero, List.map_nil, List.reverse_nil, List.lookup_nil]
    rw [if_neg (by omega)]
  | succ n ih =>
    rw [List.range_succ, List.map_append, List.reverse_append]
    simp only [List.map_cons, List.map_nil, List.reverse_cons, List.reverse_nil,
      List.nil_append, List.singleton_append, List.lookup_cons]
    by_cases hc : c = start + n
    · subst hc
      simp
    · have hb : (c == start + n) = false := by simpa using hc
      rw [hb, ih]
      by_cases h1 : start ≤ c ∧ c < start + n
      · rw [if_pos h1, if_pos (by omega)]
      · rw [if_neg h1, if_neg (by omega)]

/-- The two index maps of the cluster pass agree on every cell index: either
neither has an entry and no cluster read so far covers the index, or both
resolve it inside the same cluster, which covers it. -/
theorem readPass_lookup (d : DataAccessTO) (n c : Nat) :
    ((readPass d n).clusterIndexByCellTOIndex.lookup c = none
      ∧ (readPass d n).cellIndexByCellTOIndex.lookup c = none
      ∧ ∀ i, i < n → inCellRange (d.clusters i) c = false)
    ∨ ∃ i, i < n ∧ inCellRange (d.clusters i) c = true
      ∧ (readPass d n).clusterIndexByCellTOIndex.lookup c = some i
      ∧ (readPass d n).cellIndexByCellTOIndex.lookup c = some (c - (d.clusters i).cellStartIndex) := by
  induction n with
  | zero =>
    left
    refine ⟨rfl, rfl, ?_⟩
    intro i hi
    omega
  | succ n ih =>
    rw [readPass_succ, getDataDescription_cluster_eq]
    simp only [List.lookup_append, lookup_block]
    by_cases hin : (d.clusters n).cellStartIndex ≤ c
        ∧ c < (d.clusters n).cellStartIndex + (d.clusters n).numCells
    · right
      refine ⟨n, by omega, ?_, ?_, ?_⟩
      · simp only [inCellRange, decide_eq_true_eq]; exact hin
      · simp only [if_pos hin]; rfl
      · simp only [if_pos hin]; rfl
    · simp only [if_neg hin, Option.none_or]
      rcases ih with ⟨a, b, h⟩ | ⟨i, hi, h1, h2, h3⟩
      · left
        refine ⟨a, b, ?_⟩
        intro i hi
        rcases Nat.lt_or_ge i n with h4 | h4
        · exact h i h4
        · have : i = n := by omega
          subst this
          simp only [inCellRange, decide_eq_false_iff_not]
          exact hin
      · right
        exact ⟨i, by omega, h1, h2, h3⟩

theorem tokensPushed_succ (d : DataAccessTO) (size : Nat) (m1 m2 : List (Nat × Nat))
    (m i j : Nat) :
    tokensPushed d size m1 m2 (m + 1) i j
      = tokensPushed d size m1 m2 m i j
        ++ (if m2.lookup (d.tokens m).cellIndex = some i ∧ m1.lookup (d.tokens m).cellIndex = some j
            then [readToken size (d.tokens m)] else []) := by
  unfold tokensPushed
  rw [List.range_succ, List.map_append, List.filter_append, List.map_append]
  congr 1
  by_cases h : m2.lookup (d.tokens m).cellIndex = some i ∧ m1.lookup (d.tokens m).cellIndex = some j
  · simp [h]
  · simp [h]

/-- The token pass after `m` tokens, when every live token is hosted by a cell
of a live cluster: every cell holds the tokens that the index maps resolve to
it among the first `m`. -/
theorem foldl_getDataDescription_token_pushed (d : DataAccessTO) (size : Nat)
    (P : Option (List ParticleDescription)) (hcov : TokensOwned d)
    (m : Nat) (hm : m ≤ d.numTokens) :
    (List.range m).foldl
      (fun r i =>
        match r with
        | Except.error e => Except.error e
        | Except.ok result =>
          getDataDescription_token d size (readPass d d.numClusters).cellIndexByCellTOIndex
            (readPass d d.numClusters).clusterIndexByCellTOIndex result i)
      (Except.ok
        { clusters := optList ((List.range d.numClusters).map
            (fun i => clusterWith d i (fun _ => [])))
          particles := P })
    = Except.ok
        { clusters := optList ((List.range d.numClusters).map
            (fun i => clusterWith d i
              (fun j => tokensPushed d size (readPass d d.numClusters).cellIndexByCellTOIndex
                (readPass d d.numClusters).clusterIndexByCellTOIndex m i j)))
          particles := P } := by
  induction m with
  | zero => rfl
  | succ m ih =>
    rw [List.range_succ, List.foldl_append, ih (by omega)]
    simp only [List.foldl_cons, List.foldl_nil]
    obtain ⟨i0, hi0, hin0⟩ := hcov m (by omega)
    rcases readPass_lookup d d.numClusters (d.tokens m).cellIndex with ⟨_, _, h⟩ | ⟨i, hi, hin, l2, l1⟩
    · rw [h i0 hi0] at hin0
      exact absurd hin0 (by simp)
    · have hin' := hin
      simp only [inCellRange, decide_eq_true_eq] at hin'
      have hne : ∀ (f : Nat → ClusterDescription),
          optList ((List.range d.numClusters).map f)
            = some ((List.range d.numClusters).map f) := by
        intro f
        apply optList_eq_some
        intro h
        have := congrArg List.length h
        simp at this
        omega
      rw [hne, hne]
      rw [getDataDescription_token_eq d size d.numClusters _ _ _ P m i
        ((d.tokens m).cellIndex - (d.clusters i).cellStartIndex) l1 l2 hi (by omega)]
      congr 3
      apply List.map_congr_left
      intro i' _
      apply clusterWith_congr
      intro j' _
      rw [tokensPushed_succ, l1, l2]
      by_cases hc : i' = i ∧ j' = (d.tokens m).cellIndex - (d.clusters i).cellStartIndex
      · obtain ⟨e1, e2⟩ := hc
        subst e1
        subst e2
        simp only [and_self, if_true]
      · rw [if_neg hc, if_neg, List.append_nil]
        rintro ⟨e1, e2⟩
        simp only [Option.some.injEq] at e1 e2
        exact hc ⟨e1.symm, e2.symm⟩

/-- The read path in closed form when every live token is hosted by a cell of
a live cluster, whether or not cell ranges of distinct clusters are disjoint. -/
theorem getDataDescription_pushed (s : DataConverter) (hcov : TokensOwned s.dataTO) :
    getDataDescription s
      = Except.ok
        { clusters := optList ((List.range s.dataTO.numClusters).map
            (fun i => clusterWith s.dataTO i
              (fun j => tokensPushed s.dataTO s.parameters.tokenMemorySize
                (readPass s.dataTO s.dataTO.numClusters).cellIndexByCellTOIndex
                (readPass s.dataTO s.dataTO.numClusters).clusterIndexByCellTOIndex
                s.dataTO.numTokens i j)))
          particles := optList ((List.range s.dataTO.numParticles).map
            (readParticle s.dataTO)) } := by
  unfold getDataDescription
  simp only
  have hpass := (readPass_spec s.dataTO s.dataTO.numClusters).1
  have e : (List.range s.dataTO.numClusters).foldl (getDataDescription_cluster s.dataTO)
      { result := { clusters := none, particles := none }
        cellIndexByCellTOIndex := [], clusterIndexByCellTOIndex := [] }
      = readPass s.dataTO s.dataTO.numClusters := rfl
  rw [e, hpass, foldl_getDataDescription_particle _ _ _ rfl]
  simp only
  exact foldl_getDataDescription_token_pushed s.dataTO s.parameters.tokenMemorySize _ hcov
    s.dataTO.numTokens (le_refl _)

theorem foldl_except_succ {β ε : Type} (g : Except ε β → Nat → Except ε β)
    (hg : ∀ e i, g (Except.error e) i = Except.error e) (b : β) (m : Nat) (r : β)
    (h : (List.range (m + 1)).foldl g (Except.ok b) = Except.ok r) :
    ∃ x, (List.range m).foldl g (Except.ok b) = Except.ok x ∧ g (Except.ok x) m = Except.ok r := by
  rw [List.range_succ, List.foldl_append] at h
  simp only [List.foldl_cons, List.foldl_nil] at h
  generalize (List.range m).foldl g (Except.ok b) = y at h
  cases y with
  | error e => rw [hg] at h; exact absurd h (by simp)
  | ok x => exact ⟨x, rfl, h⟩

theorem foldl_except_prefix {β ε : Type} (g : Except ε β → Nat → Except ε β)
    (hg : ∀ e i, g (Except.error e) i = Except.error e) (b : β) (n : Nat) (r : β)
    (h : (List.range n).foldl g (Except.ok b) = Except.ok r)
    (t : Nat) (ht : t < n) : ∃ x y, g (Except.ok x) t = Except.ok y := by
  induction n generalizing r with
  | zero => omega
  | succ n ih =>
    obtain ⟨x, h1, h2⟩ := foldl_except_succ g hg b n r h
    rcases Nat.lt_or_ge t n with h3 | h3
    · exact ih x h1 h3
    · have : t = n := by omega
      subst this
      exact ⟨x, r, h2⟩

theorem getDataDescription_token_ok (d : DataAccessTO) (size : Nat) (m1 m2 : List (Nat × Nat))
    (x y : DataDescription) (t : Nat)
    (h : getDataDescription_token d size m1 m2 x t = Except.ok y) :
    m2.lookup (d.tokens t).cellIndex ≠ none := by
  intro hn
  unfold getDataDescription_token at h
  simp only [hn] at h
  exact absurd h (by simp)

/-- `getDataDescription` returns normally exactly when every live token is
hosted by a cell of a live cluster. -/
theorem getDataDescription_returns_iff (s : DataConverter) :
    (∃ r, getDataDescription s = Except.ok r) ↔ TokensOwned s.dataTO := by
  constructor
  · rintro ⟨r, hr⟩ t ht
    unfold getDataDescription at hr
    simp only at hr
    obtain ⟨x, y, hxy⟩ := foldl_except_prefix _ (fun _ _ => rfl) _ _ _ hr t ht
    have hne := getDataDescription_token_ok _ _ _ _ _ _ _ hxy
    rcases readPass_lookup s.dataTO s.dataTO.numClusters (s.dataTO.tokens t).cellIndex with
      ⟨a, _, _⟩ | ⟨i, hi, hin, _, _⟩
    · exact absurd a hne
    · exact ⟨i, hi, hin⟩
  · intro hcov
    exact ⟨_, getDataDescription_pushed s hcov⟩

/-! ## Connections read back as ids -/

/-- C26. `getDataDescription` returns normally exactly when every live token is
hosted by a cell of a live cluster.  Whenever it returns a snapshot: the
clusters are those of the arena in index order (`numClusters` of them, each
with its id), the cells of the cluster at index `i` are the cells at the
indices `cellStartIndex`, ..., `cellStartIndex + numCells - 1` in that order
(`numCells` of them, each with its id), the connection list of each cell is
present and is the list of the ids stored at the cells that
`connectionIndices[0]`, ..., `connectionIndices[numConnections - 1]` point at,
in that order, and the particles are those of the arena in index order
(`numParticles` of them). -/
theorem C26_read_translates_connections (s : DataConverter) :
    ((∃ r, getDataDescription s = Except.ok r) ↔ TokensOwned s.dataTO)
    ∧ ∀ r, getDataDescription s = Except.ok r →
      connectionView r
        = (List.range s.dataTO.numClusters).map (fun i =>
          ((s.dataTO.clusters i).id,
            (List.range (s.dataTO.clusters i).numCells).map (fun j =>
              ((s.dataTO.cells ((s.dataTO.clusters i).cellStartIndex + j)).id,
                some ((List.range
                  (s.dataTO.cells ((s.dataTO.clusters i).cellStartIndex + j)).numConnections).map
                  (fun k => (s.dataTO.cells (byteAt
                    (s.dataTO.cells
                      ((s.dataTO.clusters i).cellStartIndex + j)).connectionIndices k)).id))))))
      ∧ (r.clusters.getD []).length = s.dataTO.numClusters
      ∧ (∀ i (hi : i < (r.clusters.getD []).length),
          (((r.clusters.getD []).get ⟨i, hi⟩).cells.getD []).length
            = (s.dataTO.clusters i).numCells)
      ∧ (r.particles.getD []).map (fun p => p.id)
          = (List.range s.dataTO.numParticles).map (fun k => (s.dataTO.particles k).id)
      ∧ (r.particles.getD []).length = s.dataTO.numParticles := by
  refine ⟨getDataDescription_returns_iff s, ?_⟩
  intro r hr
  have hcov := (getDataDescription_returns_iff s).mp ⟨r, hr⟩
  rw [getDataDescription_pushed s hcov] at hr
  simp only [Except.ok.injEq] at hr
  subst hr
  refine ⟨?_, ?_, ?_, ?_, ?_⟩
  · simp only [connectionView, optList_getD, List.map_map]
    apply List.map_congr_left
    intro i _
    simp only [Function.comp, clusterWith, optList_getD, List.map_map]
    congr 1
  · simp only [optList_getD, List.length_map, List.length_range]
  · intro i hi
    simp only [optList_getD, List.get_eq_getElem, List.getElem_map, List.getElem_range,
      clusterWith, List.length_map, List.length_range]
  · simp only [optList_getD, List.map_map]
    rfl
  · simp only [optList_getD, List.length_map, List.length_range]

/-- C26 on `twoClusterArena`: cluster 100 with the unconnected cells 1, 2, 3
and cluster 200 with the cells 4 and 5, whose stored connection indices 4 and
3 are read back as the ids 5 and 4. -/
theorem C26_read_translates_connections_witness :
    TokensOwned (sampleConverter twoClusterArena 8 8 8 8).dataTO
    ∧ ∃ r, getDataDescription (sampleConverter twoClusterArena 8 8 8 8) = Except.ok r
      ∧ connectionView r
        = [(100, [(1, some []), (2, some []), (3, some [])]),
           (200, [(4, some [5]), (5, some [4])])] :=
  ⟨by decide, by
    obtain ⟨r, hr⟩ := (C26_read_translates_connections
      (sampleConverter twoClusterArena 8 8 8 8)).1.2 (by decide)
    exact ⟨r, hr, ((C26_read_translates_connections
      (sampleConverter twoClusterArena 8 8 8 8)).2 r hr).1.trans (by decide)⟩⟩

/-! ## Tokens grouped by their owning cell -/

theorem sum_map_range_add_one (n k : Nat) (hk : k < n) (f : Nat → Nat) :
    ((List.range n).map (fun i => f i + if i = k then 1 else 0)).sum
      = ((List.range n).map f).sum + 1 := by
  induction n with
  | zero => omega
  | succ n ih =>
    rw [List.range_succ, List.map_append, List.map_append, List.sum_append, List.sum_append]
    simp only [List.map_cons, List.map_nil, List.sum_cons, List.sum_nil]
    rcases Nat.lt_or_ge k n with h | h
    · rw [ih h, if_neg (by omega)]
      omega
    · have e : k = n := by omega
      subst e
      rw [if_pos rfl]
      have e2 : (List.range k).map (fun i => f i + if i = k then 1 else 0)
          = (List.range k).map f := by
        apply List.map_congr_left
        intro i hi
        rw [List.mem_range] at hi
        rw [if_neg (by omega)]
        rfl
      rw [e2]
      omega

/-- Every one of the first `m` tokens is pushed onto exactly one cell of one
cluster. -/
theorem tokensPushed_total (d : DataAccessTO) (size : Nat) (hcov : TokensOwned d) (m : Nat)
    (hm : m ≤ d.numTokens) :
    ((List.range d.numClusters).map (fun i =>
      ((List.range (d.clusters i).numCells).map (fun j =>
        (tokensPushed d size (readPass d d.numClusters).cellIndexByCellTOIndex
          (readPass d d.numClusters).clusterIndexByCellTOIndex m i j).length)).sum)).sum = m := by
  induction m with
  | zero =>
    have e : ∀ i j, (tokensPushed d size (readPass d d.numClusters).cellIndexByCellTOIndex
        (readPass d d.numClusters).clusterIndexByCellTOIndex 0 i j).length = 0 := by
      intro i j
      rfl
    simp only [e, List.map_const', List.sum_replicate, smul_zero]
  | succ m ih =>
    obtain ⟨i0, hi0, hin0⟩ := hcov m (by omega)
    rcases readPass_lookup d d.numClusters (d.tokens m).cellIndex with
      ⟨_, _, h⟩ | ⟨i, hi, hin, l2, l1⟩
    · rw [h i0 hi0] at hin0
      exact absurd hin0 (by simp)
    · have hin' := hin
      simp only [inCellRange, decide_eq_true_eq] at hin'
      have e : (List.range d.numClusters).map (fun i' =>
            ((List.range (d.clusters i').numCells).map (fun j =>
              (tokensPushed d size (readPass d d.numClusters).cellIndexByCellTOIndex
                (readPass d d.numClusters).clusterIndexByCellTOIndex (m + 1) i' j).length)).sum)
          = (List.range d.numClusters).map (fun i' =>
            ((List.range (d.clusters i').numCells).map (fun j =>
              (tokensPushed d size (readPass d d.numClusters).cellIndexByCellTOIndex
                (readPass d d.numClusters).clusterIndexByCellTOIndex m i' j).length)).sum
              + if i' = i then 1 else 0) := by
        apply List.map_congr_left
        intro i' _
        by_cases hii : i' = i
        · subst hii
          rw [if_pos rfl,
            ← sum_map_range_add_one _ ((d.tokens m).cellIndex - (d.clusters i').cellStartIndex)
              (by omega)]
          congr 1
          apply List.map_congr_left
          intro j _
          rw [tokensPushed_succ, l1, l2, List.length_append]
          by_cases hj : j = (d.tokens m).cellIndex - (d.clusters i').cellStartIndex
          · rw [if_pos hj, if_pos ⟨rfl, by rw [hj]⟩]
            rfl
          · rw [if_neg hj, if_neg]
            · rfl
            · rintro ⟨_, e2⟩
              simp only [Option.some.injEq] at e2
              exact hj e2.symm
        · rw [if_neg hii, Nat.add_zero]
          congr 1
          apply List.map_congr_left
          intro j _
          rw [tokensPushed_succ, l2, List.length_append, if_neg]
          · rfl
          · rintro ⟨e1, _⟩
            simp only [Option.some.injEq] at e1
            exact hii e1.symm
      rw [e, sum_map_range_add_one _ i hi, ih (by omega)]

theorem tokenCount_pushed (s : DataConverter) (hcov : TokensOwned s.dataTO)
    (P : Option (List ParticleDescription)) :
    tokenCount
      { clusters := optList ((List.range s.dataTO.numClusters).map
          (fun i => clusterWith s.dataTO i
            (fun j => tokensPushed s.dataTO s.parameters.tokenMemorySize
              (readPass s.dataTO s.dataTO.numClusters).cellIndexByCellTOIndex
              (readPass s.dataTO s.dataTO.numClusters).clusterIndexByCellTOIndex
              s.dataTO.numTokens i j)))
        particles := P } = s.dataTO.numTokens := by
  have h := tokensPushed_total s.dataTO s.parameters.tokenMemorySize hcov s.dataTO.numTokens
    (le_refl _)
  simp only [tokenCount, optList_getD, List.map_map]
  refine Eq.trans ?_ h
  congr 1
  apply List.map_congr_left
  intro i _
  simp only [Function.comp, clusterWith, optList_getD, List.map_map]
  rfl

/-- C25, counterexample.  In `sharedCellArena` the one live token has the
owning-cell index 0, which lies in the cell range of both clusters, so every
token's owning cell lies in some cluster's cell range.  `getDataDescription`
returns normally; the cell at arena index 0 is returned twice, by the first
cluster with no token and by the second with the token, although one arena
token has the owning-cell index 0. -/
theorem C25_shared_cell_reads_without_tokens :
    TokensOwned (sampleConverter sharedCellArena 4 4 4 4).dataTO
    ∧ (tokensOf sharedCellArena 4 0).length = 1
    ∧ ∃ r, getDataDescription (sampleConverter sharedCellArena 4 4 4 4) = Except.ok r
      ∧ connectionView r = [(10, [(5, some [])]), (20, [(5, some [])])]
      ∧ tokenNumbers r = [[0], [1]] := by
  refine ⟨by decide, by decide, _,
    getDataDescription_pushed (sampleConverter sharedCellArena 4 4 4 4) (by decide), ?_, ?_⟩
  · decide
  · decide

theorem DisjointCellRanges.unique {d : DataAccessTO} (h : DisjointCellRanges d) (i j c : Nat)
    (hi : i < d.numClusters) (hj : j < d.numClusters)
    (h1 : inCellRange (d.clusters i) c = true) (h2 : inCellRange (d.clusters j) c = true) :
    i = j := by
  by_contra hne
  simp only [inCellRange, decide_eq_true_eq] at h1 h2
  rcases h i hi j hj hne with h3 | h3 | h3 | h3 <;> omega

theorem tokenView_read (d : DataAccessTO) (size : Nat) (P : Option (List ParticleDescription)) :
    tokenView
      { clusters := optList ((List.range d.numClusters).map (readCluster d size))
        particles := P }
      = (List.range d.numClusters).map (fun i =>
          (List.range (d.clusters i).numCells).map (fun j =>
            some ((((List.range d.numTokens).map d.tokens).filter
              (fun t => decide (t.cellIndex = (d.clusters i).cellStartIndex + j))).map
              (readToken size)))) := by
  simp only [tokenView, optList_getD, List.map_map]
  apply List.map_congr_left
  intro i _
  simp only [Function.comp, readCluster, clusterWith, optList_getD, List.map_map]
  rfl

/-- C25, amended.  For every arena in which each live token's owning-cell
index lies in the cell range of some live cluster, `getDataDescription`
returns normally and the total number of tokens over all returned cells equals
the live token count.  When moreover the cell ranges of distinct clusters share
no index, the token list returned for the cell at arena index `c` is exactly
the sequence of arena tokens whose owning-cell index is `c`, in token-array
order, each with its energy and its first `tokenMemorySize` memory bytes. -/
theorem C25_tokens_grouped_by_cell (s : DataConverter) (hcov : TokensOwned s.dataTO) :
    ∃ r, getDataDescription s = Except.ok r
      ∧ tokenCount r = s.dataTO.numTokens
      ∧ (DisjointCellRanges s.dataTO →
        tokenView r
          = (List.range s.dataTO.numClusters).map (fun i =>
            (List.range (s.dataTO.clusters i).numCells).map (fun j =>
              some ((((List.range s.dataTO.numTokens).map s.dataTO.tokens).filter
                (fun t => decide (t.cellIndex = (s.dataTO.clusters i).cellStartIndex + j))).map
                (readToken s.parameters.tokenMemorySize))))) := by
  refine ⟨_, getDataDescription_pushed s hcov, tokenCount_pushed s hcov _, ?_⟩
  intro hdisj
  have h1 := getDataDescription_eq s (fun i j c hi hj a b => hdisj.unique i j c hi hj a b) hcov
  rw [getDataDescription_pushed s hcov] at h1
  simp only [Except.ok.injEq] at h1
  rw [h1]
  exact tokenView_read _ _ _

/-- C25 on `twoClusterArena`: the two tokens hosted by the cell at index 1 are
returned on the second cell of the first cluster, and nowhere else. -/
theorem C25_tokens_grouped_by_cell_witness :
    TokensOwned (sampleConverter twoClusterArena 8 8 8 8).dataTO
    ∧ DisjointCellRanges (sampleConverter twoClusterArena 8 8 8 8).dataTO
    ∧ ∃ r, getDataDescription (sampleConverter twoClusterArena 8 8 8 8) = Except.ok r
      ∧ tokenCount r = 2
      ∧ tokenNumbers r = [[0, 2, 0], [0, 0]] :=
  ⟨by decide, by decide, by
    obtain ⟨r, hr, h1, h2⟩ := C25_tokens_grouped_by_cell
      (sampleConverter twoClusterArena 8 8 8 8) (by decide)
    refine ⟨r, hr, h1, ?_⟩
    have h3 : tokenNumbers r = (tokenView r).map (fun l => l.map (fun o => (o.getD []).length)) := by
      simp [tokenNumbers, tokenView]
    rw [h3, h2 (by decide)]
    decide⟩

/-! ## The token rebuild without deltas -/

theorem regrouped_refl (a : DataConverter) : Regrouped a a :=
  ⟨rfl, rfl⟩

theorem regrouped_trans {a b c : DataConverter} (h1 : Regrouped a b) (h2 : Regrouped b c) :
    Regrouped a c := by
  refine ⟨?_, h2.2.trans h1.2⟩
  have e1 := h1.1
  have e2 := h2.1
  rw [← e1, ← e2]
  rfl

theorem regrouped_setCluster (st : DataConverter) (k : Nat) (start : Int) (n : Nat) :
    Regrouped st (st.setCluster k
      { st.dataTO.clusters k with tokenStartIndex := start, numTokens := n }) := by
  refine ⟨rfl, ?_⟩
  unfold tokenFree DataConverter.setCluster DataConverter.withDataTO
  simp only
  congr 1
  funext i
  by_cases h : i = k
  · subst h
    rw [Function.update_same]
  · rw [Function.update_noteq h]

theorem regrouped_tokens (st : DataConverter) (n : Nat) (tokens : Nat → TokenAccessTO) :
    Regrouped st (st.withDataTO { st.dataTO with numTokens := n, tokens := tokens }) :=
  ⟨rfl, rfl⟩

theorem Regrouped.cells {a st : DataConverter} (h : Regrouped a st) :
    st.dataTO.cells = a.dataTO.cells := by
  have := congrArg DataAccessTO.cells h.2
  exact this

theorem Regrouped.cellToModifyById {a st : DataConverter} (h : Regrouped a st) :
    st.cellToModifyById = a.cellToModifyById := by
  have := congrArg DataConverter.cellToModifyById h.1
  exact this

theorem Regrouped.particleToModifyById {a st : DataConverter} (h : Regrouped a st) :
    st.particleToModifyById = a.particleToModifyById := by
  have := congrArg DataConverter.particleToModifyById h.1
  exact this

theorem Regrouped.cudaConstants {a st : DataConverter} (h : Regrouped a st) :
    st.cudaConstants = a.cudaConstants := by
  have := congrArg DataConverter.cudaConstants h.1
  exact this

theorem Regrouped.parameters {a st : DataConverter} (h : Regrouped a st) :
    st.parameters = a.parameters := by
  have := congrArg DataConverter.parameters h.1
  exact this

theorem Regrouped.numClusters {a st : DataConverter} (h : Regrouped a st) :
    st.dataTO.numClusters = a.dataTO.numClusters := by
  have := congrArg DataAccessTO.numClusters h.2
  exact this

theorem Regrouped.numCells {a st : DataConverter} (h : Regrouped a st) :
    st.dataTO.numCells = a.dataTO.numCells := by
  have := congrArg DataAccessTO.numCells h.2
  exact this

theorem Regrouped.numParticles {a st : DataConverter} (h : Regrouped a st) :
    st.dataTO.numParticles = a.dataTO.numParticles := by
  have := congrArg DataAccessTO.numParticles h.2
  exact this

theorem Regrouped.particles {a st : DataConverter} (h : Regrouped a st) :
    st.dataTO.particles = a.dataTO.particles := by
  have := congrArg DataAccessTO.particles h.2
  exact this

theorem Regrouped.stringBytes {a st : DataConverter} (h : Regrouped a st) :
    st.dataTO.stringBytes = a.dataTO.stringBytes := by
  have := congrArg DataAccessTO.stringBytes h.2
  exact this

theorem Regrouped.cluster {a st : DataConverter} (h : Regrouped a st) (i : Nat) :
    { st.dataTO.clusters i with numTokens := 0, tokenStartIndex := 0 }
      = { a.dataTO.clusters i with numTokens := 0, tokenStartIndex := 0 } := by
  have := congrFun (congrArg DataAccessTO.clusters h.2) i
  exact this

theorem liveTokens_push (st : DataConverter) (t : TokenAccessTO) :
    liveTokens ((st.withDataTO
        { st.dataTO with numTokens := st.dataTO.numTokens + 1 }).setToken
          st.dataTO.numTokens t).dataTO
      = liveTokens st.dataTO ++ [t] := by
  unfold liveTokens DataConverter.setToken DataConverter.withDataTO
  simp only
  rw [List.range_succ, List.map_append]
  congr 1
  · apply List.map_congr_left
    intro i hi
    rw [List.mem_range] at hi
    rw [Function.update_noteq (by omega)]
  · simp

/-- The loop that carries the tokens of a cell over: with room for all of
them it does not throw and appends them to the live tokens. -/
theorem carriedLoop_total (ts : List TokenAccessTO) (st : DataConverter)
    (h : st.dataTO.numTokens + ts.length ≤ st.cudaConstants.MAX_TOKENS) :
    (forEach ts rebuild_carriedToken st).failure = none
    ∧ Regrouped st (forEach ts rebuild_carriedToken st).state
    ∧ liveTokens (forEach ts rebuild_carriedToken st).state.dataTO
        = liveTokens st.dataTO ++ ts := by
  induction ts generalizing st with
  | nil => exact ⟨rfl, regrouped_refl _, by simp [forEach_nil]⟩
  | cons t ts ih =>
    simp only [List.length_cons] at h
    have e : rebuild_carriedToken t st
        = ⟨(st.withDataTO { st.dataTO with numTokens := st.dataTO.numTokens + 1 }).setToken
            st.dataTO.numTokens t, none⟩ := by
      unfold rebuild_carriedToken
      simp only
      rw [if_neg]
      show ¬ st.dataTO.numTokens ≥ st.cudaConstants.MAX_TOKENS
      omega
    have hR : Regrouped st ((st.withDataTO
        { st.dataTO with numTokens := st.dataTO.numTokens + 1 }).setToken
          st.dataTO.numTokens t) := ⟨rfl, rfl⟩
    rw [forEach_cons, e]
    obtain ⟨a, b, c⟩ := ih ((st.withDataTO
        { st.dataTO with numTokens := st.dataTO.numTokens + 1 }).setToken
          st.dataTO.numTokens t) (by
        show st.dataTO.numTokens + 1 + ts.length ≤ st.cudaConstants.MAX_TOKENS
        omega)
    refine ⟨a, regrouped_trans hR b, ?_⟩
    show liveTokens (forEach ts rebuild_carriedToken _).state.dataTO = _
    rw [c, liveTokens_push]
    simp

/-- The snapshot of the tokens: under each cell id the live tokens whose
owning cell has that id, in token-array order; no entry for an id without
tokens. -/
theorem lookup_collectTokens (d : DataAccessTO) (k : Nat) :
    (collectTokens d).lookup k
      = optList ((liveTokens d).filter (fun t => decide ((d.cells t.cellIndex).id = k))) := by
  unfold collectTokens liveTokens
  generalize d.numTokens = n
  induction n with
  | zero => rfl
  | succ n ih =>
    rw [List.range_succ, List.foldl_append]
    simp only [List.foldl_cons, List.foldl_nil]
    rw [lookup_pushToken, List.map_append, List.filter_append]
    by_cases hk : k = (d.cells (d.tokens n).cellIndex).id
    · subst hk
      rw [if_pos rfl, ih, optList_getD]
      simp only [List.map_cons, List.map_nil, List.filter_cons, decide_True, if_true,
        List.filter_nil]
      rw [optList_append_singleton]
    · rw [if_neg hk, ih]
      have : ¬ (d.cells (d.tokens n).cellIndex).id = k := fun e => hk e.symm
      simp [this]

theorem length_filter_mem_cons (L : List TokenAccessTO) (x : Nat) (vs : List Nat)
    (hx : x ∉ vs) :
    (L.filter (fun t => decide (t.cellIndex ∈ x :: vs))).length
      = (L.filter (fun t => decide (t.cellIndex = x))).length
        + (L.filter (fun t => decide (t.cellIndex ∈ vs))).length := by
  induction L with
  | nil => rfl
  | cons t L ih =>
    rw [List.filter_cons, List.filter_cons, List.filter_cons]
    by_cases h1 : t.cellIndex = x
    · have h2 : t.cellIndex ∉ vs := by rw [h1]; exact hx
      have e1 : decide (t.cellIndex ∈ x :: vs) = true := by simp [h1]
      have e2 : decide (t.cellIndex = x) = true := by simp [h1]
      have e3 : decide (t.cellIndex ∈ vs) = false := by simp [h2]
      rw [e1, e2, e3]
      simp only [if_true, Bool.false_eq_true, if_false, List.length_cons]
      omega
    · by_cases h2 : t.cellIndex ∈ vs
      · have e1 : decide (t.cellIndex ∈ x :: vs) = true := by simp [h2]
        have e2 : decide (t.cellIndex = x) = false := by simp [h1]
        have e3 : decide (t.cellIndex ∈ vs) = true := by simp [h2]
        rw [e1, e2, e3]
        simp only [if_true, Bool.false_eq_true, if_false, List.length_cons]
        omega
      · have e1 : decide (t.cellIndex ∈ x :: vs) = false := by simp [h1, h2]
        have e2 : decide (t.cellIndex = x) = false := by simp [h1]
        have e3 : decide (t.cellIndex ∈ vs) = false := by simp [h2]
        rw [e1, e2, e3]
        simp only [Bool.false_eq_true, if_false]
        exact ih

theorem length_flatMap_prefix {α β : Type} (P rest : List α) (f : α → List β) :
    (P.flatMap f).length ≤ ((P ++ rest).flatMap f).length := by
  rw [List.flatMap_append, List.length_append]
  omega

/-- Over cells visited once each, the tokens handed out are tokens of the
snapshot, each counted once. -/
theorem length_flatMap_hostedBy (d : DataAccessTO) (vs : List Nat) (h : vs.Nodup) :
    (vs.flatMap (hostedBy d)).length
      = ((liveTokens d).filter (fun t => decide (t.cellIndex ∈ vs))).length := by
  induction vs with
  | nil => simp
  | cons x vs ih =>
    rw [List.nodup_cons] at h
    rw [List.flatMap_cons, List.length_append, ih h.2, length_filter_mem_cons _ _ _ h.1]
    rfl

theorem length_flatMap_hostedBy_le (d : DataAccessTO) (vs : List Nat) (h : vs.Nodup) :
    (vs.flatMap (hostedBy d)).length ≤ d.numTokens := by
  rw [length_flatMap_hostedBy d vs h]
  have := List.length_filter_le (fun t => decide (t.cellIndex ∈ vs)) (liveTokens d)
  simp only [liveTokens, List.length_map, List.length_range] at this
  exact this

theorem length_liveTokens (d : DataAccessTO) : (liveTokens d).length = d.numTokens := by
  simp [liveTokens]

theorem clusterCells_succ (d : DataAccessTO) (k : Nat) :
    clusterCells d (k + 1)
      = clusterCells d k
        ++ List.range' (d.clusters k).cellStartIndex (d.clusters k).numCells := by
  unfold clusterCells
  rw [List.range_succ, List.flatMap_append]
  simp

theorem regrouped_addClusterTokens (st : DataConverter) (k n : Nat) :
    Regrouped st (st.addClusterTokens k n) := by
  refine ⟨rfl, ?_⟩
  unfold tokenFree DataConverter.addClusterTokens DataConverter.setCluster
    DataConverter.withDataTO
  simp only
  congr 1
  funext i
  by_cases h : i = k
  · subst h
    rw [Function.update_same]
  · rw [Function.update_noteq h]

/-- The rebuild of one cell that has no delta: the tokens the snapshot holds
for the cell are appended, without a throw when there is room for them. -/
theorem rebuild_cell_plain (m : List (Nat × List TokenAccessTO)) (k x : Nat)
    (a st : DataConverter) (visited : List Nat) (hR : Regrouped a st)
    (hmaps : a.cellToModifyById = [])
    (hm : m.lookup (a.dataTO.cells x).id = optList (hostedBy a.dataTO x))
    (hL : liveTokens st.dataTO = visited.flatMap (hostedBy a.dataTO))
    (hroom : ((visited ++ [x]).flatMap (hostedBy a.dataTO)).length
      ≤ a.cudaConstants.MAX_TOKENS) :
    (rebuild_cell m k x st).failure = none
    ∧ Regrouped a (rebuild_cell m k x st).state
    ∧ liveTokens (rebuild_cell m k x st).state.dataTO
        = (visited ++ [x]).flatMap (hostedBy a.dataTO) := by
  have hflat : (visited ++ [x]).flatMap (hostedBy a.dataTO)
      = visited.flatMap (hostedBy a.dataTO) ++ hostedBy a.dataTO x := by
    simp [List.flatMap_append]
  have hlook : st.cellToModifyById.lookup (st.dataTO.cells x).id = none := by
    rw [hR.cellToModifyById, hmaps]
    rfl
  unfold rebuild_cell
  simp only [hlook]
  rw [hR.cells, hm]
  cases hG : hostedBy a.dataTO x with
  | nil =>
    have e : optList ([] : List TokenAccessTO) = none := rfl
    simp only [e]
    refine ⟨by trivial, hR, ?_⟩
    rw [hL, hflat, hG, List.append_nil]
  | cons t ts =>
    have e : optList (t :: ts) = some (t :: ts) := rfl
    simp only [e]
    have hn : st.dataTO.numTokens = (visited.flatMap (hostedBy a.dataTO)).length := by
      rw [← hL, length_liveTokens]
    rw [hflat, List.length_append, hG] at hroom
    obtain ⟨c1, c2, c3⟩ := carriedLoop_total (t :: ts) (st.addClusterTokens k (t :: ts).length) (by
      show st.dataTO.numTokens + (t :: ts).length ≤ st.cudaConstants.MAX_TOKENS
      rw [hR.cudaConstants, hn]
      exact hroom)
    refine ⟨c1, regrouped_trans hR (regrouped_trans (regrouped_addClusterTokens _ _ _) c2), ?_⟩
    rw [c3, hflat, hG]
    show liveTokens st.dataTO ++ t :: ts = _
    rw [hL]

/-- The rebuild of one cluster none of whose cells has a delta. -/
theorem rebuild_cluster_plain (m : List (Nat × List TokenAccessTO)) (k : Nat)
    (a st : DataConverter) (hR : Regrouped a st) (hmaps : a.cellToModifyById = [])
    (hm : ∀ x, x ∈ List.range' (a.dataTO.clusters k).cellStartIndex
      (a.dataTO.clusters k).numCells →
      m.lookup (a.dataTO.cells x).id = optList (hostedBy a.dataTO x))
    (hL : liveTokens st.dataTO = (clusterCells a.dataTO k).flatMap (hostedBy a.dataTO))
    (hroom : ((clusterCells a.dataTO (k + 1)).flatMap (hostedBy a.dataTO)).length
      ≤ a.cudaConstants.MAX_TOKENS) :
    (rebuild_cluster m k st).failure = none
    ∧ Regrouped a (rebuild_cluster m k st).state
    ∧ liveTokens (rebuild_cluster m k st).state.dataTO
        = (clusterCells a.dataTO (k + 1)).flatMap (hostedBy a.dataTO) := by
  have hc := hR.cluster k
  have hstart : (st.dataTO.clusters k).cellStartIndex = (a.dataTO.clusters k).cellStartIndex := by
    have := congrArg ClusterAccessTO.cellStartIndex hc
    exact this
  have hnum : (st.dataTO.clusters k).numCells = (a.dataTO.clusters k).numCells := by
    have := congrArg ClusterAccessTO.numCells hc
    exact this
  have hrange : List.range' (st.dataTO.clusters k).cellStartIndex (st.dataTO.clusters k).numCells
      = List.range' (a.dataTO.clusters k).cellStartIndex (a.dataTO.clusters k).numCells := by
    rw [hstart, hnum]
  unfold rebuild_cluster
  simp only
  have H := forEach_total (rebuild_cell m k)
    (fun done s => Regrouped a s
      ∧ liveTokens s.dataTO = (clusterCells a.dataTO k ++ done).flatMap (hostedBy a.dataTO))
    (List.range' (st.dataTO.clusters k).cellStartIndex (st.dataTO.clusters k).numCells)
    (st.setCluster k
      { st.dataTO.clusters k with
        tokenStartIndex := (st.dataTO.numTokens : Int), numTokens := 0 })
    ⟨regrouped_trans hR (regrouped_setCluster st k _ _), by
      rw [List.append_nil]
      exact hL⟩
    (by
      intro done x rest s hxs ⟨h1, h2⟩
      rw [hrange] at hxs
      have hx : x ∈ List.range' (a.dataTO.clusters k).cellStartIndex
          (a.dataTO.clusters k).numCells := by
        rw [hxs]
        simp
      have hroom' : (((clusterCells a.dataTO k ++ done) ++ [x]).flatMap
          (hostedBy a.dataTO)).length ≤ a.cudaConstants.MAX_TOKENS := by
        refine le_trans ?_ hroom
        rw [clusterCells_succ, hxs]
        have e : clusterCells a.dataTO k ++ (done ++ x :: rest)
            = ((clusterCells a.dataTO k ++ done) ++ [x]) ++ rest := by simp
        rw [e]
        exact length_flatMap_prefix _ _ _
      obtain ⟨c1, c2, c3⟩ := rebuild_cell_plain m k x a s (clusterCells a.dataTO k ++ done)
        h1 hmaps (hm x hx) h2 hroom'
      exact ⟨c1, c2, by rw [c3, List.append_assoc]⟩)
  refine ⟨H.1, H.2.1, ?_⟩
  rw [H.2.2, clusterCells_succ, hrange]

theorem clusterCells_prefix (d : DataAccessTO) (k n : Nat) (h : k ≤ n) :
    ∃ rest, clusterCells d n = clusterCells d k ++ rest := by
  induction n with
  | zero =>
    have : k = 0 := by omega
    subst this
    exact ⟨[], by simp⟩
  | succ n ih =>
    rcases Nat.lt_or_ge k (n + 1) with h1 | h1
    · obtain ⟨rest, hr⟩ := ih (by omega)
      refine ⟨rest ++ List.range' (d.clusters n).cellStartIndex (d.clusters n).numCells, ?_⟩
      rw [clusterCells_succ, hr, List.append_assoc]
    · have : k = n + 1 := by omega
      subst this
      exact ⟨[], by simp⟩

theorem mem_clusterCells (d : DataAccessTO) (n x : Nat) :
    x ∈ clusterCells d n ↔ ∃ i, i < n ∧ inCellRange (d.clusters i) x = true := by
  unfold clusterCells
  simp only [List.mem_flatMap, List.mem_range, List.mem_range'_1, inCellRange,
    decide_eq_true_eq]

/-- The token rebuild when no cell has a delta: with room for the tokens of
the snapshot it does not throw, and the live tokens are afterwards the tokens
of the snapshot regrouped in the order of the clusters and their cells. -/
theorem rebuild_plain (m : List (Nat × List TokenAccessTO)) (a : DataConverter)
    (hmaps : a.cellToModifyById = [])
    (hm : ∀ x, x ∈ clusterCells a.dataTO a.dataTO.numClusters →
      m.lookup (a.dataTO.cells x).id = optList (hostedBy a.dataTO x))
    (hroom : ((clusterCells a.dataTO a.dataTO.numClusters).flatMap
      (hostedBy a.dataTO)).length ≤ a.cudaConstants.MAX_TOKENS) :
    (forEach (List.range a.dataTO.numClusters) (rebuild_cluster m)
        (a.withDataTO { a.dataTO with numTokens := 0 })).failure = none
    ∧ Regrouped a (forEach (List.range a.dataTO.numClusters) (rebuild_cluster m)
        (a.withDataTO { a.dataTO with numTokens := 0 })).state
    ∧ liveTokens (forEach (List.range a.dataTO.numClusters) (rebuild_cluster m)
        (a.withDataTO { a.dataTO with numTokens := 0 })).state.dataTO
      = (clusterCells a.dataTO a.dataTO.numClusters).flatMap (hostedBy a.dataTO) := by
  have H := forEach_total (rebuild_cluster m)
    (fun done st => Regrouped a st
      ∧ liveTokens st.dataTO = (clusterCells a.dataTO done.length).flatMap (hostedBy a.dataTO))
    (List.range a.dataTO.numClusters) (a.withDataTO { a.dataTO with numTokens := 0 })
    ⟨⟨rfl, rfl⟩, rfl⟩
    (by
      intro done k rest st hxs ⟨h1, h2⟩
      obtain ⟨hk, hkn⟩ := range_eq_append_cons _ _ _ _ hxs
      subst hk
      obtain ⟨tail, ht⟩ := clusterCells_prefix a.dataTO (done.length + 1) a.dataTO.numClusters
        (by omega)
      obtain ⟨c1, c2, c3⟩ := rebuild_cluster_plain m done.length a st h1 hmaps
        (by
          intro x hx
          apply hm
          rw [mem_clusterCells]
          refine ⟨done.length, hkn, ?_⟩
          rw [List.mem_range'_1] at hx
          simp only [inCellRange, decide_eq_true_eq]
          exact hx)
        h2
        (by
          refine le_trans ?_ hroom
          rw [ht]
          exact length_flatMap_prefix _ _ _)
      refine ⟨c1, c2, ?_⟩
      rw [c3]
      simp)
  have hlen : (List.range a.dataTO.numClusters).length = a.dataTO.numClusters := by simp
  refine ⟨H.1, H.2.1, ?_⟩
  have := H.2.2
  simp only [hlen] at this
  exact this

theorem foldl_processModifications_cluster_plain (xs : List Nat) (s : DataConverter)
    (h : s.clusterToModifyById = []) : xs.foldl processModifications_cluster s = s := by
  induction xs with
  | nil => rfl
  | cons x xs ih =>
    have e : processModifications_cluster s x = s := by
      unfold processModifications_cluster
      simp only [h, List.lookup_nil]
    rw [List.foldl_cons, e, ih]

theorem foldl_processModifications_cell_plain (xs : List Nat) (s : DataConverter)
    (h : s.cellToModifyById = []) : xs.foldl processModifications_cell s = s := by
  induction xs with
  | nil => rfl
  | cons x xs ih =>
    have e : processModifications_cell s x = s := by
      unfold processModifications_cell
      simp only [h, List.lookup_nil]
    rw [List.foldl_cons, e, ih]

theorem foldl_processModifications_particle_plain (xs : List Nat) (s : DataConverter)
    (h : s.particleToModifyById = []) : xs.foldl processModifications_particle s = s := by
  induction xs with
  | nil => rfl
  | cons x xs ih =>
    have e : processModifications_particle s x = s := by
      unfold processModifications_particle
      simp only [h, List.lookup_nil]
    rw [List.foldl_cons, e, ih]

theorem modifiedClustersAndCells_plain (s : DataConverter) (h1 : s.clusterToModifyById = [])
    (h2 : s.cellToModifyById = []) : modifiedClustersAndCells s = s := by
  unfold modifiedClustersAndCells
  simp only
  rw [foldl_processModifications_cluster_plain _ _ h1, foldl_processModifications_cell_plain _ _ h2]

theorem hostedBy_eq_filter_id (d : DataAccessTO) (hI : DistinctCellIds d)
    (hcell : ∀ t, t < d.numTokens → (d.tokens t).cellIndex < d.numCells) (x : Nat)
    (hx : x < d.numCells) :
    (liveTokens d).filter (fun t => decide ((d.cells t.cellIndex).id = (d.cells x).id))
      = hostedBy d x := by
  unfold hostedBy
  apply List.filter_congr
  intro t ht
  unfold liveTokens at ht
  rw [List.mem_map] at ht
  obtain ⟨i, hi, rfl⟩ := ht
  rw [List.mem_range] at hi
  by_cases h : (d.tokens i).cellIndex = x
  · simp [h]
  · have : ¬ (d.cells (d.tokens i).cellIndex).id = (d.cells x).id :=
      fun e => h (hI _ (hcell i hi) _ hx e)
    simp [h, this]

/-- The modify phase of a converter without deltas, on an arena with distinct
cell ids whose clusters share no cell and whose tokens fit the token array: it
does not throw, touches nothing but the tokens and the token ranges of the
clusters, and leaves the live tokens regrouped in the order of the clusters and
their cells. -/
theorem processModifications_plain (a : DataConverter) (h1 : a.clusterToModifyById = [])
    (h2 : a.cellToModifyById = []) (h3 : a.particleToModifyById = [])
    (hI : DistinctCellIds a.dataTO)
    (hcell : ∀ t, t < a.dataTO.numTokens → (a.dataTO.tokens t).cellIndex < a.dataTO.numCells)
    (hin : ∀ x, x ∈ clusterCells a.dataTO a.dataTO.numClusters → x < a.dataTO.numCells)
    (hND : (clusterCells a.dataTO a.dataTO.numClusters).Nodup)
    (hcap : a.dataTO.numTokens ≤ a.cudaConstants.MAX_TOKENS) :
    (processModifications a).failure = none
    ∧ Regrouped a (processModifications a).state
    ∧ liveTokens (processModifications a).state.dataTO
      = (clusterCells a.dataTO a.dataTO.numClusters).flatMap (hostedBy a.dataTO) := by
  rw [processModifications_eq, modifiedClustersAndCells_plain a h1 h2]
  obtain ⟨c1, c2, c3⟩ := rebuild_plain (collectTokens a.dataTO) a h2
    (by
      intro x hx
      rw [lookup_collectTokens, hostedBy_eq_filter_id a.dataTO hI hcell x (hin x hx)])
    (le_trans (length_flatMap_hostedBy_le a.dataTO _ hND) hcap)
  generalize forEach (List.range a.dataTO.numClusters) (rebuild_cluster (collectTokens a.dataTO))
    (a.withDataTO { a.dataTO with numTokens := 0 }) = r at c1 c2 c3
  rcases r with ⟨st, f⟩
  simp only at c1 c2 c3
  subst c1
  have e : (List.range st.dataTO.numParticles).foldl processModifications_particle st = st :=
    foldl_processModifications_particle_plain _ _ (by rw [c2.particleToModifyById, h3])
  have hand : ((⟨st, none⟩ : Step DataConverter).andThen (fun s =>
        ⟨(List.range s.dataTO.numParticles).foldl processModifications_particle s, none⟩))
      = ⟨(List.range st.dataTO.numParticles).foldl processModifications_particle st, none⟩ := rfl
  rw [hand, e]
  exact ⟨rfl, c2, c3⟩

theorem tokensOf_eq_hostedBy (d : DataAccessTO) (size c : Nat) :
    tokensOf d size c = (hostedBy d c).map (readToken size) := rfl

theorem hostedBy_filter (d : DataAccessTO) (x c : Nat) :
    (hostedBy d x).filter (fun t => decide (t.cellIndex = c))
      = if x = c then hostedBy d c else [] := by
  unfold hostedBy
  rw [List.filter_filter]
  by_cases h : x = c
  · subst h
    rw [if_pos rfl]
    apply List.filter_congr
    intro t _
    simp
  · rw [if_neg h]
    rw [List.filter_eq_nil_iff]
    intro t _
    simp only [Bool.and_eq_true, decide_eq_true_eq, not_and]
    intro h1 h2
    exact h (h2.symm.trans h1)

/-- After the regrouping, a cell that the rebuild visits once hosts the tokens
it hosted before, in the same order. -/
theorem hostedBy_regrouped (d d' : DataAccessTO) (V : List Nat)
    (hL : liveTokens d' = V.flatMap (hostedBy d)) (hND : V.Nodup) (c : Nat) (hc : c ∈ V) :
    hostedBy d' c = hostedBy d c := by
  have e : hostedBy d' c = (liveTokens d').filter (fun t => decide (t.cellIndex = c)) := rfl
  rw [e, hL, List.filter_flatMap]
  have e2 : (fun x => (hostedBy d x).filter (fun t => decide (t.cellIndex = c)))
      = fun x => if x = c then hostedBy d c else [] := by
    funext x
    exact hostedBy_filter d x c
  rw [e2, flatMap_ite_nodup _ _ _ hND, if_pos hc]

/-- Every token of the regrouped array is hosted by a visited cell. -/
theorem cellIndex_mem_of_regrouped (d d' : DataAccessTO) (V : List Nat)
    (hL : liveTokens d' = V.flatMap (hostedBy d)) (t : Nat) (ht : t < d'.numTokens) :
    (d'.tokens t).cellIndex ∈ V := by
  have h1 : d'.tokens t ∈ liveTokens d' := by
    unfold liveTokens
    rw [List.mem_map]
    exact ⟨t, List.mem_range.mpr ht, rfl⟩
  rw [hL, List.mem_flatMap] at h1
  obtain ⟨x, hx, h2⟩ := h1
  unfold hostedBy at h2
  rw [List.mem_filter] at h2
  have := h2.2
  simp only [decide_eq_true_eq] at this
  rw [this]
  exact hx

/-- A cluster reads the same after the regrouping when its cells host the same
tokens. -/
theorem readCluster_regrouped (a st : DataConverter) (size i : Nat) (hR : Regrouped a st)
    (htok : ∀ j, j < (a.dataTO.clusters i).numCells →
      hostedBy st.dataTO ((a.dataTO.clusters i).cellStartIndex + j)
        = hostedBy a.dataTO ((a.dataTO.clusters i).cellStartIndex + j)) :
    readCluster st.dataTO size i = readCluster a.dataTO size i := by
  have hc := hR.cluster i
  have e1 : (st.dataTO.clusters i).id = (a.dataTO.clusters i).id := by
    have := congrArg ClusterAccessTO.id hc; exact this
  have e2 : (st.dataTO.clusters i).pos = (a.dataTO.clusters i).pos := by
    have := congrArg ClusterAccessTO.pos hc; exact this
  have e3 : (st.dataTO.clusters i).vel = (a.dataTO.clusters i).vel := by
    have := congrArg ClusterAccessTO.vel hc; exact this
  have e4 : (st.dataTO.clusters i).angle = (a.dataTO.clusters i).angle := by
    have := congrArg ClusterAccessTO.angle hc; exact this
  have e5 : (st.dataTO.clusters i).angularVel = (a.dataTO.clusters i).angularVel := by
    have := congrArg ClusterAccessTO.angularVel hc; exact this
  have e6 : (st.dataTO.clusters i).metadata = (a.dataTO.clusters i).metadata := by
    have := congrArg ClusterAccessTO.metadata hc; exact this
  have e7 : (st.dataTO.clusters i).numCells = (a.dataTO.clusters i).numCells := by
    have := congrArg ClusterAccessTO.numCells hc; exact this
  have e8 : (st.dataTO.clusters i).cellStartIndex = (a.dataTO.clusters i).cellStartIndex := by
    have := congrArg ClusterAccessTO.cellStartIndex hc; exact this
  unfold readCluster clusterWith
  simp only [e1, e2, e3, e4, e5, e6, e7, e8]
  congr 1
  · unfold readClusterMetadata
    rw [hR.stringBytes]
  · congr 1
    apply List.map_congr_left
    intro j hj
    rw [List.mem_range] at hj
    unfold cellWith readCell readCellMetadata
    rw [tokensOf_eq_hostedBy, tokensOf_eq_hostedBy, htok j hj, hR.cells, hR.stringBytes]

/-! ## Reading after the compaction -/

/-- In a well-formed arena the cells of a cluster that is not marked deleted
stay, and after the compaction they follow the new `cellStartIndex` in their
old order. -/
theorem WellFormed.keptRange {d : DataAccessTO} (hwf : WellFormed d) (ids : List Nat) (i : Nat)
    (hi : i < d.numClusters) (hd : clusterDeleted d ids i = false) (k : Nat)
    (hk : k < (d.clusters i).numCells) :
    newCellIndex d ids (d.clusters i).cellStartIndex + k
        = rank (cellDeleted d ids) ((d.clusters i).cellStartIndex + k)
    ∧ cellDeleted d ids ((d.clusters i).cellStartIndex + k) = false
    ∧ (d.clusters i).cellStartIndex + k < d.numCells := by
  have hb := hwf.1 i hi
  have hs : ∀ j, (d.clusters i).cellStartIndex ≤ j →
      j < (d.clusters i).cellStartIndex + (d.clusters i).numCells →
      cellDeleted d ids j = false := by
    intro j h1 h2
    apply hwf.not_cellDeleted ids i j hi (by omega) hd
    rw [inCellRange_iff]
    omega
  refine ⟨?_, hs _ (by omega) (by omega), by omega⟩
  rw [rank_add_of_survivors _ _ _ (fun j h1 h2 => hs j h1 (by omega))]
  unfold newCellIndex
  rw [if_pos ⟨by omega, hs _ (le_refl _) (by omega)⟩]

/-- What the delete phase hands to the modify phase, from a well-formed arena
in which no two cells share an id: the cell ranges of the clusters lie inside
the live cells and share no cell, every live token is owned by a live cell, and
no two cells share an id. -/
theorem wellFormed_processDeletions (s : DataConverter) (hwf : WellFormed s.dataTO)
    (hI : DistinctCellIds s.dataTO) :
    (∀ i, i < (processDeletions s).dataTO.numClusters → ∀ c,
        inCellRange ((processDeletions s).dataTO.clusters i) c = true →
        c < (processDeletions s).dataTO.numCells)
    ∧ (∀ i j c, i < (processDeletions s).dataTO.numClusters →
        j < (processDeletions s).dataTO.numClusters →
        inCellRange ((processDeletions s).dataTO.clusters i) c = true →
        inCellRange ((processDeletions s).dataTO.clusters j) c = true → i = j)
    ∧ (∀ t, t < (processDeletions s).dataTO.numTokens →
        ((processDeletions s).dataTO.tokens t).cellIndex
          < (processDeletions s).dataTO.numCells)
    ∧ DistinctCellIds (processDeletions s).dataTO := by
  obtain ⟨hn1, hn2, hn3, _⟩ := processDeletions_counts s
  have key : ∀ i, i < s.dataTO.numClusters →
      clusterDeleted s.dataTO s.clusterIdsToDelete i = false → ∀ c,
      inCellRange ((processDeletions s).dataTO.clusters
        (rank (clusterDeleted s.dataTO s.clusterIdsToDelete) i)) c = true →
      ∃ k, k < (s.dataTO.clusters i).numCells
        ∧ c = rank (cellDeleted s.dataTO s.clusterIdsToDelete)
            ((s.dataTO.clusters i).cellStartIndex + k) := by
    intro i hi hd c hc
    rw [processDeletions_cluster_at s i hi hd, inCellRange_iff] at hc
    simp only at hc
    refine ⟨c - newCellIndex s.dataTO s.clusterIdsToDelete
      (s.dataTO.clusters i).cellStartIndex, by omega, ?_⟩
    rw [← (hwf.keptRange _ i hi hd _ (by omega)).1]
    omega
  refine ⟨?_, ?_, ?_, ?_⟩
  · intro i' hi' c hc
    rw [hn1] at hi'
    obtain ⟨i, hi, hd, rfl⟩ := exists_of_lt_rank _ _ _ hi'
    obtain ⟨k, hk, rfl⟩ := key i hi hd c hc
    obtain ⟨_, h2, h3⟩ := hwf.keptRange s.clusterIdsToDelete i hi hd k hk
    rw [hn2]
    exact rank_lt _ h3 h2
  · intro i' j' c hi' hj' hci hcj
    rw [hn1] at hi' hj'
    obtain ⟨i, hi, hdi, rfl⟩ := exists_of_lt_rank _ _ _ hi'
    obtain ⟨j, hj, hdj, rfl⟩ := exists_of_lt_rank _ _ _ hj'
    obtain ⟨k, hk, e1⟩ := key i hi hdi c hci
    obtain ⟨k', hk', e2⟩ := key j hj hdj c hcj
    obtain ⟨_, a2, a3⟩ := hwf.keptRange s.clusterIdsToDelete i hi hdi k hk
    obtain ⟨_, b2, b3⟩ := hwf.keptRange s.clusterIdsToDelete j hj hdj k' hk'
    have hsame := rank_injective (cellDeleted s.dataTO s.clusterIdsToDelete) a2 b2
      (by rw [← e1, ← e2])
    have hin1 : inCellRange (s.dataTO.clusters i) ((s.dataTO.clusters i).cellStartIndex + k)
        = true := by
      rw [inCellRange_iff]
      omega
    have hin2 : inCellRange (s.dataTO.clusters j) ((s.dataTO.clusters i).cellStartIndex + k)
        = true := by
      rw [hsame, inCellRange_iff]
      omega
    have := hwf.2.1 i hi j hj _ a3 hin1 hin2
    rw [this]
  · intro t' ht'
    rw [hn3] at ht'
    obtain ⟨t, ht, hd, rfl⟩ := exists_of_lt_rank _ _ _ ht'
    rw [processDeletions_token_at s t ht hd, hn2]
    simp only
    have hclt := hwf.2.2.2.1 t ht
    have hcs : cellDeleted s.dataTO s.clusterIdsToDelete (s.dataTO.tokens t).cellIndex
        = false := by
      rw [← hwf.tokenDeleted_eq _ t ht]
      exact hd
    unfold newCellIndex
    rw [if_pos ⟨hclt, hcs⟩]
    exact rank_lt _ hclt hcs
  · intro c1' h1' c2' h2' hid
    rw [hn2] at h1' h2'
    obtain ⟨c1, h1, hd1, rfl⟩ := exists_of_lt_rank _ _ _ h1'
    obtain ⟨c2, h2, hd2, rfl⟩ := exists_of_lt_rank _ _ _ h2'
    rw [processDeletions_cell_id_at s c1 h1 hd1, processDeletions_cell_id_at s c2 h2 hd2] at hid
    rw [hI c1 h1 c2 h2 hid]

/-- A cell of a cluster that stays reads the same at its new index: its fields
are kept, and its remapped connection indices point at cells with the ids they
pointed at before. -/
theorem readCell_processDeletions (s : DataConverter) (hwf : WellFormed s.dataTO) (i c : Nat)
    (hi : i < s.dataTO.numClusters)
    (hd : clusterDeleted s.dataTO s.clusterIdsToDelete i = false)
    (hin : inCellRange (s.dataTO.clusters i) c = true) :
    readCell (processDeletions s).dataTO
        ((processDeletions s).dataTO.cells (rank (cellDeleted s.dataTO s.clusterIdsToDelete) c))
      = readCell s.dataTO (s.dataTO.cells c) := by
  have hc := lt_numCells_of_inCellRange hwf i c hi hin
  have hnd := hwf.not_cellDeleted s.clusterIdsToDelete i c hi hc hd hin
  obtain ⟨f1, f2⟩ := processDeletions_cell_at s c hc hnd (hwf.2.2.2.2.2.1 c hc)
  have hconn : ∀ k, k < (s.dataTO.cells c).numConnections →
      ((processDeletions s).dataTO.cells
        (byteAt ((processDeletions s).dataTO.cells
          (rank (cellDeleted s.dataTO s.clusterIdsToDelete) c)).connectionIndices k)).id
        = (s.dataTO.cells (byteAt (s.dataTO.cells c).connectionIndices k)).id := by
    intro k hk
    have hin2 := hwf.2.2.2.2.2.2 i hi c hc hin k hk
    have hc2 := lt_numCells_of_inCellRange hwf i _ hi hin2
    have hnd2 := hwf.not_cellDeleted s.clusterIdsToDelete i _ hi hc2 hd hin2
    rw [f2 k hk]
    unfold newCellIndex
    rw [if_pos ⟨hc2, hnd2⟩]
    exact processDeletions_cell_id_at s _ hc2 hnd2
  have hpool := (processDeletions_pool s).2
  have g1 : ((processDeletions s).dataTO.cells
      (rank (cellDeleted s.dataTO s.clusterIdsToDelete) c)).id = (s.dataTO.cells c).id := by
    have := congrArg CellAccessTO.id f1; exact this
  have g2 : ((processDeletions s).dataTO.cells
      (rank (cellDeleted s.dataTO s.clusterIdsToDelete) c)).pos = (s.dataTO.cells c).pos := by
    have := congrArg CellAccessTO.pos f1; exact this
  have g3 : ((processDeletions s).dataTO.cells
      (rank (cellDeleted s.dataTO s.clusterIdsToDelete) c)).energy
        = (s.dataTO.cells c).energy := by
    have := congrArg CellAccessTO.energy f1; exact this
  have g4 : ((processDeletions s).dataTO.cells
      (rank (cellDeleted s.dataTO s.clusterIdsToDelete) c)).maxConnections
        = (s.dataTO.cells c).maxConnections := by
    have := congrArg CellAccessTO.maxConnections f1; exact this
  have g5 : ((processDeletions s).dataTO.cells
      (rank (cellDeleted s.dataTO s.clusterIdsToDelete) c)).numConnections
        = (s.dataTO.cells c).numConnections := by
    have := congrArg CellAccessTO.numConnections f1; exact this
  have g6 : ((processDeletions s).dataTO.cells
      (rank (cellDeleted s.dataTO s.clusterIdsToDelete) c)).branchNumber
        = (s.dataTO.cells c).branchNumber := by
    have := congrArg CellAccessTO.branchNumber f1; exact this
  have g7 : ((processDeletions s).dataTO.cells
      (rank (cellDeleted s.dataTO s.clusterIdsToDelete) c)).tokenBlocked
        = (s.dataTO.cells c).tokenBlocked := by
    have := congrArg CellAccessTO.tokenBlocked f1; exact this
  have g8 : ((processDeletions s).dataTO.cells
      (rank (cellDeleted s.dataTO s.clusterIdsToDelete) c)).tokenUsages
        = (s.dataTO.cells c).tokenUsages := by
    have := congrArg CellAccessTO.tokenUsages f1; exact this
  have g9 : ((processDeletions s).dataTO.cells
      (rank (cellDeleted s.dataTO s.clusterIdsToDelete) c)).cellFunctionType
        = (s.dataTO.cells c).cellFunctionType := by
    have := congrArg CellAccessTO.cellFunctionType f1; exact this
  have g10 : ((processDeletions s).dataTO.cells
      (rank (cellDeleted s.dataTO s.clusterIdsToDelete) c)).numStaticBytes
        = (s.dataTO.cells c).numStaticBytes := by
    have := congrArg CellAccessTO.numStaticBytes f1; exact this
  have g11 : ((processDeletions s).dataTO.cells
      (rank (cellDeleted s.dataTO s.clusterIdsToDelete) c)).staticData
        = (s.dataTO.cells c).staticData := by
    have := congrArg CellAccessTO.staticData f1; exact this
  have g12 : ((processDeletions s).dataTO.cells
      (rank (cellDeleted s.dataTO s.clusterIdsToDelete) c)).numMutableBytes
        = (s.dataTO.cells c).numMutableBytes := by
    have := congrArg CellAccessTO.numMutableBytes f1; exact this
  have g13 : ((processDeletions s).dataTO.cells
      (rank (cellDeleted s.dataTO s.clusterIdsToDelete) c)).mutableData
        = (s.dataTO.cells c).mutableData := by
    have := congrArg CellAccessTO.mutableData f1; exact this
  have g14 : ((processDeletions s).dataTO.cells
      (rank (cellDeleted s.dataTO s.clusterIdsToDelete) c)).metadata
        = (s.dataTO.cells c).metadata := by
    have := congrArg CellAccessTO.metadata f1; exact this
  unfold readCell readCellMetadata
  rw [g1, g2, g3, g4, g5, g6, g7, g8, g9, g10, g11, g12, g13, g14, hpool]
  congr 2
  apply List.map_congr_left
  intro k hk
  exact hconn k (List.mem_range.mp hk)

/-- A cell that stays hosts the same tokens at its new index, in the same
order. -/
theorem tokensOf_processDeletions (s : DataConverter) (hwf : WellFormed s.dataTO)
    (size c : Nat)
    (hnd : cellDeleted s.dataTO s.clusterIdsToDelete c = false) :
    tokensOf (processDeletions s).dataTO size
        (rank (cellDeleted s.dataTO s.clusterIdsToDelete) c)
      = tokensOf s.dataTO size c := by
  obtain ⟨_, _, hn3, _⟩ := processDeletions_counts s
  have hlist : (List.range (processDeletions s).dataTO.numTokens).map
        (processDeletions s).dataTO.tokens
      = (survivors (tokenDeleted s.dataTO s.clusterIdsToDelete) s.dataTO.numTokens).map
        (fun t => { s.dataTO.tokens t with
          cellIndex :=
            newCellIndex s.dataTO s.clusterIdsToDelete (s.dataTO.tokens t).cellIndex }) := by
    rw [hn3]
    exact map_range_rank _ _ _ _ (fun t ht hd => processDeletions_token_at s t ht hd)
  unfold tokensOf tokensOfFirst
  rw [hlist]
  unfold survivors
  rw [List.filter_map, List.map_map, List.filter_filter, List.filter_map, List.map_map]
  have e1 : (List.range s.dataTO.numTokens).filter
        (fun a => ((fun t : TokenAccessTO => decide (t.cellIndex
            = rank (cellDeleted s.dataTO s.clusterIdsToDelete) c))
          ∘ fun t => { s.dataTO.tokens t with
            cellIndex :=
              newCellIndex s.dataTO s.clusterIdsToDelete (s.dataTO.tokens t).cellIndex }) a
          && !tokenDeleted s.dataTO s.clusterIdsToDelete a)
      = (List.range s.dataTO.numTokens).filter
        ((fun t : TokenAccessTO => decide (t.cellIndex = c)) ∘ s.dataTO.tokens) := by
    apply List.filter_congr
    intro t ht
    rw [List.mem_range] at ht
    have hx := hwf.2.2.2.1 t ht
    have hdel := hwf.tokenDeleted_eq s.clusterIdsToDelete t ht
    simp only [Function.comp]
    cases htd : tokenDeleted s.dataTO s.clusterIdsToDelete t
    · rw [htd] at hdel
      have hxd := hdel.symm
      simp only [Bool.not_false, Bool.and_true]
      have enew : newCellIndex s.dataTO s.clusterIdsToDelete (s.dataTO.tokens t).cellIndex
          = rank (cellDeleted s.dataTO s.clusterIdsToDelete) (s.dataTO.tokens t).cellIndex := by
        unfold newCellIndex
        rw [if_pos ⟨hx, hxd⟩]
      apply decide_eq_decide.mpr
      rw [enew]
      constructor
      · intro e
        exact rank_injective _ hxd hnd e
      · intro e
        rw [e]
    · rw [htd] at hdel
      have : ¬ (s.dataTO.tokens t).cellIndex = c := by
        intro e
        rw [e, hnd] at hdel
        exact absurd hdel (by simp)
      simp [this]
  rw [e1]
  rfl

/-- A cluster that stays reads the same at its new index. -/
theorem readCluster_processDeletions (s : DataConverter) (hwf : WellFormed s.dataTO)
    (size i : Nat) (hi : i < s.dataTO.numClusters)
    (hd : clusterDeleted s.dataTO s.clusterIdsToDelete i = false) :
    readCluster (processDeletions s).dataTO size
        (rank (clusterDeleted s.dataTO s.clusterIdsToDelete) i)
      = readCluster s.dataTO size i := by
  have hpool := (processDeletions_pool s).2
  unfold readCluster clusterWith
  rw [processDeletions_cluster_at s i hi hd]
  simp only
  congr 1
  · unfold readClusterMetadata
    rw [hpool]
  · congr 1
    apply List.map_congr_left
    intro j hj
    rw [List.mem_range] at hj
    obtain ⟨e1, e2, _⟩ := hwf.keptRange s.clusterIdsToDelete i hi hd j hj
    have hin : inCellRange (s.dataTO.clusters i) ((s.dataTO.clusters i).cellStartIndex + j)
        = true := by
      rw [inCellRange_iff]
      omega
    unfold cellWith
    rw [e1, readCell_processDeletions s hwf i _ hi hd hin,
      tokensOf_processDeletions s hwf size _ e2]

theorem readParticle_processDeletions (s : DataConverter) (i : Nat)
    (hi : i < s.dataTO.numParticles)
    (hd : particleDeleted s.dataTO s.particleIdsToDelete i = false) :
    readParticle (processDeletions s).dataTO
        (rank (particleDeleted s.dataTO s.particleIdsToDelete) i)
      = readParticle s.dataTO i := by
  unfold readParticle
  rw [processDeletions_particle_at s i hi hd]

theorem readCluster_id (d : DataAccessTO) (size i : Nat) :
    (readCluster d size i).id = (d.clusters i).id := rfl

theorem readParticle_id (d : DataAccessTO) (i : Nat) :
    (readParticle d i).id = (d.particles i).id := rfl

/-- The clusters and particles read after the compaction are those read before
it whose ids are not marked deleted, in the same order. -/
theorem read_processDeletions (s : DataConverter) (hwf : WellFormed s.dataTO) (size : Nat) :
    (List.range (processDeletions s).dataTO.numClusters).map
        (readCluster (processDeletions s).dataTO size)
      = ((List.range s.dataTO.numClusters).map (readCluster s.dataTO size)).filter
        (fun c => decide (c.id ∉ s.clusterIdsToDelete))
    ∧ (List.range (processDeletions s).dataTO.numParticles).map
        (readParticle (processDeletions s).dataTO)
      = ((List.range s.dataTO.numParticles).map (readParticle s.dataTO)).filter
        (fun p => decide (p.id ∉ s.particleIdsToDelete)) := by
  obtain ⟨hn1, _, _, hn4⟩ := processDeletions_counts s
  constructor
  · rw [hn1, map_range_rank (clusterDeleted s.dataTO s.clusterIdsToDelete) _
      (readCluster s.dataTO size) _
      (fun i hi hd => readCluster_processDeletions s hwf size i hi hd)]
    rw [List.filter_map]
    congr 1
    unfold survivors
    apply List.filter_congr
    intro i _
    simp [clusterDeleted, readCluster_id]
  · rw [hn4, map_range_rank (particleDeleted s.dataTO s.particleIdsToDelete) _
      (readParticle s.dataTO) _
      (fun i hi hd => readParticle_processDeletions s i hi hd)]
    rw [List.filter_map]
    congr 1
    unfold survivors
    apply List.filter_congr
    intro i _
    simp [particleDeleted, readParticle_id]

/-! ## Reading after the modify phase without deltas -/

theorem nodup_clusterCells (d : DataAccessTO) (n : Nat)
    (hdisj : ∀ i j c, i < n → j < n → inCellRange (d.clusters i) c = true →
      inCellRange (d.clusters j) c = true → i = j) :
    (clusterCells d n).Nodup := by
  induction n with
  | zero => simp [clusterCells]
  | succ n ih =>
    rw [clusterCells_succ, List.nodup_append]
    refine ⟨ih (fun i j c hi hj => hdisj i j c (by omega) (by omega)), List.nodup_range' _ _, ?_⟩
    intro x hx1 hx2
    rw [mem_clusterCells] at hx1
    obtain ⟨i, hi, hin⟩ := hx1
    have hin2 : inCellRange (d.clusters n) x = true := by
      rw [inCellRange_iff]
      rw [List.mem_range'_1] at hx2
      exact hx2
    have := hdisj i n x (by omega) (by omega) hin hin2
    omega

theorem inCellRange_regrouped {a st : DataConverter} (hR : Regrouped a st) (i c : Nat) :
    inCellRange (st.dataTO.clusters i) c = inCellRange (a.dataTO.clusters i) c := by
  have hc := hR.cluster i
  have e7 : (st.dataTO.clusters i).numCells = (a.dataTO.clusters i).numCells := by
    have := congrArg ClusterAccessTO.numCells hc; exact this
  have e8 : (st.dataTO.clusters i).cellStartIndex = (a.dataTO.clusters i).cellStartIndex := by
    have := congrArg ClusterAccessTO.cellStartIndex hc; exact this
  unfold inCellRange
  rw [e7, e8]

/-- The modify phase of a converter without deltas does not throw, and the
snapshot read after it holds the clusters and particles of the arena it
started from, each cell with the tokens it hosted. -/
theorem read_processModifications_plain (a : DataConverter)
    (h1 : a.clusterToModifyById = []) (h2 : a.cellToModifyById = [])
    (h3 : a.particleToModifyById = []) (hI : DistinctCellIds a.dataTO)
    (hin : ∀ i, i < a.dataTO.numClusters → ∀ c,
      inCellRange (a.dataTO.clusters i) c = true → c < a.dataTO.numCells)
    (hdisj : ∀ i j c, i < a.dataTO.numClusters → j < a.dataTO.numClusters →
      inCellRange (a.dataTO.clusters i) c = true →
      inCellRange (a.dataTO.clusters j) c = true → i = j)
    (hcell : ∀ t, t < a.dataTO.numTokens → (a.dataTO.tokens t).cellIndex < a.dataTO.numCells)
    (hcap : a.dataTO.numTokens ≤ a.cudaConstants.MAX_TOKENS) :
    (processModifications a).failure = none
    ∧ getDataDescription (processModifications a).state
      = Except.ok
        { clusters := optList ((List.range a.dataTO.numClusters).map
            (readCluster a.dataTO a.parameters.tokenMemorySize))
          particles := optList ((List.range a.dataTO.numParticles).map
            (readParticle a.dataTO)) } := by
  have hND := nodup_clusterCells a.dataTO a.dataTO.numClusters hdisj
  obtain ⟨c1, c2, c3⟩ := processModifications_plain a h1 h2 h3 hI hcell
    (by
      intro x hx
      rw [mem_clusterCells] at hx
      obtain ⟨i, hi, hic⟩ := hx
      exact hin i hi x hic)
    hND hcap
  refine ⟨c1, ?_⟩
  generalize (processModifications a).state = st at c2 c3
  rw [getDataDescription_eq st
    (by
      intro i j c hi hj hci hcj
      rw [c2.numClusters] at hi hj
      rw [inCellRange_regrouped c2] at hci hcj
      exact hdisj i j c hi hj hci hcj)
    (by
      intro t ht
      have hm := cellIndex_mem_of_regrouped a.dataTO st.dataTO _ c3 t ht
      rw [mem_clusterCells] at hm
      obtain ⟨i, hi, hic⟩ := hm
      exact ⟨i, by rw [c2.numClusters]; exact hi, by rw [inCellRange_regrouped c2]; exact hic⟩)]
  rw [c2.numClusters, c2.numParticles, c2.parameters]
  congr 3
  · apply List.map_congr_left
    intro i hi
    rw [List.mem_range] at hi
    apply readCluster_regrouped a st _ i c2
    intro j hj
    apply hostedBy_regrouped a.dataTO st.dataTO _ c3 hND
    rw [mem_clusterCells]
    refine ⟨i, hi, ?_⟩
    rw [inCellRange_iff]
    omega
  · apply List.map_congr_left
    intro i _
    unfold readParticle
    rw [c2.particles]

/-! ## A ChangeSet of deletions -/

theorem foldl_markCluster_deletions (ts : List (ChangeTracker ClusterChangeDescription))
    (h : ∀ t, t ∈ ts → t.isDeleted = true) (s : DataConverter) :
    ts.foldl updateData_markCluster s
      = { s with clusterIdsToDelete := (ts.map (fun t => t.value.id)).reverse
            ++ s.clusterIdsToDelete } := by
  induction ts generalizing s with
  | nil => rfl
  | cons t ts ih =>
    have hd := h t (List.mem_cons_self _ _)
    have hm : t.isModified = false := by
      unfold ChangeTracker.isDeleted at hd
      unfold ChangeTracker.isModified
      simp only [decide_eq_true_eq] at hd
      simp [hd]
    have e : updateData_markCluster s t = markDelCluster t.value.id s := by
      unfold updateData_markCluster
      simp only [hd, hm, if_true, Bool.false_eq_true, if_false]
      rfl
    rw [List.foldl_cons, e, ih (fun u hu => h u (List.mem_cons_of_mem _ hu))]
    simp [markDelCluster]

theorem foldl_markParticle_deletions (ts : List (ChangeTracker ParticleChangeDescription))
    (h : ∀ t, t ∈ ts → t.isDeleted = true) (s : DataConverter) :
    ts.foldl updateData_markParticle s
      = { s with particleIdsToDelete := (ts.map (fun t => t.value.id)).reverse
            ++ s.particleIdsToDelete } := by
  induction ts generalizing s with
  | nil => rfl
  | cons t ts ih =>
    have hd := h t (List.mem_cons_self _ _)
    have hm : t.isModified = false := by
      unfold ChangeTracker.isDeleted at hd
      unfold ChangeTracker.isModified
      simp only [decide_eq_true_eq] at hd
      simp [hd]
    have e : updateData_markParticle s t = markDelParticle t.value.id s := by
      unfold updateData_markParticle
      simp only [hd, hm, if_true, Bool.false_eq_true, if_false]
      rfl
    rw [List.foldl_cons, e, ih (fun u hu => h u (List.mem_cons_of_mem _ hu))]
    simp [markDelParticle]

theorem isAdded_of_isDeleted {α : Type} (t : ChangeTracker α) (h : t.isDeleted = true) :
    t.isAdded = false := by
  unfold ChangeTracker.isDeleted at h
  unfold ChangeTracker.isAdded
  simp only [decide_eq_true_eq] at h
  simp [h]

theorem forEach_addParticle_none (ts : List (ChangeTracker ParticleChangeDescription))
    (h : ∀ t, t ∈ ts → t.isAdded = false) (s : DataConverter) :
    forEach ts updateData_addParticle s = ⟨s, none⟩ := by
  induction ts generalizing s with
  | nil => rfl
  | cons t ts ih =>
    have h1 : updateData_addParticle t s = ⟨s, none⟩ := by
      unfold updateData_addParticle
      rw [if_neg (by simp [h t (List.mem_cons_self _ _)])]
    rw [forEach_cons, h1]
    exact ih (fun u hu => h u (List.mem_cons_of_mem _ hu)) s

/-- A snapshot as `getDataDescription` returns it is unchanged by removing
nothing. -/
theorem without_nil (cs : List ClusterDescription) (ps : List ParticleDescription) :
    ({ clusters := optList cs, particles := optList ps } : DataDescription).without [] []
      = { clusters := optList cs, particles := optList ps } := by
  unfold DataDescription.without
  simp only [optList_getD, List.not_mem_nil, not_false_eq_true, decide_True, List.filter_true]

/-- The whole of `updateData` for a ChangeSet of deletions on a fresh
converter: no throw, and the snapshot read afterwards. -/
theorem updateData_deletions (data : DataChangeDescription) (dataTO : DataAccessTO)
    (numberGen : NumberGenerator) (parameters : SimulationParameters)
    (cudaConstants : CudaConstants) (limits : ArrayLimits)
    (hwf : WellFormed dataTO) (hI : DistinctCellIds dataTO)
    (hcap : dataTO.numTokens ≤ cudaConstants.MAX_TOKENS)
    (hclusters : ∀ t, t ∈ data.clusters → t.isDeleted = true)
    (hparticles : ∀ t, t ∈ data.particles → t.isDeleted = true) :
    (updateData data
      (DataConverter.create dataTO numberGen parameters cudaConstants limits)).failure = none
    ∧ getDataDescription (updateData data
        (DataConverter.create dataTO numberGen parameters cudaConstants limits)).state
      = Except.ok
        (({ clusters := optList ((List.range dataTO.numClusters).map
              (readCluster dataTO parameters.tokenMemorySize))
            particles := optList ((List.range dataTO.numParticles).map
              (readParticle dataTO)) } : DataDescription).without
          (deletedClusterIds data) (deletedParticleIds data)) := by
  obtain ⟨hd, hD, hP⟩ := marked_create data dataTO numberGen parameters cudaConstants limits
  have hmark : marked data (DataConverter.create dataTO numberGen parameters cudaConstants
      limits)
      = { DataConverter.create dataTO numberGen parameters cudaConstants limits with
          clusterIdsToDelete := (data.clusters.map (fun t => t.value.id)).reverse ++ []
          particleIdsToDelete := (data.particles.map (fun t => t.value.id)).reverse ++ [] } := by
    unfold marked
    rw [foldl_markCluster_deletions _ hclusters, foldl_markParticle_deletions _ hparticles]
    rfl
  generalize hs1 : marked data (DataConverter.create dataTO numberGen parameters cudaConstants
      limits) = s1 at hd hD hP hmark
  have m1 : s1.clusterToModifyById = [] := by rw [hmark]; rfl
  have m2 : s1.cellToModifyById = [] := by rw [hmark]; rfl
  have m3 : s1.particleToModifyById = [] := by rw [hmark]; rfl
  have m4 : s1.cudaConstants = cudaConstants := by rw [hmark]; rfl
  have m5 : s1.parameters = parameters := by rw [hmark]; rfl
  have hwf1 : WellFormed s1.dataTO := by rw [hd]; exact hwf
  have hI1 : DistinctCellIds s1.dataTO := by rw [hd]; exact hI
  obtain ⟨w1, w2, w3, w4⟩ := wellFormed_processDeletions s1 hwf1 hI1
  have hpd := processDeletions_eq_withDataTO s1
  obtain ⟨_, _, hn3, _⟩ := processDeletions_counts s1
  have k1 : (processDeletions s1).clusterToModifyById = [] := by rw [hpd]; exact m1
  have k2 : (processDeletions s1).cellToModifyById = [] := by rw [hpd]; exact m2
  have k3 : (processDeletions s1).particleToModifyById = [] := by rw [hpd]; exact m3
  have k4 : (processDeletions s1).cudaConstants = cudaConstants := by rw [hpd]; exact m4
  have k5 : (processDeletions s1).parameters = parameters := by rw [hpd]; exact m5
  have hcap2 : (processDeletions s1).dataTO.numTokens
      ≤ (processDeletions s1).cudaConstants.MAX_TOKENS := by
    rw [k4, hn3, hd]
    exact le_trans (rank_le _ _) hcap
  obtain ⟨p1, p2⟩ := read_processModifications_plain (processDeletions s1) k1 k2 k3 w4 w1 w2 w3
    hcap2
  have hadd1 : forEach data.clusters updateData_addCluster
      = fun st => (⟨st, none⟩ : Step DataConverter) :=
    funext (forEach_addCluster_none _ (fun t ht => isAdded_of_isDeleted t (hclusters t ht)))
  have hadd2 : forEach data.particles updateData_addParticle
      = fun st => (⟨st, none⟩ : Step DataConverter) :=
    funext (forEach_addParticle_none _ (fun t ht => isAdded_of_isDeleted t (hparticles t ht)))
  have hupd : updateData data
      (DataConverter.create dataTO numberGen parameters cudaConstants limits)
      = ⟨(processModifications (processDeletions s1)).state, none⟩ := by
    rw [updateData_eq, hs1, hadd1, hadd2, andThen_of_normal _ _ p1]
    rfl
  rw [hupd]
  refine ⟨rfl, ?_⟩
  show getDataDescription (processModifications (processDeletions s1)).state = _
  rw [p2, k5]
  obtain ⟨r1, r2⟩ := read_processDeletions s1 hwf1 parameters.tokenMemorySize
  rw [r1, r2, hd, hD, hP]
  unfold DataDescription.without
  simp only [optList_getD]

/-! ## Deletion commutes with reading -/

/-- C27. For every well-formed arena with pairwise distinct cell ids whose
live tokens fit the token array, a fresh converter and every ChangeSet all of
whose trackers are Deleted (possibly none): `getDataDescription` before the
call returns a snapshot, `updateData` returns normally, and
`getDataDescription` afterwards returns that snapshot with the clusters and the
particles removed whose ids are marked deleted: every other cluster with its
fields, its cells with their connection ids and each cell's token list, and
every other particle, in the same order.  Removing nothing leaves the snapshot
as it is, so an empty ChangeSet leaves it unchanged. -/
theorem C27_deletion_commutes_with_reading (data : DataChangeDescription)
    (dataTO : DataAccessTO) (numberGen : NumberGenerator) (parameters : SimulationParameters)
    (cudaConstants : CudaConstants) (limits : ArrayLimits)
    (hwf : WellFormed dataTO) (hI : DistinctCellIds dataTO)
    (hcap : dataTO.numTokens ≤ cudaConstants.MAX_TOKENS)
    (hclusters : ∀ t, t ∈ data.clusters → t.isDeleted = true)
    (hparticles : ∀ t, t ∈ data.particles → t.isDeleted = true) :
    ∃ before,
      getDataDescription (DataConverter.create dataTO numberGen parameters cudaConstants limits)
        = Except.ok before
      ∧ (updateData data
          (DataConverter.create dataTO numberGen parameters cudaConstants limits)).failure = none
      ∧ getDataDescription (updateData data
          (DataConverter.create dataTO numberGen parameters cudaConstants limits)).state
        = Except.ok (before.without (deletedClusterIds data) (deletedParticleIds data))
      ∧ before.without [] [] = before := by
  obtain ⟨u1, u2⟩ := updateData_deletions data dataTO numberGen parameters cudaConstants limits
    hwf hI hcap hclusters hparticles
  refine ⟨_, getDataDescription_eq
    (DataConverter.create dataTO numberGen parameters cudaConstants limits)
    (fun i j c hi hj hci hcj =>
      hwf.2.1 i hi j hj c (lt_numCells_of_inCellRange hwf i c hi hci) hci hcj)
    (fun t ht => hwf.2.2.1 _ (hwf.2.2.2.1 t ht)), u1, u2, without_nil _ _⟩

/-- C27 on `twoClusterArenaB` with cluster 100 deleted: the snapshot read after
the call is the snapshot read before it without cluster 100. -/
theorem C27_deletion_commutes_with_reading_witness :
    WellFormed twoClusterArenaB ∧ DistinctCellIds twoClusterArenaB
    ∧ deletedClusterIds deletionChange = [100]
    ∧ ∃ before,
      getDataDescription (DataConverter.create twoClusterArenaB sampleGen
          { tokenMemorySize := 4 }
          { MAX_CLUSTERS := 8, MAX_CELLS := 8, MAX_PARTICLES := 8, MAX_TOKENS := 8,
            METADATA_DYNAMIC_MEMORY_SIZE := 64 } sampleLimits)
        = Except.ok before
      ∧ (updateData deletionChange
          (DataConverter.create twoClusterArenaB sampleGen { tokenMemorySize := 4 }
            { MAX_CLUSTERS := 8, MAX_CELLS := 8, MAX_PARTICLES := 8, MAX_TOKENS := 8,
              METADATA_DYNAMIC_MEMORY_SIZE := 64 } sampleLimits)).failure = none
      ∧ getDataDescription (updateData deletionChange
          (DataConverter.create twoClusterArenaB sampleGen { tokenMemorySize := 4 }
            { MAX_CLUSTERS := 8, MAX_CELLS := 8, MAX_PARTICLES := 8, MAX_TOKENS := 8,
              METADATA_DYNAMIC_MEMORY_SIZE := 64 } sampleLimits)).state
        = Except.ok (before.without (deletedClusterIds deletionChange)
            (deletedParticleIds deletionChange))
      ∧ before.without [] [] = before :=
  ⟨by decide, by decide, by decide,
    C27_deletion_commutes_with_reading deletionChange twoClusterArenaB sampleGen
      { tokenMemorySize := 4 }
      { MAX_CLUSTERS := 8, MAX_CELLS := 8, MAX_PARTICLES := 8, MAX_TOKENS := 8,
        METADATA_DYNAMIC_MEMORY_SIZE := 64 } sampleLimits
      (by decide) (by decide) (by decide) (by decide) (by decide)⟩

end Alien
